import Mathlib

/-!
Ironwood: a verification development for the interpreter `ironwood_vr1.cpp`

The development has two layers.

* The *value layer* reads a runtime value as the finite tree that its
  shared pointers unfold to (`IronValue`).  Every read-only operation of the
  interpreter (`isTruthy`, `toString`, the comparison operators, `keys of`,
  `values of`, `has`, `item N of`, `sort`, `json of`, `parse json`) is a
  function of that tree.
* The *machine layer* keeps containers in a store that is addressed by
  references (`Val`, `Cell`, `State`), so that aliasing and mutation behave as
  they do with `std::shared_ptr`, and runs expressions and statements with
  explicit fuel.

Modelling conventions.

* A `std::string` is the list of its characters (`Str`).
* A `double` is the rational number it denotes.  NaN, the infinities, the
  negative zero and the rounding of arithmetic results have no counterpart.
* `std::unordered_map` does not specify an iteration order.  A dictionary is
  the list of its entries in whatever order the table iterates, and the
  position that a freshly inserted key takes in that order is a parameter
  (`Placement`) of every operation that inserts.
* A step whose behaviour C++ leaves undefined (a `double` to `int` cast out
  of range, a vector access out of bounds, `std::stable_sort` with a
  comparison that is not a strict weak ordering, a read through a pointer to
  an environment that was destroyed) is reported as `outside`.
* An environment is the global `Env` or a local object of a call or block.
  A function and a class hold a plain pointer to the environment of their
  definition, so the state records which environments exist (`State.live`):
  the environment of a call or block is destroyed when the call or block is
  left, and a variable search that reaches a destroyed environment is
  undefined.
* A list or dictionary that holds itself unfolds to no finite tree: its
  rendering uses up any amount of fuel, as `toString` recurses without end.
* The evaluator covers the expression and statement forms of the language
  core.  The forms that reach the file system, the network, a subprocess or
  standard input, the string operations, `parse json`, and `sort` by a
  callable (whose comparator calls user code a number of times that the
  library does not fix) evaluate to `outside`.
-/

namespace Ironwood

/-! ## Strings -/

/-- A `std::string`, as the list of its characters. -/
abbrev Str := List Char

/-- The double quote character. -/
abbrev dquote : Char := Char.ofNat 34

/-- The backslash character. -/
abbrev backslash : Char := Char.ofNat 92

/-- The opening brace. -/
abbrev lbrace : Char := Char.ofNat 123

/-- The closing brace. -/
abbrev rbrace : Char := Char.ofNat 125

/-- The line feed character. -/
abbrev newline : Char := Char.ofNat 10

/-- The horizontal tab character. -/
abbrev tab : Char := Char.ofNat 9

/-- The reserved key that marks a dictionary as a class instance. -/
def classKey : Str := "__class__".toList

/-- The comparison `operator<` of `std::string`: lexicographic on character codes. -/
def strLt : Str → Str → Bool
  | _, [] => false
  | [], _ :: _ => true
  | a :: s, b :: t => if a.toNat < b.toNat then true else if b.toNat < a.toNat then false else strLt s t

/-- The search `s.find(sub)!=std::string::npos`. -/
def containsSub (sub : Str) : Str → Bool
  | [] => sub.isEmpty
  | c :: r => sub.isPrefixOf (c :: r) || containsSub sub r

/-- Concatenation of pieces with a separator (the `if(i)s+=sep` loops). -/
def joinSep (sep : Str) : List Str → Str
  | [] => []
  | [x] => x
  | x :: y :: r => x ++ sep ++ joinSep sep (y :: r)

/-! ## Numbers -/

/-- The character of a decimal digit. -/
def digitChar (d : Nat) : Char := Char.ofNat (48 + d)

/-- Digits of `n`, most significant first, pushed in front of `acc`. -/
def natDigitsAux : Nat → Nat → Str → Str
  | 0, _, acc => acc
  | fuel + 1, n, acc =>
    if n < 10 then digitChar n :: acc
    else natDigitsAux fuel (n / 10) (digitChar (n % 10) :: acc)

/-- Decimal numeral of a natural number. -/
def natToString (n : Nat) : Str := natDigitsAux (n + 1) n []

/-- The library call `std::to_string(long long)`. -/
def intToString (z : Int) : Str :=
  if z < 0 then '-' :: natToString z.natAbs else natToString z.natAbs

/-- Largest `k` with `d * 10^k ≤ n`, searched upwards from `k`. -/
def decExpUp : Nat → Nat → Nat → Nat → Nat
  | 0, _, _, k => k
  | fuel + 1, n, d, k => if d * 10 ^ (k + 1) ≤ n then decExpUp fuel n d (k + 1) else k

/-- Smallest `k` with `d ≤ n * 10^k`, searched upwards from `k`. -/
def decExpDown : Nat → Nat → Nat → Nat → Nat
  | 0, _, _, k => k
  | fuel + 1, n, d, k => if d ≤ n * 10 ^ k then k else decExpDown fuel n d (k + 1)

/-- Decimal exponent of the positive rational `n / d`: the `x` with
`10^x ≤ n / d < 10^(x+1)`. -/
def decExp (n d : Nat) : Int :=
  if d ≤ n then (decExpUp n n d 0 : Nat) else - (decExpDown d n d 1 : Nat)

/-- Quotient `a / b` rounded to the nearest integer, ties to even. -/
def roundHalfEven (a b : Nat) : Nat :=
  let q := a / b
  let r := a % b
  if b < 2 * r ∨ (2 * r = b ∧ q % 2 = 1) then q + 1 else q

/-- Six significant decimal digits of `n / d` with the decimal exponent of the
first of them. -/
def sixDigits (n d : Nat) : Nat × Int :=
  let x := decExp n d
  let m := if x ≤ 5 then roundHalfEven (n * 10 ^ (5 - x).toNat) d
           else roundHalfEven n (d * 10 ^ (x - 5).toNat)
  if m = 10 ^ 6 then (10 ^ 5, x + 1) else (m, x)

/-- Removal of trailing zeros. -/
def stripZeros (s : Str) : Str := (s.reverse.dropWhile (fun c => c == '0')).reverse

/-- Exponent digits of the scientific form: at least two. -/
def expDigits (e : Nat) : Str := if e < 10 then '0' :: natToString e else natToString e

/-- The stream insertion `operator<<(double)` with the default format state
(the `%g` conversion with six significant digits), for a non-zero number. -/
def fmtG (q : ℚ) : Str :=
  let md := sixDigits q.num.natAbs q.den
  let ds := natToString md.1
  let x := md.2
  (if q.num < 0 then ['-'] else []) ++
  (if x < -4 ∨ 6 ≤ x then
    let frac := stripZeros (ds.drop 1)
    ds.take 1 ++ (if frac = [] then [] else '.' :: frac) ++
      'e' :: (if x < 0 then '-' else '+') :: expDigits x.natAbs
  else if 0 ≤ x then
    let frac := stripZeros (ds.drop (x.toNat + 1))
    ds.take (x.toNat + 1) ++ (if frac = [] then [] else '.' :: frac)
  else
    '0' :: '.' :: (List.replicate (x.natAbs - 1) '0' ++ stripZeros ds))

/-- Rendering of a number, shared by `toString` and `ironToJson`:
`if(*n==std::floor(*n)&&std::abs(*n)<1e15)return std::to_string((long long)*n);`
and the stream insertion otherwise. -/
def numToString (q : ℚ) : Str :=
  if q.den = 1 ∧ q.num.natAbs < 10 ^ 15 then intToString q.num else fmtG q

/-- Value of a digit character. -/
def digitVal (c : Char) : Nat := c.toNat - 48

/-- Value of a string of decimal digits. -/
def digitsVal (s : Str) : Nat := s.foldl (fun a c => 10 * a + digitVal c) 0

/-- Exponent part of a `strtod` subject: `e` or `E`, an optional sign and at
least one digit; anything else contributes no exponent. -/
def stodExp (s : Str) : Int :=
  match s with
  | c :: t =>
    if c = 'e' ∨ c = 'E' then
      match t with
      | '-' :: u => let ds := u.takeWhile Char.isDigit; if ds = [] then 0 else - (digitsVal ds : Int)
      | '+' :: u => let ds := u.takeWhile Char.isDigit; if ds = [] then 0 else (digitsVal ds : Int)
      | u => let ds := u.takeWhile Char.isDigit; if ds = [] then 0 else (digitsVal ds : Int)
    else 0
  | [] => 0

/-- The rational `m * 10^e`. -/
def scale10 (m : Int) (e : Int) : ℚ :=
  if 0 ≤ e then mkRat (m * 10 ^ e.toNat) 1 else mkRat m (10 ^ (-e).toNat)

/-- Unsigned part of a `strtod` subject: digits, an optional point with more
digits, an optional exponent.  `none` when there is no digit at all. -/
def stodUnsigned (s : Str) : Option ℚ :=
  let ip := s.takeWhile Char.isDigit
  let s2 := s.dropWhile Char.isDigit
  let fp := match s2 with
    | '.' :: t => t.takeWhile Char.isDigit
    | _ => []
  let s3 := match s2 with
    | '.' :: t => t.dropWhile Char.isDigit
    | _ => s2
  if ip = [] ∧ fp = [] then none
  else some (scale10 (digitsVal (ip ++ fp)) (stodExp s3 - fp.length))

/-- The library call `std::stod` on a token made of the characters
`0-9 . e E + -`: the value of the longest prefix that is a decimal floating
literal, `none` when the call throws because there is none. -/
def stod (s : Str) : Option ℚ :=
  match s with
  | '-' :: t => (stodUnsigned t).map (fun q => -q)
  | '+' :: t => stodUnsigned t
  | _ => stodUnsigned s

/-- The cast `(int)` of a double: truncation toward zero, `none` where the
result does not fit `int` and the cast is undefined. -/
def castInt (q : ℚ) : Option Int :=
  let t := Int.tdiv q.num q.den
  if -2 ^ 31 ≤ t ∧ t < 2 ^ 31 then some t else none

/-! ## Outcomes of a value-level operation -/

/-- Result of an operation that may raise `std::runtime_error`. -/
inductive Outcome (α : Type) where
  /-- normal return -/
  | val (a : α)
  /-- `throw std::runtime_error(msg)` -/
  | raise (msg : Str)
  /-- behaviour that the model does not cover -/
  | outside

/-- The list of the results of `f`, `none` when `f` fails on an element. -/
def mapOpt {α β : Type} (f : α → Option β) : List α → Option (List β)
  | [] => some []
  | x :: r =>
    match f x with
    | none => none
    | some y =>
      match mapOpt f r with
      | none => none
      | some ys => some (y :: ys)

/-! ## Containers -/

/-- Position that a freshly inserted key takes in the iteration order of an
`std::unordered_map`, given the keys in their current iteration order. -/
abbrev Placement := List Str → Str → Nat

/-- Lookup `find(k)` in a dictionary. -/
def objFind {β : Type} : List (Str × β) → Str → Option β
  | [], _ => none
  | (k', v) :: r, k => if k' = k then some v else objFind r k

/-- Overwriting the value of an existing key. -/
def objReplace {β : Type} : List (Str × β) → Str → β → List (Str × β)
  | [], _, _ => []
  | (k', w) :: r, k, v => if k' = k then (k', v) :: r else (k', w) :: objReplace r k v

/-- Insertion of `x` at position `i` (at the end when `i` is too large). -/
def insertAt {α : Type} (i : Nat) (x : α) (l : List α) : List α := l.take i ++ x :: l.drop i

/-- The store `(*obj)[k] = v`. -/
def objSet {β : Type} (pl : Placement) (o : List (Str × β)) (k : Str) (v : β) : List (Str × β) :=
  if (objFind o k).isSome then objReplace o k v
  else insertAt (pl (o.map Prod.fst) k) (k, v) o

/-- The loop of `keys of`: `for(auto&[k,v]:**op)if(k!="__class__")arr->push_back(k)`. -/
def keysOf {β : Type} : List (Str × β) → List Str
  | [] => []
  | (k, _) :: r => if k ≠ classKey then k :: keysOf r else keysOf r

/-- The loop of `values of`: `for(auto&[k,v]:**op)if(k!="__class__")arr->push_back(v)`. -/
def valuesOf {β : Type} : List (Str × β) → List β
  | [] => []
  | (k, v) :: r => if k ≠ classKey then v :: valuesOf r else valuesOf r

/-- The dictionary case of `has`: `find(key)!=end()&&key!="__class__"`. -/
def hasKey {β : Type} (o : List (Str × β)) (key : Str) : Bool :=
  (objFind o key).isSome && decide (key ≠ classKey)

/-- The list case of `item N of`, for a number `n` and the elements `xs`:
`int i=(int)*n-1;` then the bounds check and the element. -/
def itemOf {β : Type} (n : ℚ) (xs : List β) : Outcome β :=
  match castInt n with
  | none => .outside
  | some c =>
    if c = -2 ^ 31 then .outside
    else
      let i := c - 1
      if i < 0 ∨ (xs.length : Int) ≤ i then
        .raise ("Item ".toList ++ intToString c ++ " is out of bounds — the list has ".toList
          ++ natToString xs.length ++ " items.".toList)
      else
        match xs[i.toNat]? with
        | some x => .val x
        | none => .outside

/-- The contract of `std::stable_sort` for the comparison `lt`: insertion
places an element in front of the first one that is not smaller than it,
so elements that compare equivalent keep their order. -/
def orderedInsert {α : Type} (lt : α → α → Bool) (x : α) : List α → List α
  | [] => [x]
  | y :: ys => if lt y x then y :: orderedInsert lt x ys else x :: y :: ys

/-- The library call `std::stable_sort(first,last,lt)`. -/
def stableSort {α : Type} (lt : α → α → Bool) : List α → List α
  | [] => []
  | x :: xs => orderedInsert lt x (stableSort lt xs)

/-! ## Values as trees -/

/-- A runtime value with its shared pointers unfolded: the alternatives of
`IronValue::data`. -/
inductive IronValue where
  /-- `std::nullptr_t` -/
  | null
  /-- `bool` -/
  | bool (b : Bool)
  /-- `double` -/
  | num (n : ℚ)
  /-- `std::string` -/
  | str (s : Str)
  /-- `std::shared_ptr<IronArray>` -/
  | arr (xs : List IronValue)
  /-- `std::shared_ptr<IronObject>`, entries in iteration order -/
  | obj (kvs : List (Str × IronValue))
  /-- `IronFunc` -/
  | func
  /-- `NativeFunc` -/
  | native

instance : Inhabited IronValue := ⟨.null⟩

/-- `IronValue::isTruthy`. -/
def IronValue.isTruthy : IronValue → Bool
  | .null => false
  | .bool b => b
  | .num n => decide (n ≠ 0)
  | .str s => !s.isEmpty
  | _ => true

mutual
/-- `IronValue::toString`. -/
def IronValue.toString : IronValue → Str
  | .null => "null".toList
  | .bool b => if b then "true".toList else "false".toList
  | .num n => numToString n
  | .str s => s
  | .arr xs => '[' :: (toStringElems true xs ++ [ ']'])
  | .obj kvs =>
    match toStringClass kvs with
    | some cn => cn ++ lbrace :: ' ' :: (toStringInst true kvs ++ [ ' ', rbrace])
    | none => lbrace :: (toStringPlain true kvs ++ [rbrace])
  | .func => "<function>".toList
  | .native => "<function>".toList
/-- The list loop of `toString`: `if(i)s+=",";s+=(**ap)[i]->toString()`. -/
def toStringElems (first : Bool) : List IronValue → Str
  | [] => []
  | x :: r => (if first then [] else [ ',']) ++ x.toString ++ toStringElems false r
/-- The lookup `find("__class__")` together with `ci->second->toString()`. -/
def toStringClass : List (Str × IronValue) → Option Str
  | [] => none
  | (k, v) :: r => if k = classKey then some v.toString else toStringClass r
/-- The class-instance loop of `toString`:
`if(k=="__class__")continue;if(!first)s+=", ";s+=k+": "+v->toString();first=false;`. -/
def toStringInst (first : Bool) : List (Str × IronValue) → Str
  | [] => []
  | (k, v) :: r =>
    if k = classKey then toStringInst first r
    else (if first then [] else [ ',', ' ']) ++ k ++ ':' :: ' ' :: v.toString ++ toStringInst false r
/-- The plain dictionary loop of `toString`:
`if(!first)s+=",";s+=k+":"+v->toString();first=false;`. -/
def toStringPlain (first : Bool) : List (Str × IronValue) → Str
  | [] => []
  | (k, v) :: r => (if first then [] else [ ',']) ++ k ++ ':' :: v.toString ++ toStringPlain false r
end

/-- The test `std::get_if<double>`. -/
def IronValue.isNum : IronValue → Bool
  | .num _ => true
  | _ => false

/-- The string branches of `type of`. -/
def IronValue.typeOf : IronValue → Str
  | .null => "null".toList
  | .bool _ => "bool".toList
  | .num _ => "number".toList
  | .str _ => "string".toList
  | .arr _ => "list".toList
  | .obj _ => "dict".toList
  | _ => "function".toList

/-- The part of `BinExpr` that follows the evaluation of both operands
(every operator except `and` and `or`).  Arithmetic is exact. -/
def binOp (op : Str) (left right : IronValue) : Outcome IronValue :=
  let rest : Outcome IronValue :=
    if op = "==".toList then .val (.bool (decide (left.toString = right.toString)))
    else if op = "!=".toList then .val (.bool (decide (left.toString ≠ right.toString)))
    else .val .null
  if op = "+".toList then
    match left, right with
    | .num a, .num b => .val (.num (a + b))
    | _, _ => .val (.str (left.toString ++ right.toString))
  else
    match left, right with
    | .num a, .num b =>
      if op = "-".toList then .val (.num (a - b))
      else if op = "*".toList then .val (.num (a * b))
      else if op = "/".toList then
        (if b = 0 then .raise "Can't divide by zero!".toList else .val (.num (a / b)))
      else if op = "%".toList then
        (if b = 0 then .outside else .val (.num (a - b * (Int.tdiv (a / b).num (a / b).den : Int))))
      else if op = "<".toList then .val (.bool (decide (a < b)))
      else if op = ">".toList then .val (.bool (decide (a > b)))
      else if op = "<=".toList then .val (.bool (decide (a ≤ b)))
      else if op = ">=".toList then .val (.bool (decide (a ≥ b)))
      else rest
    | _, _ => rest

/-- The part of `UnaryExpr` that follows the evaluation of the operand. -/
def unaryOp (op : Str) (v : IronValue) : IronValue :=
  match v with
  | .num a =>
    if op = "-".toList then .num (-a)
    else if op = "not".toList then .bool (!v.isTruthy) else .null
  | _ => if op = "not".toList then .bool (!v.isTruthy) else .null

/-- `item N of`, after the evaluation of both operands. -/
def evalItemOf (iv av : IronValue) : Outcome IronValue :=
  match iv with
  | .num n =>
    match av with
    | .arr xs => itemOf n xs
    | _ =>
      match castInt n with
      | none => .outside
      | some c => if c = -2 ^ 31 then .outside else .val .null
  | _ => .val .null

/-- `has ITEM in COLLECTION`, after the evaluation of both operands. -/
def evalHas (item coll : IronValue) : Bool :=
  match coll with
  | .arr xs => xs.any (fun e => decide (e.toString = item.toString))
  | .obj kvs => hasKey kvs item.toString
  | .str s => containsSub item.toString s
  | _ => false

/-! ## Sorting -/

/-- The comparison shared by the three sort comparators, on the extracted
keys: `if(na&&nb)return *na<*nb;return ka->toString()<kb->toString();`. -/
def keyLess (ka kb : IronValue) : Bool :=
  match ka, kb with
  | .num a, .num b => decide (a < b)
  | _, _ => strLt ka.toString kb.toString

/-- The three forms of `sort`: no key, `by FIELD` (the key expression
evaluates to a string) and `by` a callable.  The callable is taken as the
function from an element to the key that calling it returns. -/
inductive SortKey where
  /-- `sort ARR` -/
  | plain
  /-- `sort ARR by FIELD` -/
  | field (name : Str)
  /-- `sort ARR by CALLABLE` -/
  | callable (fn : IronValue → IronValue)

/-- Key extraction of the field comparator: the field of a dictionary that
has it, null otherwise. -/
def fieldKey (name : Str) (a : IronValue) : IronValue :=
  match a with
  | .obj o =>
    match objFind o name with
    | some v => v
    | none => .null
  | _ => .null

/-- Sort key of an element under each form. -/
def sortKeyOf : SortKey → IronValue → IronValue
  | .plain, a => a
  | .field name, a => fieldKey name a
  | .callable fn, a => fn a

/-- The comparator handed to `std::stable_sort`, on elements `a`, `b` that
`view` dereferences. -/
def sortLess {α : Type} (key : SortKey) (view : α → IronValue) (a b : α) : Bool :=
  keyLess (sortKeyOf key (view a)) (sortKeyOf key (view b))

/-- The precondition of `std::stable_sort` on the elements of the range: the
comparison is a strict weak ordering there, that is, asymmetric and with a
transitive "not less than". -/
def strictWeakOn {α : Type} (lt : α → α → Bool) (xs : List α) : Bool :=
  xs.all (fun a => xs.all (fun b =>
    (!lt a b || !lt b a) && xs.all (fun c => lt b a || lt c b || !lt c a)))

/-- The list case of `SortExpr`: `copy` is a copy of the element pointers and
is sorted with the comparator of the form.  Where the comparator is not a
strict weak ordering on the elements the library call is undefined. -/
def evalSort {α : Type} (key : SortKey) (view : α → IronValue) (xs : List α) :
    Outcome (List α) :=
  if strictWeakOn (sortLess key view) xs then .val (stableSort (sortLess key view) xs)
  else .outside

/-- Equality of two sort keys as the comparators see it: numerically equal
when both are numbers, equal renderings otherwise. -/
def keyEquiv (ka kb : IronValue) : Bool :=
  match ka, kb with
  | .num a, .num b => decide (a = b)
  | _, _ => decide (ka.toString = kb.toString)

/-- The escape loop of `ironToJson` on a string. -/
def jsonEscape : Str → Str
  | [] => []
  | c :: r =>
    (if c = dquote then [backslash, dquote]
     else if c = backslash then [backslash, backslash]
     else if c = newline then [backslash, 'n']
     else if c = tab then [backslash, 't']
     else [c]) ++ jsonEscape r

mutual
/-- `Interpreter::ironToJson`. -/
def ironToJson : IronValue → Str
  | .null => "null".toList
  | .bool b => if b then "true".toList else "false".toList
  | .num n => numToString n
  | .str s => dquote :: (jsonEscape s ++ [dquote])
  | .arr xs => '[' :: (jsonElems true xs ++ [ ']'])
  | .obj kvs => lbrace :: (jsonFields true kvs ++ [rbrace])
  | .func => "null".toList
  | .native => "null".toList
/-- The list loop of `ironToJson`: `if(i)out+=",";out+=ironToJson((**ap)[i])`. -/
def jsonElems (first : Bool) : List IronValue → Str
  | [] => []
  | x :: r => (if first then [] else [ ',']) ++ ironToJson x ++ jsonElems false r
/-- The dictionary loop of `ironToJson`:
`if(k=="__class__")continue;if(!first)out+=",";out+="\""+k+"\":"+ironToJson(val);first=false;`. -/
def jsonFields (first : Bool) : List (Str × IronValue) → Str
  | [] => []
  | (k, v) :: r =>
    if k = classKey then jsonFields first r
    else (if first then [] else [ ',']) ++ dquote :: (k ++ dquote :: ':' :: ironToJson v)
      ++ jsonFields false r
end

/-- The test `std::isspace` in the C locale. -/
def isJsonSpace (c : Char) : Bool :=
  c = ' ' || c = tab || c = newline || c = Char.ofNat 11 || c = Char.ofNat 12 || c = Char.ofNat 13

/-- `Interpreter::skipJsonWs`, on the text from position `p` on. -/
def skipJsonWs : Str → Str
  | [] => []
  | c :: r => if isJsonSpace c then skipJsonWs r else c :: r

/-- The character that an escape sequence of `jsonToIron` stands for. -/
def jsonUnescape (c : Char) : Char :=
  if c = 'n' then newline else if c = 't' then tab else c

/-- The string loop of `jsonToIron`, on the text after the opening quote:
the decoded string and the text after the closing quote. -/
def jsonString : Str → Str × Str
  | [] => ([], [])
  | [c] => if c = dquote then ([], []) else ([c], [])
  | c :: e :: r =>
    if c = dquote then ([], e :: r)
    else if c = backslash then ((jsonUnescape e) :: (jsonString r).1, (jsonString r).2)
    else (c :: (jsonString (e :: r)).1, (jsonString (e :: r)).2)

/-- The characters that the number loop of `jsonToIron` accepts. -/
def isNumChar (c : Char) : Bool :=
  c.isDigit || c = '.' || c = 'e' || c = 'E' || c = '+' || c = '-'

/-- The token scan of the number branch of `jsonToIron`, on the text from
position `p` on: `size_t start=p;if(s[p]=='-')p++;while(...)p++;`, giving the
token and the text from the final position on. -/
def numberToken (s : Str) : Str × Str :=
  match s with
  | '-' :: t => ('-' :: t.takeWhile isNumChar, t.dropWhile isNumChar)
  | _ => (s.takeWhile isNumChar, s.dropWhile isNumChar)

/-- The number branch of `jsonToIron`: `std::stod` of the token, null when it
throws. -/
def jsonNumber (s : Str) : IronValue × Str :=
  (match stod (numberToken s).1 with
   | some q => .num q
   | none => .null, (numberToken s).2)

/-- The step `if(p<s.size()&&s[p]==c)p++`. -/
def skipChar (c : Char) : Str → Str
  | [] => []
  | d :: r => if d = c then r else d :: r

mutual
/-- `Interpreter::jsonToIron`, on the text from position `p` on: the value
and the text from the final position on.  `none` when the fuel runs out. -/
def jsonToIron (pl : Placement) : Nat → Str → Option (IronValue × Str)
  | 0, _ => none
  | fuel + 1, s =>
    match skipJsonWs s with
    | [] => some (.null, [])
    | c :: r =>
      if c = dquote then some (.str (jsonString r).1, (jsonString r).2)
      else if c = '[' then jsonArrayLoop pl fuel (skipJsonWs r) []
      else if c = lbrace then jsonObjectLoop pl fuel (skipJsonWs r) []
      else if "null".toList.isPrefixOf (c :: r) then some (.null, (c :: r).drop 4)
      else if "true".toList.isPrefixOf (c :: r) then some (.bool true, (c :: r).drop 4)
      else if "false".toList.isPrefixOf (c :: r) then some (.bool false, (c :: r).drop 5)
      else some (jsonNumber (c :: r))
/-- The array loop of `jsonToIron`: `while(p<s.size()&&s[p]!=']')` with the
elements read so far. -/
def jsonArrayLoop (pl : Placement) : Nat → Str → List IronValue → Option (IronValue × Str)
  | 0, _, _ => none
  | fuel + 1, s, acc =>
    match s with
    | [] => some (.arr acc, [])
    | c :: r =>
      if c = ']' then some (.arr acc, r)
      else
        match jsonToIron pl fuel (c :: r) with
        | none => none
        | some (v, s1) => jsonArrayLoop pl fuel (skipChar ',' (skipJsonWs s1)) (acc ++ [v])
/-- The object loop of `jsonToIron`: `while(p<s.size()&&s[p]!='}')` with the
entries stored so far. -/
def jsonObjectLoop (pl : Placement) : Nat → Str → List (Str × IronValue) → Option (IronValue × Str)
  | 0, _, _ => none
  | fuel + 1, s, acc =>
    match s with
    | [] => some (.obj acc, [])
    | c :: r =>
      if c = rbrace then some (.obj acc, r)
      else
        match jsonToIron pl fuel (c :: r) with
        | none => none
        | some (key, s1) =>
          match jsonToIron pl fuel (skipChar ':' (skipJsonWs s1)) with
          | none => none
          | some (v, s2) =>
            jsonObjectLoop pl fuel (skipChar ',' (skipJsonWs s2)) (objSet pl acc key.toString v)
end

/-- `parse json STR`: the value read from position 0, `none` when the fuel
runs out. -/
def parseJson (pl : Placement) (fuel : Nat) (s : Str) : Option IronValue :=
  (jsonToIron pl fuel s).map Prod.fst

/-! ## The values that JSON represents -/

/-- The text that follows a value in a rendering: it does not continue a
number token. -/
def Delim (s : Str) : Prop := ∀ c r, s = c :: r → isNumChar c = false

/-- A number that `std::stod` reads back from its own rendering. -/
def numReadsBack (q : ℚ) : Bool :=
  (numToString q).all isNumChar && decide (stod (numToString q) = some q)

/-- A key that the dictionary loop of `ironToJson` emits and that the string
loop of `jsonToIron` reads back unchanged: it is not the class marker and
contains neither a double quote nor a backslash. -/
def keySafe (k : Str) : Bool :=
  decide (k ≠ classKey) && k.all (fun c => decide (c ≠ dquote) && decide (c ≠ backslash))

mutual
/-- A value made of null, booleans, strings, numbers that read back, lists,
and dictionaries with distinct safe keys. -/
def jsonSafe : IronValue → Bool
  | .null => true
  | .bool _ => true
  | .num n => numReadsBack n
  | .str _ => true
  | .arr xs => jsonSafeElems xs
  | .obj kvs => jsonSafeFields kvs
  | .func => false
  | .native => false
/-- Every element is `jsonSafe`. -/
def jsonSafeElems : List IronValue → Bool
  | [] => true
  | x :: r => jsonSafe x && jsonSafeElems r
/-- Every entry has a safe key that no later entry repeats, and a `jsonSafe` value. -/
def jsonSafeFields : List (Str × IronValue) → Bool
  | [] => true
  | (k, v) :: r =>
    keySafe k && decide (k ∉ r.map Prod.fst) && jsonSafe v && jsonSafeFields r
end

mutual
/-- Equality of two values position by position: the same variant, the same
scalar, lists of the same length with equal elements, dictionaries with the
same number of entries in which every key of the first has an equal value in
the second (the order of the entries is not compared). -/
def sameValue : IronValue → IronValue → Bool
  | .null, w => (match w with | .null => true | _ => false)
  | .bool a, w => (match w with | .bool b => a == b | _ => false)
  | .num a, w => (match w with | .num b => decide (a = b) | _ => false)
  | .str a, w => (match w with | .str b => decide (a = b) | _ => false)
  | .arr xs, w => (match w with | .arr ys => sameElems xs ys | _ => false)
  | .obj kvs, w =>
    (match w with
     | .obj o => decide (kvs.length = o.length) && sameFields kvs o
     | _ => false)
  | .func, w => (match w with | .func => true | _ => false)
  | .native, w => (match w with | .native => true | _ => false)
/-- Lists of the same length with equal elements. -/
def sameElems : List IronValue → List IronValue → Bool
  | [], ys => ys.isEmpty
  | x :: r, ys =>
    (match ys with
     | [] => false
     | y :: t => sameValue x y && sameElems r t)
/-- Every entry of the first dictionary has an equal value under its key in
the second. -/
def sameFields : List (Str × IronValue) → List (Str × IronValue) → Bool
  | [], _ => true
  | (k, v) :: r, o =>
    (match objFind o k with
     | some w => sameValue v w
     | none => false) && sameFields r o
end

mutual
/-- Fuel that `jsonToIron` needs on the rendering of a value. -/
def jsonFuel : IronValue → Nat
  | .arr xs => jsonFuelElems xs + 1
  | .obj kvs => jsonFuelFields kvs + 1
  | _ => 1
/-- Fuel that the array loop needs on the rendering of the elements. -/
def jsonFuelElems : List IronValue → Nat
  | [] => 1
  | x :: r => jsonFuel x + jsonFuelElems r + 1
/-- Fuel that the object loop needs on the rendering of the entries. -/
def jsonFuelFields : List (Str × IronValue) → Nat
  | [] => 1
  | (_, v) :: r => jsonFuel v + jsonFuelFields r + 1
end

end Ironwood

namespace Ironwood

/-! ## Syntax trees -/

mutual
/-- The alternatives of `Expr::node`. -/
inductive Expr where
  | NumberLit (value : ℚ)
  | StringLit (value : Str)
  | BoolLit (value : Bool)
  | NullLit
  | ArrayLit (elems : List Expr)
  | ObjectLit (pairs : List (Str × Expr))
  | VarExpr (name : Str)
  | BinExpr (op : Str) (left right : Expr)
  | UnaryExpr (op : Str) (operand : Expr)
  | IndexExpr (obj index : Expr)
  | MemberExpr (obj : Expr) (field : Str)
  | CallExpr (callee : Expr) (args : List Expr)
  | LengthOfExpr (arr : Expr)
  | ItemOfExpr (index arr : Expr)
  | KeepWhereExpr (arr fn : Expr)
  | ClassNewExpr (className : Str) (args : List Expr)
  | HasExpr (item collection : Expr)
  | KeysOfExpr (dict : Expr)
  | ValuesOfExpr (dict : Expr)
  | ReadFileExpr (path : Expr)
  | FileExistsExpr (path : Expr)
  | LinesOfFileExpr (path : Expr)
  | FuncExpr (params : List Str) (body : List Stmt)
  | TernaryExpr (cond thenE elseE : Expr)
  | SplitExpr (str sep : Expr)
  | JoinExpr (arr sep : Expr)
  | TrimExpr (str : Expr)
  | ReplaceExpr (str src dst : Expr)
  | IndexOfExpr (sub str : Expr)
  | UpperExpr (str : Expr)
  | LowerExpr (str : Expr)
  | SubstrExpr (str lo hi : Expr)
  | TypeOfExpr (val : Expr)
  | SortExpr (arr : Expr) (key : Option Expr)
  | ParseJsonExpr (str : Expr)
  | JsonOfExpr (val : Expr)
  | FetchExpr (url : Expr) (opts : Option Expr)
  | RunExpr (cmd : Expr)
  | AskExpr (prompt : Expr)
/-- The alternatives of `Stmt::node`. -/
inductive Stmt where
  | LetStmt (name : Str) (init : Expr)
  | SetStmt (target value : Expr)
  | SayStmt (expr : Expr)
  | AskStmt (varName : Str) (prompt : Expr)
  | PauseStmt
  | IfStmt (cond : Expr) (thenBody elseBody : List Stmt)
  | WhileStmt (cond : Expr) (body : List Stmt)
  | ForStmt (var : Str) (iterable : Expr) (body : List Stmt)
  | BreakStmt
  | ContinueStmt
  | ReturnStmt (value : Expr)
  | FuncStmt (name : Str) (params : List Str) (body : List Stmt)
  | CallStmt (call : Expr)
  | GetStmt (path aliasName : Str)
  | ExprStmt (expr : Expr)
  | AddToStmt (value target : Expr)
  | ClassStmt (name : Str) (body : List Stmt)
  | TryStmt (body : List Stmt) (catchVar : Str) (catchBody : List Stmt)
  | ThrowStmt (value : Expr)
  | WriteFileStmt (content path : Expr)
  | AppendFileStmt (content path : Expr)
end

/-! ## Machine values and state -/

/-- `IronFunc`: parameter names, body, and the environment of the definition
(`Env* closure`, here the index of the environment).  The pointer does not
own the environment: it dangles once the call or block whose environment it
is has ended. -/
structure IronFunc where
  params : List Str
  body : List Stmt
  closure : Nat

/-- The host callables (`NativeFunc`) that the evaluator creates. -/
inductive NativeFunc where
  /-- the `map` member of the list stored at `arr` -/
  | listMap (arr : Nat)
  /-- a bound method: the instance stored at `self` and the method -/
  | boundMethod (self : Nat) (method : IronFunc)
  /-- a callable of the standard library, by name -/
  | builtin (name : Str)

/-- A runtime value whose containers are references into the store. -/
inductive Val where
  | null
  | bool (b : Bool)
  | num (n : ℚ)
  | str (s : Str)
  | arr (ref : Nat)
  | obj (ref : Nat)
  | func (f : IronFunc)
  | native (f : NativeFunc)

instance : Inhabited Val := ⟨.null⟩

/-- A shared container: an `IronArray` or an `IronObject`. -/
inductive Cell where
  | arr (xs : List Val)
  | obj (kvs : List (Str × Val))

/-- `struct Env`: the variables and the parent. -/
structure Env where
  vars : List (Str × Val)
  parent : Option Nat

/-- `struct ClassDef`; `definitionEnv` is a pointer that does not own the
environment, as `IronFunc.closure`. -/
structure ClassDef where
  name : Str
  fields : List (Str × Expr)
  methods : List (Str × IronFunc)
  definitionEnv : Nat

/-- The state of the interpreter: the store of shared containers, the
environments, each at the index at which it was created, the class registry,
the lines written to standard output, and the environments that exist.  An
`Env` is the member `globalEnv` or a local object of `callValue`,
`callMethod` or `execStmt`, which is destroyed when its scope is left: `live`
holds the global environment and those of the calls and blocks that have not
ended.  The entry of a destroyed environment stays in `envs`, so that an index
never names two environments; what it holds is no longer read. -/
structure State where
  heap : List Cell
  envs : List Env
  classRegistry : List (Str × ClassDef)
  out : List Str
  live : List Nat

/-- The control-flow signals and the host error `std::runtime_error`. -/
inductive Signal where
  | ReturnSignal (value : Val)
  | BreakSignal
  | ContinueSignal
  | ThrowSignal (message : Str)
  | error (what : Str)

/-- Result of running a piece of the evaluator. -/
inductive Res (α : Type) where
  /-- normal completion with the state reached -/
  | ok (a : α) (σ : State)
  /-- a C++ exception in flight, with the state reached -/
  | exc (s : Signal) (σ : State)
  /-- the fuel ran out -/
  | timeout
  /-- behaviour that the model does not cover -/
  | outside

/-- Sequencing: a result that is not `ok` is passed on. -/
def Res.bind {α β : Type} (r : Res α) (k : α → State → Res β) : Res β :=
  match r with
  | .ok a σ => k a σ
  | .exc s σ => .exc s σ
  | .timeout => .timeout
  | .outside => .outside

/-- What the lexer and parser make of a brace fragment of a string literal. -/
inductive Fragment where
  /-- statements whose first one is the expression statement `e` -/
  | expr (e : Expr)
  /-- no statement, or a first statement of another kind -/
  | other
  /-- the lexer or parser throws -/
  | syntaxError (what : Str)
  /-- the fuel of the parser ran out -/
  | timeout

/-- What the evaluator takes from its surroundings: the placement of fresh
keys in `std::unordered_map`, and the lexer and parser run on a brace fragment
of a string literal. -/
structure Host where
  place : Placement
  fragment : Str → Fragment

/-- `IronValue::isTruthy` on a machine value. -/
def Val.isTruthy : Val → Bool
  | .null => false
  | .bool b => b
  | .num n => decide (n ≠ 0)
  | .str s => !s.isEmpty
  | _ => true

/-- A scalar tree value as a machine value. -/
def Val.ofScalar : IronValue → Val
  | .bool b => .bool b
  | .num n => .num n
  | .str s => .str s
  | _ => .null

/-- The tree that a machine value unfolds to; `none` when the fuel runs out
(as on a cyclic container) or a reference is dangling. -/
def reify : Nat → List Cell → Val → Option IronValue
  | _, _, .null => some .null
  | _, _, .bool b => some (.bool b)
  | _, _, .num n => some (.num n)
  | _, _, .str s => some (.str s)
  | _, _, .func _ => some .func
  | _, _, .native _ => some .native
  | 0, _, .arr _ => none
  | 0, _, .obj _ => none
  | fuel + 1, heap, .arr r =>
    match heap[r]? with
    | some (.arr xs) => (mapOpt (fun x => reify fuel heap x) xs).map IronValue.arr
    | _ => none
  | fuel + 1, heap, .obj r =>
    match heap[r]? with
    | some (.obj kvs) =>
      (mapOpt (fun kv => (reify fuel heap kv.2).map (fun w => (kv.1, w))) kvs).map IronValue.obj
    | _ => none

/-- `IronValue::toString` on a machine value. -/
def render (fuel : Nat) (heap : List Cell) (v : Val) : Option Str :=
  (reify fuel heap v).map IronValue.toString

/-- The list loop of `has`: the first element whose rendering is `target`. -/
def anyRender (fuel : Nat) (heap : List Cell) (target : Str) : List Val → Option Bool
  | [] => some false
  | x :: r =>
    match render fuel heap x with
    | none => none
    | some t => if t = target then some true else anyRender fuel heap target r

/-- Allocation of a shared container. -/
def State.alloc (σ : State) (c : Cell) : Nat × State :=
  (σ.heap.length, { σ with heap := σ.heap ++ [c] })

/-- Replacement of the container stored at a reference. -/
def State.store (σ : State) (r : Nat) (c : Cell) : State :=
  { σ with heap := σ.heap.set r c }

/-- A fresh environment with the given variables and parent: a local `Env`
at the start of its scope. -/
def State.newEnv (σ : State) (vars : List (Str × Val)) (parent : Nat) : Nat × State :=
  (σ.envs.length,
    { σ with envs := σ.envs ++ [⟨vars, some parent⟩], live := σ.envs.length :: σ.live })

/-- The end of the scope of the local `Env` with index `e`: the object is
destroyed. -/
def State.release (σ : State) (e : Nat) : State := { σ with live := σ.live.erase e }

/-- A scope is left, normally or by an exception: its local `Env` is
destroyed in both cases. -/
def Res.release {α : Type} (r : Res α) (e : Nat) : Res α :=
  match r with
  | .ok a σ => .ok a (σ.release e)
  | .exc s σ => .exc s (σ.release e)
  | .timeout => .timeout
  | .outside => .outside

/-- `Env::get`, walking at most `depth` parents. -/
def envGet (envs : List Env) : Nat → Nat → Str → Option Val
  | 0, _, _ => none
  | depth + 1, env, n =>
    match envs[env]? with
    | none => none
    | some e =>
      match objFind e.vars n with
      | some v => some v
      | none =>
        match e.parent with
        | some p => envGet envs depth p n
        | none => none

/-- The environment in which `Env::assign` finds the name, walking at most
`depth` parents. -/
def envOwner (envs : List Env) : Nat → Nat → Str → Option Nat
  | 0, _, _ => none
  | depth + 1, env, n =>
    match envs[env]? with
    | none => none
    | some e =>
      match objFind e.vars n with
      | some _ => some env
      | none =>
        match e.parent with
        | some p => envOwner envs depth p n
        | none => none

/-- Whether the search of `Env::get` and `Env::assign` for the name `n`, from
the environment `env` on and over at most `depth` parents, reaches only
environments that exist.  The search looks into `env` and follows `parent`
as long as the name is not found. -/
def envReach (envs : List Env) (live : List Nat) : Nat → Nat → Str → Bool
  | 0, _, _ => true
  | depth + 1, env, n =>
    live.contains env &&
      (match envs[env]? with
       | none => true
       | some e =>
         match objFind e.vars n with
         | some _ => true
         | none =>
           match e.parent with
           | some p => envReach envs live depth p n
           | none => true)

/-- `Env::define`: `vars[n]=v` in the environment `env`. -/
def State.define (pl : Placement) (σ : State) (env : Nat) (n : Str) (v : Val) : State :=
  match σ.envs[env]? with
  | some e => { σ with envs := σ.envs.set env { e with vars := objSet pl e.vars n v } }
  | none => σ

/-- `Env::get` on the state, with its error. -/
def State.get (σ : State) (env : Nat) (n : Str) : Res Val :=
  match envGet σ.envs (σ.envs.length + 1) env n with
  | some v => .ok v σ
  | none => .exc (.error ("I don't know what '".toList ++ n ++ "' is — did you forget 'let ".toList
      ++ n ++ " = ...'?".toList)) σ

/-- `Env::assign` on the state, with its error. -/
def State.assign (pl : Placement) (σ : State) (env : Nat) (n : Str) (v : Val) : Res Unit :=
  match envOwner σ.envs (σ.envs.length + 1) env n with
  | some owner => .ok () (σ.define pl owner n v)
  | none => .exc (.error ("Can't change '".toList ++ n ++ "' — use 'let ".toList
      ++ n ++ " = ...' to create it first.".toList)) σ

/-- The call `env.get(n)` of the evaluator.  `env` and the parents are
reached through pointers that own nothing; a search that reaches an
environment that was destroyed reads through a dangling pointer, which is
undefined. -/
def State.read (σ : State) (env : Nat) (n : Str) : Res Val :=
  if envReach σ.envs σ.live (σ.envs.length + 1) env n then σ.get env n else .outside

/-- The call `env.assign(n,v)` of the evaluator, undefined as `State.read`
when the search reaches an environment that was destroyed. -/
def State.write (pl : Placement) (σ : State) (env : Nat) (n : Str) (v : Val) : Res Unit :=
  if envReach σ.envs σ.live (σ.envs.length + 1) env n then σ.assign pl env n v else .outside

/-- The parameter loop of a call:
`define(params[i],i<args.size()?args[i]:IronValue::makeNull())`. -/
def bindParams (pl : Placement) : List Str → List Val → List (Str × Val) → List (Str × Val)
  | [], _, acc => acc
  | p :: ps, [], acc => bindParams pl ps [] (objSet pl acc p .null)
  | p :: ps, a :: as, acc => bindParams pl ps as (objSet pl acc p a)

/-- The text of a brace fragment that starts after its opening brace, and the
text after its closing brace: the inner loop of `interpolate`. -/
def braceSplit : Nat → Str → Str × Str
  | _, [] => ([], [])
  | depth, c :: r =>
    if (if c = lbrace then depth + 1 else if c = rbrace then depth - 1 else depth) = 0 then ([], r)
    else
      (c :: (braceSplit (if c = lbrace then depth + 1 else if c = rbrace then depth - 1 else depth) r).1,
        (braceSplit (if c = lbrace then depth + 1 else if c = rbrace then depth - 1 else depth) r).2)

/-- The value of an outcome of the value layer, as a machine result. -/
def liftOutcome (o : Outcome IronValue) (σ : State) : Res Val :=
  match o with
  | .val v => .ok (Val.ofScalar v) σ
  | .raise m => .exc (.error m) σ
  | .outside => .outside

/-- The part of `BinExpr` that follows the evaluation of both operands.  The
operands are rendered only where the source calls `toString`. -/
def machineBinOp (fuel : Nat) (op : Str) (l r : Val) (σ : State) : Res Val :=
  match l, r with
  | .num a, .num b => liftOutcome (binOp op (.num a) (.num b)) σ
  | _, _ =>
    if op = "+".toList ∨ op = "==".toList ∨ op = "!=".toList then
      match reify fuel σ.heap l, reify fuel σ.heap r with
      | some tl, some tr => liftOutcome (binOp op tl tr) σ
      | _, _ => .timeout
    else .ok .null σ

/-- The part of `UnaryExpr` that follows the evaluation of the operand. -/
def machineUnaryOp (op : Str) (v : Val) : Val :=
  match v with
  | .num a =>
    if op = "-".toList then .num (-a)
    else if op = "not".toList then .bool (!v.isTruthy) else .null
  | _ => if op = "not".toList then .bool (!v.isTruthy) else .null

/-- The strings of `type of`. -/
def Val.typeOf : Val → Str
  | .null => "null".toList
  | .bool _ => "bool".toList
  | .num _ => "number".toList
  | .str _ => "string".toList
  | .arr _ => "list".toList
  | .obj _ => "dict".toList
  | _ => "function".toList

/-- The fields and methods that `ClassStmt` collects from the class body. -/
def classFields : List Stmt → List (Str × Expr)
  | [] => []
  | .LetStmt name init :: r => (name, init) :: classFields r
  | _ :: r => classFields r

/-- The methods that `ClassStmt` collects from the class body:
`cd.methods[fn->name]=f`. -/
def classMethods (pl : Placement) (env : Nat) :
    List Stmt → List (Str × IronFunc) → List (Str × IronFunc)
  | [], acc => acc
  | .FuncStmt name params body :: r, acc =>
    classMethods pl env r (objSet pl acc name ⟨params, body, env⟩)
  | _ :: r, acc => classMethods pl env r acc

/-- The store `classRegistry[node.name]=std::move(cd)`. -/
def State.register (pl : Placement) (σ : State) (cd : ClassDef) : State :=
  { σ with classRegistry := objSet pl σ.classRegistry cd.name cd }

/-- The member access on a dictionary, after the evaluation of the object:
a bound method of the class of an instance, else the field, else null. -/
def memberOfObject (σ : State) (r : Nat) (kvs : List (Str × Val)) (field : Str) : Val :=
  let plain : Val :=
    if field ≠ classKey then
      match objFind kvs field with
      | some v => v
      | none => .null
    else .null
  match objFind kvs classKey with
  | some (.str cn) =>
    match objFind σ.classRegistry cn with
    | some cd =>
      match objFind cd.methods field with
      | some m => .native (.boundMethod r m)
      | none => plain
    | none => plain
  | _ => plain

/-- The store of `assignLvalue` into the member `field` of the value `ov`:
`(**op)[node.field]=val` on a dictionary, nothing otherwise. -/
def storeMember (pl : Placement) (σ : State) (ov : Val) (field : Str) (val : Val) : State :=
  match ov with
  | .obj r =>
    match σ.heap[r]? with
    | some (.obj kvs) => σ.store r (.obj (objSet pl kvs field val))
    | _ => σ
  | _ => σ

/-- The store of `assignLvalue` at the index `iv` of the value `ov`:
`(**ap)[(int)*n]=val` on a list with a numeric index, `(**op)[idx->toString()]=val`
on a dictionary, nothing otherwise.  `key` is the rendering of the index. -/
def storeIndex (pl : Placement) (σ : State) (ov iv : Val) (key : Str) (val : Val) : Res Unit :=
  match ov with
  | .arr r =>
    match iv with
    | .num n =>
      match σ.heap[r]?, castInt n with
      | some (.arr xs), some i =>
        if 0 ≤ i ∧ i < xs.length then .ok () (σ.store r (.arr (xs.set i.toNat val)))
        else .outside
      | _, _ => .outside
    | _ => .ok () σ
  | .obj r =>
    match σ.heap[r]? with
    | some (.obj kvs) => .ok () (σ.store r (.obj (objSet pl kvs key val)))
    | _ => .outside
  | _ => .ok () σ

/-- The value stored under `__class__` in the dictionary at `r`. -/
def classMarker (σ : State) (r : Nat) : Option Val :=
  match σ.heap[r]? with
  | some (.obj kvs) => objFind kvs classKey
  | _ => none

/-- The list case of `SortExpr` on the store, for the forms without a
callable: the copy of the element pointers is sorted by the trees the
elements unfold to, and stored as a new list. -/
def sortCopy (fuel : Nat) (key : SortKey) (xs : List Val) (σ : State) : Res Val :=
  match mapOpt (fun x => (reify fuel σ.heap x).map (fun t => (x, t))) xs with
  | none => .timeout
  | some pairs =>
    match evalSort key Prod.snd pairs with
    | .val sorted =>
      .ok (.arr (σ.alloc (.arr (sorted.map Prod.fst))).1) (σ.alloc (.arr (sorted.map Prod.fst))).2
    | .raise m => .exc (.error m) σ
    | .outside => .outside

/-- The elements that `ForStmt` iterates over: a copy of the list, the
characters of a string, nothing for any other value. -/
def forItems (σ : State) (iter : Val) : List Val :=
  match iter with
  | .arr r =>
    match σ.heap[r]? with
    | some (.arr xs) => xs
    | _ => []
  | .str s => s.map (fun c => Val.str [c])
  | _ => []

/-- The square root of a rational that is the square of a rational. -/
def ratSqrt (q : ℚ) : Option ℚ :=
  match (List.range (q.num.toNat + 1)).find? (fun k => k * k == q.num.toNat),
    (List.range (q.den + 1)).find? (fun k => k * k == q.den) with
  | some a, some b => if 0 ≤ q.num then some (mkRat a b) else none
  | _, _ => none

/-- The callables that `registerGlobals` creates, by name.  Covered are
`toString`, `len` and, on one number, `math.abs`, `math.floor`, `math.ceil`
and `math.sqrt` (where the root is exact); the other callables, a missing
argument (`a[0]` on an empty vector) and an argument of another kind (whose
exception carries a text of the C++ library) are outside the model. -/
def builtinCall (fuel : Nat) (name : Str) (args : List Val) (σ : State) : Res Val :=
  if name = "toString".toList then
    match args with
    | [] => .ok (.str []) σ
    | a :: _ =>
      (match render fuel σ.heap a with
       | some t => .ok (.str t) σ
       | none => .timeout)
  else if name = "len".toList then
    match args with
    | .str s :: _ => .ok (.num (s.length : Nat)) σ
    | .arr r :: _ =>
      (match σ.heap[r]? with
       | some (.arr xs) => .ok (.num (xs.length : Nat)) σ
       | _ => .outside)
    | _ => .ok (.num 0) σ
  else
    match args with
    | .num x :: _ =>
      if name = "math.abs".toList then .ok (.num (if x < 0 then -x else x)) σ
      else if name = "math.floor".toList then .ok (.num (Int.fdiv x.num x.den : Int)) σ
      else if name = "math.ceil".toList then .ok (.num (-(Int.fdiv (-x.num) x.den) : Int)) σ
      else if name = "math.sqrt".toList then
        (match ratSqrt x with
         | some y => .ok (.num y) σ
         | none => .outside)
      else .outside
    | _ => .outside

/-! ## The evaluator -/

mutual
/-- `Interpreter::evalExpr`, in the environment `env`. -/
def evalExpr (h : Host) : Nat → Expr → Nat → State → Res Val
  | 0, _, _, _ => .timeout
  | fuel + 1, e, env, σ =>
    match e with
    | .NumberLit v => .ok (.num v) σ
    | .BoolLit b => .ok (.bool b) σ
    | .NullLit => .ok .null σ
    | .StringLit s => (interpolate h fuel s env σ).bind (fun t σ1 => .ok (.str t) σ1)
    | .VarExpr name => σ.read env name
    | .ArrayLit elems =>
      (evalList h fuel elems env σ).bind (fun vs σ1 =>
        .ok (.arr (σ1.alloc (.arr vs)).1) (σ1.alloc (.arr vs)).2)
    | .ObjectLit pairs =>
      (evalPairs h fuel pairs env σ []).bind (fun kvs σ1 =>
        .ok (.obj (σ1.alloc (.obj kvs)).1) (σ1.alloc (.obj kvs)).2)
    | .LengthOfExpr a =>
      (evalExpr h fuel a env σ).bind (fun v σ1 =>
        match v with
        | .arr r =>
          (match σ1.heap[r]? with
           | some (.arr xs) => .ok (.num (xs.length : Nat)) σ1
           | _ => .outside)
        | .str s => .ok (.num (s.length : Nat)) σ1
        | _ =>
          (match render fuel σ1.heap v with
           | some t => .exc (.error ("'length of' works on lists and text, not ".toList ++ t)) σ1
           | none => .timeout))
    | .ItemOfExpr index a =>
      (evalExpr h fuel index env σ).bind (fun iv σ1 =>
        (evalExpr h fuel a env σ1).bind (fun av σ2 =>
          match iv with
          | .num n =>
            (match av with
             | .arr r =>
               (match σ2.heap[r]? with
                | some (.arr xs) =>
                  (match itemOf n xs with
                   | .val x => .ok x σ2
                   | .raise m => .exc (.error m) σ2
                   | .outside => .outside)
                | _ => .outside)
             | _ =>
               (match castInt n with
                | some c => if c = -2 ^ 31 then .outside else .ok .null σ2
                | none => .outside))
          | _ => .ok .null σ2))
    | .KeepWhereExpr a fn =>
      (evalExpr h fuel a env σ).bind (fun av σ1 =>
        (evalExpr h fuel fn env σ1).bind (fun f σ2 =>
          match av with
          | .arr r =>
            (match σ2.heap[r]? with
             | some (.arr xs) =>
               (keepLoop h fuel f r xs.length 0 [] σ2).bind (fun res σ3 =>
                 .ok (.arr (σ3.alloc (.arr res)).1) (σ3.alloc (.arr res)).2)
             | _ => .outside)
          | _ => .exc (.error "'keep items in' expects a list".toList) σ2))
    | .KeysOfExpr d =>
      (evalExpr h fuel d env σ).bind (fun v σ1 =>
        match v with
        | .obj r =>
          (match σ1.heap[r]? with
           | some (.obj kvs) =>
             .ok (.arr (σ1.alloc (.arr ((keysOf kvs).map Val.str))).1)
               (σ1.alloc (.arr ((keysOf kvs).map Val.str))).2
           | _ => .outside)
        | _ => .exc (.error "'keys of' expects an object/dictionary".toList) σ1)
    | .ValuesOfExpr d =>
      (evalExpr h fuel d env σ).bind (fun v σ1 =>
        match v with
        | .obj r =>
          (match σ1.heap[r]? with
           | some (.obj kvs) =>
             .ok (.arr (σ1.alloc (.arr (valuesOf kvs))).1) (σ1.alloc (.arr (valuesOf kvs))).2
           | _ => .outside)
        | _ => .exc (.error "'values of' expects an object/dictionary".toList) σ1)
    | .HasExpr item coll =>
      (evalExpr h fuel item env σ).bind (fun iv σ1 =>
        (evalExpr h fuel coll env σ1).bind (fun cv σ2 =>
          match cv with
          | .arr r =>
            (match σ2.heap[r]?, render fuel σ2.heap iv with
             | some (.arr xs), some target =>
               (match anyRender fuel σ2.heap target xs with
                | some b => .ok (.bool b) σ2
                | none => .timeout)
             | some (.arr []), none => .ok (.bool false) σ2
             | some (.arr _), none => .timeout
             | _, _ => .outside)
          | .obj r =>
            (match σ2.heap[r]?, render fuel σ2.heap iv with
             | some (.obj kvs), some key => .ok (.bool (hasKey kvs key)) σ2
             | some (.obj _), none => .timeout
             | _, _ => .outside)
          | .str s =>
            (match render fuel σ2.heap iv with
             | some t => .ok (.bool (containsSub t s)) σ2
             | none => .timeout)
          | _ => .ok (.bool false) σ2))
    | .ClassNewExpr className args =>
      match objFind σ.classRegistry className with
      | none =>
        .exc (.error ("Unknown class: ".toList ++ className ++ " — did you define it with 'class ".toList
          ++ className ++ "'?".toList)) σ
      | some cd =>
        (initFields h fuel cd.fields cd.definitionEnv σ
            (objSet h.place [] classKey (.str className))).bind (fun fields σ1 =>
          match objFind cd.methods "init".toList with
          | some m =>
            (evalList h fuel args env (σ1.alloc (.obj fields)).2).bind (fun vs σ2 =>
              (callMethod h fuel (σ1.alloc (.obj fields)).1 m vs σ2).bind (fun _ σ3 =>
                .ok (.obj (σ1.alloc (.obj fields)).1) σ3))
          | none => .ok (.obj (σ1.alloc (.obj fields)).1) (σ1.alloc (.obj fields)).2)
    | .UnaryExpr op operand =>
      (evalExpr h fuel operand env σ).bind (fun v σ1 => .ok (machineUnaryOp op v) σ1)
    | .BinExpr op left right =>
      if op = "and".toList then
        (evalExpr h fuel left env σ).bind (fun l σ1 =>
          if l.isTruthy then evalExpr h fuel right env σ1 else .ok l σ1)
      else if op = "or".toList then
        (evalExpr h fuel left env σ).bind (fun l σ1 =>
          if l.isTruthy then .ok l σ1 else evalExpr h fuel right env σ1)
      else
        (evalExpr h fuel left env σ).bind (fun l σ1 =>
          (evalExpr h fuel right env σ1).bind (fun r σ2 => machineBinOp fuel op l r σ2))
    | .MemberExpr obj field =>
      (evalExpr h fuel obj env σ).bind (fun ov σ1 =>
        match ov with
        | .arr r =>
          if field = "length".toList then
            (match σ1.heap[r]? with
             | some (.arr xs) => .ok (.num (xs.length : Nat)) σ1
             | _ => .outside)
          else if field = "map".toList then .ok (.native (.listMap r)) σ1
          else .exc (.error ("Can't access '.".toList ++ field ++ "' on that value.".toList)) σ1
        | .obj r =>
          (match σ1.heap[r]? with
           | some (.obj kvs) => .ok (memberOfObject σ1 r kvs field) σ1
           | _ => .outside)
        | _ => .exc (.error ("Can't access '.".toList ++ field ++ "' on that value.".toList)) σ1)
    | .IndexExpr obj index =>
      (evalExpr h fuel obj env σ).bind (fun ov σ1 =>
        (evalExpr h fuel index env σ1).bind (fun iv σ2 =>
          match ov with
          | .arr r =>
            (match iv with
             | .num n =>
               (match σ2.heap[r]?, castInt n with
                | some (.arr xs), some i =>
                  if 0 ≤ i ∧ i < xs.length then
                    (match xs[i.toNat]? with
                     | some x => .ok x σ2
                     | none => .outside)
                  else .ok .null σ2
                | _, _ => .outside)
             | _ => .ok .null σ2)
          | .obj r =>
            (match σ2.heap[r]?, render fuel σ2.heap iv with
             | some (.obj kvs), some key =>
               (match objFind kvs key with
                | some x => .ok x σ2
                | none => .ok .null σ2)
             | some (.obj _), none => .timeout
             | _, _ => .outside)
          | _ => .ok .null σ2))
    | .CallExpr callee args =>
      (evalExpr h fuel callee env σ).bind (fun f σ1 =>
        (evalList h fuel args env σ1).bind (fun vs σ2 => callValue h fuel f vs σ2))
    | .FuncExpr params body => .ok (.func ⟨params, body, env⟩) σ
    | .TernaryExpr cond thenE elseE =>
      (evalExpr h fuel cond env σ).bind (fun c σ1 =>
        if c.isTruthy then evalExpr h fuel thenE env σ1 else evalExpr h fuel elseE env σ1)
    | .TypeOfExpr val => (evalExpr h fuel val env σ).bind (fun v σ1 => .ok (.str v.typeOf) σ1)
    | .JsonOfExpr val =>
      (evalExpr h fuel val env σ).bind (fun v σ1 =>
        match reify fuel σ1.heap v with
        | some t => .ok (.str (ironToJson t)) σ1
        | none => .timeout)
    | .SortExpr a key =>
      (evalExpr h fuel a env σ).bind (fun av σ1 =>
        match av with
        | .arr r =>
          (match σ1.heap[r]? with
           | some (.arr xs) =>
             (match key with
              | none => sortCopy fuel .plain xs σ1
              | some ke =>
                (evalExpr h fuel ke env σ1).bind (fun kv σ2 =>
                  match kv with
                  | .str name => sortCopy fuel (.field name) xs σ2
                  | _ => .outside))
           | _ => .outside)
        | _ => .ok av σ1)
    | _ => .outside
termination_by structural fuel => fuel
/-- The argument and element loops: `push_back(evalExpr(*e,env))`. -/
def evalList (h : Host) : Nat → List Expr → Nat → State → Res (List Val)
  | 0, _, _, _ => .timeout
  | _ + 1, [], _, σ => .ok [] σ
  | fuel + 1, e :: r, env, σ =>
    (evalExpr h fuel e env σ).bind (fun v σ1 =>
      (evalList h fuel r env σ1).bind (fun vs σ2 => .ok (v :: vs) σ2))
termination_by structural fuel => fuel
/-- The loop of `ObjectLit`: `(*obj)[k]=evalExpr(*v,env)`. -/
def evalPairs (h : Host) :
    Nat → List (Str × Expr) → Nat → State → List (Str × Val) → Res (List (Str × Val))
  | 0, _, _, _, _ => .timeout
  | _ + 1, [], _, σ, acc => .ok acc σ
  | fuel + 1, (k, e) :: r, env, σ, acc =>
    (evalExpr h fuel e env σ).bind (fun v σ1 =>
      evalPairs h fuel r env σ1 (objSet h.place acc k v))
termination_by structural fuel => fuel
/-- The default-value loop of `ClassNewExpr`:
`(*fields)[fname]=evalExpr(*defaultExpr,*cd.definitionEnv)`.  The indirection
`*cd.definitionEnv` is undefined when the environment of the class definition
was destroyed. -/
def initFields (h : Host) :
    Nat → List (Str × Expr) → Nat → State → List (Str × Val) → Res (List (Str × Val))
  | 0, _, _, _, _ => .timeout
  | _ + 1, [], _, σ, acc => .ok acc σ
  | fuel + 1, (k, e) :: r, env, σ, acc =>
    if σ.live.contains env then
      (evalExpr h fuel e env σ).bind (fun v σ1 =>
        initFields h fuel r env σ1 (objSet h.place acc k v))
    else .outside
termination_by structural fuel => fuel
/-- The loop of `keep items in` over the list stored at `r`, at position `i`:
`for(auto&item:**ap)if(callValue(fn,(item))->isTruthy())res->push_back(item)`.
The loop runs over the vector itself, so it passes to the callable the
element that the list holds when the position is reached, and keeps the
element that the list holds at that position after the call.  `n` is the
length when the loop starts; a call that changes the length invalidates the
iterators of the loop. -/
def keepLoop (h : Host) : Nat → Val → Nat → Nat → Nat → List Val → State → Res (List Val)
  | 0, _, _, _, _, _, _ => .timeout
  | fuel + 1, f, r, n, i, acc, σ =>
    if n ≤ i then .ok acc σ
    else
      match σ.heap[r]? with
      | some (.arr xs) =>
        (match xs[i]? with
         | some x =>
           (callValue h fuel f [x] σ).bind (fun t σ1 =>
             match σ1.heap[r]? with
             | some (.arr ys) =>
               if ys.length = n then
                 (match ys[i]? with
                  | some y =>
                    keepLoop h fuel f r n (i + 1) (if t.isTruthy then acc ++ [y] else acc) σ1
                  | none => .outside)
               else .outside
             | _ => .outside)
         | none => .outside)
      | _ => .outside
termination_by structural fuel => fuel
/-- The loop of the `map` member over the list stored at `r`, at position `i`:
`for(auto&item:**ap)res->push_back(callValue(args[0],(item)))`, over the
vector itself as in `keepLoop`. -/
def mapLoop (h : Host) : Nat → Val → Nat → Nat → Nat → List Val → State → Res (List Val)
  | 0, _, _, _, _, _, _ => .timeout
  | fuel + 1, f, r, n, i, acc, σ =>
    if n ≤ i then .ok acc σ
    else
      match σ.heap[r]? with
      | some (.arr xs) =>
        (match xs[i]? with
         | some x =>
           (callValue h fuel f [x] σ).bind (fun t σ1 =>
             match σ1.heap[r]? with
             | some (.arr ys) =>
               if ys.length = n then mapLoop h fuel f r n (i + 1) (acc ++ [t]) σ1 else .outside
             | _ => .outside)
         | none => .outside)
      | _ => .outside
termination_by structural fuel => fuel
/-- `Interpreter::interpolate`, on the text from position `i` on. -/
def interpolate (h : Host) : Nat → Str → Nat → State → Res Str
  | 0, _, _, _ => .timeout
  | _ + 1, [], _, σ => .ok [] σ
  | fuel + 1, c :: r, env, σ =>
    if c = lbrace then
      match h.fragment (braceSplit 1 r).1 with
      | .syntaxError w => .exc (.error w) σ
      | .timeout => .timeout
      | .other => interpolate h fuel (braceSplit 1 r).2 env σ
      | .expr e =>
        (evalExpr h fuel e env σ).bind (fun v σ1 =>
          match render fuel σ1.heap v with
          | none => .timeout
          | some t =>
            (interpolate h fuel (braceSplit 1 r).2 env σ1).bind (fun rest σ2 => .ok (t ++ rest) σ2))
    else (interpolate h fuel r env σ).bind (fun rest σ1 => .ok (c :: rest) σ1)
termination_by structural fuel => fuel
/-- `Interpreter::callValue`.  The frame `Env fe` of a user function is a
local object: it is destroyed when the call returns or is left by an
exception. -/
def callValue (h : Host) : Nat → Val → List Val → State → Res Val
  | 0, _, _, _ => .timeout
  | fuel + 1, callee, args, σ =>
    match callee with
    | .native (.listMap r) =>
      (match args, σ.heap[r]? with
       | f :: _, some (.arr xs) =>
         (mapLoop h fuel f r xs.length 0 [] σ).bind (fun res σ1 =>
           .ok (.arr (σ1.alloc (.arr res)).1) (σ1.alloc (.arr res)).2)
       | _, _ => .outside)
    | .native (.boundMethod self m) => callMethod h fuel self m args σ
    | .native (.builtin name) => builtinCall fuel name args σ
    | .func f =>
      (match (execBlock h fuel f.body (σ.newEnv (bindParams h.place f.params args []) f.closure).1
          (σ.newEnv (bindParams h.place f.params args []) f.closure).2).release σ.envs.length with
       | .ok _ σ1 => .ok .null σ1
       | .exc (.ReturnSignal v) σ1 => .ok v σ1
       | .exc s σ1 => .exc s σ1
       | .timeout => .timeout
       | .outside => .outside)
    | _ => .exc (.error "That's not a function — can't call it.".toList) σ
termination_by structural fuel => fuel
/-- `Interpreter::callMethod`, on the instance stored at `self`; the frame
`Env me` is destroyed when the call is left. -/
def callMethod (h : Host) : Nat → Nat → IronFunc → List Val → State → Res Val
  | 0, _, _, _, _ => .timeout
  | fuel + 1, self, m, args, σ =>
    match (execBlock h fuel m.body
        (σ.newEnv (bindParams h.place m.params args
          (objSet h.place [] "self".toList (.obj self))) m.closure).1
        (σ.newEnv (bindParams h.place m.params args
          (objSet h.place [] "self".toList (.obj self))) m.closure).2).release σ.envs.length with
    | .ok _ σ1 => .ok .null σ1
    | .exc (.ReturnSignal v) σ1 => .ok v σ1
    | .exc s σ1 => .exc s σ1
    | .timeout => .timeout
    | .outside => .outside
termination_by structural fuel => fuel
/-- `Interpreter::assignLvalue`. -/
def assignLvalue (h : Host) : Nat → Expr → Val → Nat → State → Res Unit
  | 0, _, _, _, _ => .timeout
  | fuel + 1, target, val, env, σ =>
    match target with
    | .VarExpr name => σ.write h.place env name val
    | .IndexExpr obj index =>
      (evalExpr h fuel obj env σ).bind (fun ov σ1 =>
        (evalExpr h fuel index env σ1).bind (fun iv σ2 =>
          match ov with
          | .obj _ =>
            (match render fuel σ2.heap iv with
             | some key => storeIndex h.place σ2 ov iv key val
             | none => .timeout)
          | _ => storeIndex h.place σ2 ov iv [] val))
    | .MemberExpr obj field =>
      (evalExpr h fuel obj env σ).bind (fun ov σ1 => .ok () (storeMember h.place σ1 ov field val))
    | _ => .ok () σ
termination_by structural fuel => fuel
/-- `Interpreter::execStmt`, in the environment `env`.  The environments
`ie`, `tryEnv` and `ce` of `if` and `try` are local objects, destroyed when
the statement is left. -/
def execStmt (h : Host) : Nat → Stmt → Nat → State → Res Unit
  | 0, _, _, _ => .timeout
  | fuel + 1, s, env, σ =>
    match s with
    | .LetStmt name init =>
      (evalExpr h fuel init env σ).bind (fun v σ1 => .ok () (σ1.define h.place env name v))
    | .SetStmt target value =>
      (evalExpr h fuel value env σ).bind (fun v σ1 => assignLvalue h fuel target v env σ1)
    | .AddToStmt value target =>
      (evalExpr h fuel value env σ).bind (fun v σ1 =>
        (evalExpr h fuel target env σ1).bind (fun av σ2 =>
          match av with
          | .arr r =>
            (match σ2.heap[r]? with
             | some (.arr xs) => .ok () (σ2.store r (.arr (xs ++ [v])))
             | _ => .outside)
          | _ => .exc (.error "Can't add to that — it's not a list.".toList) σ2))
    | .SayStmt e =>
      (evalExpr h fuel e env σ).bind (fun v σ1 =>
        match render fuel σ1.heap v with
        | some t => .ok () { σ1 with out := σ1.out ++ [t] }
        | none => .timeout)
    | .IfStmt cond thenBody elseBody =>
      ((evalExpr h fuel cond env (σ.newEnv [] env).2).bind (fun c σ1 =>
        if c.isTruthy then execBlock h fuel thenBody (σ.newEnv [] env).1 σ1
        else execBlock h fuel elseBody (σ.newEnv [] env).1 σ1)).release σ.envs.length
    | .WhileStmt cond body => whileLoop h fuel cond body env σ
    | .ForStmt var iterable body =>
      (evalExpr h fuel iterable env σ).bind (fun iter σ1 =>
        forLoop h fuel var (forItems σ1 iter) body env σ1)
    | .BreakStmt => .exc .BreakSignal σ
    | .ContinueStmt => .exc .ContinueSignal σ
    | .ReturnStmt value =>
      (evalExpr h fuel value env σ).bind (fun v σ1 => .exc (.ReturnSignal v) σ1)
    | .FuncStmt name params body =>
      .ok () (σ.define h.place env name (.func ⟨params, body, env⟩))
    | .CallStmt call => (evalExpr h fuel call env σ).bind (fun _ σ1 => .ok () σ1)
    | .ExprStmt e => (evalExpr h fuel e env σ).bind (fun _ σ1 => .ok () σ1)
    | .ClassStmt name body =>
      .ok () (σ.register h.place (ClassDef.mk name (classFields body)
        (classMethods h.place env body []) env))
    | .TryStmt body catchVar catchBody =>
      (match execBlock h fuel body (σ.newEnv [] env).1 (σ.newEnv [] env).2 with
       | .ok _ σ1 => .ok () σ1
       | .exc (.ReturnSignal v) σ1 => .exc (.ReturnSignal v) σ1
       | .exc .BreakSignal σ1 => .exc .BreakSignal σ1
       | .exc .ContinueSignal σ1 => .exc .ContinueSignal σ1
       | .exc (.ThrowSignal m) σ1 =>
         (execBlock h fuel catchBody
           (σ1.newEnv (objSet h.place [] catchVar (.str m)) env).1
           (σ1.newEnv (objSet h.place [] catchVar (.str m)) env).2).release σ1.envs.length
       | .exc (.error m) σ1 =>
         (execBlock h fuel catchBody
           (σ1.newEnv (objSet h.place [] catchVar (.str m)) env).1
           (σ1.newEnv (objSet h.place [] catchVar (.str m)) env).2).release σ1.envs.length
       | .timeout => .timeout
       | .outside => .outside : Res Unit).release σ.envs.length
    | .ThrowStmt value =>
      (evalExpr h fuel value env σ).bind (fun v σ1 =>
        match render fuel σ1.heap v with
        | some t => .exc (.ThrowSignal t) σ1
        | none => .timeout)
    | _ => .outside
termination_by structural fuel => fuel
/-- `Interpreter::execBlock`. -/
def execBlock (h : Host) : Nat → List Stmt → Nat → State → Res Unit
  | 0, _, _, _ => .timeout
  | _ + 1, [], _, σ => .ok () σ
  | fuel + 1, s :: r, env, σ =>
    (execStmt h fuel s env σ).bind (fun _ σ1 => execBlock h fuel r env σ1)
termination_by structural fuel => fuel
/-- The loop of `WhileStmt`: a fresh child environment for every iteration,
destroyed at the end of the iteration. -/
def whileLoop (h : Host) : Nat → Expr → List Stmt → Nat → State → Res Unit
  | 0, _, _, _, _ => .timeout
  | fuel + 1, cond, body, env, σ =>
    (evalExpr h fuel cond env σ).bind (fun c σ1 =>
      if c.isTruthy then
        match (execBlock h fuel body (σ1.newEnv [] env).1 (σ1.newEnv [] env).2).release
            σ1.envs.length with
        | .ok _ σ2 => whileLoop h fuel cond body env σ2
        | .exc .BreakSignal σ2 => .ok () σ2
        | .exc .ContinueSignal σ2 => whileLoop h fuel cond body env σ2
        | .exc s σ2 => .exc s σ2
        | .timeout => .timeout
        | .outside => .outside
      else .ok () σ1)
termination_by structural fuel => fuel
/-- The loop of `ForStmt` over the copied elements: a fresh child environment
that binds the variable for every iteration, destroyed at the end of the
iteration. -/
def forLoop (h : Host) : Nat → Str → List Val → List Stmt → Nat → State → Res Unit
  | 0, _, _, _, _, _ => .timeout
  | _ + 1, _, [], _, _, σ => .ok () σ
  | fuel + 1, var, item :: rest, body, env, σ =>
    match (execBlock h fuel body
        (σ.newEnv (objSet h.place [] var item) env).1
        (σ.newEnv (objSet h.place [] var item) env).2).release σ.envs.length with
    | .ok _ σ1 => forLoop h fuel var rest body env σ1
    | .exc .BreakSignal σ1 => .ok () σ1
    | .exc .ContinueSignal σ1 => forLoop h fuel var rest body env σ1
    | .exc s σ1 => .exc s σ1
    | .timeout => .timeout
    | .outside => .outside
termination_by structural fuel => fuel
end

/-- `Interpreter::run` on a program, from the state `σ` whose environment 0
is the global one. -/
def run (h : Host) (fuel : Nat) (program : List Stmt) (σ : State) : Res Unit :=
  execBlock h fuel program 0 σ

/-- The state of an interpreter without standard library: the empty global
environment, which exists. -/
def State.initial : State := ⟨[], [⟨[], none⟩], [], [], [0]⟩

/-- A host that places fresh keys in front and finds no expression in any
brace fragment. -/
def Host.plain : Host := ⟨fun _ _ => 0, fun _ => .other⟩

/-- The class marker of the dictionary at `r` in the state that a run ends in. -/
def markerAfter (res : Res Unit) (r : Nat) : Option Val :=
  match res with
  | .ok _ σ => classMarker σ r
  | _ => none

/-- The lines that a run has written when it ends normally. -/
def outputOf (res : Res Unit) : Option (List Str) :=
  match res with
  | .ok _ σ => some σ.out
  | _ => none

end Ironwood

namespace Ironwood

/-! ## Tokens and the lexer -/

/-- The token types `enum class TT`. -/
inductive TT where
  | NUMBER | STRING | IDENT
  | TRUE_KW | FALSE_KW | NULL_KW
  | LET | SET | FUNCTION | RETURN
  | IF | ELSE | WHILE | FOR | EACH | IN_KW | BREAK | CONTINUE
  | GET | AS | CALL | ASK | SAY | PAUSE | END
  | AND | OR | NOT
  | ADD | TO | LENGTH | OF | ITEM | KEEP | ITEMS | WHERE
  | CLASS | NEW_KW | SELF_KW
  | TRY | CATCH | THROW
  | HAS | KEYS | VALUES
  | FILE_KW | READ_KW | WRITE_KW | APPEND_KW
  | SPLIT_KW | BY | JOIN_KW | WITH | TRIM_KW
  | REPLACE_KW | INDEX_KW | UPPER_KW | LOWER_KW | CHARS_KW | FROM
  | TYPE_KW | THEN | SORT_KW | JSON_KW | PARSE_KW
  | FETCH_KW | RUN_KW
  | PLUS | MINUS | STAR | SLASH | PERCENT
  | EQ | NEQ | LT | GT | LEQ | GEQ | ASSIGN
  | LPAREN | RPAREN | LBRACKET | RBRACKET | LBRACE | RBRACE
  | COMMA | DOT | COLON | NEWLINE | EOF_T
  deriving DecidableEq

/-- `struct Token`. -/
structure Token where
  type : TT
  val : Str
  line : Nat

/-- The keyword table `Lexer::kw`. -/
def kw : List (Str × TT) :=
  [ ("let".toList, .LET), ("set".toList, .SET), ("function".toList, .FUNCTION),
    ("return".toList, .RETURN), ("if".toList, .IF), ("else".toList, .ELSE),
    ("while".toList, .WHILE), ("for".toList, .FOR), ("each".toList, .EACH),
    ("in".toList, .IN_KW), ("break".toList, .BREAK), ("continue".toList, .CONTINUE),
    ("get".toList, .GET), ("as".toList, .AS), ("call".toList, .CALL), ("ask".toList, .ASK),
    ("say".toList, .SAY), ("pause".toList, .PAUSE), ("end".toList, .END),
    ("true".toList, .TRUE_KW), ("false".toList, .FALSE_KW), ("null".toList, .NULL_KW),
    ("and".toList, .AND), ("or".toList, .OR), ("not".toList, .NOT),
    ("add".toList, .ADD), ("to".toList, .TO), ("length".toList, .LENGTH), ("of".toList, .OF),
    ("item".toList, .ITEM), ("keep".toList, .KEEP), ("items".toList, .ITEMS),
    ("where".toList, .WHERE),
    ("class".toList, .CLASS), ("new".toList, .NEW_KW), ("self".toList, .SELF_KW),
    ("try".toList, .TRY), ("catch".toList, .CATCH), ("throw".toList, .THROW),
    ("has".toList, .HAS), ("keys".toList, .KEYS), ("values".toList, .VALUES),
    ("file".toList, .FILE_KW), ("read".toList, .READ_KW), ("write".toList, .WRITE_KW),
    ("append".toList, .APPEND_KW),
    ("split".toList, .SPLIT_KW), ("by".toList, .BY), ("join".toList, .JOIN_KW),
    ("with".toList, .WITH), ("trim".toList, .TRIM_KW),
    ("replace".toList, .REPLACE_KW), ("index".toList, .INDEX_KW), ("uppercase".toList, .UPPER_KW),
    ("lowercase".toList, .LOWER_KW), ("chars".toList, .CHARS_KW), ("from".toList, .FROM),
    ("type".toList, .TYPE_KW), ("then".toList, .THEN), ("sort".toList, .SORT_KW),
    ("json".toList, .JSON_KW), ("parse".toList, .PARSE_KW),
    ("fetch".toList, .FETCH_KW), ("run".toList, .RUN_KW) ]

/-- `std::isdigit` in the C locale. -/
def isdigit (c : Char) : Bool := decide (48 ≤ c.toNat) && decide (c.toNat ≤ 57)

/-- `std::isalpha` in the C locale. -/
def isalpha (c : Char) : Bool :=
  (decide (65 ≤ c.toNat) && decide (c.toNat ≤ 90)) || (decide (97 ≤ c.toNat) && decide (c.toNat ≤ 122))

/-- `std::isalnum` in the C locale. -/
def isalnum (c : Char) : Bool := isalpha c || isdigit c

/-- `std::isspace` in the C locale: the space and the characters 9 to 13. -/
def isspace (c : Char) : Bool :=
  decide (c.toNat = 32) || (decide (9 ≤ c.toNat) && decide (c.toNat ≤ 13))

/-- `Lexer::skipComment`: the text from the next line feed on. -/
def skipComment (s : Str) : Str := s.dropWhile (fun c => c != newline)

/-- `Lexer::makeStr` on the text after the opening quote: the characters of
the string and the text after the closing quote.  After a backslash at the
very end of the source the terminating zero of the `std::string` is read. -/
def makeStr : Str → Str × Str
  | [] => ([], [])
  | c :: r =>
    if c = dquote then ([], r)
    else if c = backslash then
      match r with
      | [] => ([Char.ofNat 0], [])
      | d :: r2 =>
        ((if d = 'n' then newline else if d = 't' then tab else d) :: (makeStr r2).1, (makeStr r2).2)
    else (c :: (makeStr r).1, (makeStr r).2)

/-- The character test of the loop of `Lexer::makeNum`. -/
def isNumberChar (c : Char) : Bool := isdigit c || c == '.'

/-- The character test of the loop of `Lexer::makeIdent`. -/
def isIdentChar (c : Char) : Bool := isalnum c || c == '_'

/-- The token of a word: `it!=kw.end()?Token(it->second,s,line):Token(TT::IDENT,s,line)`. -/
def wordToken (s : Str) (line : Nat) : Token :=
  match objFind kw s with
  | some t => ⟨t, s, line⟩
  | none => ⟨.IDENT, s, line⟩

/-- The cases of the `switch` of `Lexer::tokenize` that do not look at the
next character. -/
def punct (c : Char) : Option TT :=
  if c = '+' then some .PLUS
  else if c = '-' then some .MINUS
  else if c = '*' then some .STAR
  else if c = '/' then some .SLASH
  else if c = '%' then some .PERCENT
  else if c = '(' then some .LPAREN
  else if c = ')' then some .RPAREN
  else if c = '[' then some .LBRACKET
  else if c = ']' then some .RBRACKET
  else if c = lbrace then some .LBRACE
  else if c = rbrace then some .RBRACE
  else if c = ',' then some .COMMA
  else if c = '.' then some .DOT
  else if c = ':' then some .COLON
  else none

/-- The token that `emitNL` pushes when the last token was not a newline. -/
def emitNL (lastNL : Bool) (line : Nat) : List Token :=
  if lastNL then [] else [⟨.NEWLINE, [newline], line⟩]

/-- The loop of `Lexer::tokenize` on the text from `pos` on, with the flag
`lastNL` and the line counter; the fuel bounds the number of rounds. -/
def lexLoop : Nat → Str → Bool → Nat → Option (List Token)
  | _, [], lastNL, line => some (emitNL lastNL line ++ [⟨.EOF_T, [], line⟩])
  | 0, _ :: _, _, _ => none
  | fuel + 1, c :: r, lastNL, line =>
    if c = ';' then lexLoop fuel (skipComment r) lastNL line
    else if c = newline then (lexLoop fuel r true (line + 1)).map (fun ts => emitNL lastNL (line + 1) ++ ts)
    else if isspace c then lexLoop fuel r lastNL line
    else if c = dquote then
      (lexLoop fuel (makeStr r).2 false line).map (fun ts => ⟨.STRING, (makeStr r).1, line⟩ :: ts)
    else if isdigit c || (c == '-' && isdigit (r.headD (Char.ofNat 0))) then
      (lexLoop fuel (r.dropWhile isNumberChar) false line).map
        (fun ts => ⟨.NUMBER, c :: r.takeWhile isNumberChar, line⟩ :: ts)
    else if isalpha c || c == '_' then
      (lexLoop fuel (r.dropWhile isIdentChar) false line).map
        (fun ts => wordToken (c :: r.takeWhile isIdentChar) line :: ts)
    else
      match punct c with
      | some t => (lexLoop fuel r false line).map (fun ts => ⟨t, [c], line⟩ :: ts)
      | none =>
        if c = '=' then
          (if r.headD (Char.ofNat 0) = '=' then
            (lexLoop fuel (r.drop 1) false line).map (fun ts => ⟨.EQ, "==".toList, line⟩ :: ts)
          else (lexLoop fuel r false line).map (fun ts => ⟨.ASSIGN, "=".toList, line⟩ :: ts))
        else if c = '!' then
          (if r.headD (Char.ofNat 0) = '=' then
            (lexLoop fuel (r.drop 1) false line).map (fun ts => ⟨.NEQ, "!=".toList, line⟩ :: ts)
          else lexLoop fuel r false line)
        else if c = '<' then
          (if r.headD (Char.ofNat 0) = '=' then
            (lexLoop fuel (r.drop 1) false line).map (fun ts => ⟨.LEQ, "<=".toList, line⟩ :: ts)
          else (lexLoop fuel r false line).map (fun ts => ⟨.LT, "<".toList, line⟩ :: ts))
        else if c = '>' then
          (if r.headD (Char.ofNat 0) = '=' then
            (lexLoop fuel (r.drop 1) false line).map (fun ts => ⟨.GEQ, ">=".toList, line⟩ :: ts)
          else (lexLoop fuel r false line).map (fun ts => ⟨.GT, ">".toList, line⟩ :: ts))
        else lexLoop fuel r false line

/-- `Lexer::tokenize`.  Every round of the loop consumes a character, so the
length of the source is fuel enough. -/
def tokenize (src : Str) : Option (List Token) := lexLoop src.length src true 1

/-! ## The parser -/

/-- Result of a parser function: the value and the tokens that remain, the
`std::runtime_error` of a syntax error, or the fuel ran out. -/
inductive PRes (α : Type) where
  | ok (a : α) (rest : List Token)
  | err (what : Str)
  | timeout

/-- Sequencing of parser functions. -/
def PRes.bind {α β : Type} (r : PRes α) (k : α → List Token → PRes β) : PRes β :=
  match r with
  | .ok a ts => k a ts
  | .err w => .err w
  | .timeout => .timeout

/-- `Parser::peek`: the token `off` places ahead, the last token beyond the
end.  The parser never consumes the final `EOF_T`, so the list of the
remaining tokens is never empty. -/
def peekTok (ts : List Token) (off : Nat) : Token :=
  match ts.drop off with
  | t :: _ => t
  | [] => ts.getLast?.getD ⟨.EOF_T, [], 1⟩

/-- `Parser::check`. -/
def check (ts : List Token) (t : TT) (off : Nat) : Bool := decide ((peekTok ts off).type = t)

/-- The message of `expect` and `expectName`. -/
def expectMsg (ts : List Token) (msg : Str) : Str :=
  "Line ".toList ++ natToString (peekTok ts 0).line ++ ": ".toList ++ msg ++ " (got '".toList
    ++ (peekTok ts 0).val ++ "')".toList

/-- `Parser::expect`. -/
def expect (ts : List Token) (t : TT) (msg : Str) : PRes Token :=
  if check ts t 0 then .ok (peekTok ts 0) (ts.drop 1) else .err (expectMsg ts msg)

/-- The token types of `Parser::isName`. -/
def nameTypes : List TT :=
  [ .IDENT, .ITEM, .ADD, .TO, .LENGTH, .OF, .KEEP, .ITEMS, .WHERE, .EACH, .HAS, .KEYS, .VALUES,
    .SELF_KW, .FILE_KW, .READ_KW, .WRITE_KW, .APPEND_KW, .SPLIT_KW, .BY, .JOIN_KW, .WITH,
    .TRIM_KW, .REPLACE_KW, .INDEX_KW, .UPPER_KW, .LOWER_KW, .CHARS_KW, .FROM, .TYPE_KW, .THEN,
    .SORT_KW, .JSON_KW, .PARSE_KW, .FETCH_KW, .RUN_KW ]

/-- `Parser::isName`. -/
def isName (ts : List Token) : Bool := nameTypes.contains (peekTok ts 0).type

/-- `Parser::expectName`. -/
def expectName (ts : List Token) (msg : Str) : PRes Token :=
  if isName ts then .ok (peekTok ts 0) (ts.drop 1) else .err (expectMsg ts msg)

/-- `Parser::skipNL`. -/
def skipNL (ts : List Token) : List Token := ts.dropWhile (fun t => decide (t.type = .NEWLINE))

/-- `Parser::expectNL`: one newline token is consumed when there is one. -/
def expectNL (ts : List Token) : List Token := if check ts .NEWLINE 0 then ts.drop 1 else ts

/-- The loop `while(match(TT::COMMA))params.push_back(expectName("Expected param").val)`. -/
def paramsLoop : Nat → List Token → PRes (List Str)
  | 0, _ => .timeout
  | fuel + 1, ts =>
    if check ts .COMMA 0 then
      (expectName (ts.drop 1) "Expected param".toList).bind (fun n ts1 =>
        (paramsLoop fuel ts1).bind (fun ns ts2 => .ok (n.val :: ns) ts2))
    else .ok [] ts

/-- The parameter list of a function, after the opening parenthesis and up to
the closing one, which stays. -/
def parseParams (ts : List Token) : PRes (List Str) :=
  if check ts .RPAREN 0 then .ok [] ts
  else
    (expectName ts "Expected param".toList).bind (fun n ts1 =>
      (paramsLoop (ts1.length + 1) ts1).bind (fun ns ts2 => .ok (n.val :: ns) ts2))

/-- The message of `parsePrimary` on a token that starts no expression. -/
def unexpectedMsg (ts : List Token) : Str :=
  "Line ".toList ++ natToString (peekTok ts 0).line ++ ": Unexpected token '".toList
    ++ (peekTok ts 0).val ++ "'".toList

mutual
/-- `Parser::parseExpr`. -/
def parseExpr : Nat → List Token → PRes Expr
  | 0, _ => .timeout
  | fuel + 1, ts => parseOr fuel ts
termination_by structural fuel => fuel
/-- `Parser::parseOr`. -/
def parseOr : Nat → List Token → PRes Expr
  | 0, _ => .timeout
  | fuel + 1, ts => (parseAnd fuel ts).bind (fun l ts1 => parseOrLoop fuel l ts1)
termination_by structural fuel => fuel
/-- The loop of `parseOr`. -/
def parseOrLoop : Nat → Expr → List Token → PRes Expr
  | 0, _, _ => .timeout
  | fuel + 1, l, ts =>
    if check ts .OR 0 then
      (parseAnd fuel (ts.drop 1)).bind (fun r ts1 => parseOrLoop fuel (.BinExpr "or".toList l r) ts1)
    else .ok l ts
termination_by structural fuel => fuel
/-- `Parser::parseAnd`. -/
def parseAnd : Nat → List Token → PRes Expr
  | 0, _ => .timeout
  | fuel + 1, ts => (parseEquality fuel ts).bind (fun l ts1 => parseAndLoop fuel l ts1)
termination_by structural fuel => fuel
/-- The loop of `parseAnd`. -/
def parseAndLoop : Nat → Expr → List Token → PRes Expr
  | 0, _, _ => .timeout
  | fuel + 1, l, ts =>
    if check ts .AND 0 then
      (parseEquality fuel (ts.drop 1)).bind (fun r ts1 =>
        parseAndLoop fuel (.BinExpr "and".toList l r) ts1)
    else .ok l ts
termination_by structural fuel => fuel
/-- `Parser::parseEquality`. -/
def parseEquality : Nat → List Token → PRes Expr
  | 0, _ => .timeout
  | fuel + 1, ts => (parseComparison fuel ts).bind (fun l ts1 => parseEqualityLoop fuel l ts1)
termination_by structural fuel => fuel
/-- The loop of `parseEquality`; the operator is the text of the token. -/
def parseEqualityLoop : Nat → Expr → List Token → PRes Expr
  | 0, _, _ => .timeout
  | fuel + 1, l, ts =>
    if check ts .EQ 0 || check ts .NEQ 0 then
      (parseComparison fuel (ts.drop 1)).bind (fun r ts1 =>
        parseEqualityLoop fuel (.BinExpr (peekTok ts 0).val l r) ts1)
    else .ok l ts
termination_by structural fuel => fuel
/-- `Parser::parseComparison`. -/
def parseComparison : Nat → List Token → PRes Expr
  | 0, _ => .timeout
  | fuel + 1, ts => (parseAddSub fuel ts).bind (fun l ts1 => parseComparisonLoop fuel l ts1)
termination_by structural fuel => fuel
/-- The loop of `parseComparison`. -/
def parseComparisonLoop : Nat → Expr → List Token → PRes Expr
  | 0, _, _ => .timeout
  | fuel + 1, l, ts =>
    if check ts .LT 0 || check ts .GT 0 || check ts .LEQ 0 || check ts .GEQ 0 then
      (parseAddSub fuel (ts.drop 1)).bind (fun r ts1 =>
        parseComparisonLoop fuel (.BinExpr (peekTok ts 0).val l r) ts1)
    else .ok l ts
termination_by structural fuel => fuel
/-- `Parser::parseAddSub`. -/
def parseAddSub : Nat → List Token → PRes Expr
  | 0, _ => .timeout
  | fuel + 1, ts => (parseMulDiv fuel ts).bind (fun l ts1 => parseAddSubLoop fuel l ts1)
termination_by structural fuel => fuel
/-- The loop of `parseAddSub`. -/
def parseAddSubLoop : Nat → Expr → List Token → PRes Expr
  | 0, _, _ => .timeout
  | fuel + 1, l, ts =>
    if check ts .PLUS 0 || check ts .MINUS 0 then
      (parseMulDiv fuel (ts.drop 1)).bind (fun r ts1 =>
        parseAddSubLoop fuel (.BinExpr (peekTok ts 0).val l r) ts1)
    else .ok l ts
termination_by structural fuel => fuel
/-- `Parser::parseMulDiv`. -/
def parseMulDiv : Nat → List Token → PRes Expr
  | 0, _ => .timeout
  | fuel + 1, ts => (parseUnary fuel ts).bind (fun l ts1 => parseMulDivLoop fuel l ts1)
termination_by structural fuel => fuel
/-- The loop of `parseMulDiv`. -/
def parseMulDivLoop : Nat → Expr → List Token → PRes Expr
  | 0, _, _ => .timeout
  | fuel + 1, l, ts =>
    if check ts .STAR 0 || check ts .SLASH 0 || check ts .PERCENT 0 then
      (parseUnary fuel (ts.drop 1)).bind (fun r ts1 =>
        parseMulDivLoop fuel (.BinExpr (peekTok ts 0).val l r) ts1)
    else .ok l ts
termination_by structural fuel => fuel
/-- `Parser::parseUnary`. -/
def parseUnary : Nat → List Token → PRes Expr
  | 0, _ => .timeout
  | fuel + 1, ts =>
    if check ts .MINUS 0 then
      (parsePostfix fuel (ts.drop 1)).bind (fun e ts1 => .ok (.UnaryExpr "-".toList e) ts1)
    else if check ts .NOT 0 then
      (parsePostfix fuel (ts.drop 1)).bind (fun e ts1 => .ok (.UnaryExpr "not".toList e) ts1)
    else parsePostfix fuel ts
termination_by structural fuel => fuel
/-- `Parser::parsePostfix`. -/
def parsePostfix : Nat → List Token → PRes Expr
  | 0, _ => .timeout
  | fuel + 1, ts => (parsePrimary fuel ts).bind (fun e ts1 => parsePostfixLoop fuel e ts1)
termination_by structural fuel => fuel
/-- The loop of `parsePostfix`: members, method calls, indices and calls. -/
def parsePostfixLoop : Nat → Expr → List Token → PRes Expr
  | 0, _, _ => .timeout
  | fuel + 1, e, ts =>
    if check ts .DOT 0 then
      (expect (ts.drop 1) .IDENT "Expected field name after '.'".toList).bind (fun name ts1 =>
        if check ts1 .LPAREN 0 then
          (parseArgs fuel (ts1.drop 1)).bind (fun args ts2 =>
            (expect ts2 .RPAREN "Expected ')'".toList).bind (fun _ ts3 =>
              parsePostfixLoop fuel (.CallExpr (.MemberExpr e name.val) args) ts3))
        else parsePostfixLoop fuel (.MemberExpr e name.val) ts1)
    else if check ts .LBRACKET 0 then
      (parseExpr fuel (ts.drop 1)).bind (fun idx ts1 =>
        (expect ts1 .RBRACKET "Expected ']'".toList).bind (fun _ ts2 =>
          parsePostfixLoop fuel (.IndexExpr e idx) ts2))
    else if check ts .LPAREN 0 then
      (parseArgs fuel (ts.drop 1)).bind (fun args ts1 =>
        (expect ts1 .RPAREN "Expected ')'".toList).bind (fun _ ts2 =>
          parsePostfixLoop fuel (.CallExpr e args) ts2))
    else .ok e ts
termination_by structural fuel => fuel
/-- The arguments of a call, after the opening parenthesis and up to the
closing one, which stays:
`if(!check(TT::RPAREN))(args.push_back(parseExpr());while(match(TT::COMMA))args.push_back(parseExpr());)`. -/
def parseArgs : Nat → List Token → PRes (List Expr)
  | 0, _ => .timeout
  | fuel + 1, ts =>
    if check ts .RPAREN 0 then .ok [] ts
    else
      (parseExpr fuel ts).bind (fun e ts1 =>
        (parseExprsLoop fuel false ts1).bind (fun es ts2 => .ok (e :: es) ts2))
termination_by structural fuel => fuel
/-- The loop `while(match(TT::COMMA))` of an argument or element list; in an
array literal (`nl`) newlines are skipped after the comma. -/
def parseExprsLoop : Nat → Bool → List Token → PRes (List Expr)
  | 0, _, _ => .timeout
  | fuel + 1, nl, ts =>
    if check ts .COMMA 0 then
      (parseExpr fuel (if nl then skipNL (ts.drop 1) else ts.drop 1)).bind (fun e ts1 =>
        (parseExprsLoop fuel nl ts1).bind (fun es ts2 => .ok (e :: es) ts2))
    else .ok [] ts
termination_by structural fuel => fuel
/-- The loop `while(match(TT::COMMA))` of an object literal. -/
def parsePairsLoop : Nat → List Token → PRes (List (Str × Expr))
  | 0, _ => .timeout
  | fuel + 1, ts =>
    if check ts .COMMA 0 then
      (expect (skipNL (ts.drop 1)) .IDENT "Expected key".toList).bind (fun k ts1 =>
        (expect ts1 .COLON "Expected ':'".toList).bind (fun _ ts2 =>
          (parseExpr fuel ts2).bind (fun v ts3 =>
            (parsePairsLoop fuel ts3).bind (fun ps ts4 => .ok ((k.val, v) :: ps) ts4))))
    else .ok [] ts
termination_by structural fuel => fuel
/-- `Parser::parsePrimary`. -/
def parsePrimary : Nat → List Token → PRes Expr
  | 0, _ => .timeout
  | fuel + 1, ts =>
    if check ts .LENGTH 0 && check ts .OF 1 then
      (parsePostfix fuel (ts.drop 2)).bind (fun e ts1 => .ok (.LengthOfExpr e) ts1)
    else if check ts .ITEM 0 then
      (if (check ts .NUMBER 1 || check ts .IDENT 1) && check ts .OF 2 then
        (parseAddSub fuel (ts.drop 1)).bind (fun idx ts1 =>
          (expect ts1 .OF "Expected 'of' after item number".toList).bind (fun _ ts2 =>
            (parsePostfix fuel ts2).bind (fun a ts3 => .ok (.ItemOfExpr idx a) ts3)))
      else .ok (.VarExpr (peekTok ts 0).val) (ts.drop 1))
    else if check ts .KEEP 0 then
      (expect (ts.drop 1) .ITEMS "Expected 'items' after 'keep'".toList).bind (fun _ ts1 =>
        (expect ts1 .IN_KW "Expected 'in' after 'items'".toList).bind (fun _ ts2 =>
          (parsePostfix fuel ts2).bind (fun a ts3 =>
            (expect ts3 .WHERE "Expected 'where'".toList).bind (fun _ ts4 =>
              (parsePostfix fuel ts4).bind (fun f ts5 => .ok (.KeepWhereExpr a f) ts5)))))
    else if check ts .KEYS 0 then
      (expect (ts.drop 1) .OF "Expected 'of' after 'keys'".toList).bind (fun _ ts1 =>
        (parsePostfix fuel ts1).bind (fun d ts2 => .ok (.KeysOfExpr d) ts2))
    else if check ts .VALUES 0 then
      (expect (ts.drop 1) .OF "Expected 'of' after 'values'".toList).bind (fun _ ts1 =>
        (parsePostfix fuel ts1).bind (fun d ts2 => .ok (.ValuesOfExpr d) ts2))
    else if check ts .HAS 0 then
      (parseAddSub fuel (ts.drop 1)).bind (fun item ts1 =>
        (expect ts1 .IN_KW "Expected 'in' after value  (usage: has x in myList)".toList).bind
          (fun _ ts2 => (parsePostfix fuel ts2).bind (fun c ts3 => .ok (.HasExpr item c) ts3)))
    else if check ts .READ_KW 0 && check ts .FILE_KW 1 then
      (parsePostfix fuel (ts.drop 2)).bind (fun p ts1 => .ok (.ReadFileExpr p) ts1)
    else if check ts .FILE_KW 0 && decide ((peekTok ts 1).val = "exists".toList) then
      (parsePostfix fuel (ts.drop 2)).bind (fun p ts1 => .ok (.FileExistsExpr p) ts1)
    else if check ts .IDENT 0 && decide ((peekTok ts 0).val = "lines".toList) && check ts .OF 1
        && check ts .FILE_KW 2 then
      (parsePostfix fuel (ts.drop 3)).bind (fun p ts1 => .ok (.LinesOfFileExpr p) ts1)
    else if check ts .FUNCTION 0 && check ts .LPAREN 1 then
      (expect (ts.drop 1) .LPAREN "Expected '('".toList).bind (fun _ ts1 =>
        (parseParams ts1).bind (fun params ts2 =>
          (expect ts2 .RPAREN "Expected ')'".toList).bind (fun _ ts3 =>
            (parseBlock fuel [.END] (expectNL ts3)).bind (fun body ts4 =>
              (expect ts4 .END "Expected 'end' after function".toList).bind (fun _ ts5 =>
                .ok (.FuncExpr params body) ts5)))))
    else if check ts .IF 0 then
      (parseOr fuel (ts.drop 1)).bind (fun c ts1 =>
        (expect ts1 .THEN "Expected 'then' in ternary  (usage: if cond then a else b)".toList).bind
          (fun _ ts2 =>
            (parseOr fuel ts2).bind (fun t ts3 =>
              (expect ts3 .ELSE "Expected 'else' in ternary".toList).bind (fun _ ts4 =>
                (parseOr fuel ts4).bind (fun e ts5 => .ok (.TernaryExpr c t e) ts5)))))
    else if check ts .SPLIT_KW 0 then
      (parseAddSub fuel (ts.drop 1)).bind (fun s ts1 =>
        (expect ts1 .BY "Expected 'by' after string  (usage: split str by sep)".toList).bind
          (fun _ ts2 => (parseAddSub fuel ts2).bind (fun sep ts3 => .ok (.SplitExpr s sep) ts3)))
    else if check ts .JOIN_KW 0 then
      (parseAddSub fuel (ts.drop 1)).bind (fun a ts1 =>
        (expect ts1 .WITH "Expected 'with' after list  (usage: join list with sep)".toList).bind
          (fun _ ts2 => (parseAddSub fuel ts2).bind (fun sep ts3 => .ok (.JoinExpr a sep) ts3)))
    else if check ts .TRIM_KW 0 then
      (parsePostfix fuel (ts.drop 1)).bind (fun s ts1 => .ok (.TrimExpr s) ts1)
    else if check ts .REPLACE_KW 0 then
      (parseAddSub fuel (ts.drop 1)).bind (fun src ts1 =>
        (expect ts1 .WITH "Expected 'with'  (usage: replace x with y in str)".toList).bind
          (fun _ ts2 =>
            (parseAddSub fuel ts2).bind (fun dst ts3 =>
              (expect ts3 .IN_KW "Expected 'in'".toList).bind (fun _ ts4 =>
                (parseAddSub fuel ts4).bind (fun s ts5 => .ok (.ReplaceExpr s src dst) ts5)))))
    else if check ts .INDEX_KW 0 && check ts .OF 1 then
      (parseAddSub fuel (ts.drop 2)).bind (fun sub ts1 =>
        (expect ts1 .IN_KW "Expected 'in'  (usage: index of sub in str)".toList).bind
          (fun _ ts2 => (parseAddSub fuel ts2).bind (fun s ts3 => .ok (.IndexOfExpr sub s) ts3)))
    else if check ts .UPPER_KW 0 then
      (parsePostfix fuel (ts.drop 1)).bind (fun s ts1 => .ok (.UpperExpr s) ts1)
    else if check ts .LOWER_KW 0 then
      (parsePostfix fuel (ts.drop 1)).bind (fun s ts1 => .ok (.LowerExpr s) ts1)
    else if check ts .CHARS_KW 0 then
      (parseAddSub fuel (ts.drop 1)).bind (fun lo ts1 =>
        (expect ts1 .TO "Expected 'to'  (usage: chars i to j of str)".toList).bind (fun _ ts2 =>
          (parseAddSub fuel ts2).bind (fun hi ts3 =>
            (expect ts3 .OF "Expected 'of'".toList).bind (fun _ ts4 =>
              (parsePostfix fuel ts4).bind (fun s ts5 => .ok (.SubstrExpr s lo hi) ts5)))))
    else if check ts .TYPE_KW 0 && check ts .OF 1 then
      (parsePostfix fuel (ts.drop 2)).bind (fun v ts1 => .ok (.TypeOfExpr v) ts1)
    else if check ts .SORT_KW 0 then
      (parsePostfix fuel (ts.drop 1)).bind (fun a ts1 =>
        if !check ts1 .BY 0 then .ok (.SortExpr a none) ts1
        else if isName (ts1.drop 1) && !check (ts1.drop 1) .FUNCTION 0 then
          .ok (.SortExpr a (some (.StringLit (peekTok (ts1.drop 1) 0).val))) (ts1.drop 2)
        else (parsePostfix fuel (ts1.drop 1)).bind (fun k ts2 => .ok (.SortExpr a (some k)) ts2))
    else if check ts .PARSE_KW 0 && check ts .JSON_KW 1 then
      (parsePostfix fuel (ts.drop 2)).bind (fun s ts1 => .ok (.ParseJsonExpr s) ts1)
    else if check ts .JSON_KW 0 && check ts .OF 1 then
      (parsePostfix fuel (ts.drop 2)).bind (fun v ts1 => .ok (.JsonOfExpr v) ts1)
    else if check ts .FETCH_KW 0 then
      (parsePostfix fuel (ts.drop 1)).bind (fun url ts1 =>
        if check ts1 .WITH 0 then
          (parsePostfix fuel (ts1.drop 1)).bind (fun o ts2 => .ok (.FetchExpr url (some o)) ts2)
        else .ok (.FetchExpr url none) ts1)
    else if check ts .RUN_KW 0 then
      (parsePostfix fuel (ts.drop 1)).bind (fun c ts1 => .ok (.RunExpr c) ts1)
    else if check ts .NEW_KW 0 then
      (expectName (ts.drop 1) "Expected class name after 'new'".toList).bind (fun name ts1 =>
        if check ts1 .LPAREN 0 then
          (parseArgs fuel (ts1.drop 1)).bind (fun args ts2 =>
            (expect ts2 .RPAREN "Expected ')'".toList).bind (fun _ ts3 =>
              .ok (.ClassNewExpr name.val args) ts3))
        else .ok (.ClassNewExpr name.val []) ts1)
    else if check ts .SELF_KW 0 then .ok (.VarExpr "self".toList) (ts.drop 1)
    else if check ts .ASK 0 then
      (if !check (ts.drop 1) .NEWLINE 0 && !check (ts.drop 1) .EOF_T 0 then
        (parseAddSub fuel (ts.drop 1)).bind (fun p ts1 => .ok (.AskExpr p) ts1)
      else .ok (.AskExpr (.StringLit [])) (ts.drop 1))
    else if check ts .NUMBER 0 then
      (match stod (peekTok ts 0).val with
       | some q => .ok (.NumberLit q) (ts.drop 1)
       | none => .err "stod".toList)
    else if check ts .STRING 0 then .ok (.StringLit (peekTok ts 0).val) (ts.drop 1)
    else if check ts .TRUE_KW 0 then .ok (.BoolLit true) (ts.drop 1)
    else if check ts .FALSE_KW 0 then .ok (.BoolLit false) (ts.drop 1)
    else if check ts .NULL_KW 0 then .ok .NullLit (ts.drop 1)
    else if check ts .IDENT 0 then .ok (.VarExpr (peekTok ts 0).val) (ts.drop 1)
    else if check ts .LPAREN 0 then
      (parseExpr fuel (ts.drop 1)).bind (fun e ts1 =>
        (expect ts1 .RPAREN "Expected ')'".toList).bind (fun _ ts2 => .ok e ts2))
    else if check ts .LBRACKET 0 then
      (if check (skipNL (ts.drop 1)) .RBRACKET 0 then
        (expect (skipNL (skipNL (ts.drop 1))) .RBRACKET "Expected ']'".toList).bind (fun _ ts1 =>
          .ok (.ArrayLit []) ts1)
      else
        (parseExpr fuel (skipNL (ts.drop 1))).bind (fun e ts1 =>
          (parseExprsLoop fuel true ts1).bind (fun es ts2 =>
            (expect (skipNL ts2) .RBRACKET "Expected ']'".toList).bind (fun _ ts3 =>
              .ok (.ArrayLit (e :: es)) ts3))))
    else if check ts .LBRACE 0 then
      (if check (skipNL (ts.drop 1)) .RBRACE 0 then
        (expect (skipNL (skipNL (ts.drop 1))) .RBRACE "Expected '\x7d'".toList).bind (fun _ ts1 =>
          .ok (.ObjectLit []) ts1)
      else
        (expect (skipNL (ts.drop 1)) .IDENT "Expected key".toList).bind (fun k ts1 =>
          (expect ts1 .COLON "Expected ':'".toList).bind (fun _ ts2 =>
            (parseExpr fuel ts2).bind (fun v ts3 =>
              (parsePairsLoop fuel ts3).bind (fun ps ts4 =>
                (expect (skipNL ts4) .RBRACE "Expected '\x7d'".toList).bind (fun _ ts5 =>
                  .ok (.ObjectLit ((k.val, v) :: ps)) ts5))))))
    else .err (unexpectedMsg ts)
termination_by structural fuel => fuel
/-- `Parser::parseBlock`; `ends` are the token types on which the predicate
`end` holds. -/
def parseBlock : Nat → List TT → List Token → PRes (List Stmt)
  | 0, _, _ => .timeout
  | fuel + 1, ends, ts => parseBlockLoop fuel ends (skipNL ts)
termination_by structural fuel => fuel
/-- The loop `while(!end()&&!check(TT::EOF_T))(s.push_back(parseStmt());skipNL();)`. -/
def parseBlockLoop : Nat → List TT → List Token → PRes (List Stmt)
  | 0, _, _ => .timeout
  | fuel + 1, ends, ts =>
    if ends.contains (peekTok ts 0).type || check ts .EOF_T 0 then .ok [] ts
    else
      (parseStmt fuel ts).bind (fun s ts1 =>
        (parseBlockLoop fuel ends (skipNL ts1)).bind (fun ss ts2 => .ok (s :: ss) ts2))
termination_by structural fuel => fuel
/-- `Parser::parseStmt`. -/
def parseStmt : Nat → List Token → PRes Stmt
  | 0, _ => .timeout
  | fuel + 1, ts0 =>
    let ts := skipNL ts0
    let exprStmt : PRes Stmt :=
      (parseExpr fuel ts).bind (fun e ts1 => .ok (.ExprStmt e) (expectNL ts1))
    match (peekTok ts 0).type with
    | .LET =>
      (expectName (ts.drop 1) "Expected variable name".toList).bind (fun name ts1 =>
        if check ts1 .ASSIGN 0 then
          (parseExpr fuel (ts1.drop 1)).bind (fun init ts2 =>
            .ok (.LetStmt name.val init) (expectNL ts2))
        else .ok (.LetStmt name.val .NullLit) (expectNL ts1))
    | .SET =>
      (parsePostfix fuel (ts.drop 1)).bind (fun target ts1 =>
        (expect ts1 .ASSIGN "Expected '='".toList).bind (fun _ ts2 =>
          (parseExpr fuel ts2).bind (fun v ts3 => .ok (.SetStmt target v) (expectNL ts3))))
    | .ADD =>
      (parseExpr fuel (ts.drop 1)).bind (fun v ts1 =>
        (expect ts1 .TO "Expected 'to' after value  (usage: add x to myList)".toList).bind
          (fun _ ts2 =>
            (parsePostfix fuel ts2).bind (fun target ts3 =>
              .ok (.AddToStmt v target) (expectNL ts3))))
    | .SAY => (parseExpr fuel (ts.drop 1)).bind (fun e ts1 => .ok (.SayStmt e) (expectNL ts1))
    | .ASK =>
      (expectName (ts.drop 1) "Expected variable name".toList).bind (fun name ts1 =>
        if !check ts1 .NEWLINE 0 && !check ts1 .EOF_T 0 then
          (parseExpr fuel ts1).bind (fun p ts2 => .ok (.AskStmt name.val p) (expectNL ts2))
        else .ok (.AskStmt name.val (.StringLit [])) (expectNL ts1))
    | .PAUSE => .ok .PauseStmt (expectNL (ts.drop 1))
    | .IF =>
      (parseExpr fuel (ts.drop 1)).bind (fun cond ts1 =>
        (parseBlock fuel [.ELSE, .END] (expectNL ts1)).bind (fun thenBody ts2 =>
          if check ts2 .ELSE 0 then
            (parseBlock fuel [.END] (expectNL (ts2.drop 1))).bind (fun els ts3 =>
              (expect ts3 .END "Expected 'end' after if".toList).bind (fun _ ts4 =>
                .ok (.IfStmt cond thenBody els) (expectNL ts4)))
          else
            (expect ts2 .END "Expected 'end' after if".toList).bind (fun _ ts4 =>
              .ok (.IfStmt cond thenBody []) (expectNL ts4))))
    | .WHILE =>
      (parseExpr fuel (ts.drop 1)).bind (fun cond ts1 =>
        (parseBlock fuel [.END] (expectNL ts1)).bind (fun body ts2 =>
          (expect ts2 .END "Expected 'end' after while".toList).bind (fun _ ts3 =>
            .ok (.WhileStmt cond body) (expectNL ts3))))
    | .FOR =>
      (expectName (if check (ts.drop 1) .EACH 0 then ts.drop 2 else ts.drop 1)
          "Expected variable name".toList).bind (fun v ts1 =>
        (expect ts1 .IN_KW "Expected 'in'".toList).bind (fun _ ts2 =>
          (parseExpr fuel ts2).bind (fun iter ts3 =>
            (parseBlock fuel [.END] (expectNL ts3)).bind (fun body ts4 =>
              (expect ts4 .END "Expected 'end' after for".toList).bind (fun _ ts5 =>
                .ok (.ForStmt v.val iter body) (expectNL ts5))))))
    | .BREAK => .ok .BreakStmt (expectNL (ts.drop 1))
    | .CONTINUE => .ok .ContinueStmt (expectNL (ts.drop 1))
    | .RETURN =>
      if !check (ts.drop 1) .NEWLINE 0 && !check (ts.drop 1) .EOF_T 0 then
        (parseExpr fuel (ts.drop 1)).bind (fun v ts1 => .ok (.ReturnStmt v) (expectNL ts1))
      else .ok (.ReturnStmt .NullLit) (expectNL (ts.drop 1))
    | .FUNCTION =>
      if check ts .LPAREN 1 then exprStmt
      else
        (expectName (ts.drop 1) "Expected function name".toList).bind (fun name ts1 =>
          (expect ts1 .LPAREN "Expected '('".toList).bind (fun _ ts2 =>
            (parseParams ts2).bind (fun params ts3 =>
              (expect ts3 .RPAREN "Expected ')'".toList).bind (fun _ ts4 =>
                (parseBlock fuel [.END] (expectNL ts4)).bind (fun body ts5 =>
                  (expect ts5 .END "Expected 'end' after function".toList).bind (fun _ ts6 =>
                    .ok (.FuncStmt name.val params body) (expectNL ts6)))))))
    | .CALL => (parseExpr fuel (ts.drop 1)).bind (fun e ts1 => .ok (.CallStmt e) (expectNL ts1))
    | .GET =>
      (expect (ts.drop 1) .STRING "Expected module path".toList).bind (fun path ts1 =>
        (expect ts1 .AS "Expected 'as'".toList).bind (fun _ ts2 =>
          (expectName ts2 "Expected alias".toList).bind (fun a ts3 =>
            .ok (.GetStmt path.val a.val) (expectNL ts3))))
    | .CLASS =>
      (expectName (ts.drop 1) "Expected class name".toList).bind (fun name ts1 =>
        (parseBlock fuel [.END] (expectNL ts1)).bind (fun body ts2 =>
          (expect ts2 .END "Expected 'end' after class".toList).bind (fun _ ts3 =>
            .ok (.ClassStmt name.val body) (expectNL ts3))))
    | .TRY =>
      (parseBlock fuel [.CATCH] (expectNL (ts.drop 1))).bind (fun body ts1 =>
        (expect ts1 .CATCH "Expected 'catch' after try block".toList).bind (fun _ ts2 =>
          (expectName ts2 "Expected error variable name after 'catch'".toList).bind (fun v ts3 =>
            (parseBlock fuel [.END] (expectNL ts3)).bind (fun catchBody ts4 =>
              (expect ts4 .END "Expected 'end' after catch".toList).bind (fun _ ts5 =>
                .ok (.TryStmt body v.val catchBody) (expectNL ts5))))))
    | .THROW =>
      (parseExpr fuel (ts.drop 1)).bind (fun v ts1 => .ok (.ThrowStmt v) (expectNL ts1))
    | .WRITE_KW =>
      (parseExpr fuel (ts.drop 1)).bind (fun content ts1 =>
        (expect ts1 .TO "Expected 'to' after content  (usage: write \"text\" to file \"name.txt\")".toList).bind
          (fun _ ts2 =>
            (expect ts2 .FILE_KW "Expected 'file' after 'to'".toList).bind (fun _ ts3 =>
              (parseExpr fuel ts3).bind (fun path ts4 =>
                .ok (.WriteFileStmt content path) (expectNL ts4)))))
    | .APPEND_KW =>
      (parseExpr fuel (ts.drop 1)).bind (fun content ts1 =>
        (expect ts1 .TO "Expected 'to' after content  (usage: append \"text\" to file \"name.txt\")".toList).bind
          (fun _ ts2 =>
            (expect ts2 .FILE_KW "Expected 'file' after 'to'".toList).bind (fun _ ts3 =>
              (parseExpr fuel ts3).bind (fun path ts4 =>
                .ok (.AppendFileStmt content path) (expectNL ts4)))))
    | _ => exprStmt
termination_by structural fuel => fuel
end

/-- `Parser::parse`: `skipNL();while(!check(TT::EOF_T))(p.push_back(parseStmt());skipNL();)`,
the block loop with no closing token. -/
def parseProgram (fuel : Nat) (ts : List Token) : PRes (List Stmt) :=
  parseBlockLoop fuel [] (skipNL ts)

/-- The statements that the lexer and parser make of a source text, with
fuel in proportion to the number of tokens. -/
def parseSource (src : Str) : PRes (List Stmt) :=
  match tokenize src with
  | some toks => parseProgram (16 * toks.length + 16) toks
  | none => .timeout

/-- The lexer and parser on a brace fragment of a string literal:
`if(!stmts.empty())if(auto*es=std::get_if<ExprStmt>(&stmts[0]->node))`. -/
def fragmentOf (inner : Str) : Fragment :=
  match parseSource inner with
  | .ok (.ExprStmt e :: _) _ => .expr e
  | .ok _ _ => .other
  | .err w => .syntaxError w
  | .timeout => .timeout

/-- The host of the interpreter itself: brace fragments go through the lexer
and the parser. -/
def Host.std (pl : Placement) : Host := ⟨pl, fragmentOf⟩

/-! ## The driver -/

/-- The dictionary `math` of `registerGlobals`. -/
def mathObject (pl : Placement) : List (Str × Val) :=
  objSet pl (objSet pl (objSet pl (objSet pl (objSet pl (objSet pl []
    "abs".toList (.native (.builtin "math.abs".toList)))
    "floor".toList (.native (.builtin "math.floor".toList)))
    "ceil".toList (.native (.builtin "math.ceil".toList)))
    "sqrt".toList (.native (.builtin "math.sqrt".toList)))
    "random".toList (.native (.builtin "math.random".toList)))
    "pow".toList (.native (.builtin "math.pow".toList))

/-- The state after `Interpreter::registerGlobals`: the list `args` is stored
at 0, the dictionary `math` at 1, and the global environment is number 0. -/
def registerGlobals (pl : Placement) (userArgs : List Str) : State :=
  ⟨[.arr (userArgs.map Val.str), .obj (mathObject pl)],
   [⟨objSet pl (objSet pl (objSet pl (objSet pl (objSet pl (objSet pl []
      "parseInt".toList (.native (.builtin "parseInt".toList)))
      "parseFloat".toList (.native (.builtin "parseFloat".toList)))
      "toString".toList (.native (.builtin "toString".toList)))
      "len".toList (.native (.builtin "len".toList)))
      "args".toList (.arr 0))
      "math".toList (.obj 1), none⟩],
   [], [], [0]⟩

/-- How the process ends. -/
inductive Exit where
  /-- `main` returns `code`; `out` are the lines written to standard output
  and `err` is the text written to standard error -/
  | code (code : Nat) (out : List Str) (err : Str)
  /-- an exception that is not a `std::exception` leaves `main`:
  `std::terminate` ends the process, which returns nothing from `main` -/
  | terminate (out : List Str)
  /-- the fuel ran out -/
  | timeout
  /-- behaviour that the model does not cover -/
  | outside
  deriving DecidableEq

/-- The text that the handler of `main` writes to standard error. -/
def errorReport (what : Str) : Str :=
  [newline] ++ "--- Ironwood Error ---".toList ++ [newline] ++ what ++ [newline]

/-- The `try` block of `main` and its handler `catch(const std::exception&e)`,
on the text of the source file that was opened. -/
def main (pl : Placement) (fuel : Nat) (source : Str) (userArgs : List Str) : Exit :=
  match parseSource source with
  | .err w => .code 1 [] (errorReport w)
  | .timeout => .timeout
  | .ok program _ =>
    match run (Host.std pl) fuel program (registerGlobals pl userArgs) with
    | .ok _ σ => .code 0 σ.out []
    | .exc (.error w) σ => .code 1 σ.out (errorReport w)
    | .exc _ σ => .terminate σ.out
    | .timeout => .timeout
    | .outside => .outside

/-! ## The scope chain -/

/-- The environments of the parent chain of `env`, the nearest first, over at
most `depth` environments. -/
def envChain (envs : List Env) : Nat → Nat → List Nat
  | 0, _ => []
  | depth + 1, env =>
    match envs[env]? with
    | none => []
    | some e =>
      env :: (match e.parent with
        | some p => envChain envs depth p
        | none => [])

/-- The binding of the name `n` in the environment `i` itself: `vars.find(n)`. -/
def bindingIn (envs : List Env) (i : Nat) (n : Str) : Option Val :=
  match envs[i]? with
  | some e => objFind e.vars n
  | none => none

/-- The environment `i` itself defines the name `n`: `vars.find(n)!=vars.end()`. -/
def definesName (envs : List Env) (n : Str) (i : Nat) : Bool := (bindingIn envs i n).isSome

/-- The parent of every environment was created before the environment, as
it is in every state that the interpreter reaches (`Env::parent` is set when
the environment is created and never changed). -/
def State.parentsOlder (σ : State) : Prop :=
  ∀ (i : Nat) (e : Env) (p : Nat), σ.envs[i]? = some e → e.parent = some p → p < i

/-- The names of the environment `i`, in the order of the table, and its
parent. -/
def envShape (σ : State) (i : Nat) : Option (List Str × Option Nat) :=
  σ.envs[i]?.map (fun e => (e.vars.map Prod.fst, e.parent))

/-- The state at the end of a run that has one: after normal completion or
with an exception in flight. -/
def Res.ends {α : Type} (r : Res α) (P : State → Prop) : Prop :=
  match r with
  | .ok _ σ => P σ
  | .exc _ σ => P σ
  | .timeout => True
  | .outside => True

/-- From `σ0` to `σ` no entry of `envs` was removed, no environment of `σ0`
changed its parent, and no environment of `σ0` outside `X` gained, lost or
reordered a name. -/
def Keeps (X : Nat → Prop) (σ0 σ : State) : Prop :=
  σ0.envs.length ≤ σ.envs.length
  ∧ (∀ i, i < σ0.envs.length → (envShape σ i).map Prod.snd = (envShape σ0 i).map Prod.snd)
  ∧ (∀ i, i < σ0.envs.length → ¬ X i → envShape σ i = envShape σ0 i)

end Ironwood

namespace Ironwood

/-! ## The precedence ladder of the specification

The definitions of this section follow the words of the specification
(`or` below `and` below equality below comparison below additive below
multiplicative); the parser functions above follow the source.  A chain is a
first operand followed by links, each an operator token and an operand; a
chain tree is a way of grouping a chain. -/

/-- The level of a binary operator token in the ladder of the specification,
`none` for every other token. -/
def binLevel : TT → Option Nat
  | .OR => some 0
  | .AND => some 1
  | .EQ => some 2
  | .NEQ => some 2
  | .LT => some 3
  | .GT => some 3
  | .LEQ => some 3
  | .GEQ => some 3
  | .PLUS => some 4
  | .MINUS => some 4
  | .STAR => some 5
  | .SLASH => some 5
  | .PERCENT => some 5
  | _ => none

/-- The tokens that end a chain: the end of the line or of the text, a closing
bracket, a comma. -/
def closesChain (t : TT) : Bool :=
  [TT.NEWLINE, .EOF_T, .RPAREN, .RBRACKET, .RBRACE, .COMMA].contains t

/-- The operator that `BinExpr` holds for an operator token: the words `or`
and `and` for their tokens, the text of the token for the others. -/
def opText (t : Token) : Str :=
  if t.type = .OR then "or".toList else if t.type = .AND then "and".toList else t.val

/-- A link of a chain: an operator token, and the tokens of the operand that
follows it with the expression that they stand for. -/
structure Link where
  tok : Token
  seg : List Token
  e : Expr

/-- The level of the operator of a link. -/
def Link.level (l : Link) : Nat := (binLevel l.tok.type).getD 0

/-- The tokens of the links of a chain. -/
def linkToks : List Link → List Token
  | [] => []
  | l :: r => l.tok :: (l.seg ++ linkToks r)

/-- The tokens `seg` are an operand that stands for `e`: with fuel from `b`
on, `parseUnary` reads them as `e` and stops, whenever an operator or the
end of the chain follows. -/
def Operand (b : Nat) (seg : List Token) (e : Expr) : Prop :=
  ∀ (fuel : Nat) (rest : List Token), b ≤ fuel →
    ((binLevel (peekTok rest 0).type).isSome || closesChain (peekTok rest 0).type) = true →
    parseUnary fuel (seg ++ rest) = .ok e rest

/-- A grouping of a chain: operands at the leaves, at every node an operator
with its level. -/
inductive ChainTree where
  | leaf (e : Expr)
  | node (level : Nat) (op : Str) (l r : ChainTree)

/-- The expression of a chain tree. -/
def ChainTree.toExpr : ChainTree → Expr
  | .leaf e => e
  | .node _ op l r => .BinExpr op l.toExpr r.toExpr

/-- The first operand of the chain that a tree groups. -/
def ChainTree.first : ChainTree → Expr
  | .leaf e => e
  | .node _ _ l _ => l.first

/-- The operators, with their levels, and the operands after the first, in
the order of the chain that a tree groups. -/
def ChainTree.links : ChainTree → List (Nat × Str × Expr)
  | .leaf _ => []
  | .node lv op l r => l.links ++ (lv, op, r.first) :: r.links

/-- The levels of the operators of a tree. -/
def ChainTree.levels : ChainTree → List Nat
  | .leaf _ => []
  | .node lv _ l r => l.levels ++ lv :: r.levels

/-- The ladder: inside the left operand of an operator no operator has a
lower level, and inside its right operand every operator has a higher level
(so operators of one level group to the left). -/
def ChainTree.ladder : ChainTree → Bool
  | .leaf _ => true
  | .node lv _ l r =>
    l.ladder && r.ladder && l.levels.all (fun m => decide (lv ≤ m))
      && r.levels.all (fun m => decide (lv < m))

/-- The parser function `P` reads a chain from the level `k` on: on the
tokens of a chain it reads the longest beginning whose operators all have a
level of at least `k`, as a tree that groups that beginning by the ladder,
and leaves the tokens of the other links; `B` bounds the fuel that it needs
beyond that of the operands, in the number of links. -/
def ParsesFrom (k : Nat) (B : Nat → Nat) (P : Nat → List Token → PRes Expr) : Prop :=
  ∀ (b : Nat) (seg : List Token) (e : Expr) (links : List Link) (rest : List Token)
    (fuel : Nat),
    Operand b seg e →
    (∀ l ∈ links, Operand b l.seg l.e ∧ (binLevel l.tok.type).isSome = true) →
    closesChain (peekTok rest 0).type = true →
    b + B links.length ≤ fuel →
    ∃ t : ChainTree,
      P fuel (seg ++ (linkToks links ++ rest))
        = .ok t.toExpr (linkToks (links.dropWhile (fun l => decide (k ≤ l.level))) ++ rest)
      ∧ t.first = e
      ∧ t.links = (links.takeWhile (fun l => decide (k ≤ l.level))).map
          (fun l => (l.level, opText l.tok, l.e))
      ∧ t.ladder = true
      ∧ ∀ m ∈ t.levels, k ≤ m

end Ironwood

namespace Ironwood

/-! ## Token lists and number lexemes: the words of the specification -/

/-- One or more digits, and optionally a single `.` followed by one or more
digits. -/
def unsignedNumeral (u : Str) : Bool :=
  !(u.takeWhile isdigit).isEmpty &&
    (match u.dropWhile isdigit with
     | [] => true
     | c :: f => c == '.' && !f.isEmpty && f.all isdigit)

/-- A decimal numeral with an optional fractional part, as the specification
describes the lexeme of a NUMBER token: an optional leading `-`, one or more
digits, and optionally a single `.` followed by one or more digits. -/
def decimalNumeral (s : Str) : Bool :=
  match s with
  | '-' :: t => unsignedNumeral t
  | _ => unsignedNumeral s

/-- The lexemes that `Lexer::makeNum` makes: a digit, or `-` and a digit, and
then digits and points in any number and order. -/
def numberLexeme (s : Str) : Bool :=
  match s with
  | '-' :: d :: t => isdigit d && t.all isNumberChar
  | d :: t => isdigit d && t.all isNumberChar
  | [] => false

/-- A token list as the lexer makes it: tokens that are no EOF token, the
last of them a NEWLINE token when there is any, and then the one EOF token,
whose text is empty. -/
def LexerShape (ts : List Token) : Prop :=
  ∃ (body : List Token) (line : Nat),
    ts = body ++ [⟨.EOF_T, [], line⟩]
    ∧ (∀ t ∈ body, t.type ≠ .EOF_T)
    ∧ (body = [] ∨ ∃ (b : List Token) (l : Nat), body = b ++ [⟨.NEWLINE, [newline], l⟩])

/-! ## Building a dictionary -/

/-- The stores of `ObjectLit`, on values that are already evaluated:
`(*obj)[k]=v` for the pairs in their order, into the empty table. -/
def insertAll {β : Type} (pl : Placement) (pairs : List (Str × β)) : List (Str × β) :=
  pairs.foldl (fun acc kv => objSet pl acc kv.1 kv.2) []

/-! ## Split and join -/

/-- The call `s.find(sep,p)` on the text from position `p` on: the number of
characters before the first occurrence of `sep`, `none` for `npos`. -/
def findSub (sep : Str) : Str → Option Nat
  | [] => if sep.isEmpty then some 0 else none
  | c :: r => if sep.isPrefixOf (c :: r) then some 0 else (findSub sep r).map (fun f => f + 1)

/-- The loop of `SplitExpr` for a separator that is not empty, on the text
from position `p` on:
`while((f=s.find(sep,p))!=npos)(push(s.substr(p,f-p));p=f+sep.size();)` and
then `push(s.substr(p))`.  `none` when the fuel runs out. -/
def splitLoop (sep : Str) : Nat → Str → Option (List Str)
  | 0, _ => none
  | fuel + 1, s =>
    match findSub sep s with
    | some f => (splitLoop sep fuel (s.drop (f + sep.length))).map (fun ps => s.take f :: ps)
    | none => some [s]

/-- The pieces of `split s by sep`: the single characters for the empty
separator, the loop otherwise. -/
def splitStr (s sep : Str) : Option (List Str) :=
  if sep.isEmpty then some (s.map (fun c => [c])) else splitLoop sep (s.length + 1) s

/-- `SplitExpr` on the values of its operands: the list of the pieces of the
rendering of the first, split by the rendering of the second. -/
def evalSplit (sv sepv : IronValue) : Option IronValue :=
  (splitStr sv.toString sepv.toString).map (fun ps => .arr (ps.map IronValue.str))

/-- `JoinExpr` on the values of its operands: the renderings of the elements
of a list with the rendering of the separator between them, and the rendering
of a value that is no list. -/
def evalJoin (av sepv : IronValue) : IronValue :=
  match av with
  | .arr xs => .str (joinSep sepv.toString (xs.map IronValue.toString))
  | _ => .str av.toString

/-- The number of occurrences of `sep` in a text, counted from the left
without overlap, as the specification counts them: at an occurrence one is
counted and the scan goes on behind it (`skip` characters are passed over),
elsewhere the scan goes on with the next character. -/
def countOcc (sep : Str) : Nat → Str → Nat
  | _, [] => 0
  | skip + 1, _ :: r => countOcc sep skip r
  | 0, c :: r =>
    if sep.isPrefixOf (c :: r) then 1 + countOcc sep (sep.length - 1) r else countOcc sep 0 r

/-! ## The cursor of the parser -/

/-- The remaining tokens end with the EOF token, whose text is empty, and
hold no other EOF token: the cursor of the parser is at a token of the list,
at the EOF token at the latest. -/
def wellEnded : List Token → Bool
  | [] => false
  | t :: r =>
    if r.isEmpty then decide (t.type = .EOF_T) && t.val.isEmpty
    else decide (t.type ≠ .EOF_T) && wellEnded r

/-- The result of a parser function is in order: it is a value or a syntax
error, the fuel has not run out, and after a value the cursor is at a token
of the list, with at most `n` tokens remaining. -/
def PRes.Fine {α : Type} (n : Nat) : PRes α → Prop
  | .ok _ rest => wellEnded rest = true ∧ rest.length ≤ n
  | .err _ => True
  | .timeout => False

/-- With fuel `16 * length + d` the parser function `P` ends in order on
every token list that ends with the EOF token, and it has read a token when
it returns a value. -/
@[reducible] def Advances {α : Type} (d : Nat) (P : Nat → List Token → PRes α) (fuel : Nat) : Prop :=
  ∀ ts : List Token, wellEnded ts = true → 16 * ts.length + d ≤ fuel →
    (P fuel ts).Fine (ts.length - 1)

/-- With fuel `16 * length + d` the parser function `P` ends in order on
every token list that ends with the EOF token. -/
@[reducible] def Proceeds {α : Type} (d : Nat) (P : Nat → List Token → PRes α) (fuel : Nat) : Prop :=
  ∀ ts : List Token, wellEnded ts = true → 16 * ts.length + d ≤ fuel →
    (P fuel ts).Fine ts.length

/-- With fuel `f`, every function of the parser ends in order on every token
list that ends with the EOF token and is short enough for the fuel; the
functions that read an expression or a statement have read a token when they
return a value. -/
structure ParserFine (f : Nat) : Prop where
  pExpr : Advances 9 parseExpr f
  pOr : Advances 8 parseOr f
  pOrLoop : ∀ l, Proceeds 0 (fun fuel ts => parseOrLoop fuel l ts) f
  pAnd : Advances 7 parseAnd f
  pAndLoop : ∀ l, Proceeds 0 (fun fuel ts => parseAndLoop fuel l ts) f
  pEquality : Advances 6 parseEquality f
  pEqualityLoop : ∀ l, Proceeds 0 (fun fuel ts => parseEqualityLoop fuel l ts) f
  pComparison : Advances 5 parseComparison f
  pComparisonLoop : ∀ l, Proceeds 0 (fun fuel ts => parseComparisonLoop fuel l ts) f
  pAddSub : Advances 4 parseAddSub f
  pAddSubLoop : ∀ l, Proceeds 0 (fun fuel ts => parseAddSubLoop fuel l ts) f
  pMulDiv : Advances 3 parseMulDiv f
  pMulDivLoop : ∀ l, Proceeds 0 (fun fuel ts => parseMulDivLoop fuel l ts) f
  pUnary : Advances 2 parseUnary f
  pPostfix : Advances 1 parsePostfix f
  pPostfixLoop : ∀ e, Proceeds 0 (fun fuel ts => parsePostfixLoop fuel e ts) f
  pArgs : Proceeds 10 parseArgs f
  pExprsLoop : ∀ nl, Proceeds 0 (fun fuel ts => parseExprsLoop fuel nl ts) f
  pPairsLoop : Proceeds 0 parsePairsLoop f
  pPrimary : Advances 0 parsePrimary f
  pBlock : ∀ ends, Proceeds 12 (fun fuel ts => parseBlock fuel ends ts) f
  pBlockLoop : ∀ ends, Proceeds 11 (fun fuel ts => parseBlockLoop fuel ends ts) f
  pStmt : Advances 10 parseStmt f

end Ironwood

namespace Ironwood

/-! ## Numerals -/

theorem digitVal_digitChar (d : Nat) (h : d < 10) : digitVal (digitChar d) = d := by
  revert d; decide

theorem isDigit_digitChar (d : Nat) (h : d < 10) : (digitChar d).isDigit = true := by
  revert d; decide

theorem foldl_natDigitsAux (fuel : Nat) :
    ∀ n acc, n < fuel →
      List.foldl (fun a c => 10 * a + digitVal c) 0 (natDigitsAux fuel n acc)
        = List.foldl (fun a c => 10 * a + digitVal c) n acc := by
  induction fuel with
  | zero => intro n acc h; omega
  | succ fuel ih =>
    intro n acc h
    unfold natDigitsAux
    split
    · rename_i h10
      simp [List.foldl, digitVal_digitChar n h10]
    · rename_i h10
      rw [ih (n / 10) _ (by omega)]
      simp only [List.foldl]
      rw [digitVal_digitChar (n % 10) (Nat.mod_lt _ (by decide))]
      congr 1; omega

theorem digitsVal_natToString (n : Nat) : digitsVal (natToString n) = n := by
  unfold digitsVal natToString
  rw [foldl_natDigitsAux (n + 1) n [] (by omega)]
  rfl

theorem natDigitsAux_digits (fuel : Nat) :
    ∀ n acc, (∀ c ∈ acc, Char.isDigit c = true) → ∀ c ∈ natDigitsAux fuel n acc, Char.isDigit c = true := by
  induction fuel with
  | zero => intro n acc h; simpa [natDigitsAux] using h
  | succ fuel ih =>
    intro n acc h
    unfold natDigitsAux
    split
    · rename_i h10
      intro c hc
      rcases List.mem_cons.1 hc with rfl | hc
      · exact isDigit_digitChar n h10
      · exact h c hc
    · apply ih
      intro c hc
      rcases List.mem_cons.1 hc with rfl | hc
      · exact isDigit_digitChar _ (Nat.mod_lt _ (by decide))
      · exact h c hc

theorem natToString_digits (n : Nat) : ∀ c ∈ natToString n, Char.isDigit c = true :=
  natDigitsAux_digits (n + 1) n [] (by simp)

theorem natDigitsAux_ne_nil (fuel : Nat) : ∀ n acc, n < fuel → natDigitsAux fuel n acc ≠ [] := by
  induction fuel with
  | zero => intro n acc h; omega
  | succ fuel ih =>
    intro n acc h
    unfold natDigitsAux
    split
    · simp
    · exact ih _ _ (by omega)

theorem natToString_ne_nil (n : Nat) : natToString n ≠ [] :=
  natDigitsAux_ne_nil (n + 1) n [] (by omega)

theorem takeWhile_eq_self {α : Type} (p : α → Bool) (l : List α) (h : ∀ c ∈ l, p c = true) :
    l.takeWhile p = l := by
  induction l with
  | nil => rfl
  | cons a l ih =>
    have ha := h a (List.mem_cons_self _ _)
    simp only [List.takeWhile, ha]
    rw [ih (fun c hc => h c (List.mem_cons_of_mem _ hc))]

theorem dropWhile_eq_nil {α : Type} (p : α → Bool) (l : List α) (h : ∀ c ∈ l, p c = true) :
    l.dropWhile p = [] := by
  induction l with
  | nil => rfl
  | cons a l ih =>
    have ha := h a (List.mem_cons_self _ _)
    simp only [List.dropWhile, ha]
    exact ih (fun c hc => h c (List.mem_cons_of_mem _ hc))

theorem stodUnsigned_natToString (n : Nat) : stodUnsigned (natToString n) = some (n : ℚ) := by
  unfold stodUnsigned
  have h1 := takeWhile_eq_self Char.isDigit _ (natToString_digits n)
  have h2 := dropWhile_eq_nil Char.isDigit _ (natToString_digits n)
  simp only [h1, h2, List.append_nil, List.length_nil, digitsVal_natToString]
  simp [natToString_ne_nil, stodExp, scale10, Rat.mkRat_one]

theorem head_natToString (n : Nat) : ∃ c r, natToString n = c :: r ∧ Char.isDigit c = true := by
  have hne := natToString_ne_nil n
  have hd := natToString_digits n
  cases h : natToString n with
  | nil => exact absurd h hne
  | cons c r => exact ⟨c, r, rfl, hd c (by simp [h])⟩

theorem stod_intToString (z : Int) : stod (intToString z) = some (z : ℚ) := by
  unfold intToString
  split
  · rename_i hneg
    simp only [stod, stodUnsigned_natToString, Option.map_some']
    congr 1
    rw [Nat.cast_natAbs, abs_of_neg hneg]
    push_cast
    ring
  · rename_i hpos
    obtain ⟨c, r, hcr, hc⟩ := head_natToString z.natAbs
    have hm : c ≠ '-' := by intro h; subst h; revert hc; decide
    have hp : c ≠ '+' := by intro h; subst h; revert hc; decide
    have : stod (natToString z.natAbs) = stodUnsigned (natToString z.natAbs) := by
      rw [hcr]; unfold stod; split
      · rename_i heq; cases heq; exact absurd rfl hm
      · rename_i heq; cases heq; exact absurd rfl hp
      · rfl
    rw [this, stodUnsigned_natToString]
    congr 1
    rw [Nat.cast_natAbs, abs_of_nonneg (by omega)]

theorem rat_eq_num_of_den_one (q : ℚ) (h : q.den = 1) : ((q.num : Int) : ℚ) = q := by
  have := Rat.num_div_den q
  rw [h] at this
  simpa using this

theorem stod_numToString_integral (q : ℚ) (hd : q.den = 1) (hb : q.num.natAbs < 10 ^ 15) :
    stod (numToString q) = some q := by
  unfold numToString
  rw [if_pos ⟨hd, hb⟩, stod_intToString, rat_eq_num_of_den_one q hd]

theorem numToString_injective_integral (a b : ℚ) (had : a.den = 1) (hab : a.num.natAbs < 10 ^ 15)
    (hbd : b.den = 1) (hbb : b.num.natAbs < 10 ^ 15) (h : numToString a = numToString b) : a = b := by
  have h1 := stod_numToString_integral a had hab
  have h2 := stod_numToString_integral b hbd hbb
  rw [h] at h1
  rw [h1] at h2
  exact Option.some.inj h2

/-! ## Equality -/

theorem binOp_eq (l r : IronValue) :
    binOp "==".toList l r = .val (.bool (decide (l.toString = r.toString))) := by
  unfold binOp
  have h1 : ("==".toList = "+".toList) = False := by decide
  have h2 : ("==".toList = "-".toList) = False := by decide
  have h3 : ("==".toList = "*".toList) = False := by decide
  have h4 : ("==".toList = "/".toList) = False := by decide
  have h5 : ("==".toList = "%".toList) = False := by decide
  have h6 : ("==".toList = "<".toList) = False := by decide
  have h7 : ("==".toList = ">".toList) = False := by decide
  have h8 : ("==".toList = "<=".toList) = False := by decide
  have h9 : ("==".toList = ">=".toList) = False := by decide
  simp only [h1, h2, h3, h4, h5, h6, h7, h8, h9, if_false, if_true]
  cases l <;> cases r <;> rfl

theorem binOp_ne (l r : IronValue) :
    binOp "!=".toList l r = .val (.bool (decide (l.toString ≠ r.toString))) := by
  unfold binOp
  have h0 : ("!=".toList = "==".toList) = False := by decide
  have h1 : ("!=".toList = "+".toList) = False := by decide
  have h2 : ("!=".toList = "-".toList) = False := by decide
  have h3 : ("!=".toList = "*".toList) = False := by decide
  have h4 : ("!=".toList = "/".toList) = False := by decide
  have h5 : ("!=".toList = "%".toList) = False := by decide
  have h6 : ("!=".toList = "<".toList) = False := by decide
  have h7 : ("!=".toList = ">".toList) = False := by decide
  have h8 : ("!=".toList = "<=".toList) = False := by decide
  have h9 : ("!=".toList = ">=".toList) = False := by decide
  simp only [h0, h1, h2, h3, h4, h5, h6, h7, h8, h9, if_false, if_true]
  cases l <;> cases r <;> rfl

/-- C6, as stated, fails: the numbers `10^15` and `10^15 + 1` differ, yet `==`
on them is true and `!=` is false, because both render as `1e+15`; the program
`say 1000000000000000 == 1000000000000001` prints `true`. -/
theorem number_equality_not_numeric :
    binOp "==".toList (.num 1000000000000000) (.num 1000000000000001) = .val (.bool true)
    ∧ binOp "!=".toList (.num 1000000000000000) (.num 1000000000000001) = .val (.bool false)
    ∧ (1000000000000000 : ℚ) ≠ 1000000000000001
    ∧ outputOf (run Host.plain 10
        [ .SayStmt (.BinExpr "==".toList (.NumberLit 1000000000000000)
            (.NumberLit 1000000000000001)) ] State.initial) = some ["true".toList] := by
  have h : (IronValue.num 1000000000000000).toString = (IronValue.num 1000000000000001).toString := by
    decide
  refine ⟨?_, ?_, by decide, by rfl⟩
  · rw [binOp_eq]; simp [h]
  · rw [binOp_ne]; simp [h]

/-- C6, amended: on two numbers `==` and `!=` compare the renderings of the
operands, as they do on every other pair of operands; for integral numbers of
magnitude below `10^15` equal renderings mean equal numbers, so there `a == b`
is true exactly when `a` and `b` are the same number. -/
theorem number_equality_by_rendering (a b : ℚ) :
    binOp "==".toList (.num a) (.num b) = .val (.bool (decide (numToString a = numToString b)))
    ∧ binOp "!=".toList (.num a) (.num b) = .val (.bool (decide (numToString a ≠ numToString b)))
    ∧ (a.den = 1 → a.num.natAbs < 10 ^ 15 → b.den = 1 → b.num.natAbs < 10 ^ 15 →
        (binOp "==".toList (.num a) (.num b) = .val (.bool true) ↔ a = b)) := by
  refine ⟨?_, ?_, ?_⟩
  · rw [binOp_eq]; simp [IronValue.toString]
  · rw [binOp_ne]; simp [IronValue.toString]
  · intro had hab hbd hbb
    rw [binOp_eq]
    simp only [IronValue.toString, Outcome.val.injEq, IronValue.bool.injEq, decide_eq_true_eq]
    constructor
    · exact numToString_injective_integral a b had hab hbd hbb
    · intro h; rw [h]

/-- C6, amended, at the numbers 7 and 7, and 7 and 8. -/
theorem number_equality_by_rendering_witness :
    (binOp "==".toList (.num 7) (.num 7) = .val (.bool true) ↔ (7 : ℚ) = 7)
    ∧ (binOp "==".toList (.num 7) (.num 8) = .val (.bool true) ↔ (7 : ℚ) = 8) :=
  ⟨(number_equality_by_rendering 7 7).2.2 (by decide) (by decide) (by decide) (by decide),
   (number_equality_by_rendering 7 8).2.2 (by decide) (by decide) (by decide) (by decide)⟩

end Ironwood

namespace Ironwood

/-! ## Item access -/

/-- C7, as stated, fails: `item 1.5 of ["a"]` returns the element although
1.5 is not in the range 1 .. 1, and the program `say item 1.5 of ["a"]` prints
`a` instead of raising. -/
theorem item_of_fraction_accepted :
    evalItemOf (.num (mkRat 3 2)) (.arr [.str "a".toList]) = .val (.str "a".toList)
    ∧ ¬ ((1 : ℚ) ≤ mkRat 3 2 ∧ mkRat 3 2 ≤ (([IronValue.str "a".toList].length : Nat) : ℚ))
    ∧ outputOf (run Host.plain 10
        [ .SayStmt (.ItemOfExpr (.NumberLit (mkRat 3 2)) (.ArrayLit [.StringLit "a".toList])) ]
        State.initial) = some ["a".toList] := by
  refine ⟨by rfl, ?_, by rfl⟩
  intro h
  exact absurd h.2 (by decide)

/-- C7, amended: for a list `xs` and a number `n` whose integer part `c`
(truncation toward zero) fits an `int` and is not the least one, `item n of xs`
returns the element at the 1-based position `c` when `c` is in
`1 .. length xs`, and raises the out-of-bounds error for every other `c`.  The
evaluator returns that element, or raises that error, once the index has
evaluated to the number and the operand to the list. -/
theorem item_of_by_integer_part {β : Type} (n : ℚ) (xs : List β) (c : Int)
    (hc : castInt n = some c) (hmin : c ≠ -2 ^ 31)
    (h : Host) (fuel : Nat) (ie ae : Expr) (env : Nat) (σ σ1 σ2 : State) (r : Nat)
    (zs : List Val) :
    (1 ≤ c ∧ c ≤ xs.length → ∃ x, xs[(c - 1).toNat]? = some x ∧ itemOf n xs = .val x)
    ∧ (¬ (1 ≤ c ∧ c ≤ xs.length) →
        itemOf n xs = .raise ("Item ".toList ++ intToString c
          ++ " is out of bounds — the list has ".toList ++ natToString xs.length
          ++ " items.".toList))
    ∧ (evalExpr h fuel ie env σ = .ok (.num n) σ1 → evalExpr h fuel ae env σ1 = .ok (.arr r) σ2 →
        σ2.heap[r]? = some (.arr zs) →
        evalExpr h (fuel + 1) (.ItemOfExpr ie ae) env σ
          = (match itemOf n zs with
             | .val x => .ok x σ2
             | .raise m => .exc (.error m) σ2
             | .outside => .outside)) := by
  refine ⟨?_, ?_, ?_⟩
  · intro ⟨h1, h2⟩
    have hlt : (c - 1).toNat < xs.length := by omega
    refine ⟨xs[(c - 1).toNat], List.getElem?_eq_getElem hlt, ?_⟩
    unfold itemOf
    simp only [hc, hmin, if_false]
    rw [if_neg (by omega), List.getElem?_eq_getElem hlt]
  · intro hn
    unfold itemOf
    simp only [hc, hmin, if_false]
    rw [if_pos (by omega)]
  · intro hi ha hL
    rw [evalExpr]
    simp only [hi, ha, Res.bind, hL]

/-- C7, amended, at `item 2 of [10, 20]` and `item 3 of [10, 20]`, on the
value layer and in the evaluator. -/
theorem item_of_by_integer_part_witness :
    (∃ x, [(10 : Nat), 20][((2 : Int) - 1).toNat]? = some x ∧ itemOf 2 [(10 : Nat), 20] = .val x)
    ∧ itemOf 3 [(10 : Nat), 20] = .raise ("Item ".toList ++ intToString 3
          ++ " is out of bounds — the list has ".toList ++ natToString 2 ++ " items.".toList)
    ∧ evalExpr Host.plain 2 (.ItemOfExpr (.NumberLit 3) (.VarExpr "L".toList)) 0
          ⟨[.arr [.num 10, .num 20]], [⟨[("L".toList, .arr 0)], none⟩], [], [], [0]⟩
        = (match itemOf 3 [Val.num 10, Val.num 20] with
           | .val x => .ok x ⟨[.arr [.num 10, .num 20]], [⟨[("L".toList, .arr 0)], none⟩], [], [], [0]⟩
           | .raise m =>
             .exc (.error m) ⟨[.arr [.num 10, .num 20]], [⟨[("L".toList, .arr 0)], none⟩], [], [], [0]⟩
           | .outside => .outside) :=
  ⟨(item_of_by_integer_part 2 [(10 : Nat), 20] 2 (by decide) (by decide)
      Host.plain 0 .NullLit .NullLit 0 State.initial State.initial State.initial 0 []).1
      (by decide),
   (item_of_by_integer_part 3 [(10 : Nat), 20] 3 (by decide) (by decide)
      Host.plain 0 .NullLit .NullLit 0 State.initial State.initial State.initial 0 []).2.1
      (by decide),
   (item_of_by_integer_part 3 [(10 : Nat), 20] 3 (by decide) (by decide)
      Host.plain 1 (.NumberLit 3) (.VarExpr "L".toList) 0
      ⟨[.arr [.num 10, .num 20]], [⟨[("L".toList, .arr 0)], none⟩], [], [], [0]⟩
      ⟨[.arr [.num 10, .num 20]], [⟨[("L".toList, .arr 0)], none⟩], [], [], [0]⟩
      ⟨[.arr [.num 10, .num 20]], [⟨[("L".toList, .arr 0)], none⟩], [], [], [0]⟩
      0 [.num 10, .num 20]).2.2 (by rfl) (by rfl) (by rfl)⟩

/-! ## The class marker -/

theorem keysOf_eq {β : Type} (D : List (Str × β)) :
    keysOf D = (D.map Prod.fst).filter (fun k => decide (k ≠ classKey)) := by
  induction D with
  | nil => rfl
  | cons kv r ih =>
    obtain ⟨k, v⟩ := kv
    by_cases h : k = classKey
    · simp only [keysOf, h, ne_eq, not_true_eq_false, if_false, ih, List.map_cons, List.filter_cons,
        decide_False, Bool.false_eq_true]
    · simp only [keysOf, h, ne_eq, not_false_eq_true, if_true, ih, List.map_cons, List.filter_cons,
        decide_True]

theorem valuesOf_eq {β : Type} (D : List (Str × β)) :
    valuesOf D = (D.filter (fun kv => decide (kv.1 ≠ classKey))).map Prod.snd := by
  induction D with
  | nil => rfl
  | cons kv r ih =>
    obtain ⟨k, v⟩ := kv
    by_cases h : k = classKey
    · simp only [valuesOf, h, ne_eq, not_true_eq_false, if_false, ih, List.filter_cons,
        decide_False, Bool.false_eq_true]
    · simp only [valuesOf, h, ne_eq, not_false_eq_true, if_true, ih, List.map_cons, List.filter_cons,
        decide_True]

theorem keysOf_zip_valuesOf {β : Type} (D : List (Str × β)) :
    (keysOf D).zip (valuesOf D) = D.filter (fun kv => decide (kv.1 ≠ classKey)) := by
  induction D with
  | nil => rfl
  | cons kv r ih =>
    obtain ⟨k, v⟩ := kv
    by_cases h : k = classKey
    · simp only [keysOf, valuesOf, h, ne_eq, not_true_eq_false, if_false, ih, List.filter_cons,
        decide_False, Bool.false_eq_true]
    · simp only [keysOf, valuesOf, h, ne_eq, not_false_eq_true, if_true, ih, List.zip_cons_cons,
        List.filter_cons, decide_True]

theorem objFind_cons {β : Type} (k' : Str) (v : β) (r : List (Str × β)) (k : Str) :
    objFind ((k', v) :: r) k = if k' = k then some v else objFind r k := rfl

theorem objFind_isSome {β : Type} (D : List (Str × β)) (k : Str) :
    (objFind D k).isSome = true ↔ k ∈ D.map Prod.fst := by
  induction D with
  | nil => exact ⟨fun h => (by cases h), fun h => (by cases h)⟩
  | cons kv r ih =>
    obtain ⟨k', v⟩ := kv
    rw [objFind_cons, List.map_cons, List.mem_cons]
    by_cases h : k' = k
    · rw [if_pos h]; exact ⟨fun _ => Or.inl h.symm, fun _ => rfl⟩
    · rw [if_neg h, ih]
      exact ⟨Or.inr, fun h' => h'.resolve_left (fun e => h e.symm)⟩

theorem objFind_eq_none {β : Type} (D : List (Str × β)) (k : Str) :
    objFind D k = none ↔ k ∉ D.map Prod.fst := by
  rw [← objFind_isSome]
  cases objFind D k
  · exact ⟨fun _ h => (by cases h), fun _ => rfl⟩
  · exact ⟨fun h => (by cases h), fun h => absurd rfl h⟩

theorem toStringClass_eq (D : List (Str × IronValue)) :
    toStringClass D = (objFind D classKey).map IronValue.toString := by
  induction D with
  | nil => rfl
  | cons kv r ih =>
    obtain ⟨k, v⟩ := kv
    rw [objFind_cons, toStringClass]
    by_cases h : k = classKey
    · rw [if_pos h, if_pos h]; rfl
    · rw [if_neg h, if_neg h, ih]

theorem joinSep_cons (sep p : Str) (ps : List Str) :
    joinSep sep (p :: ps) = p ++ (if ps.isEmpty then [] else sep ++ joinSep sep ps) := by
  cases ps with
  | nil => simp [joinSep]
  | cons q r => simp [joinSep]

theorem isEmpty_map {α γ : Type} (f : α → γ) (l : List α) : (l.map f).isEmpty = l.isEmpty := by
  cases l <;> rfl

/-- A loop that appends, for each kept entry, a separator (unless it is the
first) and the piece of the entry, is the separated join of the kept pieces. -/
theorem flag_loop_eq_joinSep {α : Type} (sep : Str) (keep : α → Bool) (piece : α → Str)
    (loop : Bool → List α → Str)
    (hnil : ∀ f, loop f [] = [])
    (hcons : ∀ f a r, loop f (a :: r)
      = if keep a = true then (if f = true then [] else sep) ++ piece a ++ loop false r else loop f r)
    (D : List α) :
    loop true D = joinSep sep ((D.filter keep).map piece)
    ∧ loop false D
      = (if (D.filter keep).isEmpty then [] else sep ++ joinSep sep ((D.filter keep).map piece)) := by
  induction D with
  | nil => exact ⟨by rw [hnil]; rfl, by rw [hnil]; rfl⟩
  | cons a r ih =>
    rw [hcons, hcons, List.filter_cons]
    by_cases h : keep a = true
    · rw [if_pos h, if_pos h, if_pos h, List.map_cons, joinSep_cons, ih.2, isEmpty_map]
      exact ⟨by simp, by simp⟩
    · rw [if_neg h, if_neg h, if_neg h]
      exact ih

theorem toStringInst_eq (D : List (Str × IronValue)) :
    toStringInst true D
      = joinSep ", ".toList ((D.filter (fun kv => decide (kv.1 ≠ classKey))).map
          (fun kv => kv.1 ++ ": ".toList ++ kv.2.toString)) :=
  (flag_loop_eq_joinSep ", ".toList (fun kv => decide (kv.1 ≠ classKey))
    (fun kv => kv.1 ++ ": ".toList ++ kv.2.toString) toStringInst
    (fun f => by simp [toStringInst])
    (fun f a r => by
      obtain ⟨k, v⟩ := a
      by_cases h : k = classKey
      · simp [toStringInst, h]
      · cases f <;> simp [toStringInst, h]) D).1

theorem toStringPlain_eq (D : List (Str × IronValue)) :
    toStringPlain true D
      = joinSep ",".toList (D.map (fun kv => kv.1 ++ ":".toList ++ kv.2.toString)) := by
  have h := (flag_loop_eq_joinSep ",".toList (fun _ => true)
    (fun kv => kv.1 ++ ":".toList ++ kv.2.toString) toStringPlain
    (fun f => by simp [toStringPlain])
    (fun f a r => by
      obtain ⟨k, v⟩ := a
      cases f <;> simp [toStringPlain]) D).1
  rw [h, List.filter_true]

theorem jsonFields_eq (D : List (Str × IronValue)) :
    jsonFields true D
      = joinSep ",".toList ((D.filter (fun kv => decide (kv.1 ≠ classKey))).map
          (fun kv => dquote :: (kv.1 ++ dquote :: ':' :: ironToJson kv.2))) :=
  (flag_loop_eq_joinSep ",".toList (fun kv => decide (kv.1 ≠ classKey))
    (fun kv => dquote :: (kv.1 ++ dquote :: ':' :: ironToJson kv.2)) jsonFields
    (fun f => by simp [jsonFields])
    (fun f a r => by
      obtain ⟨k, v⟩ := a
      by_cases h : k = classKey
      · simp [jsonFields, h]
      · cases f <;> simp [jsonFields, h]) D).1

/-- C8: the class marker is never observable through enumeration: `keys of`
lists exactly the keys other than `__class__`, `values of` lists exactly the
values stored under those keys, `has K in D` is true exactly when the
rendering of `K` is a key of `D` other than `__class__`, and both `toString`
and `json of` enumerate exactly the entries other than `__class__`. -/
theorem class_marker_hidden (D : List (Str × IronValue)) (K : IronValue) :
    keysOf D = (D.map Prod.fst).filter (fun k => decide (k ≠ classKey))
    ∧ valuesOf D = (D.filter (fun kv => decide (kv.1 ≠ classKey))).map Prod.snd
    ∧ (keysOf D).zip (valuesOf D) = D.filter (fun kv => decide (kv.1 ≠ classKey))
    ∧ (evalHas K (.obj D) = true ↔ K.toString ∈ D.map Prod.fst ∧ K.toString ≠ classKey)
    ∧ (∀ c, objFind D classKey = some c →
        (IronValue.obj D).toString
          = c.toString ++ lbrace :: ' ' ::
            (joinSep ", ".toList ((D.filter (fun kv => decide (kv.1 ≠ classKey))).map
              (fun kv => kv.1 ++ ": ".toList ++ kv.2.toString)) ++ [ ' ', rbrace]))
    ∧ (objFind D classKey = none →
        (IronValue.obj D).toString
          = lbrace :: (joinSep ",".toList
              (D.map (fun kv => kv.1 ++ ":".toList ++ kv.2.toString)) ++ [rbrace]))
    ∧ ironToJson (.obj D)
        = lbrace :: (joinSep ",".toList ((D.filter (fun kv => decide (kv.1 ≠ classKey))).map
            (fun kv => dquote :: (kv.1 ++ dquote :: ':' :: ironToJson kv.2))) ++ [rbrace]) := by
  refine ⟨keysOf_eq D, valuesOf_eq D, keysOf_zip_valuesOf D, ?_, ?_, ?_, ?_⟩
  · simp only [evalHas, hasKey, Bool.and_eq_true, decide_eq_true_eq, objFind_isSome]
  · intro c hc
    simp only [IronValue.toString, toStringClass_eq, hc, Option.map_some', toStringInst_eq D]
  · intro hc
    simp only [IronValue.toString, toStringClass_eq, hc, Option.map_none', toStringPlain_eq D]
  · simp only [ironToJson, jsonFields_eq D]

/-- C8 at the instance `P` with the fields `a = 1` and `b = true`, and at the
plain dictionary with the same fields. -/
theorem class_marker_hidden_witness :
    (IronValue.obj [("a".toList, .num 1), (classKey, .str "P".toList), ("b".toList, .bool true)]).toString
      = "P\x7b a: 1, b: true \x7d".toList
    ∧ (IronValue.obj [("a".toList, .num 1), ("b".toList, .bool true)]).toString
      = "\x7ba:1,b:true\x7d".toList :=
  ⟨((class_marker_hidden
      [("a".toList, .num 1), (classKey, .str "P".toList), ("b".toList, .bool true)] .null).2.2.2.2.1
    (.str "P".toList) (by rfl)).trans (by decide),
   ((class_marker_hidden
      [("a".toList, .num 1), ("b".toList, .bool true)] .null).2.2.2.2.2.1
    (by rfl)).trans (by decide)⟩

end Ironwood

namespace Ironwood

/-! ## Sorting -/

theorem strLt_irrefl (s : Str) : strLt s s = false := by
  induction s with
  | nil => rfl
  | cons a s ih => simp [strLt, ih]

theorem keyLess_not_num (ka kb : IronValue) (h : ka.isNum = false ∨ kb.isNum = false) :
    keyLess ka kb = strLt ka.toString kb.toString := by
  cases ka <;> cases kb <;> first | rfl | (simp [IronValue.isNum] at h)

theorem keyLess_of_keyEquiv (ka kb : IronValue) (h : keyEquiv ka kb = true) :
    keyLess kb ka = false := by
  by_cases hn : ka.isNum = true ∧ kb.isNum = true
  · cases ka <;> cases kb <;> simp [IronValue.isNum] at hn
    simp only [keyEquiv, decide_eq_true_eq] at h
    simp [keyLess, h]
  · have hn' : kb.isNum = false ∨ ka.isNum = false := by
      cases h1 : ka.isNum <;> cases h2 : kb.isNum <;> simp_all
    rw [keyLess_not_num kb ka hn']
    have : ka.toString = kb.toString := by
      cases ka <;> cases kb <;> first | rfl | (simp [keyEquiv] at h; exact h) | (simp [IronValue.isNum] at hn)
    rw [this, strLt_irrefl]

theorem orderedInsert_perm {α : Type} (lt : α → α → Bool) (x : α) (l : List α) :
    (orderedInsert lt x l).Perm (x :: l) := by
  induction l with
  | nil => exact List.Perm.refl _
  | cons y ys ih =>
    unfold orderedInsert
    split
    · exact (List.Perm.cons y ih).trans (List.Perm.swap x y ys)
    · exact List.Perm.refl _

theorem stableSort_perm {α : Type} (lt : α → α → Bool) (xs : List α) :
    (stableSort lt xs).Perm xs := by
  induction xs with
  | nil => exact List.Perm.refl _
  | cons x xs ih =>
    exact (orderedInsert_perm lt x _).trans (List.Perm.cons x ih)

theorem orderedInsert_keeps_before {α : Type} (lt : α → α → Bool) (x y : α)
    (h : lt y x = false) (l : List α) (hy : y ∈ l) :
    [x, y].Sublist (orderedInsert lt x l) := by
  induction l with
  | nil => cases hy
  | cons w ws ih =>
    unfold orderedInsert
    split
    · rename_i hlt
      rcases List.mem_cons.1 hy with rfl | hy
      · rw [h] at hlt; cases hlt
      · exact (ih hy).trans (List.sublist_cons_self _ _)
    · exact List.Sublist.cons₂ x (List.singleton_sublist.2 hy)

theorem sublist_orderedInsert {α : Type} (lt : α → α → Bool) (x : α) (l : List α) :
    l.Sublist (orderedInsert lt x l) := by
  induction l with
  | nil => simp [orderedInsert]
  | cons w ws ih =>
    unfold orderedInsert
    split
    · exact List.Sublist.cons₂ w ih
    · exact List.sublist_cons_self _ _

theorem stableSort_stable {α : Type} (lt : α → α → Bool) (x y : α) (h : lt y x = false)
    (xs : List α) (hxy : [x, y].Sublist xs) : [x, y].Sublist (stableSort lt xs) := by
  induction xs with
  | nil => cases hxy
  | cons z zs ih =>
    unfold stableSort
    cases hxy with
    | cons _ h' => exact (ih h').trans (sublist_orderedInsert lt z _)
    | cons₂ _ h' =>
      have hy : y ∈ zs := List.singleton_sublist.1 h'
      exact orderedInsert_keeps_before lt x y h _ ((stableSort_perm lt zs).symm.subset hy)

/-- C2, as stated, fails: on the eight records below, sorted `by k`, the
comparison is cyclic (`2 < 10` as numbers, `"10" < "1z"` and `"1z" < "2"` as
text), so the call of `std::stable_sort` has no defined result, and nothing
keeps the two records of key 2 in their order. -/
theorem sort_stability_undefined_on_mixed_keys :
    evalSort (.field "k".toList) Prod.snd
      [ ((0 : Nat), IronValue.obj [("k".toList, .num 1)]),
        ((1 : Nat), IronValue.obj [("k".toList, .num 10)]),
        ((2 : Nat), IronValue.obj [("k".toList, .str "1z".toList)]),
        ((3 : Nat), IronValue.obj [("k".toList, .num 2)]),
        ((4 : Nat), IronValue.obj [("k".toList, .num 2)]),
        ((5 : Nat), IronValue.obj [("k".toList, .num 3)]),
        ((6 : Nat), IronValue.obj [("k".toList, .num 4)]),
        ((7 : Nat), IronValue.obj [("k".toList, .num 5)]) ] = .outside
    ∧ sortLess (.field "k".toList) id (.obj [("k".toList, .num 2)]) (.obj [("k".toList, .num 10)])
        = true
    ∧ sortLess (.field "k".toList) id (.obj [("k".toList, .num 10)])
        (.obj [("k".toList, .str "1z".toList)]) = true
    ∧ sortLess (.field "k".toList) id (.obj [("k".toList, .str "1z".toList)])
        (.obj [("k".toList, .num 2)]) = true := by
  exact ⟨by rfl, by rfl, by rfl, by rfl⟩

/-- C2, amended: in each of its three forms, on a list on whose elements the
comparison of sort keys is a strict weak ordering, `sort` returns a list in
which two elements whose sort keys are equal (numerically when both keys are
numbers, by rendering otherwise) appear in the relative order they have in
the list.  The elements are taken at an arbitrary type `α` of pointers that
`view` dereferences, so that equal values at different places stay
distinguishable. -/
theorem sort_stable {α : Type} (key : SortKey) (view : α → IronValue) (xs : List α) (x y : α)
    (hsw : strictWeakOn (sortLess key view) xs = true)
    (hxy : [x, y].Sublist xs)
    (heq : keyEquiv (sortKeyOf key (view x)) (sortKeyOf key (view y)) = true) :
    ∃ res, evalSort key view xs = .val res ∧ [x, y].Sublist res := by
  refine ⟨stableSort (sortLess key view) xs, ?_, ?_⟩
  · unfold evalSort; rw [if_pos hsw]
  · exact stableSort_stable (sortLess key view) x y (keyLess_of_keyEquiv _ _ heq) xs hxy

/-- C2, amended, at three tagged records sorted by `age`, two of them of age 30. -/
theorem sort_stable_witness :
    ∃ res, evalSort (.field "age".toList) Prod.snd
        [ ((0 : Nat), IronValue.obj [("n".toList, .str "a".toList), ("age".toList, .num 30)]),
          ((1 : Nat), IronValue.obj [("n".toList, .str "b".toList), ("age".toList, .num 20)]),
          ((2 : Nat), IronValue.obj [("n".toList, .str "c".toList), ("age".toList, .num 30)]) ]
        = .val res
      ∧ [ ((0 : Nat), IronValue.obj [("n".toList, .str "a".toList), ("age".toList, .num 30)]),
          ((2 : Nat), IronValue.obj [("n".toList, .str "c".toList), ("age".toList, .num 30)])
        ].Sublist res :=
  sort_stable (.field "age".toList) Prod.snd _ _ _ (by rfl)
    (List.Sublist.cons₂ _ (List.Sublist.cons _ (List.Sublist.cons₂ _ List.Sublist.slnil)))
    (by rfl)

end Ironwood

namespace Ironwood

/-! ## JSON round trip -/

theorem skipJsonWs_cons (c : Char) (r : Str) (h : isJsonSpace c = false) :
    skipJsonWs (c :: r) = c :: r := by
  simp [skipJsonWs, h]

theorem jsonString_cons (c : Char) (s : Str) (hs : s ≠ []) :
    jsonString (c :: s)
      = if c = dquote then ([], s)
        else if c = backslash then
          (jsonUnescape (s.head hs) :: (jsonString s.tail).1, (jsonString s.tail).2)
        else (c :: (jsonString s).1, (jsonString s).2) := by
  cases s with
  | nil => exact absurd rfl hs
  | cons e r => simp [jsonString]

theorem jsonString_escape (s rest : Str) :
    jsonString (jsonEscape s ++ dquote :: rest) = (s, rest) := by
  have f1 : ¬ backslash = dquote := by decide
  have f2 : jsonUnescape dquote = dquote := by decide
  have f3 : jsonUnescape backslash = backslash := by decide
  have f4 : jsonUnescape 'n' = newline := by decide
  have f5 : jsonUnescape 't' = tab := by decide
  induction s with
  | nil =>
    cases rest with
    | nil => simp [jsonEscape, jsonString]
    | cons e r => simp [jsonEscape, jsonString]
  | cons c s ih =>
    have hne : jsonEscape s ++ dquote :: rest ≠ [] := by simp
    unfold jsonEscape
    have step : ∀ e : Char, jsonString (backslash :: e :: (jsonEscape s ++ dquote :: rest))
        = (jsonUnescape e :: s, rest) := by
      intro e
      rw [jsonString_cons _ _ (by simp)]
      simp only [f1, if_false, if_true, List.head_cons, List.tail_cons, ih]
    by_cases h1 : c = dquote
    · subst h1
      simp only [if_true, List.cons_append, List.nil_append]
      rw [step, f2]
    · by_cases h2 : c = backslash
      · subst h2
        simp only [h1, if_false, if_true, List.cons_append, List.nil_append]
        rw [step, f3]
      · by_cases h3 : c = newline
        · subst h3
          simp only [h1, h2, if_false, if_true, List.cons_append, List.nil_append]
          rw [step, f4]
        · by_cases h4 : c = tab
          · subst h4
            simp only [h1, h2, h3, if_false, if_true, List.cons_append, List.nil_append]
            rw [step, f5]
          · simp only [h1, h2, h3, h4, if_false, List.cons_append, List.nil_append]
            rw [jsonString_cons _ _ hne]
            simp only [h1, h2, if_false, ih]

theorem jsonString_raw (k rest : Str)
    (hk : k.all (fun c => decide (c ≠ dquote) && decide (c ≠ backslash)) = true) :
    jsonString (k ++ dquote :: rest) = (k, rest) := by
  induction k with
  | nil =>
    cases rest with
    | nil => simp [jsonString]
    | cons e r => simp [jsonString]
  | cons c k ih =>
    simp only [List.all_cons, Bool.and_eq_true, decide_eq_true_eq] at hk
    have hne : k ++ dquote :: rest ≠ [] := by simp
    rw [List.cons_append, jsonString_cons _ _ hne]
    simp only [hk.1.1, hk.1.2, if_false]
    rw [ih hk.2]

theorem takeWhile_append_delim (p : Char → Bool) (l rest : Str) (hl : ∀ c ∈ l, p c = true)
    (hr : ∀ c r, rest = c :: r → p c = false) :
    (l ++ rest).takeWhile p = l ∧ (l ++ rest).dropWhile p = rest := by
  induction l with
  | nil =>
    cases rest with
    | nil => simp
    | cons c r => simp [List.takeWhile, List.dropWhile, hr c r rfl]
  | cons a l ih =>
    have ha := hl a (List.mem_cons_self _ _)
    have := ih (fun c hc => hl c (List.mem_cons_of_mem _ hc))
    simp [List.takeWhile, List.dropWhile, ha, this.1, this.2]

theorem numberToken_eq (s : Str) :
    numberToken s = (s.takeWhile isNumChar, s.dropWhile isNumChar) := by
  unfold numberToken
  split
  · have h : isNumChar '-' = true := by decide
    simp [List.takeWhile, List.dropWhile, h]
  · rfl

theorem jsonNumber_append (tok rest : Str) (htok : ∀ c ∈ tok, isNumChar c = true)
    (hr : Delim rest) :
    jsonNumber (tok ++ rest)
      = (match stod tok with
         | some q => IronValue.num q
         | none => IronValue.null, rest) := by
  have h := takeWhile_append_delim isNumChar tok rest htok hr
  unfold jsonNumber
  rw [numberToken_eq, h.1, h.2]

theorem numChar_start (c : Char) (h : isNumChar c = true) :
    isJsonSpace c = false ∧ c ≠ dquote ∧ c ≠ '[' ∧ c ≠ lbrace ∧ c ≠ ']' ∧ c ≠ rbrace
      ∧ c ≠ 'n' ∧ c ≠ 't' ∧ c ≠ 'f' := by
  refine ⟨?_, ?_, ?_, ?_, ?_, ?_, ?_, ?_, ?_⟩
  · by_contra hs
    have hs' : isJsonSpace c = true := by simpa using hs
    simp only [isJsonSpace, Bool.or_eq_true, decide_eq_true_eq] at hs'
    rcases hs' with ((((rfl | rfl) | rfl) | rfl) | rfl) | rfl <;> revert h <;> decide
  all_goals (intro e; subst e; revert h; decide)

theorem jsonToIron_number (pl : Placement) (q : ℚ) (hq : numReadsBack q = true) (rest : Str)
    (hr : Delim rest) (fuel : Nat) :
    jsonToIron pl (fuel + 1) (numToString q ++ rest) = some (.num q, rest) := by
  simp only [numReadsBack, Bool.and_eq_true, List.all_eq_true, decide_eq_true_eq] at hq
  obtain ⟨hall, hstod⟩ := hq
  cases htok : numToString q with
  | nil => rw [htok] at hstod; simp [stod, stodUnsigned, List.takeWhile, List.dropWhile] at hstod
  | cons c t =>
    rw [htok] at hall hstod
    have hc := numChar_start c (hall c (List.mem_cons_self _ _))
    have hnum := jsonNumber_append (c :: t) rest hall hr
    rw [hstod] at hnum
    simp only [List.cons_append] at hnum ⊢
    unfold jsonToIron
    rw [skipJsonWs_cons c _ hc.1]
    simp only [hc.2.1, hc.2.2.1, hc.2.2.2.1, if_false]
    have p1 : "null".toList.isPrefixOf (c :: (t ++ rest)) = false := by
      have := hc.2.2.2.2.2.2.1
      simp [List.isPrefixOf, this]
      intro e; exact absurd e.symm this
    have p2 : "true".toList.isPrefixOf (c :: (t ++ rest)) = false := by
      have := hc.2.2.2.2.2.2.2.1
      simp [List.isPrefixOf, this]
      intro e; exact absurd e.symm this
    have p3 : "false".toList.isPrefixOf (c :: (t ++ rest)) = false := by
      have := hc.2.2.2.2.2.2.2.2
      simp [List.isPrefixOf, this]
      intro e; exact absurd e.symm this
    simp only [p1, p2, p3, Bool.false_eq_true, if_false, hnum]

theorem insertAt_length {α : Type} (i : Nat) (x : α) (l : List α) :
    (insertAt i x l).length = l.length + 1 := by
  unfold insertAt
  simp only [List.length_append, List.length_cons, List.length_take, List.length_drop]
  omega

theorem objFind_append {β : Type} (a b : List (Str × β)) (k : Str) :
    objFind (a ++ b) k = (match objFind a k with
      | some v => some v
      | none => objFind b k) := by
  induction a with
  | nil => rfl
  | cons kv r ih =>
    obtain ⟨k', v⟩ := kv
    rw [List.cons_append, objFind_cons, objFind_cons]
    by_cases h : k' = k
    · rw [if_pos h, if_pos h]
    · rw [if_neg h, if_neg h, ih]

theorem objFind_take_drop {β : Type} (i : Nat) (o : List (Str × β)) (k : Str) :
    (match objFind (o.take i) k with
      | some v => some v
      | none => objFind (o.drop i) k) = objFind o k := by
  rw [← objFind_append, List.take_append_drop]

theorem objFind_insertAt {β : Type} (i : Nat) (o : List (Str × β)) (k : Str) (v : β) (k' : Str)
    (hk : objFind o k = none) :
    objFind (insertAt i (k, v) o) k' = if k = k' then some v else objFind o k' := by
  unfold insertAt
  rw [objFind_append, objFind_cons]
  by_cases h : k = k'
  · subst h
    rw [if_pos rfl, if_pos rfl]
    have h1 := objFind_take_drop i o k
    rw [hk] at h1
    cases h2 : objFind (o.take i) k with
    | none => rfl
    | some w => rw [h2] at h1; cases h1
  · rw [if_neg h, if_neg h]
    exact objFind_take_drop i o k'

theorem objSet_fresh {β : Type} (pl : Placement) (o : List (Str × β)) (k : Str) (v : β)
    (hk : objFind o k = none) :
    objSet pl o k v = insertAt (pl (o.map Prod.fst) k) (k, v) o := by
  unfold objSet
  rw [hk]
  rfl

theorem jsonFuel_pos (v : IronValue) : 1 ≤ jsonFuel v := by
  cases v <;> simp [jsonFuel]

theorem jsonFuelElems_pos (xs : List IronValue) : 1 ≤ jsonFuelElems xs := by
  cases xs <;> simp [jsonFuelElems]

theorem jsonFuelFields_pos (kvs : List (Str × IronValue)) : 1 ≤ jsonFuelFields kvs := by
  cases kvs with
  | nil => simp [jsonFuelFields]
  | cons kv r => obtain ⟨k, v⟩ := kv; simp [jsonFuelFields]

/-- First character of the rendering of a `jsonSafe` value. -/
theorem ironToJson_head (v : IronValue) (h : jsonSafe v = true) :
    ∃ c t, ironToJson v = c :: t ∧ isJsonSpace c = false ∧ c ≠ ']' ∧ c ≠ rbrace := by
  cases v with
  | null => exact ⟨'n', "ull".toList, rfl, by decide, by decide, by decide⟩
  | bool b =>
    cases b
    · exact ⟨'f', "alse".toList, rfl, by decide, by decide, by decide⟩
    · exact ⟨'t', "rue".toList, rfl, by decide, by decide, by decide⟩
  | num q =>
    simp only [jsonSafe, numReadsBack, Bool.and_eq_true, List.all_eq_true, decide_eq_true_eq] at h
    obtain ⟨hall, hstod⟩ := h
    cases htok : numToString q with
    | nil => rw [htok] at hstod; simp [stod, stodUnsigned, List.takeWhile, List.dropWhile] at hstod
    | cons c t =>
      rw [htok] at hall
      have hc := numChar_start c (hall c (List.mem_cons_self _ _))
      exact ⟨c, t, by simp [ironToJson, htok], hc.1, hc.2.2.2.2.1, hc.2.2.2.2.2.1⟩
  | str s => exact ⟨dquote, _, rfl, by decide, by decide, by decide⟩
  | arr xs => exact ⟨'[', _, rfl, by decide, by decide, by decide⟩
  | obj kvs => exact ⟨lbrace, _, rfl, by decide, by decide, by decide⟩
  | func => simp [jsonSafe] at h
  | native => simp [jsonSafe] at h

theorem jsonElems_tail (r : List IronValue) (rest : Str) :
    skipChar ',' (skipJsonWs (jsonElems false r ++ ']' :: rest)) = jsonElems true r ++ ']' :: rest
    ∧ Delim (jsonElems false r ++ ']' :: rest) := by
  cases r with
  | nil =>
    refine ⟨?_, ?_⟩
    · simp only [jsonElems, List.nil_append]
      rw [skipJsonWs_cons _ _ (by decide)]
      simp [skipChar]
    · intro c t hc
      simp only [jsonElems, List.nil_append, List.cons.injEq] at hc
      rw [← hc.1]; decide
  | cons y t =>
    refine ⟨?_, ?_⟩
    · simp only [jsonElems, Bool.false_eq_true, if_false, if_true, List.cons_append,
        List.nil_append, List.append_assoc]
      rw [skipJsonWs_cons _ _ (by decide)]
      simp [skipChar]
    · intro c t' hc
      simp only [jsonElems, Bool.false_eq_true, if_false, List.cons_append, List.nil_append,
        List.append_assoc, List.cons.injEq] at hc
      rw [← hc.1]; decide

theorem jsonFields_tail (r : List (Str × IronValue)) (hr : jsonSafeFields r = true) (rest : Str) :
    skipChar ',' (skipJsonWs (jsonFields false r ++ rbrace :: rest))
      = jsonFields true r ++ rbrace :: rest
    ∧ Delim (jsonFields false r ++ rbrace :: rest) := by
  cases r with
  | nil =>
    refine ⟨?_, ?_⟩
    · simp only [jsonFields, List.nil_append]
      rw [skipJsonWs_cons _ _ (by decide)]
      have : ¬ rbrace = ',' := by decide
      simp [skipChar, this]
    · intro c t hc
      simp only [jsonFields, List.nil_append, List.cons.injEq] at hc
      rw [← hc.1]; decide
  | cons kv t =>
    obtain ⟨k, v⟩ := kv
    simp only [jsonSafeFields, keySafe, Bool.and_eq_true, decide_eq_true_eq] at hr
    have hk : ¬ k = classKey := hr.1.1.1.1
    refine ⟨?_, ?_⟩
    · simp only [jsonFields, hk, Bool.false_eq_true, if_false, if_true, List.cons_append,
        List.nil_append, List.append_assoc]
      rw [skipJsonWs_cons _ _ (by decide)]
      simp [skipChar]
    · intro c t' hc
      simp only [jsonFields, hk, Bool.false_eq_true, if_false, List.cons_append, List.nil_append,
        List.append_assoc, List.cons.injEq] at hc
      rw [← hc.1]; decide

end Ironwood

namespace Ironwood

theorem jsonToIron_literal (pl : Placement) (fuel : Nat) (rest : Str) :
    jsonToIron pl (fuel + 1) ("null".toList ++ rest) = some (.null, rest)
    ∧ jsonToIron pl (fuel + 1) ("true".toList ++ rest) = some (.bool true, rest)
    ∧ jsonToIron pl (fuel + 1) ("false".toList ++ rest) = some (.bool false, rest) := by
  have hn : isJsonSpace 'n' = false := by decide
  have ht : isJsonSpace 't' = false := by decide
  have hf : isJsonSpace 'f' = false := by decide
  have e1 : ¬ 'n' = dquote := by decide
  have e2 : ¬ 'n' = '[' := by decide
  have e3 : ¬ 'n' = lbrace := by decide
  have e4 : ¬ 't' = dquote := by decide
  have e5 : ¬ 't' = '[' := by decide
  have e6 : ¬ 't' = lbrace := by decide
  have e7 : ¬ 'f' = dquote := by decide
  have e8 : ¬ 'f' = '[' := by decide
  have e9 : ¬ 'f' = lbrace := by decide
  refine ⟨?_, ?_, ?_⟩
  · show jsonToIron pl (fuel + 1) ('n' :: 'u' :: 'l' :: 'l' :: rest) = _
    unfold jsonToIron
    rw [skipJsonWs_cons _ _ hn]
    simp [e1, e2, e3, List.isPrefixOf]
  · show jsonToIron pl (fuel + 1) ('t' :: 'r' :: 'u' :: 'e' :: rest) = _
    unfold jsonToIron
    rw [skipJsonWs_cons _ _ ht]
    simp [e4, e5, e6, List.isPrefixOf]
  · show jsonToIron pl (fuel + 1) ('f' :: 'a' :: 'l' :: 's' :: 'e' :: rest) = _
    unfold jsonToIron
    rw [skipJsonWs_cons _ _ hf]
    simp [e7, e8, e9, List.isPrefixOf]

theorem jsonToIron_string (pl : Placement) (fuel : Nat) (body after : Str) (s : Str)
    (h : jsonString body = (s, after)) :
    jsonToIron pl (fuel + 1) (dquote :: body) = some (.str s, after) := by
  unfold jsonToIron
  rw [skipJsonWs_cons _ _ (by decide)]
  simp [h]

theorem jsonToIron_array (pl : Placement) (fuel : Nat) (body : Str) (c : Char) (t : Str)
    (hb : body = c :: t) (hc : isJsonSpace c = false) :
    jsonToIron pl (fuel + 1) ('[' :: body) = jsonArrayLoop pl fuel body [] := by
  unfold jsonToIron
  rw [skipJsonWs_cons _ _ (by decide)]
  have e1 : ¬ '[' = dquote := by decide
  simp only [e1, if_false, if_true]
  rw [hb, skipJsonWs_cons _ _ hc]

theorem jsonToIron_object (pl : Placement) (fuel : Nat) (body : Str) (c : Char) (t : Str)
    (hb : body = c :: t) (hc : isJsonSpace c = false) :
    jsonToIron pl (fuel + 1) (lbrace :: body) = jsonObjectLoop pl fuel body [] := by
  unfold jsonToIron
  rw [skipJsonWs_cons _ _ (by decide)]
  have e1 : ¬ lbrace = dquote := by decide
  have e2 : ¬ lbrace = '[' := by decide
  simp only [e1, e2, if_false, if_true]
  rw [hb, skipJsonWs_cons _ _ hc]

mutual
theorem roundTrip_value (pl : Placement) :
    ∀ v : IronValue, jsonSafe v = true →
      ∃ w, sameValue v w = true ∧ ∀ rest, Delim rest → ∀ fuel, jsonFuel v ≤ fuel →
        jsonToIron pl fuel (ironToJson v ++ rest) = some (w, rest)
  | .null, _ => by
    refine ⟨.null, rfl, ?_⟩
    intro rest _ fuel hf
    obtain ⟨f, rfl⟩ : ∃ f, fuel = f + 1 := ⟨fuel - 1, by simp [jsonFuel] at hf; omega⟩
    exact (jsonToIron_literal pl f rest).1
  | .bool b, _ => by
    refine ⟨.bool b, by simp [sameValue], ?_⟩
    intro rest _ fuel hf
    obtain ⟨f, rfl⟩ : ∃ f, fuel = f + 1 := ⟨fuel - 1, by simp [jsonFuel] at hf; omega⟩
    cases b
    · exact (jsonToIron_literal pl f rest).2.2
    · exact (jsonToIron_literal pl f rest).2.1
  | .num q, h => by
    refine ⟨.num q, by simp [sameValue], ?_⟩
    intro rest hr fuel hf
    obtain ⟨f, rfl⟩ : ∃ f, fuel = f + 1 := ⟨fuel - 1, by simp [jsonFuel] at hf; omega⟩
    exact jsonToIron_number pl q (by simpa [jsonSafe] using h) rest hr f
  | .str s, _ => by
    refine ⟨.str s, by simp [sameValue], ?_⟩
    intro rest _ fuel hf
    obtain ⟨f, rfl⟩ : ∃ f, fuel = f + 1 := ⟨fuel - 1, by simp [jsonFuel] at hf; omega⟩
    have := jsonToIron_string pl f (jsonEscape s ++ dquote :: rest) rest s (jsonString_escape s rest)
    simpa [ironToJson] using this
  | .arr xs, h => by
    obtain ⟨ws, hsame, hloop⟩ := roundTrip_elems pl xs (by simpa [jsonSafe] using h)
    refine ⟨.arr ws, by simpa [sameValue] using hsame, ?_⟩
    intro rest _ fuel hf
    obtain ⟨f, rfl⟩ : ∃ f, fuel = f + 1 := ⟨fuel - 1, by simp [jsonFuel] at hf; omega⟩
    have hf' : jsonFuelElems xs ≤ f := by simp [jsonFuel] at hf; omega
    have e : ironToJson (.arr xs) ++ rest = '[' :: (jsonElems true xs ++ ']' :: rest) := by
      simp [ironToJson]
    rw [e]
    have hhead : ∃ c t, jsonElems true xs ++ ']' :: rest = c :: t ∧ isJsonSpace c = false := by
      cases xs with
      | nil => exact ⟨']', rest, rfl, by decide⟩
      | cons x r =>
        obtain ⟨c, t, hc, hs, _⟩ := ironToJson_head x (by
          simp only [jsonSafe, jsonSafeElems, Bool.and_eq_true] at h; exact h.1)
        exact ⟨c, t ++ (jsonElems false r ++ ']' :: rest), by simp [jsonElems, hc], hs⟩
    obtain ⟨c, t, hb, hc⟩ := hhead
    rw [jsonToIron_array pl f _ c t hb hc, hloop rest [] f hf']
    simp
  | .obj kvs, h => by
    obtain ⟨o, hlen, _, hsame, hloop⟩ :=
      roundTrip_fields pl kvs (by simpa [jsonSafe] using h) [] (fun _ _ => rfl)
    refine ⟨.obj o, ?_, ?_⟩
    · simp only [sameValue, hsame, Bool.and_true, decide_eq_true_eq]
      simp at hlen; omega
    intro rest _ fuel hf
    obtain ⟨f, rfl⟩ : ∃ f, fuel = f + 1 := ⟨fuel - 1, by simp [jsonFuel] at hf; omega⟩
    have hf' : jsonFuelFields kvs ≤ f := by simp [jsonFuel] at hf; omega
    have e : ironToJson (.obj kvs) ++ rest = lbrace :: (jsonFields true kvs ++ rbrace :: rest) := by
      simp [ironToJson]
    rw [e]
    have hhead : ∃ c t, jsonFields true kvs ++ rbrace :: rest = c :: t ∧ isJsonSpace c = false := by
      cases kvs with
      | nil => exact ⟨rbrace, rest, rfl, by decide⟩
      | cons kv r =>
        obtain ⟨k, v⟩ := kv
        simp only [jsonSafe, jsonSafeFields, keySafe, Bool.and_eq_true, decide_eq_true_eq] at h
        have hk : ¬ k = classKey := h.1.1.1.1
        exact ⟨dquote, k ++ dquote :: ':' :: (ironToJson v ++ (jsonFields false r ++ rbrace :: rest)),
          by simp [jsonFields, hk], by decide⟩
    obtain ⟨c, t, hb, hc⟩ := hhead
    rw [jsonToIron_object pl f _ c t hb hc, hloop rest f hf']
  | .func, h => by simp [jsonSafe] at h
  | .native, h => by simp [jsonSafe] at h
theorem roundTrip_elems (pl : Placement) :
    ∀ xs : List IronValue, jsonSafeElems xs = true →
      ∃ ws, sameElems xs ws = true ∧ ∀ rest acc fuel, jsonFuelElems xs ≤ fuel →
        jsonArrayLoop pl fuel (jsonElems true xs ++ ']' :: rest) acc = some (.arr (acc ++ ws), rest)
  | [], _ => by
    refine ⟨[], rfl, ?_⟩
    intro rest acc fuel hf
    obtain ⟨f, rfl⟩ : ∃ f, fuel = f + 1 := ⟨fuel - 1, by simp [jsonFuelElems] at hf; omega⟩
    simp [jsonElems, jsonArrayLoop]
  | x :: r, h => by
    simp only [jsonSafeElems, Bool.and_eq_true] at h
    obtain ⟨w, hw, hval⟩ := roundTrip_value pl x h.1
    obtain ⟨ws, hws, hloop⟩ := roundTrip_elems pl r h.2
    refine ⟨w :: ws, by simp [sameElems, hw, hws], ?_⟩
    intro rest acc fuel hf
    obtain ⟨f, rfl⟩ : ∃ f, fuel = f + 1 := ⟨fuel - 1, by simp [jsonFuelElems] at hf; omega⟩
    simp only [jsonFuelElems] at hf
    obtain ⟨c, t, hc, _, hc2, _⟩ := ironToJson_head x h.1
    have htail := jsonElems_tail r rest
    have e : jsonElems true (x :: r) ++ ']' :: rest
        = c :: (t ++ (jsonElems false r ++ ']' :: rest)) := by
      simp [jsonElems, hc]
    have e' : c :: (t ++ (jsonElems false r ++ ']' :: rest))
        = ironToJson x ++ (jsonElems false r ++ ']' :: rest) := by
      simp [hc]
    rw [e]
    unfold jsonArrayLoop
    simp only [hc2, if_false]
    rw [e', hval _ htail.2 f (by omega)]
    simp only
    rw [htail.1, hloop rest (acc ++ [w]) f (by omega)]
    simp
theorem roundTrip_fields (pl : Placement) :
    ∀ kvs : List (Str × IronValue), jsonSafeFields kvs = true →
      ∀ acc : List (Str × IronValue), (∀ k ∈ kvs.map Prod.fst, objFind acc k = none) →
        ∃ o, o.length = acc.length + kvs.length
          ∧ (∀ k w, objFind acc k = some w → objFind o k = some w)
          ∧ sameFields kvs o = true
          ∧ ∀ rest fuel, jsonFuelFields kvs ≤ fuel →
              jsonObjectLoop pl fuel (jsonFields true kvs ++ rbrace :: rest) acc
                = some (.obj o, rest)
  | [], _, acc, _ => by
    refine ⟨acc, by simp, fun _ _ h => h, rfl, ?_⟩
    intro rest fuel hf
    obtain ⟨f, rfl⟩ : ∃ f, fuel = f + 1 := ⟨fuel - 1, by simp [jsonFuelFields] at hf; omega⟩
    simp [jsonFields, jsonObjectLoop]
  | (k, v) :: r, h, acc, hacc => by
    simp only [jsonSafeFields, Bool.and_eq_true, decide_eq_true_eq] at h
    obtain ⟨⟨⟨hkey, hnotin⟩, hv⟩, hr⟩ := h
    have hkey' := hkey
    simp only [keySafe, Bool.and_eq_true, decide_eq_true_eq] at hkey'
    obtain ⟨hk, hchars⟩ := hkey'
    obtain ⟨w, hw, hval⟩ := roundTrip_value pl v hv
    have hfresh : objFind acc k = none := hacc k (by simp)
    have hacc' : ∀ k' ∈ r.map Prod.fst, objFind (objSet pl acc k w) k' = none := by
      intro k' hk'
      rw [objSet_fresh pl acc k w hfresh, objFind_insertAt _ _ _ _ _ hfresh]
      have hne : ¬ k = k' := by intro e; subst e; exact hnotin hk'
      rw [if_neg hne]
      exact hacc k' (by simp only [List.map_cons, List.mem_cons]; exact Or.inr hk')
    obtain ⟨o, hlen, hkeep, hsame, hloop⟩ := roundTrip_fields pl r hr (objSet pl acc k w) hacc'
    refine ⟨o, ?_, ?_, ?_, ?_⟩
    · rw [hlen, objSet_fresh pl acc k w hfresh, insertAt_length]
      simp only [List.length_cons]; omega
    · intro k' w' hk'
      apply hkeep
      rw [objSet_fresh pl acc k w hfresh, objFind_insertAt _ _ _ _ _ hfresh]
      have hne : ¬ k = k' := by intro e; subst e; rw [hfresh] at hk'; cases hk'
      rw [if_neg hne]; exact hk'
    · have hko : objFind o k = some w := by
        apply hkeep
        rw [objSet_fresh pl acc k w hfresh, objFind_insertAt _ _ _ _ _ hfresh, if_pos rfl]
      simp only [sameFields, hko, hw, hsame, Bool.and_self]
    · intro rest fuel hf
      obtain ⟨f, rfl⟩ : ∃ f, fuel = f + 1 := ⟨fuel - 1, by simp [jsonFuelFields] at hf; omega⟩
      simp only [jsonFuelFields] at hf
      have hv1 := jsonFuel_pos v
      obtain ⟨f', rfl⟩ : ∃ f', f = f' + 1 := ⟨f - 1, by omega⟩
      have htail := jsonFields_tail r hr rest
      have e : jsonFields true ((k, v) :: r) ++ rbrace :: rest
          = dquote :: (k ++ dquote :: (':' :: (ironToJson v ++ (jsonFields false r ++ rbrace :: rest)))) := by
        simp [jsonFields, hk]
      rw [e]
      unfold jsonObjectLoop
      have e1 : ¬ dquote = rbrace := by decide
      simp only [e1, if_false]
      rw [jsonToIron_string pl f' _ _ k (jsonString_raw k _ hchars)]
      simp only
      rw [skipJsonWs_cons _ _ (by decide)]
      have e2 : skipChar ':' (':' :: (ironToJson v ++ (jsonFields false r ++ rbrace :: rest)))
          = ironToJson v ++ (jsonFields false r ++ rbrace :: rest) := by simp [skipChar]
      rw [e2, hval _ htail.2 (f' + 1) (by omega)]
      simp only [IronValue.toString]
      rw [htail.1, hloop rest (f' + 1) (by omega)]
end

/-- C1, as stated, fails: the number 1234567.5 renders as `1.23457e+06`,
which `parse json` reads as 1234570. -/
theorem json_round_trip_loses_digits :
    parseJson (fun _ _ => 0) 5 (ironToJson (.num (mkRat 2469135 2))) = some (.num 1234570)
    ∧ sameValue (.num (mkRat 2469135 2)) (.num 1234570) = false := by
  exact ⟨by rfl, by decide⟩

/-- C1, amended: for every value made of null, booleans, strings, numbers
that `std::stod` reads back from their rendering (every integral number of
magnitude below `10^15` is one), lists, and dictionaries whose keys are
distinct, are not the class marker and contain no double quote and no
backslash, `parse json (json of V)` returns, with enough fuel and whatever the
placement of new keys, a value equal to `V`: the same variant, the same scalar
at every position, and the same dictionary keys. -/
theorem json_round_trip (pl : Placement) (v : IronValue) (h : jsonSafe v = true) :
    ∃ w, sameValue v w = true
      ∧ ∀ fuel, jsonFuel v ≤ fuel → parseJson pl fuel (ironToJson v) = some w := by
  obtain ⟨w, hw, hparse⟩ := roundTrip_value pl v h
  refine ⟨w, hw, ?_⟩
  intro fuel hf
  have := hparse [] (fun c r hc => by cases hc) fuel hf
  rw [List.append_nil] at this
  simp [parseJson, this]

/-- C1, amended, at the value of the specification's scenario,
`(name: "ada", ages: [1,2,3], ok: true)`, with new keys placed in front. -/
theorem json_round_trip_witness :
    ∃ w, sameValue (.obj [("name".toList, .str "ada".toList),
            ("ages".toList, .arr [.num 1, .num 2, .num 3]), ("ok".toList, .bool true)]) w = true
      ∧ parseJson (fun _ _ => 0) 15
          (ironToJson (.obj [("name".toList, .str "ada".toList),
            ("ages".toList, .arr [.num 1, .num 2, .num 3]), ("ok".toList, .bool true)])) = some w :=
  (json_round_trip (fun _ _ => 0)
    (.obj [("name".toList, .str "ada".toList),
      ("ages".toList, .arr [.num 1, .num 2, .num 3]), ("ok".toList, .bool true)])
    (by decide)).imp (fun _ hw => ⟨hw.1, hw.2 15 (by decide)⟩)

/-- Every integral number of magnitude below `10^15` is read back from its
rendering. -/
theorem numReadsBack_integral (q : ℚ) (hd : q.den = 1) (hb : q.num.natAbs < 10 ^ 15) :
    numReadsBack q = true := by
  simp only [numReadsBack, Bool.and_eq_true, List.all_eq_true, decide_eq_true_eq]
  refine ⟨?_, stod_numToString_integral q hd hb⟩
  unfold numToString
  rw [if_pos ⟨hd, hb⟩]
  unfold intToString
  intro c hc
  have hdig : ∀ c ∈ natToString q.num.natAbs, isNumChar c = true := by
    intro c hc
    have := natToString_digits _ c hc
    simp [isNumChar, this]
  split at hc
  · rcases List.mem_cons.1 hc with rfl | hc
    · decide
    · exact hdig c hc
  · exact hdig c hc

end Ironwood

namespace Ironwood

/-! ## Short-circuit operators -/

theorem evalExpr_and (h : Host) (fuel : Nat) (a b : Expr) (env : Nat) (σ : State) :
    evalExpr h (fuel + 1) (.BinExpr "and".toList a b) env σ
      = (evalExpr h fuel a env σ).bind (fun l σ1 =>
          if l.isTruthy then evalExpr h fuel b env σ1 else .ok l σ1) := by
  rw [evalExpr]
  simp

theorem evalExpr_or (h : Host) (fuel : Nat) (a b : Expr) (env : Nat) (σ : State) :
    evalExpr h (fuel + 1) (.BinExpr "or".toList a b) env σ
      = (evalExpr h fuel a env σ).bind (fun l σ1 =>
          if l.isTruthy then .ok l σ1 else evalExpr h fuel b env σ1) := by
  rw [evalExpr]
  have : ¬ "or".toList = "and".toList := by decide
  simp [this]

/-- C4: `a and b` evaluates `a` first; when its value is falsy the result is
that very value and state, whatever `b` is, otherwise it is the result of
evaluating `b` next.  `a or b` returns the value of `a` when it is truthy,
whatever `b` is, otherwise the result of evaluating `b` next.  A failure of
`a` is the failure of the whole expression. -/
theorem and_or_short_circuit (h : Host) (fuel : Nat) (a b : Expr) (env : Nat) (σ : State) :
    (∀ l σ1, evalExpr h fuel a env σ = .ok l σ1 → l.isTruthy = false →
        evalExpr h (fuel + 1) (.BinExpr "and".toList a b) env σ = .ok l σ1)
    ∧ (∀ l σ1, evalExpr h fuel a env σ = .ok l σ1 → l.isTruthy = true →
        evalExpr h (fuel + 1) (.BinExpr "and".toList a b) env σ = evalExpr h fuel b env σ1)
    ∧ (∀ l σ1, evalExpr h fuel a env σ = .ok l σ1 → l.isTruthy = true →
        evalExpr h (fuel + 1) (.BinExpr "or".toList a b) env σ = .ok l σ1)
    ∧ (∀ l σ1, evalExpr h fuel a env σ = .ok l σ1 → l.isTruthy = false →
        evalExpr h (fuel + 1) (.BinExpr "or".toList a b) env σ = evalExpr h fuel b env σ1)
    ∧ (∀ s σ1, evalExpr h fuel a env σ = .exc s σ1 →
        evalExpr h (fuel + 1) (.BinExpr "and".toList a b) env σ = .exc s σ1
        ∧ evalExpr h (fuel + 1) (.BinExpr "or".toList a b) env σ = .exc s σ1) := by
  refine ⟨?_, ?_, ?_, ?_, ?_⟩
  · intro l σ1 ha ht; rw [evalExpr_and, ha]; simp [Res.bind, ht]
  · intro l σ1 ha ht; rw [evalExpr_and, ha]; simp [Res.bind, ht]
  · intro l σ1 ha ht; rw [evalExpr_or, ha]; simp [Res.bind, ht]
  · intro l σ1 ha ht; rw [evalExpr_or, ha]; simp [Res.bind, ht]
  · intro s σ1 ha; rw [evalExpr_and, evalExpr_or, ha]; simp [Res.bind]

/-- C4 at the operands `null` (falsy), `7` (truthy) and the unbound variable
`nope`, whose evaluation raises: `null and nope` is `null`, `7 and 8` is `8`,
`7 or nope` is `7`, `null or 8` is `8`, and `nope and 8`, `nope or 8` raise
what `nope` raises. -/
theorem and_or_short_circuit_witness :
    evalExpr Host.plain 2 (.BinExpr "and".toList .NullLit (.VarExpr "nope".toList)) 0 State.initial
      = .ok .null State.initial
    ∧ evalExpr Host.plain 2 (.BinExpr "and".toList (.NumberLit 7) (.NumberLit 8)) 0 State.initial
      = evalExpr Host.plain 1 (.NumberLit 8) 0 State.initial
    ∧ evalExpr Host.plain 2 (.BinExpr "or".toList (.NumberLit 7) (.VarExpr "nope".toList)) 0
        State.initial = .ok (.num 7) State.initial
    ∧ evalExpr Host.plain 2 (.BinExpr "or".toList .NullLit (.NumberLit 8)) 0 State.initial
      = evalExpr Host.plain 1 (.NumberLit 8) 0 State.initial
    ∧ (evalExpr Host.plain 2 (.BinExpr "and".toList (.VarExpr "nope".toList) (.NumberLit 8)) 0
          State.initial
        = evalExpr Host.plain 1 (.VarExpr "nope".toList) 0 State.initial
      ∧ evalExpr Host.plain 2 (.BinExpr "or".toList (.VarExpr "nope".toList) (.NumberLit 8)) 0
          State.initial
        = evalExpr Host.plain 1 (.VarExpr "nope".toList) 0 State.initial) :=
  ⟨(and_or_short_circuit Host.plain 1 .NullLit (.VarExpr "nope".toList) 0 State.initial).1
      .null State.initial (by rfl) (by rfl),
   (and_or_short_circuit Host.plain 1 (.NumberLit 7) (.NumberLit 8) 0 State.initial).2.1
      (.num 7) State.initial (by rfl) (by rfl),
   (and_or_short_circuit Host.plain 1 (.NumberLit 7) (.VarExpr "nope".toList) 0 State.initial).2.2.1
      (.num 7) State.initial (by rfl) (by rfl),
   (and_or_short_circuit Host.plain 1 .NullLit (.NumberLit 8) 0 State.initial).2.2.2.1
      .null State.initial (by rfl) (by rfl),
   (and_or_short_circuit Host.plain 1 (.VarExpr "nope".toList) (.NumberLit 8) 0
      State.initial).2.2.2.2 _ State.initial (by rfl)⟩

end Ironwood

namespace Ironwood

/-! ## The class marker under assignment -/

theorem objFind_objReplace_ne {β : Type} (o : List (Str × β)) (k k' : Str) (v : β) (hne : k ≠ k') :
    objFind (objReplace o k v) k' = objFind o k' := by
  induction o with
  | nil => rfl
  | cons kv r ih =>
    obtain ⟨k0, w⟩ := kv
    unfold objReplace
    by_cases h : k0 = k
    · subst h
      rw [if_pos rfl, objFind_cons, objFind_cons, if_neg hne, if_neg hne]
    · rw [if_neg h, objFind_cons, objFind_cons, ih]

theorem objFind_objSet_ne {β : Type} (pl : Placement) (o : List (Str × β)) (k k' : Str) (v : β)
    (hne : k ≠ k') : objFind (objSet pl o k v) k' = objFind o k' := by
  unfold objSet
  cases hk : objFind o k with
  | none =>
    simp only [Option.isSome_none, Bool.false_eq_true, if_false]
    rw [objFind_insertAt _ _ _ _ _ hk, if_neg hne]
  | some w =>
    simp only [Option.isSome_some, if_true]
    exact objFind_objReplace_ne o k k' v hne

theorem classMarker_store_obj (pl : Placement) (σ : State) (r0 : Nat) (kvs : List (Str × Val))
    (k : Str) (v : Val) (hcell : σ.heap[r0]? = some (.obj kvs)) (hk : k ≠ classKey) (r : Nat) :
    classMarker (σ.store r0 (.obj (objSet pl kvs k v))) r = classMarker σ r := by
  unfold classMarker State.store
  simp only
  by_cases hr : r0 = r
  · subst hr
    have hlt : r0 < σ.heap.length := by
      by_contra hge
      rw [List.getElem?_eq_none (by omega)] at hcell
      cases hcell
    rw [List.getElem?_set_self hlt, hcell]
    simp only
    exact objFind_objSet_ne pl kvs k classKey v hk
  · rw [List.getElem?_set_ne hr]

theorem classMarker_store_arr (σ : State) (r0 : Nat) (xs ys : List Val)
    (hcell : σ.heap[r0]? = some (.arr xs)) (r : Nat) :
    classMarker (σ.store r0 (.arr ys)) r = classMarker σ r := by
  unfold classMarker State.store
  simp only
  by_cases hr : r0 = r
  · subst hr
    have hlt : r0 < σ.heap.length := by
      by_contra hge
      rw [List.getElem?_eq_none (by omega)] at hcell
      cases hcell
    rw [List.getElem?_set_self hlt, hcell]
  · rw [List.getElem?_set_ne hr]

theorem classMarker_storeMember (pl : Placement) (σ : State) (ov : Val) (field : Str) (v : Val)
    (hf : field ≠ classKey) (r : Nat) :
    classMarker (storeMember pl σ ov field v) r = classMarker σ r := by
  unfold storeMember
  cases ov with
  | obj r0 =>
    simp only
    cases hcell : σ.heap[r0]? with
    | none => rfl
    | some c =>
      cases c with
      | arr xs => rfl
      | obj kvs => exact classMarker_store_obj pl σ r0 kvs field v hcell hf r
  | _ => rfl

theorem classMarker_storeIndex (pl : Placement) (σ σ' : State) (ov iv : Val) (key : Str) (v : Val)
    (hk : key ≠ classKey) (hs : storeIndex pl σ ov iv key v = .ok () σ') (r : Nat) :
    classMarker σ' r = classMarker σ r := by
  unfold storeIndex at hs
  cases ov with
  | arr r0 =>
    cases iv with
    | num n =>
      simp only at hs
      cases hcell : σ.heap[r0]? with
      | none => rw [hcell] at hs; simp at hs
      | some c =>
        cases c with
        | obj kvs => rw [hcell] at hs; simp at hs
        | arr xs =>
          rw [hcell] at hs
          cases hc : castInt n with
          | none => rw [hc] at hs; simp at hs
          | some i =>
            rw [hc] at hs
            simp only at hs
            split at hs
            · injection hs with _ hσ
              rw [← hσ]
              exact classMarker_store_arr σ r0 xs _ hcell r
            · cases hs
    | _ => simp only at hs; injection hs with _ hσ; rw [← hσ]
  | obj r0 =>
    simp only at hs
    cases hcell : σ.heap[r0]? with
    | none => rw [hcell] at hs; simp at hs
    | some c =>
      cases c with
      | arr xs => rw [hcell] at hs; simp at hs
      | obj kvs =>
        rw [hcell] at hs
        simp only at hs
        injection hs with _ hσ
        rw [← hσ]
        exact classMarker_store_obj pl σ r0 kvs key v hcell hk r
  | _ => simp only at hs; injection hs with _ hσ; rw [← hσ]

/-- C9, as stated, fails: after `class C`, `let o = new C()` the instance
carries the marker `C`; the statement `set o.__class__ = "X"`, and likewise
`set o["__class__"] = "X"`, replaces it by `X`. -/
theorem class_marker_overwritten :
    markerAfter (run Host.plain 20
        [ .ClassStmt "C".toList [],
          .LetStmt "o".toList (.ClassNewExpr "C".toList []) ] State.initial) 0
      = some (.str "C".toList)
    ∧ markerAfter (run Host.plain 20
        [ .ClassStmt "C".toList [],
          .LetStmt "o".toList (.ClassNewExpr "C".toList []),
          .SetStmt (.MemberExpr (.VarExpr "o".toList) classKey) (.StringLit "X".toList) ]
        State.initial) 0
      = some (.str "X".toList)
    ∧ markerAfter (run Host.plain 20
        [ .ClassStmt "C".toList [],
          .LetStmt "o".toList (.ClassNewExpr "C".toList []),
          .SetStmt (.IndexExpr (.VarExpr "o".toList) (.StringLit classKey))
            (.StringLit "X".toList) ]
        State.initial) 0
      = some (.str "X".toList) := by
  exact ⟨by rfl, by rfl, by rfl⟩

/-- C9, amended: an assignment `set o.F = V` with a field name `F` other than
`__class__` completes and leaves the value stored under `__class__` in every
dictionary as it is when the store takes place (after the evaluation of the
operands); so does an assignment `set o[K] = V` to a dictionary `o` with an
index whose rendering is not `__class__`; and no completed assignment
`set o[K] = V` whose index does not render as `__class__` changes a marker. -/
theorem class_marker_kept (h : Host) (fuel : Nat) (oe ie : Expr) (field : Str) (v : Val)
    (env : Nat) (σ σ1 : State) (ov : Val) (ho : evalExpr h fuel oe env σ = .ok ov σ1) :
    (field ≠ classKey →
      ∃ σ2, assignLvalue h (fuel + 1) (.MemberExpr oe field) v env σ = .ok () σ2
        ∧ ∀ r, classMarker σ2 r = classMarker σ1 r)
    ∧ (∀ iv σ2 r0 kvs key, evalExpr h fuel ie env σ1 = .ok iv σ2 → ov = .obj r0 →
        σ2.heap[r0]? = some (.obj kvs) → render fuel σ2.heap iv = some key → key ≠ classKey →
        ∃ σ3, assignLvalue h (fuel + 1) (.IndexExpr oe ie) v env σ = .ok () σ3
          ∧ ∀ r, classMarker σ3 r = classMarker σ2 r)
    ∧ (∀ iv σ2 σ3, evalExpr h fuel ie env σ1 = .ok iv σ2 →
        render fuel σ2.heap iv ≠ some classKey →
        assignLvalue h (fuel + 1) (.IndexExpr oe ie) v env σ = .ok () σ3 →
        ∀ r, classMarker σ3 r = classMarker σ2 r) := by
  refine ⟨?_, ?_, ?_⟩
  · intro hf
    refine ⟨storeMember h.place σ1 ov field v, ?_, classMarker_storeMember h.place σ1 ov field v hf⟩
    rw [assignLvalue]
    simp [ho, Res.bind]
  · intro iv σ2 r0 kvs key hi hov hcell hr hk
    subst hov
    refine ⟨σ2.store r0 (.obj (objSet h.place kvs key v)), ?_,
      classMarker_store_obj h.place σ2 r0 kvs key v hcell hk⟩
    rw [assignLvalue]
    simp [ho, hi, Res.bind, hr, storeIndex, hcell]
  · intro iv σ2 σ3 hi hkey hs r
    rw [assignLvalue] at hs
    simp only [ho, hi, Res.bind] at hs
    cases ov with
    | obj r0 =>
      simp only at hs
      cases hr : render fuel σ2.heap iv with
      | none => rw [hr] at hs; cases hs
      | some key =>
        rw [hr] at hs
        simp only at hs
        have hk : key ≠ classKey := by
          intro e; rw [hr, e] at hkey; exact hkey rfl
        exact classMarker_storeIndex h.place σ2 σ3 _ iv key v hk hs r
    | arr r0 =>
      simp only at hs
      exact classMarker_storeIndex h.place σ2 σ3 _ iv [] v (by decide) hs r
    | _ => simp only [storeIndex] at hs; injection hs with _ hσ; rw [← hσ]

/-- C9, amended, at `set o.x = 1` and `set o["x"] = 1` for an instance `o` of
the class `C`. -/
theorem class_marker_kept_witness :
    (∃ σ2, assignLvalue Host.plain 2 (.MemberExpr (.VarExpr "o".toList) "x".toList) (.num 1) 0
          ⟨[.obj [(classKey, .str "C".toList)]], [⟨[("o".toList, .obj 0)], none⟩],
            [("C".toList, ⟨"C".toList, [], [], 0⟩)], [], [0]⟩ = .ok () σ2
      ∧ ∀ r, classMarker σ2 r
          = classMarker ⟨[.obj [(classKey, .str "C".toList)]], [⟨[("o".toList, .obj 0)], none⟩],
              [("C".toList, ⟨"C".toList, [], [], 0⟩)], [], [0]⟩ r)
    ∧ (∃ σ3, assignLvalue Host.plain 4 (.IndexExpr (.VarExpr "o".toList) (.StringLit "x".toList))
          (.num 1) 0
          ⟨[.obj [(classKey, .str "C".toList)]], [⟨[("o".toList, .obj 0)], none⟩],
            [("C".toList, ⟨"C".toList, [], [], 0⟩)], [], [0]⟩ = .ok () σ3
      ∧ ∀ r, classMarker σ3 r
          = classMarker ⟨[.obj [(classKey, .str "C".toList)]], [⟨[("o".toList, .obj 0)], none⟩],
              [("C".toList, ⟨"C".toList, [], [], 0⟩)], [], [0]⟩ r) :=
  ⟨(class_marker_kept Host.plain 1 (.VarExpr "o".toList) .NullLit "x".toList (.num 1) 0
      ⟨[.obj [(classKey, .str "C".toList)]], [⟨[("o".toList, .obj 0)], none⟩],
        [("C".toList, ⟨"C".toList, [], [], 0⟩)], [], [0]⟩
      ⟨[.obj [(classKey, .str "C".toList)]], [⟨[("o".toList, .obj 0)], none⟩],
        [("C".toList, ⟨"C".toList, [], [], 0⟩)], [], [0]⟩
      (.obj 0) (by rfl)).1 (by decide),
   (class_marker_kept Host.plain 3 (.VarExpr "o".toList) (.StringLit "x".toList) "x".toList
      (.num 1) 0
      ⟨[.obj [(classKey, .str "C".toList)]], [⟨[("o".toList, .obj 0)], none⟩],
        [("C".toList, ⟨"C".toList, [], [], 0⟩)], [], [0]⟩
      ⟨[.obj [(classKey, .str "C".toList)]], [⟨[("o".toList, .obj 0)], none⟩],
        [("C".toList, ⟨"C".toList, [], [], 0⟩)], [], [0]⟩
      (.obj 0) (by rfl)).2.1 (.str "x".toList) _ 0 [(classKey, .str "C".toList)] "x".toList
      (by rfl) rfl (by rfl) (by rfl) (by decide)⟩

/-! ## The loop `for each` -/

theorem forLoop_invariant (h : Host) (x : Str) (body : List Stmt) (env : Nat) (fuel : Nat)
    (items : List Val) (I : List Val → State → Prop)
    (hbody : ∀ done item rest σa f, items = done ++ item :: rest → I done σa →
        fuel ≤ f + items.length → f < fuel →
        ∃ σb, (execBlock h f body (σa.newEnv (objSet h.place [] x item) env).1
                  (σa.newEnv (objSet h.place [] x item) env).2 = .ok () σb
               ∨ execBlock h f body (σa.newEnv (objSet h.place [] x item) env).1
                  (σa.newEnv (objSet h.place [] x item) env).2 = .exc .ContinueSignal σb)
          ∧ I (done ++ [item]) (σb.release σa.envs.length)) :
    ∀ rest done σa n, items = done ++ rest → I done σa → n + done.length = fuel →
      rest.length < n →
      ∃ σ2, forLoop h n x rest body env σa = .ok () σ2 ∧ I items σ2 := by
  intro rest
  induction rest with
  | nil =>
    intro done σa n hitems hI _ hn
    obtain ⟨m, rfl⟩ : ∃ m, n = m + 1 := ⟨n - 1, by simp at hn; omega⟩
    refine ⟨σa, by simp [forLoop], ?_⟩
    rw [hitems, List.append_nil]; exact hI
  | cons item rest ih =>
    intro done σa n hitems hI hfuel hn
    obtain ⟨m, rfl⟩ : ∃ m, n = m + 1 := ⟨n - 1, by simp at hn; omega⟩
    have hlen : items.length = done.length + (rest.length + 1) := by
      rw [hitems]; simp
    obtain ⟨σb, hrun, hI'⟩ := hbody done item rest σa m hitems hI (by omega) (by omega)
    have hnext := ih (done ++ [item]) (σb.release σa.envs.length) m (by rw [hitems]; simp) hI'
      (by simp only [List.length_append, List.length_cons, List.length_nil]; omega)
      (by simp only [List.length_cons] at hn; omega)
    obtain ⟨σ2, hloop, hfin⟩ := hnext
    refine ⟨σ2, ?_, hfin⟩
    rw [forLoop]
    rcases hrun with hrun | hrun
    · rw [hrun]; exact hloop
    · rw [hrun]; exact hloop

/-- C10: `for each X in L` runs over the elements that `L` holds when the
loop starts.  If, from every state that satisfies `I done`, the body run in a
fresh child environment that binds `X` to the next element ends normally or
with `continue` in a state that satisfies `I (done ++ [item])` once the
environment of the iteration is destroyed, then the loop ends normally in a
state that satisfies `I items`: the body has run exactly once per element of
the copy, in index order, whatever it did to `L` itself.  With an empty body
the loop leaves the store as it is. -/
theorem for_each_visits_snapshot (h : Host) (x : Str) (it : Expr) (body : List Stmt) (env : Nat)
    (fuel : Nat) (σ σ1 : State) (r : Nat) (items : List Val)
    (hit : evalExpr h fuel it env σ = .ok (.arr r) σ1)
    (hL : σ1.heap[r]? = some (.arr items))
    (hfuel : items.length < fuel) :
    execStmt h (fuel + 1) (.ForStmt x it body) env σ = forLoop h fuel x items body env σ1
    ∧ (∀ I : List Val → State → Prop, I [] σ1 →
        (∀ done item rest σa f, items = done ++ item :: rest → I done σa →
          fuel ≤ f + items.length → f < fuel →
          ∃ σb, (execBlock h f body (σa.newEnv (objSet h.place [] x item) env).1
                    (σa.newEnv (objSet h.place [] x item) env).2 = .ok () σb
                 ∨ execBlock h f body (σa.newEnv (objSet h.place [] x item) env).1
                    (σa.newEnv (objSet h.place [] x item) env).2 = .exc .ContinueSignal σb)
            ∧ I (done ++ [item]) (σb.release σa.envs.length)) →
        ∃ σ2, execStmt h (fuel + 1) (.ForStmt x it body) env σ = .ok () σ2 ∧ I items σ2)
    ∧ (∃ σ3, execStmt h (fuel + 1) (.ForStmt x it []) env σ = .ok () σ3
        ∧ σ3.heap = σ1.heap ∧ σ3.out = σ1.out) := by
  have hstep : ∀ b, execStmt h (fuel + 1) (.ForStmt x it b) env σ
      = forLoop h fuel x items b env σ1 := by
    intro b
    rw [execStmt]
    simp [hit, Res.bind, forItems, hL]
  refine ⟨hstep body, ?_, ?_⟩
  · intro I h0 hbody
    rw [hstep]
    exact forLoop_invariant h x body env fuel items I hbody items [] σ1 fuel rfl h0 rfl hfuel
  · rw [hstep]
    have := forLoop_invariant h x [] env fuel items
      (fun _ σa => σa.heap = σ1.heap ∧ σa.out = σ1.out)
      (by
        intro done item rest σa f _ hI hf1 _
        obtain ⟨g, rfl⟩ : ∃ g, f = g + 1 := ⟨f - 1, by omega⟩
        exact ⟨(σa.newEnv (objSet h.place [] x item) env).2, Or.inl (by simp [execBlock]),
          by simpa [State.newEnv, State.release] using hI⟩)
      items [] σ1 fuel rfl ⟨rfl, rfl⟩ rfl hfuel
    obtain ⟨σ3, h3, hh, ho⟩ := this
    exact ⟨σ3, h3, hh, ho⟩

/-- C10 at the list `[1,2,3]` stored in `L`: the loop with the body
`add x to L`, `say x` runs over the three elements the list has at the start;
with the empty body the loop creates exactly one child environment per
element; and the program `let L = [1,2,3]`, `for each x in L` with the body
`add x to L`, `say x`, then `say L` prints 1, 2, 3 and the list of six. -/
theorem for_each_visits_snapshot_witness :
    execStmt Host.plain 9 (.ForStmt "x".toList (.VarExpr "L".toList)
        [ .AddToStmt (.VarExpr "x".toList) (.VarExpr "L".toList),
          .SayStmt (.VarExpr "x".toList) ]) 0
        ⟨[.arr [.num 1, .num 2, .num 3]], [⟨[("L".toList, .arr 0)], none⟩], [], [], [0]⟩
      = forLoop Host.plain 8 "x".toList [.num 1, .num 2, .num 3]
          [ .AddToStmt (.VarExpr "x".toList) (.VarExpr "L".toList),
            .SayStmt (.VarExpr "x".toList) ] 0
          ⟨[.arr [.num 1, .num 2, .num 3]], [⟨[("L".toList, .arr 0)], none⟩], [], [], [0]⟩
    ∧ (∃ σ2, execStmt Host.plain 9 (.ForStmt "x".toList (.VarExpr "L".toList) []) 0
          ⟨[.arr [.num 1, .num 2, .num 3]], [⟨[("L".toList, .arr 0)], none⟩], [], [], [0]⟩ = .ok () σ2
        ∧ σ2.envs.length = 1 + [Val.num 1, Val.num 2, Val.num 3].length)
    ∧ outputOf (run Host.plain 20
        [ .LetStmt "L".toList (.ArrayLit [.NumberLit 1, .NumberLit 2, .NumberLit 3]),
          .ForStmt "x".toList (.VarExpr "L".toList)
            [ .AddToStmt (.VarExpr "x".toList) (.VarExpr "L".toList),
              .SayStmt (.VarExpr "x".toList) ],
          .SayStmt (.VarExpr "L".toList) ] State.initial)
      = some ["1".toList, "2".toList, "3".toList, "[1,2,3,1,2,3]".toList] :=
  ⟨(for_each_visits_snapshot Host.plain "x".toList (.VarExpr "L".toList)
      [ .AddToStmt (.VarExpr "x".toList) (.VarExpr "L".toList),
        .SayStmt (.VarExpr "x".toList) ] 0 8
      ⟨[.arr [.num 1, .num 2, .num 3]], [⟨[("L".toList, .arr 0)], none⟩], [], [], [0]⟩
      ⟨[.arr [.num 1, .num 2, .num 3]], [⟨[("L".toList, .arr 0)], none⟩], [], [], [0]⟩
      0 [.num 1, .num 2, .num 3] (by rfl) (by rfl) (by decide)).1,
   (for_each_visits_snapshot Host.plain "x".toList (.VarExpr "L".toList) [] 0 8
      ⟨[.arr [.num 1, .num 2, .num 3]], [⟨[("L".toList, .arr 0)], none⟩], [], [], [0]⟩
      ⟨[.arr [.num 1, .num 2, .num 3]], [⟨[("L".toList, .arr 0)], none⟩], [], [], [0]⟩
      0 [.num 1, .num 2, .num 3] (by rfl) (by rfl) (by decide)).2.1
      (fun done σa => σa.envs.length = 1 + done.length) (by rfl)
      (by
        intro done item rest σa f _ hI hf _
        obtain ⟨g, rfl⟩ : ∃ g, f = g + 1 := ⟨f - 1, by simp at hf; omega⟩
        exact ⟨(σa.newEnv (objSet Host.plain.place [] "x".toList item) 0).2,
          Or.inl (by simp [execBlock]), by simp [State.newEnv, State.release, hI]; omega⟩),
   by rfl⟩

end Ironwood

namespace Ironwood

/-! ## Blocks, `throw` and `try` -/

theorem execBlock_cons (h : Host) (fuel : Nat) (s : Stmt) (r : List Stmt) (env : Nat) (σ : State) :
    execBlock h (fuel + 1) (s :: r) env σ
      = (execStmt h fuel s env σ).bind (fun _ σ1 => execBlock h fuel r env σ1) := by
  rw [execBlock]

theorem execStmt_try (h : Host) (fuel : Nat) (body catchBody : List Stmt) (catchVar : Str)
    (env : Nat) (σ : State) :
    execStmt h (fuel + 1) (.TryStmt body catchVar catchBody) env σ
      = (match execBlock h fuel body (σ.newEnv [] env).1 (σ.newEnv [] env).2 with
         | .ok _ σ1 => .ok () σ1
         | .exc (.ReturnSignal v) σ1 => .exc (.ReturnSignal v) σ1
         | .exc .BreakSignal σ1 => .exc .BreakSignal σ1
         | .exc .ContinueSignal σ1 => .exc .ContinueSignal σ1
         | .exc (.ThrowSignal m) σ1 =>
           (execBlock h fuel catchBody
             (σ1.newEnv (objSet h.place [] catchVar (.str m)) env).1
             (σ1.newEnv (objSet h.place [] catchVar (.str m)) env).2).release σ1.envs.length
         | .exc (.error m) σ1 =>
           (execBlock h fuel catchBody
             (σ1.newEnv (objSet h.place [] catchVar (.str m)) env).1
             (σ1.newEnv (objSet h.place [] catchVar (.str m)) env).2).release σ1.envs.length
         | .timeout => .timeout
         | .outside => .outside : Res Unit).release σ.envs.length := by
  rw [execStmt]

theorem execStmt_throw (h : Host) (fuel : Nat) (e : Expr) (env : Nat) (σ : State) :
    execStmt h (fuel + 1) (.ThrowStmt e) env σ
      = (evalExpr h fuel e env σ).bind (fun v σ1 =>
          match render fuel σ1.heap v with
          | some t => .exc (.ThrowSignal t) σ1
          | none => .timeout) := by
  rw [execStmt]

theorem objSet_nil {β : Type} (pl : Placement) (k : Str) (v : β) :
    objSet pl ([] : List (Str × β)) k v = [(k, v)] := by
  simp [objSet, objFind, insertAt]

/-- In the environment that a block statement creates, a variable of that
environment is found. -/
theorem get_newEnv (σ : State) (k : Str) (v : Val) (vars : List (Str × Val)) (parent : Nat)
    (hk : objFind vars k = some v) :
    (σ.newEnv vars parent).2.get (σ.newEnv vars parent).1 k = .ok v (σ.newEnv vars parent).2 := by
  simp only [State.get, State.newEnv, List.length_append, List.length_singleton, envGet,
    List.getElem?_concat_length, hk]

/-- The evaluator finds a variable of the environment that a block statement
or a call creates: the environment exists. -/
theorem read_newEnv (σ : State) (k : Str) (v : Val) (vars : List (Str × Val)) (parent : Nat)
    (hk : objFind vars k = some v) :
    (σ.newEnv vars parent).2.read (σ.newEnv vars parent).1 k = .ok v (σ.newEnv vars parent).2 := by
  simp only [State.read, State.get, State.newEnv, List.length_append, List.length_singleton,
    envGet, envReach, List.getElem?_concat_length, hk, List.contains_cons, beq_self_eq_true,
    Bool.true_or, Bool.and_self, if_true]

/-! ## Lookup after an insertion, for every placement -/

theorem objFind_objReplace_self {β : Type} (o : List (Str × β)) (k : Str) (v : β)
    (hk : (objFind o k).isSome = true) : objFind (objReplace o k v) k = some v := by
  induction o with
  | nil => simp [objFind] at hk
  | cons kv r ih =>
    obtain ⟨k0, w⟩ := kv
    unfold objReplace
    by_cases h : k0 = k
    · subst h
      rw [if_pos rfl, objFind_cons, if_pos rfl]
    · rw [objFind_cons, if_neg h] at hk
      rw [if_neg h, objFind_cons, if_neg h, ih hk]

theorem objFind_objSet_self {β : Type} (pl : Placement) (o : List (Str × β)) (k : Str) (v : β) :
    objFind (objSet pl o k v) k = some v := by
  unfold objSet
  cases hk : objFind o k with
  | none =>
    simp only [Option.isSome_none, Bool.false_eq_true, if_false]
    rw [objFind_insertAt _ _ _ _ _ hk, if_pos rfl]
  | some w =>
    simp only [Option.isSome_some, if_true]
    exact objFind_objReplace_self o k v (by rw [hk]; rfl)

/-- Lookup after `o[k]=v`, whatever position a fresh key takes. -/
theorem objFind_objSet {β : Type} (pl : Placement) (o : List (Str × β)) (k k' : Str) (v : β) :
    objFind (objSet pl o k v) k' = if k = k' then some v else objFind o k' := by
  by_cases h : k = k'
  · subst h; rw [objFind_objSet_self, if_pos rfl]
  · rw [objFind_objSet_ne _ _ _ _ _ h, if_neg h]

theorem getElem?_lt {α : Type} (l : List α) (i : Nat) (x : α) (h : l[i]? = some x) :
    i < l.length := by
  by_contra hge
  rw [List.getElem?_eq_none (by omega)] at h
  cases h

theorem getElem?_append_some {α : Type} (A B : List α) (i : Nat) (x : α) (h : A[i]? = some x) :
    (A ++ B)[i]? = some x := by
  rw [List.getElem?_append_left (getElem?_lt A i x h)]
  exact h

theorem getElem?_append_cons {α : Type} (A B : List α) (e : α) :
    (A ++ e :: B)[A.length]? = some e := by
  rw [List.getElem?_append_right (le_refl _), Nat.sub_self, List.getElem?_cons_zero]

theorem getElem?_append_cons_cons {α : Type} (A B : List α) (e e2 : α) :
    (A ++ e :: e2 :: B)[A.length + 1]? = some e2 := by
  rw [List.getElem?_append_right (Nat.le_add_right _ _), Nat.add_sub_cancel_left,
    List.getElem?_cons_succ, List.getElem?_cons_zero]

/-- A name bound in the environment itself is found there. -/
theorem get_here (σ : State) (env : Nat) (e : Env) (n : Str) (v : Val)
    (he : σ.envs[env]? = some e) (hv : objFind e.vars n = some v) : σ.get env n = .ok v σ := by
  simp only [State.get, envGet, he, hv]

/-- A name that the environment does not bind and its parent binds is found in
the parent. -/
theorem get_parent (σ : State) (env p : Nat) (e e' : Env) (n : Str) (v : Val)
    (he : σ.envs[env]? = some e) (hn : objFind e.vars n = none) (hp : e.parent = some p)
    (he' : σ.envs[p]? = some e') (hv : objFind e'.vars n = some v) : σ.get env n = .ok v σ := by
  obtain ⟨d, hd⟩ : ∃ d, σ.envs.length = d + 1 :=
    ⟨σ.envs.length - 1, by have := getElem?_lt _ _ _ he; omega⟩
  simp only [State.get, hd, envGet, he, hn, hp, he', hv]

/-- The evaluator finds a name bound in the environment itself, when the
environment exists. -/
theorem read_here (σ : State) (env : Nat) (e : Env) (n : Str) (v : Val)
    (he : σ.envs[env]? = some e) (hv : objFind e.vars n = some v) (hl : env ∈ σ.live) :
    σ.read env n = .ok v σ := by
  have hc : σ.live.contains env = true := List.elem_eq_true_of_mem hl
  simp only [State.read, envReach, he, hv, hc, Bool.and_self, if_true]
  exact get_here σ env e n v he hv

/-- The evaluator finds in the parent a name that the environment does not
bind and its parent binds, when both environments exist. -/
theorem read_parent (σ : State) (env p : Nat) (e e' : Env) (n : Str) (v : Val)
    (he : σ.envs[env]? = some e) (hn : objFind e.vars n = none) (hp : e.parent = some p)
    (he' : σ.envs[p]? = some e') (hv : objFind e'.vars n = some v)
    (hl : env ∈ σ.live) (hlp : p ∈ σ.live) : σ.read env n = .ok v σ := by
  have hc : σ.live.contains env = true := List.elem_eq_true_of_mem hl
  have hcp : σ.live.contains p = true := List.elem_eq_true_of_mem hlp
  obtain ⟨d, hd⟩ : ∃ d, σ.envs.length = d + 1 :=
    ⟨σ.envs.length - 1, by have := getElem?_lt _ _ _ he; omega⟩
  have hr : envReach σ.envs σ.live (σ.envs.length + 1) env n = true := by
    simp only [hd, envReach, he, hn, hp, he', hv, hc, hcp, Bool.and_self]
  simp only [State.read, hr, if_true]
  exact get_parent σ env p e e' n v he hn hp he' hv

end Ironwood

namespace Ironwood

end Ironwood

namespace Ironwood

/-- C12: when the body of a `try` ends with a return, break or continue
signal, the `try` statement ends with that same signal in the state in which
the body ended, with the environment of the body destroyed, whatever the
catch variable and the catch body are: no environment is created for the
catch body and none of its statements runs. -/
theorem control_flow_not_caught (h : Host) (fuel : Nat) (body catchBody : List Stmt)
    (catchVar : Str) (env : Nat) (σ : State) :
    (∀ v σ1,
        execBlock h fuel body (σ.newEnv [] env).1 (σ.newEnv [] env).2 = .exc (.ReturnSignal v) σ1 →
        execStmt h (fuel + 1) (.TryStmt body catchVar catchBody) env σ
          = .exc (.ReturnSignal v) (σ1.release σ.envs.length))
    ∧ (∀ σ1,
        execBlock h fuel body (σ.newEnv [] env).1 (σ.newEnv [] env).2 = .exc .BreakSignal σ1 →
        execStmt h (fuel + 1) (.TryStmt body catchVar catchBody) env σ
          = .exc .BreakSignal (σ1.release σ.envs.length))
    ∧ (∀ σ1,
        execBlock h fuel body (σ.newEnv [] env).1 (σ.newEnv [] env).2 = .exc .ContinueSignal σ1 →
        execStmt h (fuel + 1) (.TryStmt body catchVar catchBody) env σ
          = .exc .ContinueSignal (σ1.release σ.envs.length)) := by
  refine ⟨?_, ?_, ?_⟩
  · intro v σ1 hb
    rw [execStmt_try, hb]
    rfl
  · intro σ1 hb
    rw [execStmt_try, hb]
    rfl
  · intro σ1 hb
    rw [execStmt_try, hb]
    rfl

/-- C12 at the bodies `return 1`, `break` and `continue` with the catch body
`say e`: the statement ends with the signal, in the state with the one
environment of the body and no output; and at three programs, run through the
lexer, the parser and the evaluator, whose catch bodies print nothing. -/
theorem control_flow_not_caught_witness :
    execStmt Host.plain 4 (.TryStmt [.ReturnStmt (.NumberLit 1)] "e".toList
        [.SayStmt (.VarExpr "e".toList)]) 0 State.initial
      = .exc (.ReturnSignal (.num 1)) ⟨[], [⟨[], none⟩, ⟨[], some 0⟩], [], [], [0]⟩
    ∧ execStmt Host.plain 4 (.TryStmt [.BreakStmt] "e".toList
        [.SayStmt (.VarExpr "e".toList)]) 0 State.initial
      = .exc .BreakSignal ⟨[], [⟨[], none⟩, ⟨[], some 0⟩], [], [], [0]⟩
    ∧ execStmt Host.plain 4 (.TryStmt [.ContinueStmt] "e".toList
        [.SayStmt (.VarExpr "e".toList)]) 0 State.initial
      = .exc .ContinueSignal ⟨[], [⟨[], none⟩, ⟨[], some 0⟩], [], [], [0]⟩
    ∧ main (fun _ _ => 0) 30
        ("function f()\n  try\n    return 1\n  catch e\n    say \"caught\"\n  end\n  return 2\nend\n"
          ++ "say f()\n").toList []
      = .code 0 ["1".toList] []
    ∧ main (fun _ _ => 0) 30
        ("for each x in [1, 2, 3]\n  try\n    if x == 2\n      break\n    end\n    say x\n"
          ++ "  catch e\n    say \"caught\"\n  end\nend\n").toList []
      = .code 0 ["1".toList] []
    ∧ main (fun _ _ => 0) 30
        ("for each x in [1, 2, 3]\n  try\n    if x == 2\n      continue\n    end\n    say x\n"
          ++ "  catch e\n    say \"caught\"\n  end\nend\n").toList []
      = .code 0 ["1".toList, "3".toList] [] :=
  ⟨(control_flow_not_caught Host.plain 3 [.ReturnStmt (.NumberLit 1)]
      [.SayStmt (.VarExpr "e".toList)] "e".toList 0 State.initial).1 (.num 1)
      ⟨[], [⟨[], none⟩, ⟨[], some 0⟩], [], [], [1, 0]⟩ (by rfl),
   (control_flow_not_caught Host.plain 3 [.BreakStmt]
      [.SayStmt (.VarExpr "e".toList)] "e".toList 0 State.initial).2.1
      ⟨[], [⟨[], none⟩, ⟨[], some 0⟩], [], [], [1, 0]⟩ (by rfl),
   (control_flow_not_caught Host.plain 3 [.ContinueStmt]
      [.SayStmt (.VarExpr "e".toList)] "e".toList 0 State.initial).2.2
      ⟨[], [⟨[], none⟩, ⟨[], some 0⟩], [], [], [1, 0]⟩ (by rfl),
   by decide!, by decide!, by decide!⟩

/-! ## The driver -/

/-- A string literal without an opening brace evaluates to its text. -/
theorem interpolate_plain (h : Host) (env : Nat) (σ : State) :
    ∀ (s : Str) (fuel : Nat), lbrace ∉ s → s.length < fuel → interpolate h fuel s env σ = .ok s σ := by
  intro s
  induction s with
  | nil =>
    intro fuel _ hf
    obtain ⟨k, rfl⟩ : ∃ k, fuel = k + 1 := ⟨fuel - 1, by simp at hf; omega⟩
    rw [interpolate]
  | cons c r ih =>
    intro fuel hs hf
    obtain ⟨k, rfl⟩ : ∃ k, fuel = k + 1 := ⟨fuel - 1, by omega⟩
    have hc : c ≠ lbrace := fun hc => hs (by rw [hc]; exact List.mem_cons_self _ _)
    have hr : lbrace ∉ r := fun hr => hs (List.mem_cons_of_mem _ hr)
    rw [interpolate, if_neg hc, ih k hr (by simp at hf; omega)]
    rfl

theorem evalExpr_string_plain (h : Host) (fuel : Nat) (s : Str) (env : Nat) (σ : State)
    (hs : lbrace ∉ s) (hf : s.length < fuel) :
    evalExpr h (fuel + 1) (.StringLit s) env σ = .ok (.str s) σ := by
  rw [evalExpr, interpolate_plain h env σ s fuel hs hf]
  rfl

theorem parse_throw_boom :
    ∃ rest, parseSource "throw \"boom\"\n".toList
      = .ok [.ThrowStmt (.StringLit "boom".toList)] rest := ⟨_, rfl⟩

theorem parse_say_nope :
    ∃ rest, parseSource "say nope\n".toList = .ok [.SayStmt (.VarExpr "nope".toList)] rest :=
  ⟨_, rfl⟩

/-- C13, on the code: the program `throw "boom"`, with no `try` around the
statement, ends in `std::terminate`, for every placement and all fuel from 8
on: the signal of a user throw is not a `std::exception`, and the handler of
`main` catches nothing else.  The unknown identifier of the program
`say nope` goes through that handler: the report on standard error and the
return value 1. -/
theorem uncaught_throw_terminates (pl : Placement) (fuel : Nat) :
    main pl (fuel + 8) "throw \"boom\"\n".toList [] = .terminate []
    ∧ main pl (fuel + 8) "say nope\n".toList []
      = .code 1 [] (errorReport
          "I don't know what 'nope' is — did you forget 'let nope = ...'?".toList) := by
  obtain ⟨r1, h1⟩ := parse_throw_boom
  obtain ⟨r2, h2⟩ := parse_say_nope
  constructor
  · have he : evalExpr (Host.std pl) (fuel + 6) (.StringLit "boom".toList) 0 (registerGlobals pl [])
        = .ok (.str "boom".toList) (registerGlobals pl []) :=
      evalExpr_string_plain _ (fuel + 5) _ _ _ (by decide) (by simp)
    simp only [main, h1, run, execBlock_cons, execStmt_throw, he, Res.bind, render, reify,
      Option.map_some', IronValue.toString]
    rfl
  · have hg : (registerGlobals pl []).read 0 "nope".toList
        = .exc (.error "I don't know what 'nope' is — did you forget 'let nope = ...'?".toList)
            (registerGlobals pl []) := by
      have hne : ∀ k : Str, k ≠ "nope".toList →
          ∀ (o : List (Str × Val)) (v : Val),
            objFind (objSet pl o k v) "nope".toList = objFind o "nope".toList :=
        fun k hk o v => objFind_objSet_ne pl o k _ v hk
      simp only [State.read, State.get, registerGlobals, envGet, envReach, List.length_singleton,
        List.getElem?_cons_zero]
      rw [hne _ (by decide), hne _ (by decide), hne _ (by decide), hne _ (by decide),
        hne _ (by decide), hne _ (by decide)]
      rfl
    have he : evalExpr (Host.std pl) (fuel + 6) (.VarExpr "nope".toList) 0 (registerGlobals pl [])
        = (registerGlobals pl []).read 0 "nope".toList := by
      rw [evalExpr]
    have hs : execStmt (Host.std pl) (fuel + 7) (.SayStmt (.VarExpr "nope".toList)) 0
        (registerGlobals pl [])
        = .exc (.error "I don't know what 'nope' is — did you forget 'let nope = ...'?".toList)
            (registerGlobals pl []) := by
      rw [execStmt, he, hg]
      rfl
    simp only [main, h2, run, execBlock_cons, hs, Res.bind]
    rfl

end Ironwood

namespace Ironwood

/-! ## `keep items in` -/

/-- The loop of `keep items in` when no call changes the list: it keeps the
elements on which the callable returns a truthy value, in order. -/
theorem keepLoop_filter (h : Host) (f : Val) (r : Nat) (xs : List Val) (p : Val → Bool)
    (I : State → Prop) (fuel : Nat)
    (hcall : ∀ x ∈ xs, ∀ σa k, I σa → σa.heap[r]? = some (.arr xs) →
        fuel ≤ k + xs.length → k < fuel →
        ∃ t σb, callValue h k f [x] σa = .ok t σb ∧ t.isTruthy = p x ∧ I σb
          ∧ σb.heap[r]? = some (.arr xs)) :
    ∀ (rest done acc : List Val) (σa : State) (n : Nat), xs = done ++ rest → I σa →
      σa.heap[r]? = some (.arr xs) → n + done.length = fuel → rest.length < n →
      ∃ σb, keepLoop h n f r xs.length done.length acc σa = .ok (acc ++ rest.filter p) σb
        ∧ I σb ∧ σb.heap[r]? = some (.arr xs) := by
  intro rest
  induction rest with
  | nil =>
    intro done acc σa n hxs hI hcell _ hn
    obtain ⟨k, rfl⟩ : ∃ k, n = k + 1 := ⟨n - 1, by simp at hn; omega⟩
    refine ⟨σa, ?_, hI, hcell⟩
    rw [keepLoop, if_pos (by rw [hxs]; simp)]
    simp
  | cons x rest ih =>
    intro done acc σa n hxs hI hcell hfuel hn
    obtain ⟨k, rfl⟩ : ∃ k, n = k + 1 := ⟨n - 1, by simp at hn; omega⟩
    have hlen : xs.length = done.length + (rest.length + 1) := by rw [hxs]; simp
    have hx : xs[done.length]? = some x := by
      rw [hxs, List.getElem?_append_right (le_refl _)]; simp
    obtain ⟨t, σb, hc, ht, hIb, hcellb⟩ :=
      hcall x (by rw [hxs]; simp) σa k hI hcell (by omega) (by omega)
    obtain ⟨σc, hloop, hIc, hcellc⟩ :=
      ih (done ++ [x]) (if p x then acc ++ [x] else acc) σb k (by rw [hxs]; simp) hIb hcellb
        (by simp; omega) (by simp at hn; omega)
    refine ⟨σc, ?_, hIc, hcellc⟩
    rw [keepLoop, if_neg (by omega), hcell]
    simp only [hx, hc, Res.bind, hcellb, if_true, ht]
    have e1 : (done ++ [x]).length = done.length + 1 := by simp
    rw [e1] at hloop
    rw [hloop]
    by_cases hp : p x = true
    · simp [hp, List.filter_cons]
    · simp [hp, List.filter_cons]

set_option maxRecDepth 1000000 in
set_option maxHeartbeats 4000000 in
/-- C16, as stated, fails.  The loop of `keep items in` runs over the list
itself.  With `L = [1, 2]` and a callable that stores 0 at index 1 of `L` and
returns its argument (without error, on each element), the result is `[1]`
and `L` has become `[1,0]`, although the callable returns a truthy value on 1
and on 2.  With `L = [1]` and a callable that stores 9 at index 0 and returns
true, the result is `[9]`: the element kept is the one that the list holds
after the call.  Both runs are the same for every placement and for all fuel
from 40 on. -/
theorem keep_sees_mutation :
    (∀ (pl : Placement) (fuel : Nat),
      main pl (fuel + 40)
        ("let L = [1, 2]\nsay L\nlet K = keep items in L where function(x)\n  set L[1] = 0\n"
          ++ "  return x\nend\nsay K\nsay L\n").toList []
      = .code 0 ["[1,2]".toList, "[1]".toList, "[1,0]".toList] [])
    ∧ (∀ (pl : Placement) (fuel : Nat),
      main pl (fuel + 40)
        ("let L = [1]\nlet K = keep items in L where function(x)\n  set L[0] = 9\n"
          ++ "  return true\nend\nsay K\nsay L\n").toList []
      = .code 0 ["[9]".toList, "[9]".toList] []) := by
  refine ⟨fun pl fuel => ?_, fun pl fuel => ?_⟩
  · have hp : ∃ rest, parseSource
        ("let L = [1, 2]\nsay L\nlet K = keep items in L where function(x)\n  set L[1] = 0\n"
              ++ "  return x\nend\nsay K\nsay L\n").toList
      = .ok
        [.LetStmt "L".toList (.ArrayLit [.NumberLit 1, .NumberLit 2]), .SayStmt (.VarExpr "L".toList),
          .LetStmt "K".toList (.KeepWhereExpr (.VarExpr "L".toList) (.FuncExpr ["x".toList]
            [.SetStmt (.IndexExpr (.VarExpr "L".toList) (.NumberLit 1)) (.NumberLit 0),
             .ReturnStmt (.VarExpr "x".toList)])),
          .SayStmt (.VarExpr "K".toList), .SayStmt (.VarExpr "L".toList)] rest := ⟨_, rfl⟩
    obtain ⟨rest, hp⟩ := hp
    have c1 : castInt 1 = some 1 := by decide!
    have c0 : castInt 0 = some 0 := by decide!
    unfold main
    rw [hp]
    simp only [Nat.reduceLeDiff, Nat.reduceLT, Nat.reduceEqDiff, Nat.reduceSub, Int.reduceLT,
    Int.reduceLE,
        Int.reduceToNat, Nat.cast_ofNat, List.length_set, Nat.cast_add, Nat.cast_one, run,
        execBlock, execStmt, evalExpr, evalList, evalPairs, initFields, keepLoop,
        mapLoop, callValue, callMethod, assignLvalue, Res.bind, State.register, classFields,
        classMethods, objSet_nil, registerGlobals, mathObject, State.define, State.get, State.assign,
        envGet, envOwner, interpolate, bindParams, State.alloc, State.newEnv, State.read, State.write, envReach, Res.release, State.release, List.contains_cons,
        List.contains_nil, List.erase_cons_head, beq_self_eq_true, Nat.reduceBEq, Bool.true_or,
        Bool.or_true, Bool.false_or, Bool.or_false, Bool.and_true, Bool.true_and, Bool.and_self,
        Bool.or_self, storeMember,
        storeIndex, State.store, memberOfObject, machineBinOp, liftOutcome, binOp, builtinCall,
        render, reify, mapOpt, Val.ofScalar, Val.isTruthy, objFind_objSet, objFind, Host.std,
        classKey, ne_eq, not_false_eq_true, not_true_eq_false, List.cons_append, List.nil_append,
        Nat.reduceAdd, zero_add, List.set_cons_zero, String.toList, List.cons.injEq, Char.reduceEq,
        and_false, and_true, and_self, if_true, if_false, reduceCtorEq, List.length_cons,
        List.length_nil, List.getElem?_cons_zero, List.length_append, List.getElem?_cons_succ,
        List.set_cons_succ, Option.map_some', IronValue.toString, c0, c1]
    rfl
  · have hp : ∃ rest, parseSource
        ("let L = [1]\nlet K = keep items in L where function(x)\n  set L[0] = 9\n"
              ++ "  return true\nend\nsay K\nsay L\n").toList
      = .ok
        [.LetStmt "L".toList (.ArrayLit [.NumberLit 1]),
          .LetStmt "K".toList (.KeepWhereExpr (.VarExpr "L".toList) (.FuncExpr ["x".toList]
            [.SetStmt (.IndexExpr (.VarExpr "L".toList) (.NumberLit 0)) (.NumberLit 9),
             .ReturnStmt (.BoolLit true)])),
          .SayStmt (.VarExpr "K".toList), .SayStmt (.VarExpr "L".toList)] rest := ⟨_, rfl⟩
    obtain ⟨rest, hp⟩ := hp
    have c1 : castInt 1 = some 1 := by decide!
    have c0 : castInt 0 = some 0 := by decide!
    unfold main
    rw [hp]
    simp only [Nat.reduceLeDiff, Nat.reduceLT, Nat.reduceEqDiff, Nat.reduceSub, Int.reduceLT,
    Int.reduceLE,
        Int.reduceToNat, Nat.cast_ofNat, List.length_set, Nat.cast_add, Nat.cast_one, run,
        execBlock, execStmt, evalExpr, evalList, evalPairs, initFields, keepLoop,
        mapLoop, callValue, callMethod, assignLvalue, Res.bind, State.register, classFields,
        classMethods, objSet_nil, registerGlobals, mathObject, State.define, State.get, State.assign,
        envGet, envOwner, interpolate, bindParams, State.alloc, State.newEnv, State.read, State.write, envReach, Res.release, State.release, List.contains_cons,
        List.contains_nil, List.erase_cons_head, beq_self_eq_true, Nat.reduceBEq, Bool.true_or,
        Bool.or_true, Bool.false_or, Bool.or_false, Bool.and_true, Bool.true_and, Bool.and_self,
        Bool.or_self, storeMember,
        storeIndex, State.store, memberOfObject, machineBinOp, liftOutcome, binOp, builtinCall,
        render, reify, mapOpt, Val.ofScalar, Val.isTruthy, objFind_objSet, objFind, Host.std,
        classKey, ne_eq, not_false_eq_true, not_true_eq_false, List.cons_append, List.nil_append,
        Nat.reduceAdd, zero_add, List.set_cons_zero, String.toList, List.cons.injEq, Char.reduceEq,
        and_false, and_true, and_self, if_true, if_false, reduceCtorEq, List.length_cons,
        List.length_nil, List.getElem?_cons_zero, List.length_append, List.getElem?_cons_succ,
        List.set_cons_succ, Option.map_some', IronValue.toString, c0, c1]
    rfl

/-- C16, amended: when the list expression yields the list `xs` stored at
`r`, and every call of the callable on an element of `xs`, in a state that
satisfies `I` and holds `xs` at `r`, returns a value whose truthiness is `p`
of the element, in a state that again satisfies `I` and holds `xs` at `r`,
then `keep items in` returns a new list (a fresh reference) that holds the
elements of `xs` that satisfy `p`, in their order, and leaves `xs` at `r`. -/
theorem keep_filters (h : Host) (fuel : Nat) (a fn : Expr) (env : Nat) (σ σ1 σ2 : State)
    (r : Nat) (xs : List Val) (f : Val) (p : Val → Bool) (I : State → Prop)
    (ha : evalExpr h fuel a env σ = .ok (.arr r) σ1)
    (hf : evalExpr h fuel fn env σ1 = .ok f σ2)
    (hcell : σ2.heap[r]? = some (.arr xs)) (hI : I σ2) (hlen : xs.length < fuel)
    (hcall : ∀ x ∈ xs, ∀ σa k, I σa → σa.heap[r]? = some (.arr xs) →
        fuel ≤ k + xs.length → k < fuel →
        ∃ t σb, callValue h k f [x] σa = .ok t σb ∧ t.isTruthy = p x ∧ I σb
          ∧ σb.heap[r]? = some (.arr xs)) :
    ∃ σ3, evalExpr h (fuel + 1) (.KeepWhereExpr a fn) env σ
        = .ok (.arr σ3.heap.length) { σ3 with heap := σ3.heap ++ [.arr (xs.filter p)] }
      ∧ I σ3 ∧ σ3.heap[r]? = some (.arr xs) ∧ r < σ3.heap.length := by
  obtain ⟨σ3, hloop, hI3, hcell3⟩ :=
    keepLoop_filter h f r xs p I fuel hcall xs [] [] σ2 fuel (by simp) hI hcell (by simp) hlen
  refine ⟨σ3, ?_, hI3, hcell3, ?_⟩
  · rw [evalExpr]
    simp only [ha, hf, Res.bind, hcell]
    simp only [List.length_nil] at hloop
    rw [hloop]
    simp [State.alloc]
  · by_contra hge
    rw [List.getElem?_eq_none (by omega)] at hcell3
    cases hcell3

/-- A call of the function `function(x) return x end` returns its argument. -/
theorem callValue_identity (h : Host) (k closure : Nat) (x : Val) (σa : State) :
    callValue h (k + 4) (.func ⟨["x".toList], [.ReturnStmt (.VarExpr "x".toList)], closure⟩) [x] σa
      = .ok x ((σa.newEnv [("x".toList, x)] closure).2.release σa.envs.length) := by
  have hg := read_newEnv σa "x".toList x [("x".toList, x)] closure (by simp [objFind])
  rw [callValue]
  simp only [bindParams, objSet_nil]
  rw [execBlock_cons, execStmt, evalExpr, hg]
  rfl

/-- C16, amended, at the list `[0, 5]` stored in `L` and the callable
`function(x) return x end`: the result is a new list that holds 5, and `L`
is as before; and the program of scenario 2 prints 3 and 4. -/
theorem keep_filters_witness :
    (∃ σ3 : State, evalExpr Host.plain 11 (.KeepWhereExpr (.VarExpr "L".toList)
          (.FuncExpr ["x".toList] [.ReturnStmt (.VarExpr "x".toList)])) 0
          ⟨[.arr [.num 0, .num 5]], [⟨[("L".toList, .arr 0)], none⟩], [], [], [0]⟩
        = .ok (.arr σ3.heap.length)
            { σ3 with heap := σ3.heap ++ [.arr ([Val.num 0, Val.num 5].filter Val.isTruthy)] }
      ∧ True ∧ σ3.heap[0]? = some (.arr [.num 0, .num 5]) ∧ 0 < σ3.heap.length)
    ∧ [Val.num 0, Val.num 5].filter Val.isTruthy = [Val.num 5]
    ∧ main (fun _ _ => 0) 40
        ("let xs = [3, 1, 4, 1, 5, 9, 2, 6]
"
          ++ "let evens = keep items in xs where function(x) return x % 2 == 0 end
"
          ++ "say length of evens
say item 1 of evens
").toList []
      = .code 0 ["3".toList, "4".toList] [] :=
  ⟨keep_filters Host.plain 10 (.VarExpr "L".toList)
      (.FuncExpr ["x".toList] [.ReturnStmt (.VarExpr "x".toList)]) 0
      ⟨[.arr [.num 0, .num 5]], [⟨[("L".toList, .arr 0)], none⟩], [], [], [0]⟩
      ⟨[.arr [.num 0, .num 5]], [⟨[("L".toList, .arr 0)], none⟩], [], [], [0]⟩
      ⟨[.arr [.num 0, .num 5]], [⟨[("L".toList, .arr 0)], none⟩], [], [], [0]⟩
      0 [.num 0, .num 5] (.func ⟨["x".toList], [.ReturnStmt (.VarExpr "x".toList)], 0⟩)
      Val.isTruthy (fun _ => True) (by rfl) (by rfl) (by rfl) trivial (by decide)
      (by
        intro x _ σa k _ hcell hk _
        obtain ⟨j, rfl⟩ : ∃ j, k = j + 4 := ⟨k - 4, by simp at hk; omega⟩
        exact ⟨x, _, callValue_identity Host.plain j 0 x σa, rfl, trivial,
          by simpa [State.newEnv, State.release] using hcell⟩),
   by simp [Val.isTruthy], by decide!⟩

end Ironwood

namespace Ironwood

/-! ## Calls -/

theorem callValue_func (h : Host) (fuel : Nat) (f : IronFunc) (args : List Val) (σ : State) :
    callValue h (fuel + 1) (.func f) args σ
      = (match (execBlock h fuel f.body σ.envs.length
            (σ.newEnv (bindParams h.place f.params args []) f.closure).2).release σ.envs.length with
         | .ok _ σ1 => .ok .null σ1
         | .exc (.ReturnSignal v) σ1 => .ok v σ1
         | .exc s σ1 => .exc s σ1
         | .timeout => .timeout
         | .outside => .outside) := by
  rw [callValue]
  rfl

end Ironwood

namespace Ironwood

/-! ## Bound methods -/

end Ironwood

namespace Ironwood

/-! ## Environments -/

theorem envOwner_eq_find (envs : List Env) (n : Str) :
    ∀ (depth env : Nat),
      envOwner envs depth env n = (envChain envs depth env).find? (definesName envs n) := by
  intro depth
  induction depth with
  | zero => intro env; rfl
  | succ d ih =>
    intro env
    rw [envOwner, envChain]
    cases he : envs[env]? with
    | none => rfl
    | some e =>
      simp only
      cases hf : objFind e.vars n with
      | some v =>
        simp only
        rw [List.find?_cons]
        have : definesName envs n env = true := by simp [definesName, bindingIn, he, hf]
        rw [this]
      | none =>
        simp only
        rw [List.find?_cons]
        have : definesName envs n env = false := by simp [definesName, bindingIn, he, hf]
        rw [this]
        cases e.parent with
        | none => rfl
        | some p => exact ih p

theorem envGet_eq_owner (envs : List Env) (n : Str) :
    ∀ (depth env : Nat),
      envGet envs depth env n = (envOwner envs depth env n).bind (fun o => bindingIn envs o n) := by
  intro depth
  induction depth with
  | zero => intro env; rfl
  | succ d ih =>
    intro env
    rw [envOwner, envGet]
    cases he : envs[env]? with
    | none => rfl
    | some e =>
      simp only
      cases hf : objFind e.vars n with
      | some v => simp [bindingIn, he, hf]
      | none =>
        simp only
        cases e.parent with
        | none => rfl
        | some p => exact ih p

theorem envOwner_defines (envs : List Env) (n : Str) (depth env o : Nat)
    (h : envOwner envs depth env n = some o) : definesName envs n o = true := by
  rw [envOwner_eq_find] at h
  exact List.find?_some h

theorem define_envs (pl : Placement) (σ : State) (env : Nat) (n : Str) (v : Val) (e : Env)
    (he : σ.envs[env]? = some e) :
    (σ.define pl env n v).envs = σ.envs.set env { e with vars := objSet pl e.vars n v } := by
  simp [State.define, he]

theorem define_invalid (pl : Placement) (σ : State) (env : Nat) (n : Str) (v : Val)
    (he : σ.envs[env]? = none) : σ.define pl env n v = σ := by
  simp [State.define, he]

/-- After `define`, the environment holds the value under the name, and every
other binding of every environment is as before. -/
theorem bindingIn_define (pl : Placement) (σ : State) (env : Nat) (n : Str) (v : Val)
    (i : Nat) (k : Str) :
    bindingIn (σ.define pl env n v).envs i k
      = if i = env ∧ k = n ∧ env < σ.envs.length then some v else bindingIn σ.envs i k := by
  cases he : σ.envs[env]? with
  | none =>
    rw [define_invalid pl σ env n v he]
    have : ¬ env < σ.envs.length := fun hlt => by
      rw [List.getElem?_eq_getElem hlt] at he; cases he
    rw [if_neg (fun hc : i = env ∧ k = n ∧ env < σ.envs.length => this hc.2.2)]
  | some e =>
    have hlt := getElem?_lt _ _ _ he
    rw [define_envs pl σ env n v e he]
    unfold bindingIn
    by_cases hi : i = env
    · subst hi
      rw [List.getElem?_set_self hlt, he]
      simp only
      by_cases hk : k = n
      · subst hk
        simp [hlt, objFind_objSet_self]
      · simp [hk, objFind_objSet_ne pl e.vars n k v (fun e' => hk e'.symm)]
    · rw [List.getElem?_set_ne (fun e' => hi e'.symm), if_neg (fun hc => hi hc.1)]

theorem keys_objReplace {β : Type} (o : List (Str × β)) (k : Str) (v : β) :
    (objReplace o k v).map Prod.fst = o.map Prod.fst := by
  induction o with
  | nil => rfl
  | cons kv r ih =>
    obtain ⟨k0, w⟩ := kv
    unfold objReplace
    by_cases h : k0 = k
    · rw [if_pos h]; simp [h]
    · rw [if_neg h]; simp [ih]

/-- A `define` of a name that the environment has already keeps the names of
every environment, in their order, and every parent. -/
theorem envShape_define_present (pl : Placement) (σ : State) (env : Nat) (n : Str) (v : Val)
    (hn : definesName σ.envs n env = true) (i : Nat) :
    envShape (σ.define pl env n v) i = envShape σ i := by
  unfold definesName bindingIn at hn
  cases he : σ.envs[env]? with
  | none => rw [he] at hn; cases hn
  | some e =>
    rw [he] at hn
    have hlt := getElem?_lt _ _ _ he
    unfold envShape
    rw [define_envs pl σ env n v e he]
    by_cases hi : i = env
    · subst hi
      rw [List.getElem?_set_self hlt, he]
      simp only [Option.map_some', objSet, hn, if_true, keys_objReplace]
    · rw [List.getElem?_set_ne (fun e' => hi e'.symm)]

/-- Under `parentsOlder` the chain reaches an environment without parent
within the depth that `get` and `assign` allow. -/
theorem envChain_complete (σ : State) (hσ : σ.parentsOlder) :
    ∀ (depth env : Nat), env < depth → env < σ.envs.length →
      ∃ root, (envChain σ.envs depth env).getLast? = some root
        ∧ (σ.envs[root]?).bind Env.parent = none := by
  intro depth
  induction depth with
  | zero => intro env h; omega
  | succ d ih =>
    intro env hd hlen
    rw [envChain, List.getElem?_eq_getElem hlen]
    simp only
    cases hp : (σ.envs[env]).parent with
    | none =>
      refine ⟨env, rfl, ?_⟩
      rw [List.getElem?_eq_getElem hlen]
      exact hp
    | some p =>
      have hpe : p < env := hσ env _ p (List.getElem?_eq_getElem hlen) hp
      obtain ⟨root, hr, hroot⟩ := ih p (by omega) (by omega)
      refine ⟨root, ?_, hroot⟩
      simp only
      cases hc : envChain σ.envs d p with
      | nil => rw [hc] at hr; cases hr
      | cons a l => rw [hc] at hr; rw [List.getLast?_cons_cons]; exact hr

/-- C18: `get n` returns the binding of `n` in the nearest environment of the
parent chain that defines `n`, and raises when none does; `assign n v` writes
`v` under `n` in that same environment, changes no other binding of any
environment, adds no name and changes no parent, and raises, with the state
as it was, when no environment of the chain defines `n`; `define n v` changes
only the binding of `n` in the current environment, and `get n` on that
environment then returns `v`; neither touches the store, the class registry
or the output.  When every parent is older than its child the chain ends in
an environment without parent. -/
theorem env_scope_chain (pl : Placement) (σ : State) (env : Nat) (n : Str) (v : Val) :
    (∀ o, (envChain σ.envs (σ.envs.length + 1) env).find? (definesName σ.envs n) = some o →
        ∃ w, bindingIn σ.envs o n = some w ∧ σ.get env n = .ok w σ)
    ∧ ((envChain σ.envs (σ.envs.length + 1) env).find? (definesName σ.envs n) = none →
        σ.get env n = .exc (.error ("I don't know what '".toList ++ n
          ++ "' is — did you forget 'let ".toList ++ n ++ " = ...'?".toList)) σ)
    ∧ (∀ o, (envChain σ.envs (σ.envs.length + 1) env).find? (definesName σ.envs n) = some o →
        σ.assign pl env n v = .ok () (σ.define pl o n v)
        ∧ bindingIn (σ.define pl o n v).envs o n = some v
        ∧ (∀ i k, ¬ (i = o ∧ k = n) →
            bindingIn (σ.define pl o n v).envs i k = bindingIn σ.envs i k)
        ∧ (∀ i, envShape (σ.define pl o n v) i = envShape σ i))
    ∧ ((envChain σ.envs (σ.envs.length + 1) env).find? (definesName σ.envs n) = none →
        σ.assign pl env n v = .exc (.error ("Can't change '".toList ++ n
          ++ "' — use 'let ".toList ++ n ++ " = ...' to create it first.".toList)) σ)
    ∧ (env < σ.envs.length → (σ.define pl env n v).get env n = .ok v (σ.define pl env n v))
    ∧ (∀ i k, ¬ (i = env ∧ k = n) →
        bindingIn (σ.define pl env n v).envs i k = bindingIn σ.envs i k)
    ∧ ((σ.define pl env n v).heap = σ.heap
        ∧ (σ.define pl env n v).classRegistry = σ.classRegistry
        ∧ (σ.define pl env n v).out = σ.out
        ∧ (σ.define pl env n v).envs.length = σ.envs.length)
    ∧ (σ.parentsOlder → env < σ.envs.length →
        ∃ root, (envChain σ.envs (σ.envs.length + 1) env).getLast? = some root
          ∧ (σ.envs[root]?).bind Env.parent = none) := by
  refine ⟨?_, ?_, ?_, ?_, ?_, ?_, ?_, ?_⟩
  · intro o ho
    rw [← envOwner_eq_find] at ho
    have hd := envOwner_defines _ _ _ _ _ ho
    unfold definesName at hd
    cases hb : bindingIn σ.envs o n with
    | none => rw [hb] at hd; cases hd
    | some w =>
      refine ⟨w, rfl, ?_⟩
      unfold State.get
      rw [envGet_eq_owner, ho]
      simp only [Option.bind, hb]
  · intro hnone
    rw [← envOwner_eq_find] at hnone
    unfold State.get
    rw [envGet_eq_owner, hnone]
    rfl
  · intro o ho
    rw [← envOwner_eq_find] at ho
    have hd := envOwner_defines _ _ _ _ _ ho
    refine ⟨?_, ?_, ?_, ?_⟩
    · unfold State.assign
      rw [ho]
    · rw [bindingIn_define]
      have hlt : o < σ.envs.length := by
        unfold definesName bindingIn at hd
        cases he : σ.envs[o]? with
        | none => rw [he] at hd; cases hd
        | some e => exact getElem?_lt _ _ _ he
      rw [if_pos ⟨rfl, rfl, hlt⟩]
    · intro i k hik
      rw [bindingIn_define, if_neg (fun hc => hik ⟨hc.1, hc.2.1⟩)]
    · intro i
      exact envShape_define_present pl σ o n v hd i
  · intro hnone
    rw [← envOwner_eq_find] at hnone
    unfold State.assign
    rw [hnone]
  · intro hlt
    have hb : bindingIn (σ.define pl env n v).envs env n = some v := by
      rw [bindingIn_define, if_pos ⟨rfl, rfl, hlt⟩]
    unfold State.get
    rw [envGet]
    unfold bindingIn at hb
    cases he : (σ.define pl env n v).envs[env]? with
    | none => rw [he] at hb; cases hb
    | some e =>
      rw [he] at hb
      simp only at hb
      simp only [hb]
  · intro i k hik
    rw [bindingIn_define, if_neg (fun hc => hik ⟨hc.1, hc.2.1⟩)]
  · unfold State.define
    cases σ.envs[env]? with
    | none => exact ⟨rfl, rfl, rfl, rfl⟩
    | some e => exact ⟨rfl, rfl, rfl, by simp⟩
  · intro hσ hlt
    exact envChain_complete σ hσ (σ.envs.length + 1) env (by omega) hlt

/-- C18 at three environments, the global one with `x = 1`, its child with
`y = 2` and the child of that with `x = 3`: from the middle one `x` is found
in the global environment and `z` nowhere; `assign x` from the middle one
writes the global environment; `define x` in the middle one makes `x` found
there; the chain of the innermost one ends at the global environment; and a
program run through the whole pipeline. -/
theorem env_scope_chain_witness :
    (∃ w, bindingIn [⟨[("x".toList, .num 1)], none⟩, ⟨[("y".toList, .num 2)], some 0⟩,
          ⟨[("x".toList, .num 3)], some 1⟩] 0 "x".toList = some w
        ∧ State.get ⟨[], [⟨[("x".toList, .num 1)], none⟩, ⟨[("y".toList, .num 2)], some 0⟩,
            ⟨[("x".toList, .num 3)], some 1⟩], [], [], [2, 1, 0]⟩ 1 "x".toList
          = .ok w ⟨[], [⟨[("x".toList, .num 1)], none⟩, ⟨[("y".toList, .num 2)], some 0⟩,
            ⟨[("x".toList, .num 3)], some 1⟩], [], [], [2, 1, 0]⟩)
    ∧ State.get ⟨[], [⟨[("x".toList, .num 1)], none⟩, ⟨[("y".toList, .num 2)], some 0⟩,
          ⟨[("x".toList, .num 3)], some 1⟩], [], [], [2, 1, 0]⟩ 1 "z".toList
        = .exc (.error ("I don't know what '".toList ++ "z".toList
            ++ "' is — did you forget 'let ".toList ++ "z".toList ++ " = ...'?".toList))
          ⟨[], [⟨[("x".toList, .num 1)], none⟩, ⟨[("y".toList, .num 2)], some 0⟩,
            ⟨[("x".toList, .num 3)], some 1⟩], [], [], [2, 1, 0]⟩
    ∧ State.assign Host.plain.place ⟨[], [⟨[("x".toList, .num 1)], none⟩,
          ⟨[("y".toList, .num 2)], some 0⟩, ⟨[("x".toList, .num 3)], some 1⟩], [], [], [2, 1, 0]⟩
          1 "x".toList (.num 9)
        = .ok () ⟨[], [⟨[("x".toList, .num 9)], none⟩, ⟨[("y".toList, .num 2)], some 0⟩,
            ⟨[("x".toList, .num 3)], some 1⟩], [], [], [2, 1, 0]⟩
    ∧ State.assign Host.plain.place ⟨[], [⟨[("x".toList, .num 1)], none⟩,
          ⟨[("y".toList, .num 2)], some 0⟩, ⟨[("x".toList, .num 3)], some 1⟩], [], [], [2, 1, 0]⟩
          1 "z".toList (.num 9)
        = .exc (.error ("Can't change '".toList ++ "z".toList
            ++ "' — use 'let ".toList ++ "z".toList ++ " = ...' to create it first.".toList))
          ⟨[], [⟨[("x".toList, .num 1)], none⟩, ⟨[("y".toList, .num 2)], some 0⟩,
            ⟨[("x".toList, .num 3)], some 1⟩], [], [], [2, 1, 0]⟩
    ∧ State.get ⟨[], [⟨[("x".toList, .num 1)], none⟩,
          ⟨[("x".toList, .num 9), ("y".toList, .num 2)], some 0⟩,
          ⟨[("x".toList, .num 3)], some 1⟩], [], [], [2, 1, 0]⟩ 1 "x".toList
        = .ok (.num 9) ⟨[], [⟨[("x".toList, .num 1)], none⟩,
          ⟨[("x".toList, .num 9), ("y".toList, .num 2)], some 0⟩,
          ⟨[("x".toList, .num 3)], some 1⟩], [], [], [2, 1, 0]⟩
    ∧ (∃ root, (envChain [⟨[("x".toList, .num 1)], none⟩, ⟨[("y".toList, .num 2)], some 0⟩,
          ⟨[("x".toList, .num 3)], some 1⟩] 4 2).getLast? = some root
        ∧ ([⟨[("x".toList, .num 1)], none⟩, ⟨[("y".toList, .num 2)], some 0⟩,
            (⟨[("x".toList, .num 3)], some 1⟩ : Env)][root]?).bind Env.parent = none)
    ∧ main (fun _ _ => 0) 40
        ("let x = 1
function f()
  let y = 2
  set x = x + 10
  let x = 5
"
          ++ "  set x = x + 1
  return x
end
say f()
say x
"
          ++ "try
  set z = 1
catch e
  say e
end
").toList []
      = .code 0 ["6".toList, "11".toList,
          "Can't change 'z' — use 'let z = ...' to create it first.".toList] [] :=
  ⟨(env_scope_chain Host.plain.place ⟨[], [⟨[("x".toList, .num 1)], none⟩,
      ⟨[("y".toList, .num 2)], some 0⟩, ⟨[("x".toList, .num 3)], some 1⟩], [], [], [2, 1, 0]⟩
      1 "x".toList (.num 9)).1 0 (by rfl),
   (env_scope_chain Host.plain.place ⟨[], [⟨[("x".toList, .num 1)], none⟩,
      ⟨[("y".toList, .num 2)], some 0⟩, ⟨[("x".toList, .num 3)], some 1⟩], [], [], [2, 1, 0]⟩
      1 "z".toList (.num 9)).2.1 (by rfl),
   ((env_scope_chain Host.plain.place ⟨[], [⟨[("x".toList, .num 1)], none⟩,
      ⟨[("y".toList, .num 2)], some 0⟩, ⟨[("x".toList, .num 3)], some 1⟩], [], [], [2, 1, 0]⟩
      1 "x".toList (.num 9)).2.2.1 0 (by rfl)).1,
   (env_scope_chain Host.plain.place ⟨[], [⟨[("x".toList, .num 1)], none⟩,
      ⟨[("y".toList, .num 2)], some 0⟩, ⟨[("x".toList, .num 3)], some 1⟩], [], [], [2, 1, 0]⟩
      1 "z".toList (.num 9)).2.2.2.1 (by rfl),
   (env_scope_chain Host.plain.place ⟨[], [⟨[("x".toList, .num 1)], none⟩,
      ⟨[("y".toList, .num 2)], some 0⟩, ⟨[("x".toList, .num 3)], some 1⟩], [], [], [2, 1, 0]⟩
      1 "x".toList (.num 9)).2.2.2.2.1 (by decide),
   (env_scope_chain Host.plain.place ⟨[], [⟨[("x".toList, .num 1)], none⟩,
      ⟨[("y".toList, .num 2)], some 0⟩, ⟨[("x".toList, .num 3)], some 1⟩], [], [], [2, 1, 0]⟩
      2 "x".toList (.num 9)).2.2.2.2.2.2.2
      (by
        intro i e p he hp
        match i, he with
        | 0, he => cases he; cases hp
        | 1, he => cases he; cases hp; decide
        | 2, he => cases he; cases hp; decide
        | k + 3, he => cases he)
      (by decide),
   by decide!⟩

end Ironwood

namespace Ironwood

/-! ## Block scope -/

theorem Res.ends_bind {α β : Type} {r : Res α} {k : α → State → Res β} {P : State → Prop}
    (hr : r.ends P) (hk : ∀ a σ1, P σ1 → (k a σ1).ends P) : (r.bind k).ends P := by
  cases r with
  | ok a σ1 => exact hk a σ1 hr
  | exc s σ1 => exact hr
  | timeout => trivial
  | outside => trivial

theorem Res.ends_ok {α : Type} {a : α} {σ : State} {P : State → Prop} (h : P σ) :
    (Res.ok a σ).ends P := h

theorem Res.ends_exc {α : Type} {s : Signal} {σ : State} {P : State → Prop} (h : P σ) :
    (Res.exc s σ : Res α).ends P := h

theorem Res.ends_timeout {α : Type} {P : State → Prop} : (Res.timeout : Res α).ends P := trivial

theorem Res.ends_outside {α : Type} {P : State → Prop} : (Res.outside : Res α).ends P := trivial

theorem keeps_refl (X : Nat → Prop) (σ : State) : Keeps X σ σ :=
  ⟨le_refl _, fun _ _ => rfl, fun _ _ _ => rfl⟩

theorem keeps_of_envs {X : Nat → Prop} {σ0 σ σ1 : State} (he : σ1.envs = σ.envs)
    (hk : Keeps X σ0 σ) : Keeps X σ0 σ1 := by
  unfold Keeps envShape at *
  rw [he]
  exact hk

theorem keeps_alloc {X : Nat → Prop} {σ0 σ : State} (c : Cell) (hk : Keeps X σ0 σ) :
    Keeps X σ0 (σ.alloc c).2 := keeps_of_envs rfl hk

theorem keeps_store {X : Nat → Prop} {σ0 σ : State} (r : Nat) (c : Cell) (hk : Keeps X σ0 σ) :
    Keeps X σ0 (σ.store r c) := keeps_of_envs rfl hk

theorem keeps_newEnv {X : Nat → Prop} {σ0 σ : State} (vars : List (Str × Val)) (p : Nat)
    (hk : Keeps X σ0 σ) : Keeps X σ0 (σ.newEnv vars p).2 := by
  obtain ⟨h1, h2, h3⟩ := hk
  refine ⟨?_, ?_, ?_⟩
  · simp only [State.newEnv, List.length_append, List.length_singleton]; omega
  · intro i hi
    rw [← h2 i hi]
    simp only [envShape, State.newEnv]
    rw [List.getElem?_append_left (by omega)]
  · intro i hi hx
    rw [← h3 i hi hx]
    simp only [envShape, State.newEnv]
    rw [List.getElem?_append_left (by omega)]

theorem envShape_define_parent (pl : Placement) (σ : State) (env : Nat) (n : Str) (v : Val)
    (i : Nat) :
    (envShape (σ.define pl env n v) i).map Prod.snd = (envShape σ i).map Prod.snd := by
  cases he : σ.envs[env]? with
  | none => rw [define_invalid pl σ env n v he]
  | some e =>
    have hlt := getElem?_lt _ _ _ he
    unfold envShape
    rw [define_envs pl σ env n v e he]
    by_cases hi : i = env
    · subst hi
      rw [List.getElem?_set_self hlt, he]
      rfl
    · rw [List.getElem?_set_ne (fun e' => hi e'.symm)]

theorem envShape_define_other (pl : Placement) (σ : State) (env : Nat) (n : Str) (v : Val)
    (i : Nat) (hi : i ≠ env) : envShape (σ.define pl env n v) i = envShape σ i := by
  cases he : σ.envs[env]? with
  | none => rw [define_invalid pl σ env n v he]
  | some e =>
    unfold envShape
    rw [define_envs pl σ env n v e he, List.getElem?_set_ne (fun e' => hi e'.symm)]

theorem define_length (pl : Placement) (σ : State) (env : Nat) (n : Str) (v : Val) :
    (σ.define pl env n v).envs.length = σ.envs.length := by
  unfold State.define
  cases σ.envs[env]? with
  | none => rfl
  | some e => simp

theorem keeps_define {X : Nat → Prop} {σ0 σ : State} (pl : Placement) (env : Nat) (n : Str)
    (v : Val) (hk : Keeps X σ0 σ) (henv : X env ∨ σ0.envs.length ≤ env) :
    Keeps X σ0 (σ.define pl env n v) := by
  obtain ⟨h1, h2, h3⟩ := hk
  refine ⟨?_, ?_, ?_⟩
  · rw [define_length]; exact h1
  · intro i hi
    rw [envShape_define_parent, h2 i hi]
  · intro i hi hx
    have hne : i ≠ env := by
      intro e
      subst e
      rcases henv with hX | hge
      · exact hx hX
      · omega
    rw [envShape_define_other pl σ env n v i hne, h3 i hi hx]

theorem keeps_assign {X : Nat → Prop} {σ0 σ : State} (pl : Placement) (env : Nat) (n : Str)
    (v : Val) (hk : Keeps X σ0 σ) : (σ.assign pl env n v).ends (Keeps X σ0) := by
  unfold State.assign
  cases ho : envOwner σ.envs (σ.envs.length + 1) env n with
  | none => exact hk
  | some o =>
    have hd := envOwner_defines _ _ _ _ _ ho
    obtain ⟨h1, h2, h3⟩ := hk
    refine ⟨?_, ?_, ?_⟩
    · rw [define_length]; exact h1
    · intro i hi
      rw [envShape_define_present pl σ o n v hd i, h2 i hi]
    · intro i hi hx
      rw [envShape_define_present pl σ o n v hd i, h3 i hi hx]

theorem keeps_out {X : Nat → Prop} {σ0 σ : State} (out : List Str) (hk : Keeps X σ0 σ) :
    Keeps X σ0 { σ with out := out } := keeps_of_envs rfl hk

theorem keeps_register {X : Nat → Prop} {σ0 σ : State} (pl : Placement) (cd : ClassDef)
    (hk : Keeps X σ0 σ) : Keeps X σ0 (σ.register pl cd) := keeps_of_envs rfl hk

theorem keeps_storeMember {X : Nat → Prop} {σ0 σ : State} (pl : Placement) (ov : Val) (f : Str)
    (v : Val) (hk : Keeps X σ0 σ) : Keeps X σ0 (storeMember pl σ ov f v) := by
  unfold storeMember
  split
  · split
    · exact keeps_store _ _ hk
    · exact hk
  · exact hk

theorem keeps_storeIndex {X : Nat → Prop} {σ0 σ : State} (pl : Placement) (ov iv : Val)
    (key : Str) (v : Val) (hk : Keeps X σ0 σ) :
    (storeIndex pl σ ov iv key v).ends (Keeps X σ0) := by
  unfold storeIndex
  repeat' split
  all_goals first
    | exact keeps_store _ _ hk
    | exact hk
    | trivial

theorem keeps_liftOutcome {X : Nat → Prop} {σ0 σ : State} (o : Outcome IronValue)
    (hk : Keeps X σ0 σ) : (liftOutcome o σ).ends (Keeps X σ0) := by
  cases o <;> first | exact hk | trivial

theorem keeps_machineBinOp {X : Nat → Prop} {σ0 σ : State} (fuel : Nat) (op : Str) (l r : Val)
    (hk : Keeps X σ0 σ) : (machineBinOp fuel op l r σ).ends (Keeps X σ0) := by
  unfold machineBinOp
  repeat' split
  all_goals first
    | exact keeps_liftOutcome _ hk
    | exact hk
    | trivial

theorem keeps_sortCopy {X : Nat → Prop} {σ0 σ : State} (fuel : Nat) (key : SortKey)
    (xs : List Val) (hk : Keeps X σ0 σ) : (sortCopy fuel key xs σ).ends (Keeps X σ0) := by
  unfold sortCopy
  repeat' split
  all_goals first
    | exact keeps_alloc _ hk
    | exact hk
    | trivial

theorem keeps_builtinCall {X : Nat → Prop} {σ0 σ : State} (fuel : Nat) (name : Str)
    (args : List Val) (hk : Keeps X σ0 σ) : (builtinCall fuel name args σ).ends (Keeps X σ0) := by
  unfold builtinCall
  repeat' split
  all_goals first
    | exact hk
    | trivial

theorem keeps_get {X : Nat → Prop} {σ0 σ : State} (env : Nat) (n : Str)
    (hk : Keeps X σ0 σ) : (σ.get env n).ends (Keeps X σ0) := by
  unfold State.get
  split <;> exact hk

theorem keeps_read {X : Nat → Prop} {σ0 σ : State} (env : Nat) (n : Str)
    (hk : Keeps X σ0 σ) : (σ.read env n).ends (Keeps X σ0) := by
  unfold State.read
  split
  · exact keeps_get env n hk
  · trivial

theorem keeps_write {X : Nat → Prop} {σ0 σ : State} (pl : Placement) (env : Nat) (n : Str)
    (v : Val) (hk : Keeps X σ0 σ) : (σ.write pl env n v).ends (Keeps X σ0) := by
  unfold State.write
  split
  · exact keeps_assign pl env n v hk
  · trivial

theorem keeps_release {X : Nat → Prop} {σ0 σ : State} (e : Nat) (hk : Keeps X σ0 σ) :
    Keeps X σ0 (σ.release e) := keeps_of_envs rfl hk

/-- The end of a scope destroys an environment and removes no entry. -/
theorem ends_release {α : Type} {X : Nat → Prop} {σ0 : State} {r : Res α} (e : Nat)
    (h : r.ends (Keeps X σ0)) : (r.release e).ends (Keeps X σ0) := by
  cases r with
  | ok a σ => exact keeps_release e h
  | exc s σ => exact keeps_release e h
  | timeout => trivial
  | outside => trivial

theorem keeps_newEnv_idx {X : Nat → Prop} {σ0 σ : State} (vars : List (Str × Val)) (p : Nat)
    (hk : Keeps X σ0 σ) : σ0.envs.length ≤ (σ.newEnv vars p).1 := hk.1

theorem ends_of_eq_ok {α : Type} {r : Res α} {a : α} {σ1 : State} {P : State → Prop}
    (h1 : r = .ok a σ1) (h2 : r.ends P) : P σ1 := by
  rw [h1] at h2
  exact h2

theorem ends_of_eq_exc {α : Type} {r : Res α} {s : Signal} {σ1 : State} {P : State → Prop}
    (h1 : r = .exc s σ1) (h2 : r.ends P) : P σ1 := by
  rw [h1] at h2
  exact h2

end Ironwood

namespace Ironwood

set_option maxHeartbeats 4000000 in
/-- No run of the evaluator removes an environment or changes the parent of
one; an expression, a call, an assignment and a loop add no name to any
environment that exists when they start, and a statement or block adds names
only to the environment in which it runs. -/
theorem evaluator_keeps (h : Host) : ∀ fuel : Nat,
    (∀ (X : Nat → Prop) (σ0 : State) (e : Expr) (env : Nat) (σ : State), Keeps X σ0 σ →
        (evalExpr h fuel e env σ).ends (Keeps X σ0))
    ∧ (∀ (X : Nat → Prop) (σ0 : State) (es : List Expr) (env : Nat) (σ : State), Keeps X σ0 σ →
        (evalList h fuel es env σ).ends (Keeps X σ0))
    ∧ (∀ (X : Nat → Prop) (σ0 : State) (ps : List (Str × Expr)) (env : Nat) (σ : State)
        (acc : List (Str × Val)), Keeps X σ0 σ →
        (evalPairs h fuel ps env σ acc).ends (Keeps X σ0))
    ∧ (∀ (X : Nat → Prop) (σ0 : State) (ps : List (Str × Expr)) (env : Nat) (σ : State)
        (acc : List (Str × Val)), Keeps X σ0 σ →
        (initFields h fuel ps env σ acc).ends (Keeps X σ0))
    ∧ (∀ (X : Nat → Prop) (σ0 : State) (f : Val) (r n i : Nat) (acc : List Val) (σ : State),
        Keeps X σ0 σ → (keepLoop h fuel f r n i acc σ).ends (Keeps X σ0))
    ∧ (∀ (X : Nat → Prop) (σ0 : State) (f : Val) (r n i : Nat) (acc : List Val) (σ : State),
        Keeps X σ0 σ → (mapLoop h fuel f r n i acc σ).ends (Keeps X σ0))
    ∧ (∀ (X : Nat → Prop) (σ0 : State) (s : Str) (env : Nat) (σ : State), Keeps X σ0 σ →
        (interpolate h fuel s env σ).ends (Keeps X σ0))
    ∧ (∀ (X : Nat → Prop) (σ0 : State) (callee : Val) (args : List Val) (σ : State),
        Keeps X σ0 σ → (callValue h fuel callee args σ).ends (Keeps X σ0))
    ∧ (∀ (X : Nat → Prop) (σ0 : State) (self : Nat) (m : IronFunc) (args : List Val) (σ : State),
        Keeps X σ0 σ → (callMethod h fuel self m args σ).ends (Keeps X σ0))
    ∧ (∀ (X : Nat → Prop) (σ0 : State) (target : Expr) (v : Val) (env : Nat) (σ : State),
        Keeps X σ0 σ → (assignLvalue h fuel target v env σ).ends (Keeps X σ0))
    ∧ (∀ (X : Nat → Prop) (σ0 : State) (s : Stmt) (env : Nat) (σ : State), Keeps X σ0 σ →
        (X env ∨ σ0.envs.length ≤ env) → (execStmt h fuel s env σ).ends (Keeps X σ0))
    ∧ (∀ (X : Nat → Prop) (σ0 : State) (ss : List Stmt) (env : Nat) (σ : State), Keeps X σ0 σ →
        (X env ∨ σ0.envs.length ≤ env) → (execBlock h fuel ss env σ).ends (Keeps X σ0))
    ∧ (∀ (X : Nat → Prop) (σ0 : State) (cond : Expr) (body : List Stmt) (env : Nat) (σ : State),
        Keeps X σ0 σ → (whileLoop h fuel cond body env σ).ends (Keeps X σ0))
    ∧ (∀ (X : Nat → Prop) (σ0 : State) (x : Str) (items : List Val) (body : List Stmt)
        (env : Nat) (σ : State),
        Keeps X σ0 σ → (forLoop h fuel x items body env σ).ends (Keeps X σ0)) := by
  intro fuel
  induction fuel with
  | zero =>
    refine ⟨?_, ?_, ?_, ?_, ?_, ?_, ?_, ?_, ?_, ?_, ?_, ?_, ?_, ?_⟩
    all_goals intros
    · rw [evalExpr]; trivial
    · rw [evalList]; trivial
    · rw [evalPairs]; trivial
    · rw [initFields]; trivial
    · rw [keepLoop]; trivial
    · rw [mapLoop]; trivial
    · rw [interpolate]; trivial
    · rw [callValue]; trivial
    · rw [callMethod]; trivial
    · rw [assignLvalue]; trivial
    · rw [execStmt]; trivial
    · rw [execBlock]; trivial
    · rw [whileLoop]; trivial
    · rw [forLoop]; trivial
  | succ n ih =>
    obtain ⟨ihE, ihL, ihP, ihI, ihK, ihM, ihS, ihC, ihCM, ihA, ihSt, ihB, ihW, ihF⟩ := ih
    refine ⟨?_, ?_, ?_, ?_, ?_, ?_, ?_, ?_, ?_, ?_, ?_, ?_, ?_, ?_⟩
    on_goal 14 => intro X σ0 x items body env σ hk; cases items <;> simp only [forLoop]
    on_goal 13 => intro X σ0 cond body env σ hk; simp only [whileLoop]
    on_goal 12 => intro X σ0 ss env σ hk henv; cases ss <;> simp only [execBlock]
    on_goal 11 => intro X σ0 s env σ hk henv; cases s <;> simp only [execStmt]
    on_goal 10 => intro X σ0 target v env σ hk; cases target <;> simp only [assignLvalue]
    on_goal 9 => intro X σ0 self m args σ hk; simp only [callMethod]
    on_goal 8 => intro X σ0 callee args σ hk; simp only [callValue]
    on_goal 7 => intro X σ0 s env σ hk; cases s <;> simp only [interpolate]
    on_goal 6 => intro X σ0 f r n i acc σ hk; simp only [mapLoop]
    on_goal 5 => intro X σ0 f r n i acc σ hk; simp only [keepLoop]
    on_goal 4 => intro X σ0 ps env σ acc hk; cases ps <;> simp only [initFields]
    on_goal 3 => intro X σ0 ps env σ acc hk; cases ps <;> simp only [evalPairs]
    on_goal 2 => intro X σ0 es env σ hk; cases es <;> simp only [evalList]
    on_goal 1 => intro X σ0 e env σ hk; cases e <;> simp only [evalExpr]
    all_goals with_reducible
      repeat' first
        | exact Res.ends_timeout
        | exact Res.ends_outside
        | exact Res.ends_ok (by assumption)
        | exact Res.ends_exc (by assumption)
        | exact Res.ends_ok (keeps_alloc _ (by assumption))
        | exact Res.ends_ok (keeps_out _ (by assumption))
        | exact Res.ends_ok (keeps_store _ _ (by assumption))
        | exact Res.ends_ok (keeps_storeMember _ _ _ _ (by assumption))
        | exact Res.ends_ok (keeps_register _ _ (by assumption))
        | exact Res.ends_ok (keeps_define _ _ _ _ (by assumption) (by assumption))
        | exact keeps_read _ _ (by assumption)
        | exact keeps_write _ _ _ _ (by assumption)
        | exact keeps_storeIndex _ _ _ _ _ (by assumption)
        | exact keeps_machineBinOp _ _ _ _ (by assumption)
        | exact keeps_sortCopy _ _ _ (by assumption)
        | exact keeps_builtinCall _ _ _ (by assumption)
        | exact ihE _ _ _ _ _ (by assumption)
        | exact ihE _ _ _ _ _ (keeps_newEnv _ _ (by assumption))
        | exact ihL _ _ _ _ _ (by assumption)
        | exact ihL _ _ _ _ _ (keeps_alloc _ (by assumption))
        | exact ihP _ _ _ _ _ _ (by assumption)
        | exact ihI _ _ _ _ _ _ (by assumption)
        | exact ihK _ _ _ _ _ _ _ _ (by assumption)
        | exact ihM _ _ _ _ _ _ _ _ (by assumption)
        | exact ihS _ _ _ _ _ (by assumption)
        | exact ihC _ _ _ _ _ (by assumption)
        | exact ihCM _ _ _ _ _ _ (by assumption)
        | exact ihA _ _ _ _ _ _ (by assumption)
        | exact ihSt _ _ _ _ _ (by assumption) (by assumption)
        | exact ihB _ _ _ _ _ (by assumption) (by assumption)
        | exact ihB _ _ _ _ _ (by assumption) (Or.inr (keeps_newEnv_idx _ _ (by assumption)))
        | exact ihW _ _ _ _ _ _ (by assumption)
        | exact ihF _ _ _ _ _ _ _ (by assumption)
        | exact Res.ends_ok (ends_of_eq_ok (by assumption)
            (ihB _ _ _ _ _ (keeps_newEnv _ _ (by assumption))
              (Or.inr (keeps_newEnv_idx _ _ (by assumption)))))
        | exact Res.ends_ok (ends_of_eq_exc (by assumption)
            (ihB _ _ _ _ _ (keeps_newEnv _ _ (by assumption))
              (Or.inr (keeps_newEnv_idx _ _ (by assumption)))))
        | exact Res.ends_exc (ends_of_eq_exc (by assumption)
            (ihB _ _ _ _ _ (keeps_newEnv _ _ (by assumption))
              (Or.inr (keeps_newEnv_idx _ _ (by assumption)))))
        | exact ihW _ _ _ _ _ _ (ends_of_eq_ok (by assumption)
            (ihB _ _ _ _ _ (keeps_newEnv _ _ (by assumption))
              (Or.inr (keeps_newEnv_idx _ _ (by assumption)))))
        | exact ihW _ _ _ _ _ _ (ends_of_eq_exc (by assumption)
            (ihB _ _ _ _ _ (keeps_newEnv _ _ (by assumption))
              (Or.inr (keeps_newEnv_idx _ _ (by assumption)))))
        | exact ihF _ _ _ _ _ _ _ (ends_of_eq_ok (by assumption)
            (ihB _ _ _ _ _ (keeps_newEnv _ _ (by assumption))
              (Or.inr (keeps_newEnv_idx _ _ (by assumption)))))
        | exact ihF _ _ _ _ _ _ _ (ends_of_eq_exc (by assumption)
            (ihB _ _ _ _ _ (keeps_newEnv _ _ (by assumption))
              (Or.inr (keeps_newEnv_idx _ _ (by assumption)))))
        | exact ihB _ _ _ _ _
            (keeps_newEnv _ _ (ends_of_eq_exc (by assumption)
              (ihB _ _ _ _ _ (keeps_newEnv _ _ (by assumption))
                (Or.inr (keeps_newEnv_idx _ _ (by assumption))))))
            (Or.inr (keeps_newEnv_idx _ _ (ends_of_eq_exc (by assumption)
              (ihB _ _ _ _ _ (keeps_newEnv _ _ (by assumption))
                (Or.inr (keeps_newEnv_idx _ _ (by assumption)))))))
        | exact Res.ends_ok (ends_of_eq_ok (by assumption)
            (ends_release _ (ihB _ _ _ _ _ (keeps_newEnv _ _ (by assumption))
              (Or.inr (keeps_newEnv_idx _ _ (by assumption))))))
        | exact Res.ends_ok (ends_of_eq_exc (by assumption)
            (ends_release _ (ihB _ _ _ _ _ (keeps_newEnv _ _ (by assumption))
              (Or.inr (keeps_newEnv_idx _ _ (by assumption))))))
        | exact Res.ends_exc (ends_of_eq_exc (by assumption)
            (ends_release _ (ihB _ _ _ _ _ (keeps_newEnv _ _ (by assumption))
              (Or.inr (keeps_newEnv_idx _ _ (by assumption))))))
        | exact ihW _ _ _ _ _ _ (ends_of_eq_ok (by assumption)
            (ends_release _ (ihB _ _ _ _ _ (keeps_newEnv _ _ (by assumption))
              (Or.inr (keeps_newEnv_idx _ _ (by assumption))))))
        | exact ihW _ _ _ _ _ _ (ends_of_eq_exc (by assumption)
            (ends_release _ (ihB _ _ _ _ _ (keeps_newEnv _ _ (by assumption))
              (Or.inr (keeps_newEnv_idx _ _ (by assumption))))))
        | exact ihF _ _ _ _ _ _ _ (ends_of_eq_ok (by assumption)
            (ends_release _ (ihB _ _ _ _ _ (keeps_newEnv _ _ (by assumption))
              (Or.inr (keeps_newEnv_idx _ _ (by assumption))))))
        | exact ihF _ _ _ _ _ _ _ (ends_of_eq_exc (by assumption)
            (ends_release _ (ihB _ _ _ _ _ (keeps_newEnv _ _ (by assumption))
              (Or.inr (keeps_newEnv_idx _ _ (by assumption))))))
        | exact ihB _ _ _ _ _
            (keeps_newEnv _ _ (ends_of_eq_exc (by assumption)
              (ihB _ _ _ _ _ (keeps_newEnv _ _ (by assumption))
                (Or.inr (keeps_newEnv_idx _ _ (by assumption))))))
            (Or.inr (keeps_newEnv_idx _ _ (ends_of_eq_exc (by assumption)
              (ihB _ _ _ _ _ (keeps_newEnv _ _ (by assumption))
                (Or.inr (keeps_newEnv_idx _ _ (by assumption)))))))
        | apply ends_release
        | apply Res.ends_bind
        | intro _
        | split

end Ironwood

namespace Ironwood

theorem objFind_isSome_keys {β γ : Type} (o : List (Str × β)) (o' : List (Str × γ)) (k : Str)
    (hkeys : o.map Prod.fst = o'.map Prod.fst) :
    (objFind o k).isSome = (objFind o' k).isSome := by
  induction o generalizing o' with
  | nil =>
    cases o' with
    | nil => rfl
    | cons a l => simp at hkeys
  | cons kv r ih =>
    cases o' with
    | nil => simp at hkeys
    | cons kv' r' =>
      obtain ⟨k0, w⟩ := kv
      obtain ⟨k1, w'⟩ := kv'
      simp only [List.map_cons, List.cons.injEq] at hkeys
      obtain ⟨h1, h2⟩ := hkeys
      subst h1
      rw [objFind_cons, objFind_cons]
      by_cases hk : k0 = k
      · rw [if_pos hk, if_pos hk]; rfl
      · rw [if_neg hk, if_neg hk]; exact ih r' h2

/-- When the environments of `σ` have in `σ1` the names and parents they have
in `σ`, and every parent in `σ` is older than its child, the environment in
which a name is found from an environment of `σ` is the same in both states,
whatever the depths allowed. -/
theorem envOwner_keeps (σ σ1 : State) (hσ : σ.parentsOlder)
    (hk : Keeps (fun _ => False) σ σ1) (n : Str) :
    ∀ (d d1 env : Nat), env < d → env < d1 → env < σ.envs.length →
      envOwner σ1.envs d1 env n = envOwner σ.envs d env n := by
  intro d
  induction d with
  | zero => intro d1 env h; omega
  | succ d ih =>
    intro d1 env hd hd1 hlen
    obtain ⟨k1, rfl⟩ : ∃ k1, d1 = k1 + 1 := ⟨d1 - 1, by omega⟩
    have hshape := hk.2.2 env hlen (fun hf => hf)
    have hlen1 : env < σ1.envs.length := lt_of_lt_of_le hlen hk.1
    unfold envShape at hshape
    rw [List.getElem?_eq_getElem hlen, List.getElem?_eq_getElem hlen1] at hshape
    simp only [Option.map_some', Option.some.injEq, Prod.mk.injEq] at hshape
    obtain ⟨hnames, hparent⟩ := hshape
    rw [envOwner, envOwner, List.getElem?_eq_getElem hlen, List.getElem?_eq_getElem hlen1]
    simp only
    have hsome := objFind_isSome_keys (σ1.envs[env]).vars (σ.envs[env]).vars n hnames
    cases h1 : objFind (σ1.envs[env]).vars n with
    | some v1 =>
      rw [h1] at hsome
      cases h0 : objFind (σ.envs[env]).vars n with
      | some v0 => rfl
      | none => rw [h0] at hsome; cases hsome
    | none =>
      rw [h1] at hsome
      cases h0 : objFind (σ.envs[env]).vars n with
      | some v0 => rw [h0] at hsome; cases hsome
      | none =>
        simp only
        rw [hparent]
        cases hp : (σ.envs[env]).parent with
        | none => rfl
        | some p =>
          have hpe : p < env := hσ env _ p (List.getElem?_eq_getElem hlen) hp
          exact ih k1 p (by omega) (by omega) (by omega)

/-- From a new child of an environment of `σ`, a name that the child does not
define is found where it is found from the parent in `σ`. -/
theorem envOwner_child (σ σ1 : State) (hσ : σ.parentsOlder)
    (hk : Keeps (fun _ => False) σ σ1) (n : Str) (env : Nat) (henv : env < σ.envs.length)
    (vars : List (Str × Val)) (hn : objFind vars n = none) :
    envOwner (σ1.newEnv vars env).2.envs ((σ1.newEnv vars env).2.envs.length + 1)
        (σ1.newEnv vars env).1 n
      = envOwner σ.envs (σ.envs.length + 1) env n := by
  have hk2 : Keeps (fun _ => False) σ (σ1.newEnv vars env).2 := keeps_newEnv vars env hk
  rw [envOwner]
  simp only [State.newEnv, List.getElem?_concat_length, hn]
  exact envOwner_keeps σ (σ1.newEnv vars env).2 hσ hk2 n (σ.envs.length + 1) _ env (by omega)
    (by have := hk.1; simp; omega) henv

/-- C19: an `if`, `while`, `for` or `try` statement, however it ends, leaves
every environment that exists when it starts, the enclosing one included,
with the names and the parent it has; so does every iteration of `while` and
of `for`.  The block of an `if` and of a `try`, the catch body, and the body
of every iteration of `while` and `for` run in an environment that is created
for them, a child of the enclosing one that holds nothing (for `for`, the
loop variable; for the catch body, the catch variable), in which `let`
defines its name, and which is destroyed when the block is left.  When the parents are older than their children, a name is
found after the statement, from an environment that existed before, where it
was found before; and from the new child of a later block or iteration, a
name that the child does not hold is found where it was found from the
enclosing environment before. -/
theorem block_scope (h : Host) (fuel : Nat) (env : Nat) (σ : State) (cond : Expr)
    (thenBody elseBody body catchBody : List Stmt) (x catchVar : Str) (iter : Expr) :
    ((execStmt h fuel (.IfStmt cond thenBody elseBody) env σ).ends (Keeps (fun _ => False) σ)
      ∧ (execStmt h fuel (.WhileStmt cond body) env σ).ends (Keeps (fun _ => False) σ)
      ∧ (execStmt h fuel (.ForStmt x iter body) env σ).ends (Keeps (fun _ => False) σ)
      ∧ (execStmt h fuel (.TryStmt body catchVar catchBody) env σ).ends
          (Keeps (fun _ => False) σ))
    ∧ (∀ σa, Keeps (fun _ => False) σ σa →
        (whileLoop h fuel cond body env σa).ends (Keeps (fun _ => False) σ)
        ∧ (∀ items, (forLoop h fuel x items body env σa).ends (Keeps (fun _ => False) σ))
        ∧ (∀ vars, (execBlock h fuel body (σa.newEnv vars env).1 (σa.newEnv vars env).2).ends
            (Keeps (fun _ => False) σ)))
    ∧ (execStmt h (fuel + 1) (.IfStmt cond thenBody elseBody) env σ
          = ((evalExpr h fuel cond env (σ.newEnv [] env).2).bind (fun c σ1 =>
              execBlock h fuel (if c.isTruthy then thenBody else elseBody)
                (σ.newEnv [] env).1 σ1)).release σ.envs.length
      ∧ (∀ σa, whileLoop h (fuel + 1) cond body env σa
          = (evalExpr h fuel cond env σa).bind (fun c σ1 =>
              if c.isTruthy then
                match (execBlock h fuel body (σ1.newEnv [] env).1 (σ1.newEnv [] env).2).release
                    σ1.envs.length with
                | .ok _ σ2 => whileLoop h fuel cond body env σ2
                | .exc .BreakSignal σ2 => .ok () σ2
                | .exc .ContinueSignal σ2 => whileLoop h fuel cond body env σ2
                | .exc s σ2 => .exc s σ2
                | .timeout => .timeout
                | .outside => .outside
              else .ok () σ1))
      ∧ (∀ σa item rest, forLoop h (fuel + 1) x (item :: rest) body env σa
          = (match (execBlock h fuel body (σa.newEnv (objSet h.place [] x item) env).1
                (σa.newEnv (objSet h.place [] x item) env).2).release σa.envs.length with
             | .ok _ σ1 => forLoop h fuel x rest body env σ1
             | .exc .BreakSignal σ1 => .ok () σ1
             | .exc .ContinueSignal σ1 => forLoop h fuel x rest body env σ1
             | .exc s σ1 => .exc s σ1
             | .timeout => .timeout
             | .outside => .outside))
      ∧ (∀ name init σa c, execStmt h (fuel + 1) (.LetStmt name init) c σa
          = (evalExpr h fuel init c σa).bind (fun v σ1 => .ok () (σ1.define h.place c name v)))
      ∧ (∀ (σa : State) (vars : List (Str × Val)), (σa.newEnv vars env).1 = σa.envs.length
          ∧ (σa.newEnv vars env).2.envs[σa.envs.length]? = some ⟨vars, some env⟩))
    ∧ (σ.parentsOlder → env < σ.envs.length → ∀ σ1, Keeps (fun _ => False) σ σ1 → ∀ n,
        (∀ i, i < σ.envs.length →
          envOwner σ1.envs (σ1.envs.length + 1) i n = envOwner σ.envs (σ.envs.length + 1) i n)
        ∧ (∀ vars, objFind vars n = none →
          envOwner (σ1.newEnv vars env).2.envs ((σ1.newEnv vars env).2.envs.length + 1)
              (σ1.newEnv vars env).1 n
            = envOwner σ.envs (σ.envs.length + 1) env n)) := by
  have key : ∀ k σa vars, Keeps (fun _ => False) σ σa →
      ∀ ss, (execBlock h k ss (σa.newEnv vars env).1 (σa.newEnv vars env).2).ends
        (Keeps (fun _ => False) σ) := fun k σa vars hka ss =>
    (evaluator_keeps h k).2.2.2.2.2.2.2.2.2.2.2.1 _ σ ss _ _ (keeps_newEnv _ _ hka)
      (Or.inr (keeps_newEnv_idx _ _ hka))
  refine ⟨⟨?_, ?_, ?_, ?_⟩, ?_, ⟨?_, ?_, ?_, ?_, ?_⟩, ?_⟩
  · cases fuel with
    | zero => rw [execStmt]; trivial
    | succ k =>
      simp only [execStmt]
      refine ends_release _ (Res.ends_bind ((evaluator_keeps h k).1 _ σ _ _ _
        (keeps_newEnv _ _ (keeps_refl _ σ))) ?_)
      intro c σ1 hk1
      split
      · exact (evaluator_keeps h k).2.2.2.2.2.2.2.2.2.2.2.1 _ σ _ _ _ hk1
          (Or.inr (keeps_newEnv_idx _ _ (keeps_refl (fun _ => False) σ)))
      · exact (evaluator_keeps h k).2.2.2.2.2.2.2.2.2.2.2.1 _ σ _ _ _ hk1
          (Or.inr (keeps_newEnv_idx _ _ (keeps_refl (fun _ => False) σ)))
  · cases fuel with
    | zero => rw [execStmt]; trivial
    | succ k =>
      simp only [execStmt]
      exact (evaluator_keeps h k).2.2.2.2.2.2.2.2.2.2.2.2.1 _ σ _ _ _ _ (keeps_refl _ σ)
  · cases fuel with
    | zero => rw [execStmt]; trivial
    | succ k =>
      simp only [execStmt]
      refine Res.ends_bind ((evaluator_keeps h k).1 _ σ _ _ _ (keeps_refl _ σ)) ?_
      intro c σ1 hk1
      exact (evaluator_keeps h k).2.2.2.2.2.2.2.2.2.2.2.2.2 _ σ _ _ _ _ _ hk1
  · cases fuel with
    | zero => rw [execStmt]; trivial
    | succ k =>
      simp only [execStmt]
      have hb := key k σ [] (keeps_refl _ σ) body
      apply ends_release
      split
      all_goals first
        | exact Res.ends_timeout
        | exact Res.ends_outside
        | exact Res.ends_ok (ends_of_eq_ok (by assumption) hb)
        | exact Res.ends_exc (ends_of_eq_exc (by assumption) hb)
        | exact ends_release _ (key k _ _ (ends_of_eq_exc (by assumption) hb) catchBody)
  · intro σa hka
    exact ⟨(evaluator_keeps h fuel).2.2.2.2.2.2.2.2.2.2.2.2.1 _ σ _ _ _ _ hka,
      fun items => (evaluator_keeps h fuel).2.2.2.2.2.2.2.2.2.2.2.2.2 _ σ _ _ _ _ _ hka,
      fun vars => key fuel σa vars hka body⟩
  · simp only [execStmt]
    congr 2
    funext c σ1
    split <;> rfl
  · intro σa
    rw [whileLoop] <;> rfl
  · intro σa item rest
    rw [forLoop] <;> rfl
  · intro name init σa c
    rw [execStmt]
  · intro σa vars
    exact ⟨rfl, by simp [State.newEnv]⟩
  · intro hσ henv σ1 hk1 n
    refine ⟨?_, ?_⟩
    · intro i hi
      exact envOwner_keeps σ σ1 hσ hk1 n _ _ i (by omega) (by have := hk1.1; omega) hi
    · intro vars hn
      exact envOwner_child σ σ1 hσ hk1 n env henv vars hn

theorem parentsOlder_initial : State.initial.parentsOlder := by
  intro i e p he hp
  match i, he with
  | 0, he => cases he; cases hp
  | k + 1, he => cases he

/-- C19 at the statement `if true`, `let y = 2`, `end` in the global
environment of the initial state: it ends in a state whose environment 1, the
child made for the block, holds `y` and is destroyed; the loops that start in that state keep
the global environment without names; `y` is found neither from the global
environment nor from the child made for a later block; and a program, run
through the whole pipeline, in which a name defined in a block of `if`, of
`try`, and in an iteration of `while` and of `for` is unknown after the block
and in the next iteration. -/
theorem block_scope_witness :
    execStmt Host.plain 5 (.IfStmt (.BoolLit true) [.LetStmt "y".toList (.NumberLit 2)] []) 0
        State.initial
      = .ok () ⟨[], [⟨[], none⟩, ⟨[("y".toList, .num 2)], some 0⟩], [], [], [0]⟩
    ∧ (whileLoop Host.plain 9 (.BoolLit false) [.LetStmt "z".toList (.NumberLit 1)] 0
          ⟨[], [⟨[], none⟩, ⟨[("y".toList, .num 2)], some 0⟩], [], [], [0]⟩).ends
        (Keeps (fun _ => False) State.initial)
    ∧ envOwner [⟨[], none⟩, ⟨[("y".toList, .num 2)], some 0⟩] 3 0 "y".toList = none
    ∧ envOwner [⟨[], none⟩, ⟨[("y".toList, .num 2)], some 0⟩, ⟨[], some 0⟩] 4 2 "y".toList = none
    ∧ main (fun _ _ => 0) 60
        ("let x = 1
if x == 1
  let y = 2
end
try
  say y
catch e
  say \"no y\"
end
"
          ++ "let i = 0
while i < 2
  try
    say z
  catch e
    say \"no z\"
  end
"
          ++ "  let z = i
  set i = i + 1
end
"
          ++ "for each k in [1, 2]
  try
    say w
  catch e
    say \"no w\"
  end
"
          ++ "  let w = k
end
"
          ++ "try
  let t = 1
  throw t
catch e
  let u = 1
end
"
          ++ "try
  say t
catch e
  say \"no t\"
end
"
          ++ "try
  say u
catch e
  say \"no u\"
end
").toList []
      = .code 0 ["no y".toList, "no z".toList, "no z".toList, "no w".toList, "no w".toList,
          "no t".toList, "no u".toList] [] :=
  ⟨by rfl,
   ((block_scope Host.plain 9 0 State.initial (.BoolLit false) [] []
      [.LetStmt "z".toList (.NumberLit 1)] [] [] [] .NullLit).2.1
      ⟨[], [⟨[], none⟩, ⟨[("y".toList, .num 2)], some 0⟩], [], [], [0]⟩
      (@ends_of_eq_ok Unit (execStmt Host.plain 5
          (.IfStmt (.BoolLit true) [.LetStmt "y".toList (.NumberLit 2)] []) 0 State.initial)
        () _ _ (by rfl)
        (block_scope Host.plain 5 0 State.initial (.BoolLit true)
          [.LetStmt "y".toList (.NumberLit 2)] [] [] [] [] [] .NullLit).1.1)).1,
   (((block_scope Host.plain 5 0 State.initial (.BoolLit true)
      [.LetStmt "y".toList (.NumberLit 2)] [] [] [] [] [] .NullLit).2.2.2
      parentsOlder_initial (by decide)
      ⟨[], [⟨[], none⟩, ⟨[("y".toList, .num 2)], some 0⟩], [], [], [0]⟩
      (@ends_of_eq_ok Unit (execStmt Host.plain 5
          (.IfStmt (.BoolLit true) [.LetStmt "y".toList (.NumberLit 2)] []) 0 State.initial)
        () _ _ (by rfl)
        (block_scope Host.plain 5 0 State.initial (.BoolLit true)
          [.LetStmt "y".toList (.NumberLit 2)] [] [] [] [] [] .NullLit).1.1)
      "y".toList).1 0 (by decide)).trans (by rfl),
   (((block_scope Host.plain 5 0 State.initial (.BoolLit true)
      [.LetStmt "y".toList (.NumberLit 2)] [] [] [] [] [] .NullLit).2.2.2
      parentsOlder_initial (by decide)
      ⟨[], [⟨[], none⟩, ⟨[("y".toList, .num 2)], some 0⟩], [], [], [0]⟩
      (@ends_of_eq_ok Unit (execStmt Host.plain 5
          (.IfStmt (.BoolLit true) [.LetStmt "y".toList (.NumberLit 2)] []) 0 State.initial)
        () _ _ (by rfl)
        (block_scope Host.plain 5 0 State.initial (.BoolLit true)
          [.LetStmt "y".toList (.NumberLit 2)] [] [] [] [] [] .NullLit).1.1)
      "y".toList).2 [] (by rfl)).trans (by rfl),
   by decide!⟩

end Ironwood

namespace Ironwood

/-! ## The scenarios of the specification, through the whole pipeline -/

set_option maxRecDepth 1000000 in
set_option maxHeartbeats 4000000 in
/-- C14, as stated, fails: the Fibonacci program of scenario 1 is rejected by
the parser.  In a statement, `if` is followed by a condition and a block up
to `end`; the token `then` starts no statement, and the driver reports the
syntax error and returns 1 without any output, whatever the placement and the
fuel. -/
theorem fib_scenario_rejected :
    parseSource
        ("function fib(n)\n  if n < 2 then return n\n  return fib(n-1) + fib(n-2)\nend\n"
          ++ "say fib(10)\n").toList
      = .err "Line 2: Unexpected token 'then'".toList
    ∧ ∀ (pl : Placement) (fuel : Nat),
      main pl fuel
        ("function fib(n)\n  if n < 2 then return n\n  return fib(n-1) + fib(n-2)\nend\n"
          ++ "say fib(10)\n").toList []
      = .code 1 [] (errorReport "Line 2: Unexpected token 'then'".toList) := by
  have hp : parseSource
        ("function fib(n)\n  if n < 2 then return n\n  return fib(n-1) + fib(n-2)\nend\n"
          ++ "say fib(10)\n").toList
      = .err "Line 2: Unexpected token 'then'".toList := rfl
  refine ⟨hp, fun pl fuel => ?_⟩
  unfold main
  rw [hp]

/-! ### The recursion of `fib` -/

theorem fib_cond (k : ℚ) (h : Host) (g c : Nat) (τ : State)
    (hc : τ.envs[c]? = some ⟨[("n".toList, .num k)], some 0⟩) (hl : c ∈ τ.live) :
    evalExpr h (g + 2) (.BinExpr "<".toList (.VarExpr "n".toList) (.NumberLit 2)) c τ
      = .ok (.bool (decide (k < 2))) τ := by
  have hn := read_here τ c _ "n".toList (.num k) hc (by simp [objFind]) hl
  simp only [evalExpr, hn, Res.bind]
  simp [machineBinOp, liftOutcome, binOp, Val.ofScalar]

theorem fib_ret (v : Val) (h : Host) (g c : Nat) (τ : State)
    (hi : τ.envs[c + 1]? = some ⟨[], some c⟩)
    (hc : τ.envs[c]? = some ⟨[("n".toList, v)], some 0⟩)
    (hl1 : c + 1 ∈ τ.live) (hl : c ∈ τ.live) :
    evalExpr h (g + 1) (.VarExpr "n".toList) (c + 1) τ = .ok v τ := by
  rw [evalExpr]
  exact read_parent τ (c + 1) c _ _ "n".toList v hi (by simp [objFind]) rfl hc
    (by simp [objFind]) hl1 hl

theorem fib_get_n (k : ℚ) (c : Nat) (τ : State)
    (hc : τ.envs[c]? = some ⟨[(['n'], .num k)], some 0⟩) (hl : c ∈ τ.live) :
    τ.read c ['n'] = .ok (.num k) τ :=
  read_here τ c _ _ _ hc (by simp [objFind]) hl

theorem fib_get_fib (k : ℚ) (w : Val) (e0 : Env) (hw : objFind e0.vars ['f', 'i', 'b'] = some w)
    (c : Nat) (τ : State)
    (hc : τ.envs[c]? = some ⟨[(['n'], .num k)], some 0⟩) (h0 : τ.envs[0]? = some e0)
    (hl : c ∈ τ.live) (hl0 : 0 ∈ τ.live) :
    τ.read c ['f', 'i', 'b'] = .ok w τ :=
  read_parent τ c 0 _ e0 _ w hc (by simp [objFind]) rfl h0 hw hl hl0

set_option maxHeartbeats 1000000 in
/-- The call of `fib` on the number `k` returns the Fibonacci number of `k`, in
every state whose global environment exists and binds `fib` to the function,
with fuel from `6 * k + 10` on; the environments of the call are added to the
state and destroyed again, and nothing else changes. -/
theorem fib_call (pl : Placement) (body : List Stmt)
    (hbody : body = [.IfStmt (.BinExpr "<".toList (.VarExpr "n".toList) (.NumberLit 2))
        [.ReturnStmt (.VarExpr "n".toList)] [],
      .ReturnStmt (.BinExpr "+".toList
        (.CallExpr (.VarExpr "fib".toList) [.BinExpr "-".toList (.VarExpr "n".toList) (.NumberLit 1)])
        (.CallExpr (.VarExpr "fib".toList) [.BinExpr "-".toList (.VarExpr "n".toList) (.NumberLit 2)]))]) :
    ∀ (k f : Nat) (σ : State) (e0 : Env), 6 * k + 10 ≤ f → σ.envs[0]? = some e0 →
      objFind e0.vars "fib".toList = some (.func ⟨["n".toList], body, 0⟩) → 0 ∈ σ.live →
      ∃ extra, callValue (Host.std pl) f (.func ⟨["n".toList], body, 0⟩) [.num k] σ
        = .ok (.num (Nat.fib k)) { σ with envs := σ.envs ++ extra } := by
  intro k
  induction k using Nat.strong_induction_on with
  | _ k ih =>
    intro f σ e0 hf h0 hfib hlive
    obtain ⟨g, rfl⟩ : ∃ g, f = g + 10 := ⟨f - 10, by omega⟩
    have hz : ∀ B : List Env, (σ.envs ++ B)[0]? = some e0 :=
      fun B => getElem?_append_some _ _ _ _ h0
    have hm0 : ∀ (a : Nat), 0 ∈ a :: σ.live := fun a => List.mem_cons_of_mem _ hlive
    have hm1 : ∀ (a b : Nat), 0 ∈ a :: b :: σ.live :=
      fun a b => List.mem_cons_of_mem _ (List.mem_cons_of_mem _ hlive)
    have hs0 : ∀ (a : Nat) (l : List Nat), a ∈ a :: l := fun a l => List.mem_cons_self _ _
    have hs1 : ∀ (a b : Nat) (l : List Nat), a ∈ b :: a :: l :=
      fun a b l => List.mem_cons_of_mem _ (List.mem_cons_self _ _)
    rw [callValue_func]
    simp only [Host.std, bindParams, objSet_nil]
    rw [hbody]
    by_cases hk : k < 2
    · have hkq : decide ((k : ℚ) < 2) = true := by
        rw [decide_eq_true_eq]; exact_mod_cast hk
      have hk' : Nat.fib k = k := by
        interval_cases k <;> rfl
      refine ⟨[⟨[("n".toList, .num k)], some 0⟩, ⟨[], some σ.envs.length⟩], ?_⟩
      rw [hk']
      simp only [execBlock, execStmt, State.newEnv, Res.bind, List.append_assoc, List.cons_append,
        List.nil_append, List.length_append, List.length_cons, List.length_nil, Nat.reduceAdd,
        getElem?_append_cons, getElem?_append_cons_cons, hz, fib_cond (k : ℚ), fib_ret (.num k),
        Val.isTruthy, hkq, if_true, hm0, hm1, hs0, hs1, Res.release, State.release,
        List.erase_cons_head]
    · have hkq : decide ((k : ℚ) < 2) = false := by
        rw [decide_eq_false_iff_not]; exact_mod_cast hk
      have hk1 : ((k : ℚ) - 1) = ((k - 1 : ℕ) : ℚ) := by
        rw [Nat.cast_sub (by omega)]; norm_num
      have hk2 : ((k : ℚ) - 2) = ((k - 2 : ℕ) : ℚ) := by
        rw [Nat.cast_sub (by omega)]; norm_num
      have hfib' : objFind e0.vars ['f', 'i', 'b']
          = some (.func ⟨["n".toList], body, 0⟩) := hfib
      simp only [execBlock, execStmt, State.newEnv, Res.bind, List.append_assoc, List.cons_append,
        List.nil_append, List.length_append, List.length_cons, List.length_nil, Nat.reduceAdd,
        getElem?_append_cons, getElem?_append_cons_cons, hz, fib_cond (k : ℚ),
        Val.isTruthy, hkq, if_false, Bool.false_eq_true, hm0, hm1, hs0, hs1, Res.release,
        State.release, List.erase_cons_head]
      simp only [evalExpr, evalList, Res.bind, String.toList, List.cons.injEq, Char.reduceEq,
        and_false, and_true, and_self, if_true, if_false, reduceCtorEq,
        fib_get_n (k : ℚ), fib_get_fib (k : ℚ) _ e0 hfib', getElem?_append_cons, hz,
        machineBinOp, liftOutcome, binOp, Val.ofScalar, hm0, hm1, hs0, hs1]
      obtain ⟨x1, h1⟩ := ih (k - 1) (by omega) (g + 4)
        ⟨σ.heap, σ.envs ++ [⟨[(['n'], .num k)], some 0⟩, ⟨[], some σ.envs.length⟩],
          σ.classRegistry, σ.out, σ.envs.length :: σ.live⟩ e0 (by omega) (hz _) hfib (hm0 _)
      rw [← hk1] at h1
      simp only [String.toList, Host.std] at h1
      simp only [h1, List.append_assoc, List.cons_append, List.nil_append,
        fib_get_n (k : ℚ), fib_get_fib (k : ℚ) _ e0 hfib', getElem?_append_cons, hz, hm0, hm1,
        hs0, hs1]
      obtain ⟨x2, h2⟩ := ih (k - 2) (by omega) (g + 4)
        ⟨σ.heap, σ.envs ++ (⟨[(['n'], .num k)], some 0⟩ :: ⟨[], some σ.envs.length⟩ :: x1),
          σ.classRegistry, σ.out, σ.envs.length :: σ.live⟩ e0 (by omega) (hz _) hfib (hm0 _)
      rw [← hk2] at h2
      simp only [Host.std] at h2
      simp only [h2, List.append_assoc, List.cons_append, List.nil_append, Res.release,
        State.release, List.erase_cons_head]
      refine ⟨⟨[(['n'], .num k)], some 0⟩ :: ⟨[], some σ.envs.length⟩ :: (x1 ++ x2), ?_⟩
      have hadd : ((Nat.fib (k - 1) : ℚ) + (Nat.fib (k - 2) : ℚ)) = (Nat.fib k : ℚ) := by
        obtain ⟨j, rfl⟩ : ∃ j, k = j + 2 := ⟨k - 2, by omega⟩
        rw [Nat.fib_add_two]
        simp only [Nat.add_sub_cancel, show j + 2 - 1 = j + 1 from rfl]
        push_cast
        ring
      rw [hadd]

set_option maxRecDepth 1000000 in
set_option maxHeartbeats 4000000 in
/-- C14, amended: the Fibonacci program written with the statement form of
`if` (the condition, the statement `return n`, `end`) and with blanks around
the minus signs is accepted by the lexer and the parser and prints exactly
`55`; the driver returns 0.  This holds for every placement of the keys of
the environments and for all fuel from 80 on. -/
theorem fib_block_form_prints_55 (pl : Placement) (fuel : Nat) :
    main pl (fuel + 80)
        ("function fib(n)\n  if n < 2 return n end\n  return fib(n - 1) + fib(n - 2)\nend\n"
          ++ "say fib(10)\n").toList []
      = .code 0 ["55".toList] [] := by
  have hp : ∃ rest, parseSource
        ("function fib(n)\n  if n < 2 return n end\n  return fib(n - 1) + fib(n - 2)\nend\n"
          ++ "say fib(10)\n").toList
      = .ok [.FuncStmt "fib".toList ["n".toList]
          [.IfStmt (.BinExpr "<".toList (.VarExpr "n".toList) (.NumberLit 2))
            [.ReturnStmt (.VarExpr "n".toList)] [],
          .ReturnStmt (.BinExpr "+".toList
            (.CallExpr (.VarExpr "fib".toList)
              [.BinExpr "-".toList (.VarExpr "n".toList) (.NumberLit 1)])
            (.CallExpr (.VarExpr "fib".toList)
              [.BinExpr "-".toList (.VarExpr "n".toList) (.NumberLit 2)]))],
        .SayStmt (.CallExpr (.VarExpr "fib".toList) [.NumberLit 10])] rest := ⟨_, rfl⟩
  obtain ⟨rest, hp⟩ := hp
  unfold main
  rw [hp]
  generalize hb : ([.IfStmt (.BinExpr "<".toList (.VarExpr "n".toList) (.NumberLit 2))
            [.ReturnStmt (.VarExpr "n".toList)] [],
          .ReturnStmt (.BinExpr "+".toList
            (.CallExpr (.VarExpr "fib".toList)
              [.BinExpr "-".toList (.VarExpr "n".toList) (.NumberLit 1)])
            (.CallExpr (.VarExpr "fib".toList)
              [.BinExpr "-".toList (.VarExpr "n".toList) (.NumberLit 2)]))] : List Stmt) = body
  obtain ⟨e0, h0, hf⟩ : ∃ e0 : Env,
      ((registerGlobals pl []).define (Host.std pl).place 0 "fib".toList
        (.func ⟨["n".toList], body, 0⟩)).envs[0]? = some e0
      ∧ objFind e0.vars "fib".toList = some (.func ⟨["n".toList], body, 0⟩) :=
    ⟨_, rfl, objFind_objSet_self _ _ _ _⟩
  have hout : ((registerGlobals pl []).define (Host.std pl).place 0 "fib".toList
        (.func ⟨["n".toList], body, 0⟩)).out = [] := rfl
  have hl0 : 0 ∈ ((registerGlobals pl []).define (Host.std pl).place 0 "fib".toList
        (.func ⟨["n".toList], body, 0⟩)).live := List.mem_cons_self _ _
  obtain ⟨x, hx⟩ := fib_call pl body hb.symm 10 (fuel + 76) _ e0 (by omega) h0 hf hl0
  have hget := read_here _ 0 e0 _ _ h0 hf hl0
  simp only [Nat.cast_ofNat] at hx
  simp only [run, execBlock, execStmt, evalExpr, evalList, Res.bind, hget, hx, render, reify,
    Option.map_some', hout, List.nil_append]
  have h55 : (IronValue.num ((Nat.fib 10 : ℕ) : ℚ)).toString = "55".toList := by
    rw [show Nat.fib 10 = 55 from rfl]
    decide!
  rw [h55]

set_option maxRecDepth 1000000 in
set_option maxHeartbeats 4000000 in
/-- C15, as stated, fails: in the Point program of scenario 3 the `;` of the
line of `init` starts a comment that runs to the end of the line, so the `end`
of `init` is not read; the `end` of `norm` and of the class close `norm` and
`init`, the class is still open at the end of the file, and the driver
reports the syntax error and returns 1 without any output, whatever the
placement and the fuel. -/
theorem point_scenario_rejected :
    parseSource
        ("class Point\n  let x = 0\n  let y = 0\n"
          ++ "  function init(a,b) set self.x = a; set self.y = b end\n"
          ++ "  function norm() return math.sqrt(self.x*self.x + self.y*self.y) end\n"
          ++ "end\nlet p = new Point(3,4)\nsay p.norm()\n").toList
      = .err "Line 9: Expected 'end' after class (got '')".toList
    ∧ ∀ (pl : Placement) (fuel : Nat),
      main pl fuel
        ("class Point\n  let x = 0\n  let y = 0\n"
          ++ "  function init(a,b) set self.x = a; set self.y = b end\n"
          ++ "  function norm() return math.sqrt(self.x*self.x + self.y*self.y) end\n"
          ++ "end\nlet p = new Point(3,4)\nsay p.norm()\n").toList []
      = .code 1 [] (errorReport "Line 9: Expected 'end' after class (got '')".toList) := by
  have hp : parseSource
        ("class Point\n  let x = 0\n  let y = 0\n"
          ++ "  function init(a,b) set self.x = a; set self.y = b end\n"
          ++ "  function norm() return math.sqrt(self.x*self.x + self.y*self.y) end\n"
          ++ "end\nlet p = new Point(3,4)\nsay p.norm()\n").toList
      = .err "Line 9: Expected 'end' after class (got '')".toList := rfl
  refine ⟨hp, fun pl fuel => ?_⟩
  unfold main
  rw [hp]

set_option maxRecDepth 1000000 in
set_option maxHeartbeats 4000000 in
/-- C15, amended: the Point program whose `init` is written on one line
without the `;` is accepted by the lexer and the parser and prints exactly
`5`; the driver returns 0.  This holds for every placement of the keys of the
environments and dictionaries and for all fuel from 40 on. -/
theorem point_without_semicolon_prints_5 (pl : Placement) (fuel : Nat) :
    main pl (fuel + 40)
        ("class Point\n  let x = 0\n  let y = 0\n"
          ++ "  function init(a,b) set self.x = a set self.y = b end\n"
          ++ "  function norm() return math.sqrt(self.x*self.x + self.y*self.y) end\n"
          ++ "end\nlet p = new Point(3,4)\nsay p.norm()\n").toList []
      = .code 0 ["5".toList] [] := by
  have hp : ∃ rest, parseSource
        ("class Point\n  let x = 0\n  let y = 0\n"
          ++ "  function init(a,b) set self.x = a set self.y = b end\n"
          ++ "  function norm() return math.sqrt(self.x*self.x + self.y*self.y) end\n"
          ++ "end\nlet p = new Point(3,4)\nsay p.norm()\n").toList
      = .ok
        [.ClassStmt "Point".toList
          [.LetStmt "x".toList (.NumberLit 0), .LetStmt "y".toList (.NumberLit 0),
           .FuncStmt "init".toList ["a".toList, "b".toList]
             [.SetStmt (.MemberExpr (.VarExpr "self".toList) "x".toList) (.VarExpr "a".toList),
              .SetStmt (.MemberExpr (.VarExpr "self".toList) "y".toList) (.VarExpr "b".toList)],
           .FuncStmt "norm".toList []
             [.ReturnStmt (.CallExpr (.MemberExpr (.VarExpr "math".toList) "sqrt".toList)
               [.BinExpr "+".toList
                 (.BinExpr "*".toList (.MemberExpr (.VarExpr "self".toList) "x".toList)
                   (.MemberExpr (.VarExpr "self".toList) "x".toList))
                 (.BinExpr "*".toList (.MemberExpr (.VarExpr "self".toList) "y".toList)
                   (.MemberExpr (.VarExpr "self".toList) "y".toList))])]],
         .LetStmt "p".toList (.ClassNewExpr "Point".toList [.NumberLit 3, .NumberLit 4]),
         .SayStmt (.CallExpr (.MemberExpr (.VarExpr "p".toList) "norm".toList) [])] rest := ⟨_, rfl⟩
  obtain ⟨rest, hp⟩ := hp
  have hs : ratSqrt (3 * 3 + 4 * 4) = some 5 := by decide!
  unfold main
  rw [hp]
  simp only [Nat.reduceLeDiff, Nat.reduceLT, Nat.reduceEqDiff, Nat.reduceSub, Int.reduceLT,
    Int.reduceLE,
    Int.reduceToNat, Nat.cast_ofNat, List.length_set, Nat.cast_add, Nat.cast_one, run,
    execBlock, execStmt, evalExpr, evalList, evalPairs, initFields, keepLoop,
    mapLoop, callValue, callMethod, assignLvalue, Res.bind, State.register, classFields,
    classMethods, objSet_nil, registerGlobals, mathObject, State.define, State.get, State.assign,
    envGet, envOwner, interpolate, bindParams, State.alloc, State.newEnv, State.read, State.write, envReach, Res.release, State.release, List.contains_cons,
        List.contains_nil, List.erase_cons_head, beq_self_eq_true, Nat.reduceBEq, Bool.true_or,
        Bool.or_true, Bool.false_or, Bool.or_false, Bool.and_true, Bool.true_and, Bool.and_self,
        Bool.or_self, storeMember,
    storeIndex, State.store, memberOfObject, machineBinOp, liftOutcome, binOp, builtinCall,
    render, reify, mapOpt, Val.ofScalar, Val.isTruthy, objFind_objSet, objFind, Host.std,
    classKey, ne_eq, not_false_eq_true, not_true_eq_false, List.cons_append, List.nil_append,
    Nat.reduceAdd, zero_add, List.set_cons_zero, String.toList, List.cons.injEq, Char.reduceEq,
    and_false, and_true, and_self, if_true, if_false, reduceCtorEq, List.length_cons,
    List.length_nil, List.getElem?_cons_zero, List.length_append, List.getElem?_cons_succ,
    List.set_cons_succ, Option.map_some', IronValue.toString, hs]
  rfl

end Ironwood

namespace Ironwood

/-! ## Arithmetic operators -/

/-- A binary operator other than `and` and `or` evaluates the left operand,
then the right one, then combines the two values. -/
theorem evalExpr_bin (h : Host) (fuel : Nat) (op : Str) (a b : Expr) (env : Nat) (σ : State)
    (hand : op ≠ "and".toList) (hor : op ≠ "or".toList) :
    evalExpr h (fuel + 1) (.BinExpr op a b) env σ
      = (evalExpr h fuel a env σ).bind (fun l σ1 =>
          (evalExpr h fuel b env σ1).bind (fun r σ2 => machineBinOp fuel op l r σ2)) := by
  rw [evalExpr, if_neg hand, if_neg hor]

/-- C24: when the operands of `/` evaluate to the numbers `a` and `b`, the
division raises (and then it raises the runtime error `Can't divide by zero!`,
in the state that the operands leave) if and only if `b` is zero, and
otherwise it yields the quotient of `a` by `b`. -/
theorem division_raises_iff_zero (h : Host) (fuel : Nat) (l r : Expr) (env : Nat)
    (σ σ1 σ2 : State) (a b : ℚ)
    (hl : evalExpr h fuel l env σ = .ok (.num a) σ1)
    (hr : evalExpr h fuel r env σ1 = .ok (.num b) σ2) :
    ((∃ (s : Signal) (σ3 : State),
        evalExpr h (fuel + 1) (.BinExpr "/".toList l r) env σ = .exc s σ3) ↔ b = 0)
    ∧ (b = 0 → evalExpr h (fuel + 1) (.BinExpr "/".toList l r) env σ
        = .exc (.error "Can't divide by zero!".toList) σ2)
    ∧ (b ≠ 0 → evalExpr h (fuel + 1) (.BinExpr "/".toList l r) env σ = .ok (.num (a / b)) σ2) := by
  have he : evalExpr h (fuel + 1) (.BinExpr "/".toList l r) env σ
      = if b = 0 then .exc (.error "Can't divide by zero!".toList) σ2
        else .ok (.num (a / b)) σ2 := by
    rw [evalExpr_bin h fuel _ l r env σ (by decide) (by decide), hl, Res.bind, hr, Res.bind]
    simp only [machineBinOp, binOp]
    by_cases hb : b = 0
    · simp [hb, liftOutcome]
    · simp [hb, liftOutcome, Val.ofScalar]
  refine ⟨⟨?_, ?_⟩, ?_, ?_⟩
  · rintro ⟨s, σ3, hs⟩
    by_contra hb
    rw [he, if_neg hb] at hs
    cases hs
  · intro hb
    exact ⟨_, _, by rw [he, if_pos hb]⟩
  · intro hb
    rw [he, if_pos hb]
  · intro hb
    rw [he, if_neg hb]

set_option maxRecDepth 1000000 in
set_option maxHeartbeats 4000000 in
/-- C24 at the operands 1 and 0, and 6 and 3: `1 / 0` raises
`Can't divide by zero!`, `6 / 3` is 2; and the programs `say 6 / 3` and
`say 1 / 0` through the whole pipeline, for every placement. -/
theorem division_raises_iff_zero_witness :
    ((∃ (s : Signal) (σ3 : State),
        evalExpr Host.plain 2 (.BinExpr "/".toList (.NumberLit 1) (.NumberLit 0)) 0 State.initial
          = .exc s σ3) ↔ (0 : ℚ) = 0)
    ∧ evalExpr Host.plain 2 (.BinExpr "/".toList (.NumberLit 1) (.NumberLit 0)) 0 State.initial
        = .exc (.error "Can't divide by zero!".toList) State.initial
    ∧ evalExpr Host.plain 2 (.BinExpr "/".toList (.NumberLit 6) (.NumberLit 3)) 0 State.initial
        = .ok (.num (6 / 3)) State.initial
    ∧ (6 : ℚ) / 3 = 2
    ∧ (∀ (pl : Placement) (fuel : Nat),
        main pl (fuel + 20) "say 6 / 3\n".toList [] = .code 0 ["2".toList] [])
    ∧ (∀ (pl : Placement) (fuel : Nat),
        main pl (fuel + 20) "say 1 / 0\n".toList []
          = .code 1 [] (errorReport "Can't divide by zero!".toList)) :=
  ⟨(division_raises_iff_zero Host.plain 1 (.NumberLit 1) (.NumberLit 0) 0 State.initial
      State.initial State.initial 1 0 (by rfl) (by rfl)).1,
   (division_raises_iff_zero Host.plain 1 (.NumberLit 1) (.NumberLit 0) 0 State.initial
      State.initial State.initial 1 0 (by rfl) (by rfl)).2.1 rfl,
   (division_raises_iff_zero Host.plain 1 (.NumberLit 6) (.NumberLit 3) 0 State.initial
      State.initial State.initial 6 3 (by rfl) (by rfl)).2.2 (by norm_num),
   by norm_num,
   fun pl fuel => by
    have hp : ∃ rest, parseSource
        "say 6 / 3\n".toList
      = .ok
        [.SayStmt (.BinExpr "/".toList (.NumberLit 6) (.NumberLit 3))] rest := ⟨_, rfl⟩
    obtain ⟨rest, hp⟩ := hp
    have h3 : ((3 : ℚ) = 0) = False := by norm_num
    have h63 : (6 : ℚ) / 3 = 2 := by norm_num
    unfold main
    rw [hp]
    simp only [↓reduceIte, lbrace, rbrace, Nat.reduceLeDiff, Nat.reduceLT, Nat.reduceEqDiff, Nat.reduceSub, Int.reduceLT,
        Int.reduceLE, Int.reduceToNat, Nat.cast_ofNat, List.length_set, Nat.cast_add, Nat.cast_one, run,
        execBlock, execStmt, evalExpr, evalList, evalPairs, initFields, keepLoop,
        mapLoop, callValue, callMethod, assignLvalue, Res.bind, State.register, classFields,
        classMethods, objSet_nil, registerGlobals, mathObject, State.define, State.get, State.assign,
        envGet, envOwner, interpolate, bindParams, State.alloc, State.newEnv, State.read, State.write, envReach, Res.release, State.release, List.contains_cons,
        List.contains_nil, List.erase_cons_head, beq_self_eq_true, Nat.reduceBEq, Bool.true_or,
        Bool.or_true, Bool.false_or, Bool.or_false, Bool.and_true, Bool.true_and, Bool.and_self,
        Bool.or_self, storeMember,
        storeIndex, State.store, memberOfObject, machineBinOp, liftOutcome, binOp, builtinCall,
        render, reify, mapOpt, Val.ofScalar, Val.isTruthy, objFind_objSet, objFind, Host.std,
        classKey, ne_eq, not_false_eq_true, not_true_eq_false, List.cons_append, List.nil_append,
        Nat.reduceAdd, zero_add, List.set_cons_zero, String.toList, List.cons.injEq, Char.reduceEq,
        and_false, and_true, and_self, if_true, if_false, reduceCtorEq, List.length_cons,
        List.length_nil, List.getElem?_cons_zero, List.length_append, List.getElem?_cons_succ,
        List.set_cons_succ, Option.map_some', IronValue.toString, h3, h63]
    rfl
   ,
   fun pl fuel => by
    have hp : ∃ rest, parseSource
        "say 1 / 0\n".toList
      = .ok
        [.SayStmt (.BinExpr "/".toList (.NumberLit 1) (.NumberLit 0))] rest := ⟨_, rfl⟩
    obtain ⟨rest, hp⟩ := hp
    unfold main
    rw [hp]
    simp only [↓reduceIte, lbrace, rbrace, Nat.reduceLeDiff, Nat.reduceLT, Nat.reduceEqDiff, Nat.reduceSub, Int.reduceLT,
        Int.reduceLE, Int.reduceToNat, Nat.cast_ofNat, List.length_set, Nat.cast_add, Nat.cast_one, run,
        execBlock, execStmt, evalExpr, evalList, evalPairs, initFields, keepLoop,
        mapLoop, callValue, callMethod, assignLvalue, Res.bind, State.register, classFields,
        classMethods, objSet_nil, registerGlobals, mathObject, State.define, State.get, State.assign,
        envGet, envOwner, interpolate, bindParams, State.alloc, State.newEnv, State.read, State.write, envReach, Res.release, State.release, List.contains_cons,
        List.contains_nil, List.erase_cons_head, beq_self_eq_true, Nat.reduceBEq, Bool.true_or,
        Bool.or_true, Bool.false_or, Bool.or_false, Bool.and_true, Bool.true_and, Bool.and_self,
        Bool.or_self, storeMember,
        storeIndex, State.store, memberOfObject, machineBinOp, liftOutcome, binOp, builtinCall,
        render, reify, mapOpt, Val.ofScalar, Val.isTruthy, objFind_objSet, objFind, Host.std,
        classKey, ne_eq, not_false_eq_true, not_true_eq_false, List.cons_append, List.nil_append,
        Nat.reduceAdd, zero_add, List.set_cons_zero, String.toList, List.cons.injEq, Char.reduceEq,
        and_false, and_true, and_self, if_true, if_false, reduceCtorEq, List.length_cons,
        List.length_nil, List.getElem?_cons_zero, List.length_append, List.getElem?_cons_succ,
        List.set_cons_succ, Option.map_some', IronValue.toString]
   ⟩

/-- The operators `-`, `*`, `/` and `%` on two values that are not both numbers
yield null. -/
theorem machineBinOp_not_numbers (fuel : Nat) (op : Str) (l r : Val) (σ : State)
    (hop : op = "-".toList ∨ op = "*".toList ∨ op = "/".toList ∨ op = "%".toList)
    (hn : ¬ ∃ a b : ℚ, l = .num a ∧ r = .num b) :
    machineBinOp fuel op l r σ = .ok .null σ := by
  have h1 : ¬ (op = "+".toList ∨ op = "==".toList ∨ op = "!=".toList) := by
    rcases hop with h | h | h | h <;> subst h <;> decide
  unfold machineBinOp
  split
  · exact absurd ⟨_, _, rfl, rfl⟩ hn
  · rw [if_neg h1]

set_option maxRecDepth 1000000 in
set_option maxHeartbeats 4000000 in
/-- C25, as stated, fails: on a string, on null and on a list the operators
`-`, `*`, `/` and `%` raise nothing and yield null: the first program prints
`null` four times, and in the second one the `catch` block does not run, for
every placement and for all fuel from 40 on. -/
theorem arithmetic_on_non_numbers_is_null :
    (∀ (pl : Placement) (fuel : Nat),
      main pl (fuel + 40)
        "say \"a\" - 1\nsay \"a\" * 2\nsay null / 2\nsay [1] % 2\n".toList []
        = .code 0 ["null".toList, "null".toList, "null".toList, "null".toList] [])
    ∧ (∀ (pl : Placement) (fuel : Nat),
      main pl (fuel + 40)
        "try\n  say [1] % 2\ncatch e\n  say \"caught\"\nend\n".toList []
        = .code 0 ["null".toList] []) := by
  refine ⟨fun pl fuel => ?_, fun pl fuel => ?_⟩
  · have hp : ∃ rest, parseSource
        "say \"a\" - 1\nsay \"a\" * 2\nsay null / 2\nsay [1] % 2\n".toList
      = .ok
        [.SayStmt (.BinExpr "-".toList (.StringLit "a".toList) (.NumberLit 1)),
          .SayStmt (.BinExpr "*".toList (.StringLit "a".toList) (.NumberLit 2)),
          .SayStmt (.BinExpr "/".toList .NullLit (.NumberLit 2)),
          .SayStmt (.BinExpr "%".toList (.ArrayLit [.NumberLit 1]) (.NumberLit 2))] rest := ⟨_, rfl⟩
    obtain ⟨rest, hp⟩ := hp
    unfold main
    rw [hp]
    simp only [↓reduceIte, lbrace, rbrace, Nat.reduceLeDiff, Nat.reduceLT, Nat.reduceEqDiff, Nat.reduceSub, Int.reduceLT,
        Int.reduceLE, Int.reduceToNat, Nat.cast_ofNat, List.length_set, Nat.cast_add, Nat.cast_one, run,
        execBlock, execStmt, evalExpr, evalList, evalPairs, initFields, keepLoop,
        mapLoop, callValue, callMethod, assignLvalue, Res.bind, State.register, classFields,
        classMethods, objSet_nil, registerGlobals, mathObject, State.define, State.get, State.assign,
        envGet, envOwner, interpolate, bindParams, State.alloc, State.newEnv, State.read, State.write, envReach, Res.release, State.release, List.contains_cons,
        List.contains_nil, List.erase_cons_head, beq_self_eq_true, Nat.reduceBEq, Bool.true_or,
        Bool.or_true, Bool.false_or, Bool.or_false, Bool.and_true, Bool.true_and, Bool.and_self,
        Bool.or_self, storeMember,
        storeIndex, State.store, memberOfObject, machineBinOp, liftOutcome, binOp, builtinCall,
        render, reify, mapOpt, Val.ofScalar, Val.isTruthy, objFind_objSet, objFind, Host.std,
        classKey, ne_eq, not_false_eq_true, not_true_eq_false, List.cons_append, List.nil_append,
        Nat.reduceAdd, zero_add, List.set_cons_zero, String.toList, List.cons.injEq, Char.reduceEq,
        and_false, and_true, and_self, if_true, if_false, reduceCtorEq, List.length_cons,
        List.length_nil, List.getElem?_cons_zero, List.length_append, List.getElem?_cons_succ,
        List.set_cons_succ, Option.map_some', IronValue.toString]
    rfl
  · have hp : ∃ rest, parseSource
        "try\n  say [1] % 2\ncatch e\n  say \"caught\"\nend\n".toList
      = .ok
        [.TryStmt [.SayStmt (.BinExpr "%".toList (.ArrayLit [.NumberLit 1]) (.NumberLit 2))]
            "e".toList [.SayStmt (.StringLit "caught".toList)]] rest := ⟨_, rfl⟩
    obtain ⟨rest, hp⟩ := hp
    unfold main
    rw [hp]
    simp only [↓reduceIte, lbrace, rbrace, Nat.reduceLeDiff, Nat.reduceLT, Nat.reduceEqDiff, Nat.reduceSub, Int.reduceLT,
        Int.reduceLE, Int.reduceToNat, Nat.cast_ofNat, List.length_set, Nat.cast_add, Nat.cast_one, run,
        execBlock, execStmt, evalExpr, evalList, evalPairs, initFields, keepLoop,
        mapLoop, callValue, callMethod, assignLvalue, Res.bind, State.register, classFields,
        classMethods, objSet_nil, registerGlobals, mathObject, State.define, State.get, State.assign,
        envGet, envOwner, interpolate, bindParams, State.alloc, State.newEnv, State.read, State.write, envReach, Res.release, State.release, List.contains_cons,
        List.contains_nil, List.erase_cons_head, beq_self_eq_true, Nat.reduceBEq, Bool.true_or,
        Bool.or_true, Bool.false_or, Bool.or_false, Bool.and_true, Bool.true_and, Bool.and_self,
        Bool.or_self, storeMember,
        storeIndex, State.store, memberOfObject, machineBinOp, liftOutcome, binOp, builtinCall,
        render, reify, mapOpt, Val.ofScalar, Val.isTruthy, objFind_objSet, objFind, Host.std,
        classKey, ne_eq, not_false_eq_true, not_true_eq_false, List.cons_append, List.nil_append,
        Nat.reduceAdd, zero_add, List.set_cons_zero, String.toList, List.cons.injEq, Char.reduceEq,
        and_false, and_true, and_self, if_true, if_false, reduceCtorEq, List.length_cons,
        List.length_nil, List.getElem?_cons_zero, List.length_append, List.getElem?_cons_succ,
        List.set_cons_succ, Option.map_some', IronValue.toString]
    rfl

/-- C25, amended: when the operands of `-`, `*`, `/` or `%` evaluate to two
values that are not both numbers, the operator raises nothing and yields
null, in the state that the operands leave; on two numbers `-` and `*` yield
the difference and the product. -/
theorem arithmetic_needs_numbers_else_null (h : Host) (fuel : Nat) (op : Str) (l r : Expr)
    (env : Nat) (σ σ1 σ2 : State) (lv rv : Val)
    (hop : op = "-".toList ∨ op = "*".toList ∨ op = "/".toList ∨ op = "%".toList)
    (hl : evalExpr h fuel l env σ = .ok lv σ1)
    (hr : evalExpr h fuel r env σ1 = .ok rv σ2) :
    ((¬ ∃ a b : ℚ, lv = .num a ∧ rv = .num b) →
        evalExpr h (fuel + 1) (.BinExpr op l r) env σ = .ok .null σ2)
    ∧ (∀ a b : ℚ, lv = .num a → rv = .num b → op = "-".toList →
        evalExpr h (fuel + 1) (.BinExpr op l r) env σ = .ok (.num (a - b)) σ2)
    ∧ (∀ a b : ℚ, lv = .num a → rv = .num b → op = "*".toList →
        evalExpr h (fuel + 1) (.BinExpr op l r) env σ = .ok (.num (a * b)) σ2) := by
  have hand : op ≠ "and".toList := by
    rcases hop with h | h | h | h <;> subst h <;> decide
  have hor : op ≠ "or".toList := by
    rcases hop with h | h | h | h <;> subst h <;> decide
  have he := evalExpr_bin h fuel op l r env σ hand hor
  rw [hl, Res.bind, hr, Res.bind] at he
  refine ⟨fun hn => ?_, fun a b ha hb ho => ?_, fun a b ha hb ho => ?_⟩
  · rw [he, machineBinOp_not_numbers fuel op lv rv σ2 hop hn]
  · rw [he, ha, hb, ho]
    rfl
  · rw [he, ha, hb, ho]
    rfl

/-- C25, amended, at the operands `"a"` and 1 of `-`, and at 7 and 2 of `-`
and `*`. -/
theorem arithmetic_needs_numbers_else_null_witness :
    evalExpr Host.plain 4 (.BinExpr "-".toList (.StringLit "a".toList) (.NumberLit 1)) 0
        State.initial = .ok .null State.initial
    ∧ evalExpr Host.plain 3 (.BinExpr "-".toList (.NumberLit 7) (.NumberLit 2)) 0 State.initial
        = .ok (.num (7 - 2)) State.initial
    ∧ evalExpr Host.plain 3 (.BinExpr "*".toList (.NumberLit 7) (.NumberLit 2)) 0 State.initial
        = .ok (.num (7 * 2)) State.initial :=
  ⟨(arithmetic_needs_numbers_else_null Host.plain 3 "-".toList (.StringLit "a".toList)
      (.NumberLit 1) 0 State.initial State.initial State.initial (.str "a".toList) (.num 1)
      (Or.inl rfl) (by rfl) (by rfl)).1 (by rintro ⟨a, b, ha, _⟩; cases ha),
   (arithmetic_needs_numbers_else_null Host.plain 2 "-".toList (.NumberLit 7) (.NumberLit 2) 0
      State.initial State.initial State.initial (.num 7) (.num 2)
      (Or.inl rfl) (by rfl) (by rfl)).2.1 7 2 rfl rfl rfl,
   (arithmetic_needs_numbers_else_null Host.plain 2 "*".toList (.NumberLit 7) (.NumberLit 2) 0
      State.initial State.initial State.initial (.num 7) (.num 2)
      (Or.inr (Or.inl rfl)) (by rfl) (by rfl)).2.2 7 2 rfl rfl rfl⟩

end Ironwood

namespace Ironwood

/-! ## Index expressions and `add … to` -/

set_option maxRecDepth 1000000 in
set_option maxHeartbeats 4000000 in
/-- C22, as stated, fails: the index is cast to `int`, which truncates toward
zero, so the negative index -0.5 is position 0: with `L = [7, 8]` the
expression `L[-0.5]` is 7, not null (and `L[1.9]` is 8, while `L[-1]` and
`L[2]` are null), for every placement and for all fuel from 40 on. -/
theorem index_negative_fraction_is_first :
    (∀ (pl : Placement) (fuel : Nat),
      main pl (fuel + 40)
        "let L = [7, 8]\nsay L[-0.5]\nsay L[1.9]\nsay L[-1]\nsay L[2]\n".toList []
        = .code 0 ["7".toList, "8".toList, "null".toList, "null".toList] [])
    ∧ castInt (mkRat (-1) 2) = some 0 := by
  refine ⟨fun pl fuel => ?_, by decide!⟩
  · have hp : ∃ rest, parseSource
        "let L = [7, 8]\nsay L[-0.5]\nsay L[1.9]\nsay L[-1]\nsay L[2]\n".toList
      = .ok
        [.LetStmt "L".toList (.ArrayLit [.NumberLit 7, .NumberLit 8]),
          .SayStmt (.IndexExpr (.VarExpr "L".toList) (.NumberLit (mkRat (-1) 2))),
          .SayStmt (.IndexExpr (.VarExpr "L".toList) (.NumberLit (mkRat 19 10))),
          .SayStmt (.IndexExpr (.VarExpr "L".toList) (.NumberLit (-1))),
          .SayStmt (.IndexExpr (.VarExpr "L".toList) (.NumberLit 2))] rest := ⟨_, rfl⟩
    obtain ⟨rest, hp⟩ := hp
    have c1 : castInt (mkRat (-1) 2) = some 0 := by decide!
    have c2 : castInt (mkRat 19 10) = some 1 := by decide!
    have c3 : castInt (-1) = some (-1) := by decide!
    have c4 : castInt 2 = some 2 := by decide!
    unfold main
    rw [hp]
    simp only [↓reduceIte, lbrace, rbrace, Nat.reduceLeDiff, Nat.reduceLT, Nat.reduceEqDiff, Nat.reduceSub, Int.reduceLT,
        Int.reduceLE, Int.reduceToNat, Nat.cast_ofNat, List.length_set, Nat.cast_add, Nat.cast_one, run,
        execBlock, execStmt, evalExpr, evalList, evalPairs, initFields, keepLoop,
        mapLoop, callValue, callMethod, assignLvalue, Res.bind, State.register, classFields,
        classMethods, objSet_nil, registerGlobals, mathObject, State.define, State.get, State.assign,
        envGet, envOwner, interpolate, bindParams, State.alloc, State.newEnv, State.read, State.write, envReach, Res.release, State.release, List.contains_cons,
        List.contains_nil, List.erase_cons_head, beq_self_eq_true, Nat.reduceBEq, Bool.true_or,
        Bool.or_true, Bool.false_or, Bool.or_false, Bool.and_true, Bool.true_and, Bool.and_self,
        Bool.or_self, storeMember,
        storeIndex, State.store, memberOfObject, machineBinOp, liftOutcome, binOp, builtinCall,
        render, reify, mapOpt, Val.ofScalar, Val.isTruthy, objFind_objSet, objFind, Host.std,
        classKey, ne_eq, not_false_eq_true, not_true_eq_false, List.cons_append, List.nil_append,
        Nat.reduceAdd, zero_add, List.set_cons_zero, String.toList, List.cons.injEq, Char.reduceEq,
        and_false, and_true, and_self, if_true, if_false, reduceCtorEq, List.length_cons,
        List.length_nil, List.getElem?_cons_zero, List.length_append, List.getElem?_cons_succ,
        List.set_cons_succ, Option.map_some', IronValue.toString, c1, c2, c3, c4]
    rfl

/-- The cast of a natural number below 2^31 is the number. -/
theorem castInt_natCast (k : Nat) (hk : k < 2 ^ 31) : castInt (k : ℚ) = some (k : Int) := by
  unfold castInt
  simp only [Rat.num_natCast, Rat.den_natCast, Nat.cast_one, Int.tdiv_one]
  rw [if_pos]
  constructor
  · have : (0 : Int) ≤ (k : Int) := Int.ofNat_nonneg k
    omega
  · have : ((k : Nat) : Int) < ((2 ^ 31 : Nat) : Int) := Int.ofNat_lt.mpr hk
    simpa using this

/-- C22, amended: an index expression whose operands evaluate raises nothing.
On a list and a number whose integer part (the number cut toward zero) `t`
fits `int`, it is the element at the 0-based position `t` when
`0 <= t < length`, and null otherwise; on a list and an index that is no
number it is null; on a dictionary and an index whose rendering ends it is
the value stored under the key that is the rendering of the index, or null
when there is none.  The integer part of a natural number is the number
itself, so for an integer index below 2^31 the position is the index.  On a
list and a number whose integer part does not fit `int` the cast, and with it
the index expression, is undefined; on a dictionary and an index whose
rendering does not end within the fuel the index expression yields no
value. -/
theorem index_by_integer_part (h : Host) (fuel : Nat) (obj index : Expr) (env : Nat)
    (σ σ1 σ2 : State) (ov iv : Val)
    (ho : evalExpr h fuel obj env σ = .ok ov σ1)
    (hi : evalExpr h fuel index env σ1 = .ok iv σ2) :
    (∀ (r : Nat) (xs : List Val) (n : ℚ) (t : Int) (x : Val), ov = .arr r →
        σ2.heap[r]? = some (.arr xs) → iv = .num n → castInt n = some t → 0 ≤ t →
        xs[t.toNat]? = some x →
        evalExpr h (fuel + 1) (.IndexExpr obj index) env σ = .ok x σ2)
    ∧ (∀ (r : Nat) (xs : List Val) (n : ℚ) (t : Int), ov = .arr r →
        σ2.heap[r]? = some (.arr xs) → iv = .num n → castInt n = some t →
        (t < 0 ∨ (xs.length : Int) ≤ t) →
        evalExpr h (fuel + 1) (.IndexExpr obj index) env σ = .ok .null σ2)
    ∧ (∀ (r : Nat) (xs : List Val), ov = .arr r → σ2.heap[r]? = some (.arr xs) →
        (∀ n : ℚ, iv ≠ .num n) →
        evalExpr h (fuel + 1) (.IndexExpr obj index) env σ = .ok .null σ2)
    ∧ (∀ (r : Nat) (kvs : List (Str × Val)) (key : Str) (x : Val), ov = .obj r →
        σ2.heap[r]? = some (.obj kvs) → render fuel σ2.heap iv = some key →
        objFind kvs key = some x →
        evalExpr h (fuel + 1) (.IndexExpr obj index) env σ = .ok x σ2)
    ∧ (∀ (r : Nat) (kvs : List (Str × Val)) (key : Str), ov = .obj r →
        σ2.heap[r]? = some (.obj kvs) → render fuel σ2.heap iv = some key →
        objFind kvs key = none →
        evalExpr h (fuel + 1) (.IndexExpr obj index) env σ = .ok .null σ2)
    ∧ (∀ (r : Nat) (xs : List Val) (k : Nat) (x : Val), ov = .arr r →
        σ2.heap[r]? = some (.arr xs) → iv = .num (k : ℚ) → k < 2 ^ 31 → xs[k]? = some x →
        evalExpr h (fuel + 1) (.IndexExpr obj index) env σ = .ok x σ2)
    ∧ (∀ (r : Nat) (xs : List Val) (n : ℚ), ov = .arr r →
        σ2.heap[r]? = some (.arr xs) → iv = .num n → castInt n = none →
        evalExpr h (fuel + 1) (.IndexExpr obj index) env σ = .outside)
    ∧ (∀ (r : Nat) (kvs : List (Str × Val)), ov = .obj r →
        σ2.heap[r]? = some (.obj kvs) → render fuel σ2.heap iv = none →
        evalExpr h (fuel + 1) (.IndexExpr obj index) env σ = .timeout) := by
  have hlist : ∀ (r : Nat) (xs : List Val) (n : ℚ) (t : Int) (x : Val), ov = .arr r →
      σ2.heap[r]? = some (.arr xs) → iv = .num n → castInt n = some t → 0 ≤ t →
      xs[t.toNat]? = some x →
      evalExpr h (fuel + 1) (.IndexExpr obj index) env σ = .ok x σ2 := by
    intro r xs n t x hov hcell hiv hc ht hx
    subst hov hiv
    have hlt : t < (xs.length : Int) := by
      have := getElem?_lt xs t.toNat x hx
      omega
    rw [evalExpr, ho, Res.bind, hi, Res.bind]
    simp only [hcell, hc, ht, hlt, and_self, if_true, hx]
  refine ⟨hlist, ?_, ?_, ?_, ?_, ?_, ?_, ?_⟩
  · intro r xs n t hov hcell hiv hc ht
    subst hov hiv
    have hn : ¬ (0 ≤ t ∧ t < (xs.length : Int)) := by omega
    rw [evalExpr, ho, Res.bind, hi, Res.bind]
    simp only [hcell, hc, hn, if_false]
  · intro r xs hov hcell hn
    subst hov
    rw [evalExpr, ho, Res.bind, hi, Res.bind]
    cases iv with
    | num n => exact absurd rfl (hn n)
    | _ => rfl
  · intro r kvs key x hov hcell hk hx
    subst hov
    rw [evalExpr, ho, Res.bind, hi, Res.bind]
    simp only [hcell, hk, hx]
  · intro r kvs key hov hcell hk hx
    subst hov
    rw [evalExpr, ho, Res.bind, hi, Res.bind]
    simp only [hcell, hk, hx]
  · intro r xs k x hov hcell hiv hk hx
    exact hlist r xs k k x hov hcell hiv (castInt_natCast k hk) (Int.ofNat_nonneg k)
      (by simpa using hx)
  · intro r xs n hov hcell hiv hc
    subst hov hiv
    rw [evalExpr, ho, Res.bind, hi, Res.bind]
    simp only [hcell, hc]
  · intro r kvs hov hcell hk
    subst hov
    rw [evalExpr, ho, Res.bind, hi, Res.bind]
    simp only [hcell, hk]

set_option maxRecDepth 1000000 in
set_option maxHeartbeats 4000000 in
/-- C22, amended, at the list `[7, 8]` stored in `L`: `L[1]` is 8 and
`L[true]` is null; and the program that indexes a list and a dictionary
prints 8, null, 1 and null, for every placement. -/
theorem index_by_integer_part_witness :
    evalExpr Host.plain 2 (.IndexExpr (.VarExpr "L".toList) (.NumberLit 1)) 0
        ⟨[.arr [.num 7, .num 8]], [⟨[("L".toList, .arr 0)], none⟩], [], [], [0]⟩
      = .ok (.num 8) ⟨[.arr [.num 7, .num 8]], [⟨[("L".toList, .arr 0)], none⟩], [], [], [0]⟩
    ∧ evalExpr Host.plain 2 (.IndexExpr (.VarExpr "L".toList) (.NumberLit 5)) 0
        ⟨[.arr [.num 7, .num 8]], [⟨[("L".toList, .arr 0)], none⟩], [], [], [0]⟩
      = .ok .null ⟨[.arr [.num 7, .num 8]], [⟨[("L".toList, .arr 0)], none⟩], [], [], [0]⟩
    ∧ evalExpr Host.plain 2 (.IndexExpr (.VarExpr "L".toList) (.BoolLit true)) 0
        ⟨[.arr [.num 7, .num 8]], [⟨[("L".toList, .arr 0)], none⟩], [], [], [0]⟩
      = .ok .null ⟨[.arr [.num 7, .num 8]], [⟨[("L".toList, .arr 0)], none⟩], [], [], [0]⟩
    ∧ evalExpr Host.plain 2 (.IndexExpr (.VarExpr "D".toList) (.NumberLit 1)) 0
        ⟨[.obj [("1".toList, .num 9)]], [⟨[("D".toList, .obj 0)], none⟩], [], [], [0]⟩
      = .ok (.num 9) ⟨[.obj [("1".toList, .num 9)]], [⟨[("D".toList, .obj 0)], none⟩], [], [], [0]⟩
    ∧ evalExpr Host.plain 2 (.IndexExpr (.VarExpr "D".toList) (.NumberLit 2)) 0
        ⟨[.obj [("1".toList, .num 9)]], [⟨[("D".toList, .obj 0)], none⟩], [], [], [0]⟩
      = .ok .null ⟨[.obj [("1".toList, .num 9)]], [⟨[("D".toList, .obj 0)], none⟩], [], [], [0]⟩
    ∧ (∀ (pl : Placement) (fuel : Nat),
      main pl (fuel + 40)
        "let L = [7, 8]\nlet D = \x7ba: 1\x7d\nsay L[1]\nsay L[\"k\"]\nsay D[\"a\"]\nsay D[\"b\"]\n".toList []
        = .code 0 ["8".toList, "null".toList, "1".toList, "null".toList] []) :=
  ⟨(index_by_integer_part Host.plain 1 (.VarExpr "L".toList) (.NumberLit 1) 0 _ _ _
      (.arr 0) (.num 1) (by rfl) (by rfl)).2.2.2.2.2.1 0 [.num 7, .num 8] 1 (.num 8) rfl (by rfl)
      (by simp) (by decide) (by rfl),
   (index_by_integer_part Host.plain 1 (.VarExpr "L".toList) (.NumberLit 5) 0 _ _ _
      (.arr 0) (.num 5) (by rfl) (by rfl)).2.1 0 [.num 7, .num 8] 5 5 rfl (by rfl) rfl
      (by decide!) (by decide),
   (index_by_integer_part Host.plain 1 (.VarExpr "L".toList) (.BoolLit true) 0 _ _ _
      (.arr 0) (.bool true) (by rfl) (by rfl)).2.2.1 0 [.num 7, .num 8] rfl (by rfl)
      (by intro n hn; cases hn),
   (index_by_integer_part Host.plain 1 (.VarExpr "D".toList) (.NumberLit 1) 0 _ _ _
      (.obj 0) (.num 1) (by rfl) (by rfl)).2.2.2.1 0 [("1".toList, .num 9)] "1".toList (.num 9)
      rfl (by rfl) (by decide!) (by rfl),
   (index_by_integer_part Host.plain 1 (.VarExpr "D".toList) (.NumberLit 2) 0 _ _ _
      (.obj 0) (.num 2) (by rfl) (by rfl)).2.2.2.2.1 0 [("1".toList, .num 9)] "2".toList
      rfl (by rfl) (by decide!) (by rfl),
   fun pl fuel => by
    have hp : ∃ rest, parseSource
        "let L = [7, 8]\nlet D = \x7ba: 1\x7d\nsay L[1]\nsay L[\"k\"]\nsay D[\"a\"]\nsay D[\"b\"]\n".toList
      = .ok
        [.LetStmt "L".toList (.ArrayLit [.NumberLit 7, .NumberLit 8]),
          .LetStmt "D".toList (.ObjectLit [("a".toList, .NumberLit 1)]),
          .SayStmt (.IndexExpr (.VarExpr "L".toList) (.NumberLit 1)),
          .SayStmt (.IndexExpr (.VarExpr "L".toList) (.StringLit "k".toList)),
          .SayStmt (.IndexExpr (.VarExpr "D".toList) (.StringLit "a".toList)),
          .SayStmt (.IndexExpr (.VarExpr "D".toList) (.StringLit "b".toList))] rest := ⟨_, rfl⟩
    obtain ⟨rest, hp⟩ := hp
    have c1 : castInt 1 = some 1 := by decide!
    unfold main
    rw [hp]
    simp only [↓reduceIte, lbrace, rbrace, Nat.reduceLeDiff, Nat.reduceLT, Nat.reduceEqDiff, Nat.reduceSub, Int.reduceLT,
        Int.reduceLE, Int.reduceToNat, Nat.cast_ofNat, List.length_set, Nat.cast_add, Nat.cast_one, run,
        execBlock, execStmt, evalExpr, evalList, evalPairs, initFields, keepLoop,
        mapLoop, callValue, callMethod, assignLvalue, Res.bind, State.register, classFields,
        classMethods, objSet_nil, registerGlobals, mathObject, State.define, State.get, State.assign,
        envGet, envOwner, interpolate, bindParams, State.alloc, State.newEnv, State.read, State.write, envReach, Res.release, State.release, List.contains_cons,
        List.contains_nil, List.erase_cons_head, beq_self_eq_true, Nat.reduceBEq, Bool.true_or,
        Bool.or_true, Bool.false_or, Bool.or_false, Bool.and_true, Bool.true_and, Bool.and_self,
        Bool.or_self, storeMember,
        storeIndex, State.store, memberOfObject, machineBinOp, liftOutcome, binOp, builtinCall,
        render, reify, mapOpt, Val.ofScalar, Val.isTruthy, objFind_objSet, objFind, Host.std,
        classKey, ne_eq, not_false_eq_true, not_true_eq_false, List.cons_append, List.nil_append,
        Nat.reduceAdd, zero_add, List.set_cons_zero, String.toList, List.cons.injEq, Char.reduceEq,
        and_false, and_true, and_self, if_true, if_false, reduceCtorEq, List.length_cons,
        List.length_nil, List.getElem?_cons_zero, List.length_append, List.getElem?_cons_succ,
        List.set_cons_succ, Option.map_some', IronValue.toString, c1]
    rfl
   ⟩

/-- C23: when the value evaluates to `v` and the target then evaluates, in the
state `σ2`, to the list `xs` stored at `r`, the statement completes and the
only change to `σ2` is that `r` holds `xs` with `v` as its new last element:
the length grows by one, the earlier elements and every other list and
dictionary are unchanged.  When the target evaluates to anything that is not
a list, the statement raises `Can't add to that — it's not a list.` in the
state `σ2` itself: it modifies no list or dictionary. -/
theorem add_appends_or_raises (h : Host) (fuel : Nat) (value target : Expr) (env : Nat)
    (σ σ1 σ2 : State) (v av : Val)
    (hv : evalExpr h fuel value env σ = .ok v σ1)
    (ht : evalExpr h fuel target env σ1 = .ok av σ2) :
    (∀ (r : Nat) (xs : List Val), av = .arr r → σ2.heap[r]? = some (.arr xs) →
        execStmt h (fuel + 1) (.AddToStmt value target) env σ
          = .ok () { σ2 with heap := σ2.heap.set r (.arr (xs ++ [v])) }
        ∧ (xs ++ [v]).length = xs.length + 1
        ∧ (∀ i : Nat, i < xs.length → (xs ++ [v])[i]? = xs[i]?)
        ∧ (xs ++ [v])[xs.length]? = some v
        ∧ (σ2.heap.set r (.arr (xs ++ [v])))[r]? = some (.arr (xs ++ [v]))
        ∧ (∀ r' : Nat, r' ≠ r → (σ2.heap.set r (.arr (xs ++ [v])))[r']? = σ2.heap[r']?))
    ∧ ((∀ r : Nat, av ≠ .arr r) →
        execStmt h (fuel + 1) (.AddToStmt value target) env σ
          = .exc (.error "Can't add to that — it's not a list.".toList) σ2) := by
  constructor
  · intro r xs hav hcell
    subst hav
    refine ⟨?_, by simp, ?_, by simp, ?_, ?_⟩
    · rw [execStmt, hv, Res.bind, ht, Res.bind]
      simp only [hcell]
      rfl
    · intro i hi
      rw [List.getElem?_append_left hi]
    · rw [List.getElem?_set_self (getElem?_lt _ _ _ hcell)]
    · intro r' hne
      rw [List.getElem?_set_ne (Ne.symm hne)]
  · intro hn
    rw [execStmt, hv, Res.bind, ht, Res.bind]
    cases av with
    | arr r => exact absurd rfl (hn r)
    | _ => rfl

set_option maxRecDepth 1000000 in
set_option maxHeartbeats 4000000 in
/-- C23 at the list `[1]` stored in `L`: `add 2 to L` leaves `[1, 2]` in `L`,
and `add 3 to 5` raises and leaves the state as it is; and the programs
through the whole pipeline, for every placement: the list is printed as
`[1,2]` after the statement, the error of `add 3 to 5` is caught with its
message and the list is as before, and without a `try` the driver reports
the error. -/
theorem add_appends_or_raises_witness :
    (execStmt Host.plain 2 (.AddToStmt (.NumberLit 2) (.VarExpr "L".toList)) 0
          ⟨[.arr [.num 1]], [⟨[("L".toList, .arr 0)], none⟩], [], [], [0]⟩
        = .ok () { (⟨[.arr [.num 1]], [⟨[("L".toList, .arr 0)], none⟩], [], [], [0]⟩ : State) with
            heap := ([.arr [.num 1]] : List Cell).set 0 (.arr ([Val.num 1] ++ [Val.num 2])) }
      ∧ ([Val.num 1] ++ [Val.num 2]).length = [Val.num 1].length + 1
      ∧ (∀ i : Nat, i < [Val.num 1].length → ([Val.num 1] ++ [Val.num 2])[i]? = [Val.num 1][i]?)
      ∧ ([Val.num 1] ++ [Val.num 2])[[Val.num 1].length]? = some (.num 2)
      ∧ (([.arr [.num 1]] : List Cell).set 0 (.arr ([Val.num 1] ++ [Val.num 2])))[0]?
          = some (.arr ([Val.num 1] ++ [Val.num 2]))
      ∧ (∀ r' : Nat, r' ≠ 0 →
          (([.arr [.num 1]] : List Cell).set 0 (.arr ([Val.num 1] ++ [Val.num 2])))[r']?
            = ([.arr [.num 1]] : List Cell)[r']?))
    ∧ execStmt Host.plain 2 (.AddToStmt (.NumberLit 3) (.NumberLit 5)) 0
          ⟨[.arr [.num 1]], [⟨[("L".toList, .arr 0)], none⟩], [], [], [0]⟩
        = .exc (.error "Can't add to that — it's not a list.".toList)
          ⟨[.arr [.num 1]], [⟨[("L".toList, .arr 0)], none⟩], [], [], [0]⟩
    ∧ (∀ (pl : Placement) (fuel : Nat),
      main pl (fuel + 40) "let L = [1]\nadd 2 to L\nsay L\n".toList []
        = .code 0 ["[1,2]".toList] [])
    ∧ (∀ (pl : Placement) (fuel : Nat),
      main pl (fuel + 40)
        "let L = [1]\ntry\n  add 3 to 5\ncatch e\n  say e\nend\nsay L\n".toList []
        = .code 0 ["Can't add to that — it's not a list.".toList, "[1]".toList] [])
    ∧ (∀ (pl : Placement) (fuel : Nat),
      main pl (fuel + 40) "add 3 to 5\n".toList []
        = .code 1 [] (errorReport "Can't add to that — it's not a list.".toList)) :=
  ⟨(add_appends_or_raises Host.plain 1 (.NumberLit 2) (.VarExpr "L".toList) 0
      ⟨[.arr [.num 1]], [⟨[("L".toList, .arr 0)], none⟩], [], [], [0]⟩
      ⟨[.arr [.num 1]], [⟨[("L".toList, .arr 0)], none⟩], [], [], [0]⟩
      ⟨[.arr [.num 1]], [⟨[("L".toList, .arr 0)], none⟩], [], [], [0]⟩
      (.num 2) (.arr 0) (by rfl) (by rfl)).1 0 [.num 1] rfl (by rfl),
   (add_appends_or_raises Host.plain 1 (.NumberLit 3) (.NumberLit 5) 0 _ _ _
      (.num 3) (.num 5) (by rfl) (by rfl)).2 (by intro r hr; cases hr),
   fun pl fuel => by
    have hp : ∃ rest, parseSource
        "let L = [1]\nadd 2 to L\nsay L\n".toList
      = .ok
        [.LetStmt "L".toList (.ArrayLit [.NumberLit 1]),
          .AddToStmt (.NumberLit 2) (.VarExpr "L".toList), .SayStmt (.VarExpr "L".toList)] rest := ⟨_, rfl⟩
    obtain ⟨rest, hp⟩ := hp
    unfold main
    rw [hp]
    simp only [↓reduceIte, lbrace, rbrace, Nat.reduceLeDiff, Nat.reduceLT, Nat.reduceEqDiff, Nat.reduceSub, Int.reduceLT,
        Int.reduceLE, Int.reduceToNat, Nat.cast_ofNat, List.length_set, Nat.cast_add, Nat.cast_one, run,
        execBlock, execStmt, evalExpr, evalList, evalPairs, initFields, keepLoop,
        mapLoop, callValue, callMethod, assignLvalue, Res.bind, State.register, classFields,
        classMethods, objSet_nil, registerGlobals, mathObject, State.define, State.get, State.assign,
        envGet, envOwner, interpolate, bindParams, State.alloc, State.newEnv, State.read, State.write, envReach, Res.release, State.release, List.contains_cons,
        List.contains_nil, List.erase_cons_head, beq_self_eq_true, Nat.reduceBEq, Bool.true_or,
        Bool.or_true, Bool.false_or, Bool.or_false, Bool.and_true, Bool.true_and, Bool.and_self,
        Bool.or_self, storeMember,
        storeIndex, State.store, memberOfObject, machineBinOp, liftOutcome, binOp, builtinCall,
        render, reify, mapOpt, Val.ofScalar, Val.isTruthy, objFind_objSet, objFind, Host.std,
        classKey, ne_eq, not_false_eq_true, not_true_eq_false, List.cons_append, List.nil_append,
        Nat.reduceAdd, zero_add, List.set_cons_zero, String.toList, List.cons.injEq, Char.reduceEq,
        and_false, and_true, and_self, if_true, if_false, reduceCtorEq, List.length_cons,
        List.length_nil, List.getElem?_cons_zero, List.length_append, List.getElem?_cons_succ,
        List.set_cons_succ, Option.map_some', IronValue.toString]
    rfl
   ,
   fun pl fuel => by
    have hp : ∃ rest, parseSource
        "let L = [1]\ntry\n  add 3 to 5\ncatch e\n  say e\nend\nsay L\n".toList
      = .ok
        [.LetStmt "L".toList (.ArrayLit [.NumberLit 1]),
          .TryStmt [.AddToStmt (.NumberLit 3) (.NumberLit 5)] "e".toList
            [.SayStmt (.VarExpr "e".toList)],
          .SayStmt (.VarExpr "L".toList)] rest := ⟨_, rfl⟩
    obtain ⟨rest, hp⟩ := hp
    unfold main
    rw [hp]
    simp only [↓reduceIte, lbrace, rbrace, Nat.reduceLeDiff, Nat.reduceLT, Nat.reduceEqDiff, Nat.reduceSub, Int.reduceLT,
        Int.reduceLE, Int.reduceToNat, Nat.cast_ofNat, List.length_set, Nat.cast_add, Nat.cast_one, run,
        execBlock, execStmt, evalExpr, evalList, evalPairs, initFields, keepLoop,
        mapLoop, callValue, callMethod, assignLvalue, Res.bind, State.register, classFields,
        classMethods, objSet_nil, registerGlobals, mathObject, State.define, State.get, State.assign,
        envGet, envOwner, interpolate, bindParams, State.alloc, State.newEnv, State.read, State.write, envReach, Res.release, State.release, List.contains_cons,
        List.contains_nil, List.erase_cons_head, beq_self_eq_true, Nat.reduceBEq, Bool.true_or,
        Bool.or_true, Bool.false_or, Bool.or_false, Bool.and_true, Bool.true_and, Bool.and_self,
        Bool.or_self, storeMember,
        storeIndex, State.store, memberOfObject, machineBinOp, liftOutcome, binOp, builtinCall,
        render, reify, mapOpt, Val.ofScalar, Val.isTruthy, objFind_objSet, objFind, Host.std,
        classKey, ne_eq, not_false_eq_true, not_true_eq_false, List.cons_append, List.nil_append,
        Nat.reduceAdd, zero_add, List.set_cons_zero, String.toList, List.cons.injEq, Char.reduceEq,
        and_false, and_true, and_self, if_true, if_false, reduceCtorEq, List.length_cons,
        List.length_nil, List.getElem?_cons_zero, List.length_append, List.getElem?_cons_succ,
        List.set_cons_succ, Option.map_some', IronValue.toString]
    rfl
   ,
   fun pl fuel => by
    have hp : ∃ rest, parseSource
        "add 3 to 5\n".toList
      = .ok
        [.AddToStmt (.NumberLit 3) (.NumberLit 5)] rest := ⟨_, rfl⟩
    obtain ⟨rest, hp⟩ := hp
    unfold main
    rw [hp]
    simp only [↓reduceIte, lbrace, rbrace, Nat.reduceLeDiff, Nat.reduceLT, Nat.reduceEqDiff, Nat.reduceSub, Int.reduceLT,
        Int.reduceLE, Int.reduceToNat, Nat.cast_ofNat, List.length_set, Nat.cast_add, Nat.cast_one, run,
        execBlock, execStmt, evalExpr, evalList, evalPairs, initFields, keepLoop,
        mapLoop, callValue, callMethod, assignLvalue, Res.bind, State.register, classFields,
        classMethods, objSet_nil, registerGlobals, mathObject, State.define, State.get, State.assign,
        envGet, envOwner, interpolate, bindParams, State.alloc, State.newEnv, State.read, State.write, envReach, Res.release, State.release, List.contains_cons,
        List.contains_nil, List.erase_cons_head, beq_self_eq_true, Nat.reduceBEq, Bool.true_or,
        Bool.or_true, Bool.false_or, Bool.or_false, Bool.and_true, Bool.true_and, Bool.and_self,
        Bool.or_self, storeMember,
        storeIndex, State.store, memberOfObject, machineBinOp, liftOutcome, binOp, builtinCall,
        render, reify, mapOpt, Val.ofScalar, Val.isTruthy, objFind_objSet, objFind, Host.std,
        classKey, ne_eq, not_false_eq_true, not_true_eq_false, List.cons_append, List.nil_append,
        Nat.reduceAdd, zero_add, List.set_cons_zero, String.toList, List.cons.injEq, Char.reduceEq,
        and_false, and_true, and_self, if_true, if_false, reduceCtorEq, List.length_cons,
        List.length_nil, List.getElem?_cons_zero, List.length_append, List.getElem?_cons_succ,
        List.set_cons_succ, Option.map_some', IronValue.toString]

   ⟩

end Ironwood

namespace Ironwood

/-! ## Contextual keywords and newline tokens -/

/-- At the start of a primary expression, the token `length` that is not
followed by `of` is rejected: no case of `parsePrimary` takes it. -/
theorem parsePrimary_length (fuel : Nat) (ts : List Token)
    (h0 : (peekTok ts 0).type = .LENGTH) (h1 : (peekTok ts 1).type ≠ .OF) :
    parsePrimary (fuel + 1) ts = .err (unexpectedMsg ts) := by
  rw [parsePrimary]
  simp [check, h0, h1]

/-- At the start of a primary expression, the token `length` followed by `of`
is the operator `length of`. -/
theorem parsePrimary_length_of (fuel : Nat) (ts : List Token)
    (h0 : (peekTok ts 0).type = .LENGTH) (h1 : (peekTok ts 1).type = .OF) :
    parsePrimary (fuel + 1) ts
      = (parsePostfix fuel (ts.drop 2)).bind (fun e ts1 => .ok (.LengthOfExpr e) ts1) := by
  rw [parsePrimary]
  simp [check, h0, h1]

set_option maxRecDepth 1000000 in
set_option maxHeartbeats 4000000 in
/-- C29, on the code: `length` followed by `of` is the operator `length of`,
but in every other case the token `length` at the start of a primary
expression is a syntax error (`Unexpected token`), not a reference to a
variable.  `let length = 3` is accepted, since `length` is a name there, and
the statement `say length` is then rejected: the driver reports
`Line 2: Unexpected token 'length'` and returns 1, for every placement and
fuel.  The sibling keyword `item` has the case that `length` misses: after
`let item = 3` the statement `say item` prints 3. -/
theorem length_is_no_variable :
    (∀ (fuel : Nat) (ts : List Token), (peekTok ts 0).type = .LENGTH →
        (peekTok ts 1).type ≠ .OF → parsePrimary (fuel + 1) ts = .err (unexpectedMsg ts))
    ∧ (∀ (fuel : Nat) (ts : List Token), (peekTok ts 0).type = .LENGTH →
        (peekTok ts 1).type = .OF →
        parsePrimary (fuel + 1) ts
          = (parsePostfix fuel (ts.drop 2)).bind (fun e ts1 => .ok (.LengthOfExpr e) ts1))
    ∧ parseSource "let length = 3\nsay length\n".toList
        = .err "Line 2: Unexpected token 'length'".toList
    ∧ (∀ (pl : Placement) (fuel : Nat),
        main pl fuel "let length = 3\nsay length\n".toList []
          = .code 1 [] (errorReport "Line 2: Unexpected token 'length'".toList))
    ∧ (∀ (pl : Placement) (fuel : Nat),
        main pl (fuel + 20) "let item = 3\nsay item\n".toList [] = .code 0 ["3".toList] [])
    ∧ (∀ (pl : Placement) (fuel : Nat),
        main pl (fuel + 20) "let xs = [4, 5]\nsay length of xs\n".toList []
          = .code 0 ["2".toList] []) := by
  have hp : parseSource "let length = 3\nsay length\n".toList
      = .err "Line 2: Unexpected token 'length'".toList := rfl
  refine ⟨parsePrimary_length, parsePrimary_length_of, hp, fun pl fuel => ?_,
    fun pl fuel => ?_, fun pl fuel => ?_⟩
  · unfold main
    rw [hp]
  · have hp : ∃ rest, parseSource
        "let item = 3\nsay item\n".toList
      = .ok
        [.LetStmt "item".toList (.NumberLit 3), .SayStmt (.VarExpr "item".toList)] rest := ⟨_, rfl⟩
    obtain ⟨rest, hp⟩ := hp
    unfold main
    rw [hp]
    simp only [↓reduceIte, lbrace, rbrace, Nat.reduceLeDiff, Nat.reduceLT, Nat.reduceEqDiff, Nat.reduceSub, Int.reduceLT,
        Int.reduceLE, Int.reduceToNat, Nat.cast_ofNat, List.length_set, Nat.cast_add, Nat.cast_one, run,
        execBlock, execStmt, evalExpr, evalList, evalPairs, initFields, keepLoop,
        mapLoop, callValue, callMethod, assignLvalue, Res.bind, State.register, classFields,
        classMethods, objSet_nil, registerGlobals, mathObject, State.define, State.get, State.assign,
        envGet, envOwner, interpolate, bindParams, State.alloc, State.newEnv, State.read, State.write, envReach, Res.release, State.release, List.contains_cons,
        List.contains_nil, List.erase_cons_head, beq_self_eq_true, Nat.reduceBEq, Bool.true_or,
        Bool.or_true, Bool.false_or, Bool.or_false, Bool.and_true, Bool.true_and, Bool.and_self,
        Bool.or_self, storeMember,
        storeIndex, State.store, memberOfObject, machineBinOp, liftOutcome, binOp, builtinCall,
        render, reify, mapOpt, Val.ofScalar, Val.isTruthy, objFind_objSet, objFind, Host.std,
        classKey, ne_eq, not_false_eq_true, not_true_eq_false, List.cons_append, List.nil_append,
        Nat.reduceAdd, zero_add, List.set_cons_zero, String.toList, List.cons.injEq, Char.reduceEq,
        and_false, and_true, and_self, if_true, if_false, reduceCtorEq, List.length_cons,
        List.length_nil, List.getElem?_cons_zero, List.length_append, List.getElem?_cons_succ,
        List.set_cons_succ, Option.map_some', IronValue.toString]
    rfl
  · have hp : ∃ rest, parseSource
        "let xs = [4, 5]\nsay length of xs\n".toList
      = .ok
        [.LetStmt "xs".toList (.ArrayLit [.NumberLit 4, .NumberLit 5]),
          .SayStmt (.LengthOfExpr (.VarExpr "xs".toList))] rest := ⟨_, rfl⟩
    obtain ⟨rest, hp⟩ := hp
    unfold main
    rw [hp]
    simp only [↓reduceIte, lbrace, rbrace, Nat.reduceLeDiff, Nat.reduceLT, Nat.reduceEqDiff, Nat.reduceSub, Int.reduceLT,
        Int.reduceLE, Int.reduceToNat, Nat.cast_ofNat, List.length_set, Nat.cast_add, Nat.cast_one, run,
        execBlock, execStmt, evalExpr, evalList, evalPairs, initFields, keepLoop,
        mapLoop, callValue, callMethod, assignLvalue, Res.bind, State.register, classFields,
        classMethods, objSet_nil, registerGlobals, mathObject, State.define, State.get, State.assign,
        envGet, envOwner, interpolate, bindParams, State.alloc, State.newEnv, State.read, State.write, envReach, Res.release, State.release, List.contains_cons,
        List.contains_nil, List.erase_cons_head, beq_self_eq_true, Nat.reduceBEq, Bool.true_or,
        Bool.or_true, Bool.false_or, Bool.or_false, Bool.and_true, Bool.true_and, Bool.and_self,
        Bool.or_self, storeMember,
        storeIndex, State.store, memberOfObject, machineBinOp, liftOutcome, binOp, builtinCall,
        render, reify, mapOpt, Val.ofScalar, Val.isTruthy, objFind_objSet, objFind, Host.std,
        classKey, ne_eq, not_false_eq_true, not_true_eq_false, List.cons_append, List.nil_append,
        Nat.reduceAdd, zero_add, List.set_cons_zero, String.toList, List.cons.injEq, Char.reduceEq,
        and_false, and_true, and_self, if_true, if_false, reduceCtorEq, List.length_cons,
        List.length_nil, List.getElem?_cons_zero, List.length_append, List.getElem?_cons_succ,
        List.set_cons_succ, Option.map_some', IronValue.toString]
    rfl

/-- One round of the loop of the lexer. -/
theorem lexLoop_cons (fuel : Nat) (c : Char) (r : Str) (lastNL : Bool) (line : Nat) :
    lexLoop (fuel + 1) (c :: r) lastNL line
      = (
    if c = ';' then lexLoop fuel (skipComment r) lastNL line
    else if c = newline then (lexLoop fuel r true (line + 1)).map (fun ts => emitNL lastNL (line + 1) ++ ts)
    else if isspace c then lexLoop fuel r lastNL line
    else if c = dquote then
      (lexLoop fuel (makeStr r).2 false line).map (fun ts => ⟨.STRING, (makeStr r).1, line⟩ :: ts)
    else if isdigit c || (c == '-' && isdigit (r.headD (Char.ofNat 0))) then
      (lexLoop fuel (r.dropWhile isNumberChar) false line).map
        (fun ts => ⟨.NUMBER, c :: r.takeWhile isNumberChar, line⟩ :: ts)
    else if isalpha c || c == '_' then
      (lexLoop fuel (r.dropWhile isIdentChar) false line).map
        (fun ts => wordToken (c :: r.takeWhile isIdentChar) line :: ts)
    else
      match punct c with
      | some t => (lexLoop fuel r false line).map (fun ts => ⟨t, [c], line⟩ :: ts)
      | none =>
        if c = '=' then
          (if r.headD (Char.ofNat 0) = '=' then
            (lexLoop fuel (r.drop 1) false line).map (fun ts => ⟨.EQ, "==".toList, line⟩ :: ts)
          else (lexLoop fuel r false line).map (fun ts => ⟨.ASSIGN, "=".toList, line⟩ :: ts))
        else if c = '!' then
          (if r.headD (Char.ofNat 0) = '=' then
            (lexLoop fuel (r.drop 1) false line).map (fun ts => ⟨.NEQ, "!=".toList, line⟩ :: ts)
          else lexLoop fuel r false line)
        else if c = '<' then
          (if r.headD (Char.ofNat 0) = '=' then
            (lexLoop fuel (r.drop 1) false line).map (fun ts => ⟨.LEQ, "<=".toList, line⟩ :: ts)
          else (lexLoop fuel r false line).map (fun ts => ⟨.LT, "<".toList, line⟩ :: ts))
        else if c = '>' then
          (if r.headD (Char.ofNat 0) = '=' then
            (lexLoop fuel (r.drop 1) false line).map (fun ts => ⟨.GEQ, ">=".toList, line⟩ :: ts)
          else (lexLoop fuel r false line).map (fun ts => ⟨.GT, ">".toList, line⟩ :: ts))
        else lexLoop fuel r false line) := rfl

/-- A character that is no blank, starts no token and is no `!` before `=`
yields no token, and clears the flag `lastNL`. -/
theorem lexLoop_dropped (fuel : Nat) (c : Char) (r : Str) (lastNL : Bool) (line : Nat)
    (h1 : c ≠ ';') (h2 : c ≠ newline) (h3 : isspace c = false) (h4 : c ≠ dquote)
    (h5 : isdigit c = false) (h6 : c ≠ '-') (h7 : isalpha c = false) (h8 : c ≠ '_')
    (h9 : punct c = none) (h10 : c ≠ '=') (h11 : c ≠ '<') (h12 : c ≠ '>')
    (h13 : c = '!' → r.headD (Char.ofNat 0) ≠ '=') :
    lexLoop (fuel + 1) (c :: r) lastNL line = lexLoop fuel r false line := by
  have hd : (c == '-') = false := by simpa using h6
  have hu : (c == '_') = false := by simpa using h8
  rw [lexLoop_cons]
  simp only [if_neg h1, if_neg h2, h3, if_neg h4, h5, hd, h7, hu, h9, if_neg h10, if_neg h11,
    if_neg h12, Bool.false_and, Bool.or_self, Bool.false_eq_true, if_false]
  split
  · rename_i hc
    rw [if_neg (h13 hc)]
  · rfl

/-- A line feed yields a newline token when the flag `lastNL` is not set. -/
theorem lexLoop_newline (fuel : Nat) (r : Str) (lastNL : Bool) (line : Nat) :
    lexLoop (fuel + 1) (newline :: r) lastNL line
      = (lexLoop fuel r true (line + 1)).map (fun ts => emitNL lastNL (line + 1) ++ ts) := by
  rw [lexLoop_cons, if_neg (by decide), if_pos rfl]

/-- C30, on the code: the flag `lastNL` is cleared for every character that
is not blank, also for a character that yields no token (one that the
`switch` drops, or a `!` that is not followed by `=`).  The newline after
such a character is then a token although no token precedes it on the line:
the source of two lines that hold only `@` gives the tokens NEWLINE, NEWLINE,
EOF_T, which begin with a newline token and hold two adjacent ones, and so
does every source `c`, line feed, `c`, line feed for a character `c` that the
lexer drops.  In a source without such characters blank lines,
whitespace-only lines and comment lines give no token. -/
theorem newline_tokens_after_dropped_characters :
    (tokenize "@\n@\n".toList).map (List.map (fun t => (t.type, t.line)))
      = some [(.NEWLINE, 2), (.NEWLINE, 3), (.EOF_T, 3)]
    ∧ (tokenize "a !\n!\nb".toList).map (List.map (fun t => t.type))
      = some [.IDENT, .NEWLINE, .NEWLINE, .IDENT, .NEWLINE, .EOF_T]
    ∧ (∀ c : Char, c ≠ ';' → c ≠ newline → isspace c = false → c ≠ dquote → isdigit c = false →
        c ≠ '-' → isalpha c = false → c ≠ '_' → punct c = none → c ≠ '=' → c ≠ '<' → c ≠ '>' →
        (tokenize [c, newline, c, newline]).map (List.map (fun t => t.type))
          = some [.NEWLINE, .NEWLINE, .EOF_T])
    ∧ (tokenize "\n\n  \n; c\na\n\n   \n; x\nb".toList).map (List.map (fun t => t.type))
      = some [.IDENT, .NEWLINE, .IDENT, .NEWLINE, .EOF_T] := by
  refine ⟨by decide!, by decide!, ?_, by decide!⟩
  intro c h1 h2 h3 h4 h5 h6 h7 h8 h9 h10 h11 h12
  have hh : ∀ r : Str, c = '!' → (newline :: r).headD (Char.ofNat 0) ≠ '=' :=
    fun r _ => (by decide : newline ≠ '=')
  unfold tokenize
  rw [show [c, newline, c, newline].length = 3 + 1 from rfl,
    lexLoop_dropped 3 c _ true 1 h1 h2 h3 h4 h5 h6 h7 h8 h9 h10 h11 h12 (hh _),
    lexLoop_newline 2, lexLoop_dropped 1 c _ true 2 h1 h2 h3 h4 h5 h6 h7 h8 h9 h10 h11 h12 (hh _),
    lexLoop_newline 0]
  rfl

end Ironwood

namespace Ironwood

/-! ## Interpolation -/

theorem Res.bind_ok_id {α : Type} (r : Res α) : r.bind (fun a σ => .ok a σ) = r := by
  cases r <;> rfl

/-- The characters before the first opening brace are copied. -/
theorem interpolate_before_brace (h : Host) (env : Nat) (s : Str) :
    ∀ (pre : Str) (fuel : Nat) (σ : State), lbrace ∉ pre →
      interpolate h (pre.length + fuel) (pre ++ s) env σ
        = (interpolate h fuel s env σ).bind (fun rest σ1 => .ok (pre ++ rest) σ1) := by
  intro pre
  induction pre with
  | nil =>
    intro fuel σ _
    simp only [List.length_nil, Nat.zero_add, List.nil_append]
    exact (Res.bind_ok_id _).symm
  | cons c r ih =>
    intro fuel σ hpre
    have hc : c ≠ lbrace := fun hc => hpre (by rw [hc]; exact List.mem_cons_self _ _)
    have hr : lbrace ∉ r := fun hr => hpre (List.mem_cons_of_mem _ hr)
    rw [show (c :: r).length + fuel = (r.length + fuel) + 1 by simp; omega, List.cons_append,
      interpolate, if_neg hc, ih fuel σ hr]
    cases interpolate h fuel s env σ <;> rfl

/-- The inner loop of `interpolate` stops at the closing brace that returns
the depth to zero: on a text in which the closing braces never outnumber the
opening ones by `d`, followed by a closing brace that does, the fragment is
the text and the scan resumes after that brace. -/
theorem braceSplit_balanced (post : Str) :
    ∀ (inner : Str) (d : Nat),
      (∀ n : Nat, (inner.take n).count rbrace < (inner.take n).count lbrace + d) →
      inner.count rbrace + 1 = inner.count lbrace + d →
      braceSplit d (inner ++ rbrace :: post) = (inner, post) := by
  intro inner
  induction inner with
  | nil =>
    intro d _ hd
    have hd1 : d = 1 := by simpa using hd.symm
    subst hd1
    have hdep : (if rbrace = lbrace then 1 + 1 else if rbrace = rbrace then 1 - 1 else 1) = 0 := by
      decide
    rw [List.nil_append, braceSplit, if_pos hdep]
  | cons c r ih =>
    intro d hpre hd
    have h1 := hpre 1
    have hlr : ¬ lbrace = rbrace := by decide
    have hrl : ¬ rbrace = lbrace := by decide
    rw [List.cons_append, braceSplit]
    by_cases hl : c = lbrace
    · subst hl
      have hdep : (if lbrace = lbrace then d + 1 else if lbrace = rbrace then d - 1 else d)
          = d + 1 := by rw [if_pos rfl]
      rw [hdep, if_neg (by omega)]
      have hih := ih (d + 1)
        (fun n => by
          have := hpre (n + 1)
          simp only [List.take_succ_cons, List.count_cons, beq_self_eq_true, if_true] at this
          rw [if_neg (by simpa using hlr)] at this
          omega)
        (by
          simp only [List.count_cons, beq_self_eq_true, if_true] at hd
          rw [if_neg (by simpa using hlr)] at hd
          omega)
      rw [hih]
    · by_cases hr : c = rbrace
      · subst hr
        have hdep : (if rbrace = lbrace then d + 1 else if rbrace = rbrace then d - 1 else d)
            = d - 1 := by rw [if_neg hrl, if_pos rfl]
        simp only [List.take_succ_cons, List.take_zero, List.count_cons, List.count_nil,
          beq_self_eq_true, if_true] at h1
        rw [if_neg (by simpa using hrl)] at h1
        rw [hdep, if_neg (by omega)]
        have hih := ih (d - 1)
          (fun n => by
            have := hpre (n + 1)
            simp only [List.take_succ_cons, List.count_cons, beq_self_eq_true, if_true] at this
            rw [if_neg (by simpa using hrl)] at this
            omega)
          (by
            simp only [List.count_cons, beq_self_eq_true, if_true] at hd
            rw [if_neg (by simpa using hrl)] at hd
            omega)
        rw [hih]
      · have hdep : (if c = lbrace then d + 1 else if c = rbrace then d - 1 else d) = d := by
          rw [if_neg hl, if_neg hr]
        have hcl : ¬ (c == lbrace) = true := by simpa using hl
        have hcr : ¬ (c == rbrace) = true := by simpa using hr
        simp only [List.take_succ_cons, List.take_zero, List.count_cons, List.count_nil,
          if_neg hcl, if_neg hcr] at h1
        rw [hdep, if_neg (by omega)]
        have hih := ih d
          (fun n => by
            have := hpre (n + 1)
            simp only [List.take_succ_cons, List.count_cons, if_neg hcl, if_neg hcr] at this
            omega)
          (by
            simp only [List.count_cons, if_neg hcl, if_neg hcr] at hd
            omega)
        rw [hih]

/-- A brace fragment, after its opening brace: the first statement that the
lexer and the parser make of the text up to the matching brace decides. -/
theorem interpolate_fragment (h : Host) (fuel : Nat) (r : Str) (env : Nat) (σ : State) :
    interpolate h (fuel + 1) (lbrace :: r) env σ
      = (match h.fragment (braceSplit 1 r).1 with
          | .syntaxError w => .exc (.error w) σ
          | .timeout => .timeout
          | .other => interpolate h fuel (braceSplit 1 r).2 env σ
          | .expr e =>
            (evalExpr h fuel e env σ).bind (fun v σ1 =>
              match render fuel σ1.heap v with
              | none => .timeout
              | some t =>
                (interpolate h fuel (braceSplit 1 r).2 env σ1).bind (fun rest σ2 =>
                  .ok (t ++ rest) σ2))) := by
  rw [interpolate, if_pos rfl] <;> rfl

/-- C27: a text without an opening brace is returned unchanged.  In a text
`pre`, opening brace, `inner`, closing brace, `post`, where `pre` has no
opening brace and `inner` is balanced (as many closing braces as opening
ones, and in no prefix more), the characters of `pre` are copied, the
fragment is `inner` (nested braces do not close it) and the scan resumes at
`post`.  The string literal whose content is an opening brace, a blank, the
quoted text `x` in braces, a blank and a closing brace evaluates to the
rendering of the value of `x`. -/
theorem interpolation_brace_balanced (h : Host) (env : Nat) (σ : State) :
    (∀ (s : Str) (fuel : Nat), lbrace ∉ s → s.length < fuel →
        interpolate h fuel s env σ = .ok s σ
        ∧ evalExpr h (fuel + 1) (.StringLit s) env σ = .ok (.str s) σ)
    ∧ (∀ (pre inner post : Str) (fuel : Nat), lbrace ∉ pre →
        inner.count lbrace = inner.count rbrace →
        (∀ n : Nat, (inner.take n).count rbrace ≤ (inner.take n).count lbrace) →
        braceSplit 1 (inner ++ rbrace :: post) = (inner, post)
        ∧ interpolate h (pre.length + (fuel + 1)) (pre ++ lbrace :: (inner ++ rbrace :: post))
            env σ
          = (match h.fragment inner with
              | .syntaxError w => .exc (.error w) σ
              | .timeout => .timeout
              | .other =>
                (interpolate h fuel post env σ).bind (fun rest σ2 => .ok (pre ++ rest) σ2)
              | .expr e =>
                (evalExpr h fuel e env σ).bind (fun v σ1 =>
                  match render fuel σ1.heap v with
                  | none => .timeout
                  | some t =>
                    (interpolate h fuel post env σ1).bind (fun rest σ2 =>
                      .ok (pre ++ (t ++ rest)) σ2))))
    ∧ (∀ (pl : Placement) (fuel : Nat) (v : Val) (t : Str),
        σ.read env "x".toList = .ok v σ → render (fuel + 1) σ.heap v = some t →
        evalExpr (Host.std pl) (fuel + 5) (.StringLit "\x7b \"\x7bx\x7d\" \x7d".toList) env σ
          = .ok (.str t) σ) := by
  refine ⟨fun s fuel hs hf => ⟨interpolate_plain h env σ s fuel hs hf,
    evalExpr_string_plain h fuel s env σ hs hf⟩, ?_, ?_⟩
  · intro pre inner post fuel hpre hcount hpfx
    have hsplit : braceSplit 1 (inner ++ rbrace :: post) = (inner, post) :=
      braceSplit_balanced post inner 1 (fun n => by have := hpfx n; omega) (by omega)
    refine ⟨hsplit, ?_⟩
    rw [interpolate_before_brace h env _ pre (fuel + 1) σ hpre, interpolate_fragment, hsplit]
    cases h.fragment inner with
    | syntaxError w => rfl
    | timeout => rfl
    | other => rfl
    | expr e =>
      simp only [Res.bind]
      cases evalExpr h fuel e env σ with
      | ok v σ1 =>
        simp only
        cases render fuel σ1.heap v with
        | none => rfl
        | some t =>
          simp only
          cases interpolate h fuel post env σ1 <;> rfl
      | exc s σ1 => rfl
      | timeout => rfl
      | outside => rfl
  · intro pl fuel v t hx hr
    have f1 : fragmentOf " \"\x7bx\x7d\" ".toList = .expr (.StringLit "\x7bx\x7d".toList) := rfl
    have f2 : fragmentOf "x".toList = .expr (.VarExpr "x".toList) := rfl
    simp only [String.toList] at f1 f2 hx
    simp only [render] at hr
    simp only [↓reduceIte, lbrace, rbrace, evalExpr, interpolate, braceSplit, Res.bind,
      Host.std, String.toList, f1, f2, hx, hr, render, reify, Option.map_some',
      IronValue.toString, Nat.reduceAdd, Nat.reduceSub, Char.reduceEq, reduceCtorEq,
      List.append_nil, Nat.reduceEqDiff]

/-- A property of all prefixes of a text follows from the prefixes up to its
length. -/
theorem forall_take (s : Str) (p : Str → Prop) (hp : ∀ n : Nat, n ≤ s.length → p (s.take n)) :
    ∀ n : Nat, p (s.take n) := by
  intro n
  by_cases hn : n ≤ s.length
  · exact hp n hn
  · have := hp s.length (Nat.le_refl _)
    rw [List.take_length] at this
    rw [List.take_of_length_le (by omega)]
    exact this

set_option maxRecDepth 1000000 in
set_option maxHeartbeats 4000000 in
/-- C27 at the text `ab`, which is returned unchanged; at the text of `a`,
the fragment that holds the quoted text `x` in braces between blanks, and
`b`, in a state in which `x` is 42: the fragment is the text between the
outer braces and the result is `a42b`; at the string literal of the claim,
which evaluates to `42`; and the program that prints that literal, for every
placement. -/
theorem interpolation_brace_balanced_witness :
    (interpolate (Host.std (fun _ _ => 0)) 3 "ab".toList 0 ⟨[], [⟨[("x".toList, .num 42)], none⟩], [], [], [0]⟩
        = .ok "ab".toList ⟨[], [⟨[("x".toList, .num 42)], none⟩], [], [], [0]⟩
      ∧ evalExpr (Host.std (fun _ _ => 0)) 4 (.StringLit "ab".toList) 0 ⟨[], [⟨[("x".toList, .num 42)], none⟩], [], [], [0]⟩
        = .ok (.str "ab".toList) ⟨[], [⟨[("x".toList, .num 42)], none⟩], [], [], [0]⟩)
    ∧ braceSplit 1 (" \"\x7bx\x7d\" ".toList ++ rbrace :: "b".toList)
        = (" \"\x7bx\x7d\" ".toList, "b".toList)
    ∧ interpolate (Host.std (fun _ _ => 0)) 8 "a\x7b \"\x7bx\x7d\" \x7db".toList 0
          ⟨[], [⟨[("x".toList, .num 42)], none⟩], [], [], [0]⟩
        = .ok "a42b".toList ⟨[], [⟨[("x".toList, .num 42)], none⟩], [], [], [0]⟩
    ∧ evalExpr (Host.std (fun _ _ => 0)) 5 (.StringLit "\x7b \"\x7bx\x7d\" \x7d".toList) 0
          ⟨[], [⟨[("x".toList, .num 42)], none⟩], [], [], [0]⟩
        = .ok (.str "42".toList) ⟨[], [⟨[("x".toList, .num 42)], none⟩], [], [], [0]⟩
    ∧ (∀ (pl : Placement) (fuel : Nat),
        main pl (fuel + 40) "let x = 42\nsay \"\x7b \\\"\x7bx\x7d\\\" \x7d\"\n".toList []
          = .code 0 ["42".toList] []) :=
  ⟨(interpolation_brace_balanced (Host.std (fun _ _ => 0)) 0 ⟨[], [⟨[("x".toList, .num 42)], none⟩], [], [], [0]⟩).1
      "ab".toList 3 (by decide) (by decide),
   ((interpolation_brace_balanced (Host.std (fun _ _ => 0)) 0 ⟨[], [⟨[("x".toList, .num 42)], none⟩], [], [], [0]⟩).2.1
      "a".toList " \"\x7bx\x7d\" ".toList "b".toList 6 (by decide) (by decide)
      (forall_take _ (fun p => p.count rbrace ≤ p.count lbrace) (by decide))).1,
   ((interpolation_brace_balanced (Host.std (fun _ _ => 0)) 0 ⟨[], [⟨[("x".toList, .num 42)], none⟩], [], [], [0]⟩).2.1
      "a".toList " \"\x7bx\x7d\" ".toList "b".toList 6 (by decide) (by decide)
      (forall_take _ (fun p => p.count rbrace ≤ p.count lbrace) (by decide))).2.trans (by rfl),
   (interpolation_brace_balanced (Host.std (fun _ _ => 0)) 0 ⟨[], [⟨[("x".toList, .num 42)], none⟩], [], [], [0]⟩).2.2
      (fun _ _ => 0) 0 (.num 42) "42".toList (by rfl) (by rfl),
   fun pl fuel => by
    have hp : ∃ rest, parseSource
        "let x = 42\nsay \"\x7b \\\"\x7bx\x7d\\\" \x7d\"\n".toList
      = .ok
        [.LetStmt "x".toList (.NumberLit 42), .SayStmt (.StringLit "\x7b \"\x7bx\x7d\" \x7d".toList)] rest := ⟨_, rfl⟩
    obtain ⟨rest, hp⟩ := hp
    have f1 : fragmentOf " \"\x7bx\x7d\" ".toList = .expr (.StringLit "\x7bx\x7d".toList) := rfl
    have f2 : fragmentOf "x".toList = .expr (.VarExpr "x".toList) := rfl
    simp only [String.toList] at f1 f2
    unfold main
    rw [hp]
    simp only [↓reduceIte, lbrace, rbrace, Nat.reduceLeDiff, Nat.reduceLT, Nat.reduceEqDiff, Nat.reduceSub, Int.reduceLT,
        Int.reduceLE, Int.reduceToNat, Nat.cast_ofNat, List.length_set, Nat.cast_add, Nat.cast_one, run,
        execBlock, execStmt, evalExpr, evalList, evalPairs, initFields, keepLoop,
        mapLoop, callValue, callMethod, assignLvalue, Res.bind, State.register, classFields,
        classMethods, objSet_nil, registerGlobals, mathObject, State.define, State.get, State.assign,
        envGet, envOwner, interpolate, bindParams, State.alloc, State.newEnv, State.read, State.write, envReach, Res.release, State.release, List.contains_cons,
        List.contains_nil, List.erase_cons_head, beq_self_eq_true, Nat.reduceBEq, Bool.true_or,
        Bool.or_true, Bool.false_or, Bool.or_false, Bool.and_true, Bool.true_and, Bool.and_self,
        Bool.or_self, storeMember,
        storeIndex, State.store, memberOfObject, machineBinOp, liftOutcome, binOp, builtinCall,
        render, reify, mapOpt, Val.ofScalar, Val.isTruthy, objFind_objSet, objFind, Host.std,
        classKey, ne_eq, not_false_eq_true, not_true_eq_false, List.cons_append, List.nil_append,
        Nat.reduceAdd, zero_add, List.set_cons_zero, String.toList, List.cons.injEq, Char.reduceEq,
        and_false, and_true, and_self, if_true, if_false, reduceCtorEq, List.length_cons,
        List.length_nil, List.getElem?_cons_zero, List.length_append, List.getElem?_cons_succ,
        List.set_cons_succ, Option.map_some', IronValue.toString, braceSplit, f1, f2]
    rfl
   ⟩

end Ironwood

namespace Ironwood

/-! ## The statements of a brace fragment -/

set_option maxRecDepth 1000000 in
set_option maxHeartbeats 4000000 in
/-- C26, as stated, fails.  The fragment `x x` is two expression statements,
and it is replaced by the rendering of the first: with `x = 42` the string
literal `a`, `x x` in braces, `b` is `a42b`, not `ab`.  The fragment `)` is
text that the parser rejects, and the string literal raises the syntax error
instead of continuing: the driver reports it and returns 1.  Both hold for
every placement and for all fuel from 40 on. -/
theorem fragment_of_two_statements_is_evaluated :
    (∃ rest : List Token, parseSource "x x".toList
        = .ok [.ExprStmt (.VarExpr "x".toList), .ExprStmt (.VarExpr "x".toList)] rest)
    ∧ (∀ (pl : Placement) (fuel : Nat),
        main pl (fuel + 40) "let x = 42\nsay \"a\x7bx x\x7db\"\n".toList []
          = .code 0 ["a42b".toList] [])
    ∧ parseSource ")".toList = .err "Line 1: Unexpected token ')'".toList
    ∧ (∀ (pl : Placement) (fuel : Nat),
        main pl (fuel + 40) "let x = 42\nsay \"a\x7b)\x7db\"\n".toList []
          = .code 1 [] (errorReport "Line 1: Unexpected token ')'".toList)) := by
  refine ⟨⟨_, rfl⟩, fun pl fuel => ?_, rfl, fun pl fuel => ?_⟩
  · have hp : ∃ rest, parseSource
        "let x = 42\nsay \"a\x7bx x\x7db\"\n".toList
      = .ok
        [.LetStmt "x".toList (.NumberLit 42), .SayStmt (.StringLit "a\x7bx x\x7db".toList)] rest := ⟨_, rfl⟩
    obtain ⟨rest, hp⟩ := hp
    have f1 : fragmentOf "x x".toList = .expr (.VarExpr "x".toList) := rfl
    simp only [String.toList] at f1
    unfold main
    rw [hp]
    simp only [↓reduceIte, lbrace, rbrace, Nat.reduceLeDiff, Nat.reduceLT, Nat.reduceEqDiff, Nat.reduceSub, Int.reduceLT,
        Int.reduceLE, Int.reduceToNat, Nat.cast_ofNat, List.length_set, Nat.cast_add, Nat.cast_one, run,
        execBlock, execStmt, evalExpr, evalList, evalPairs, initFields, keepLoop,
        mapLoop, callValue, callMethod, assignLvalue, Res.bind, State.register, classFields,
        classMethods, objSet_nil, registerGlobals, mathObject, State.define, State.get, State.assign,
        envGet, envOwner, interpolate, bindParams, State.alloc, State.newEnv, State.read, State.write, envReach, Res.release, State.release, List.contains_cons,
        List.contains_nil, List.erase_cons_head, beq_self_eq_true, Nat.reduceBEq, Bool.true_or,
        Bool.or_true, Bool.false_or, Bool.or_false, Bool.and_true, Bool.true_and, Bool.and_self,
        Bool.or_self, storeMember,
        storeIndex, State.store, memberOfObject, machineBinOp, liftOutcome, binOp, builtinCall,
        render, reify, mapOpt, Val.ofScalar, Val.isTruthy, objFind_objSet, objFind, Host.std,
        classKey, ne_eq, not_false_eq_true, not_true_eq_false, List.cons_append, List.nil_append,
        Nat.reduceAdd, zero_add, List.set_cons_zero, String.toList, List.cons.injEq, Char.reduceEq,
        and_false, and_true, and_self, if_true, if_false, reduceCtorEq, List.length_cons,
        List.length_nil, List.getElem?_cons_zero, List.length_append, List.getElem?_cons_succ,
        List.set_cons_succ, Option.map_some', IronValue.toString, braceSplit, f1]
    rfl
  · have hp : ∃ rest, parseSource
        "let x = 42\nsay \"a\x7b)\x7db\"\n".toList
      = .ok
        [.LetStmt "x".toList (.NumberLit 42), .SayStmt (.StringLit "a\x7b)\x7db".toList)] rest := ⟨_, rfl⟩
    obtain ⟨rest, hp⟩ := hp
    have f1 : fragmentOf ")".toList = .syntaxError "Line 1: Unexpected token ')'".toList := rfl
    simp only [String.toList] at f1
    unfold main
    rw [hp]
    simp only [↓reduceIte, lbrace, rbrace, Nat.reduceLeDiff, Nat.reduceLT, Nat.reduceEqDiff, Nat.reduceSub, Int.reduceLT,
        Int.reduceLE, Int.reduceToNat, Nat.cast_ofNat, List.length_set, Nat.cast_add, Nat.cast_one, run,
        execBlock, execStmt, evalExpr, evalList, evalPairs, initFields, keepLoop,
        mapLoop, callValue, callMethod, assignLvalue, Res.bind, State.register, classFields,
        classMethods, objSet_nil, registerGlobals, mathObject, State.define, State.get, State.assign,
        envGet, envOwner, interpolate, bindParams, State.alloc, State.newEnv, State.read, State.write, envReach, Res.release, State.release, List.contains_cons,
        List.contains_nil, List.erase_cons_head, beq_self_eq_true, Nat.reduceBEq, Bool.true_or,
        Bool.or_true, Bool.false_or, Bool.or_false, Bool.and_true, Bool.true_and, Bool.and_self,
        Bool.or_self, storeMember,
        storeIndex, State.store, memberOfObject, machineBinOp, liftOutcome, binOp, builtinCall,
        render, reify, mapOpt, Val.ofScalar, Val.isTruthy, objFind_objSet, objFind, Host.std,
        classKey, ne_eq, not_false_eq_true, not_true_eq_false, List.cons_append, List.nil_append,
        Nat.reduceAdd, zero_add, List.set_cons_zero, String.toList, List.cons.injEq, Char.reduceEq,
        and_false, and_true, and_self, if_true, if_false, reduceCtorEq, List.length_cons,
        List.length_nil, List.getElem?_cons_zero, List.length_append, List.getElem?_cons_succ,
        List.set_cons_succ, Option.map_some', IronValue.toString, braceSplit, f1]


/-- C26, amended: for a brace fragment that the lexer and the parser accept,
the first statement decides.  When it is an expression statement, the
fragment is replaced by the rendering of the value of that expression in the
current environment, whatever statements follow it; when there is no
statement, or the first statement is no expression statement, the fragment
contributes nothing, nothing is evaluated (the state is as before), and the
interpolation of the rest of the text continues. -/
theorem fragment_by_first_statement (pl : Placement) (fuel : Nat) (r : Str) (env : Nat)
    (σ : State) :
    (∀ (e : Expr) (stmts : List Stmt) (rest : List Token),
        parseSource (braceSplit 1 r).1 = .ok (.ExprStmt e :: stmts) rest →
        interpolate (Host.std pl) (fuel + 1) (lbrace :: r) env σ
          = (evalExpr (Host.std pl) fuel e env σ).bind (fun v σ1 =>
              match render fuel σ1.heap v with
              | none => .timeout
              | some t =>
                (interpolate (Host.std pl) fuel (braceSplit 1 r).2 env σ1).bind (fun s σ2 =>
                  .ok (t ++ s) σ2)))
    ∧ (∀ rest : List Token, parseSource (braceSplit 1 r).1 = .ok [] rest →
        interpolate (Host.std pl) (fuel + 1) (lbrace :: r) env σ
          = interpolate (Host.std pl) fuel (braceSplit 1 r).2 env σ)
    ∧ (∀ (s : Stmt) (stmts : List Stmt) (rest : List Token),
        parseSource (braceSplit 1 r).1 = .ok (s :: stmts) rest → (∀ e : Expr, s ≠ .ExprStmt e) →
        interpolate (Host.std pl) (fuel + 1) (lbrace :: r) env σ
          = interpolate (Host.std pl) fuel (braceSplit 1 r).2 env σ) := by
  refine ⟨fun e stmts rest hp => ?_, fun rest hp => ?_, fun s stmts rest hp hs => ?_⟩
  · rw [interpolate_fragment]
    simp only [Host.std, fragmentOf, hp]
  · rw [interpolate_fragment]
    simp only [Host.std, fragmentOf, hp]
  · rw [interpolate_fragment]
    simp only [Host.std, fragmentOf, hp]
    cases s with
    | ExprStmt e => exact absurd rfl (hs e)
    | _ => rfl

set_option maxRecDepth 1000000 in
set_option maxHeartbeats 4000000 in
/-- C26, amended, in a state in which `x` is 42: the text `x` in braces and
`b` is `42b`; the empty fragment and the fragment `let y = 1`, each followed
by `b`, are `b`, in the state as it was; and the program whose string holds
the three kinds of fragment prints `abc42` and then fails on `say y`, since
the `let` of the fragment was not executed, for every placement. -/
theorem fragment_by_first_statement_witness :
    interpolate (Host.std (fun _ _ => 0)) 4 "\x7bx\x7db".toList 0 ⟨[], [⟨[("x".toList, .num 42)], none⟩], [], [], [0]⟩
        = .ok "42b".toList ⟨[], [⟨[("x".toList, .num 42)], none⟩], [], [], [0]⟩
    ∧ interpolate (Host.std (fun _ _ => 0)) 4 "\x7b\x7db".toList 0 ⟨[], [⟨[("x".toList, .num 42)], none⟩], [], [], [0]⟩
        = .ok "b".toList ⟨[], [⟨[("x".toList, .num 42)], none⟩], [], [], [0]⟩
    ∧ interpolate (Host.std (fun _ _ => 0)) 4 "\x7blet y = 1\x7db".toList 0
          ⟨[], [⟨[("x".toList, .num 42)], none⟩], [], [], [0]⟩
        = .ok "b".toList ⟨[], [⟨[("x".toList, .num 42)], none⟩], [], [], [0]⟩
    ∧ (∀ (pl : Placement) (fuel : Nat),
        main pl (fuel + 40)
          "let x = 42\nsay \"a\x7blet y = 1\x7db\x7b\x7dc\x7bx\x7d\"\nsay y\n".toList []
          = .code 1 ["abc42".toList]
              (errorReport "I don't know what 'y' is — did you forget 'let y = ...'?".toList)) :=
  ⟨((fragment_by_first_statement (fun _ _ => 0) 3 "x\x7db".toList 0 ⟨[], [⟨[("x".toList, .num 42)], none⟩], [], [], [0]⟩).1
      (.VarExpr "x".toList) [] _ (by rfl)).trans (by rfl),
   ((fragment_by_first_statement (fun _ _ => 0) 3 "\x7db".toList 0 ⟨[], [⟨[("x".toList, .num 42)], none⟩], [], [], [0]⟩).2.1
      _ (by rfl)).trans (by rfl),
   ((fragment_by_first_statement (fun _ _ => 0) 3 "let y = 1\x7db".toList 0 ⟨[], [⟨[("x".toList, .num 42)], none⟩], [], [], [0]⟩).2.2
      (.LetStmt "y".toList (.NumberLit 1)) [] _ (by rfl) (by intro e he; cases he)).trans (by rfl),
   fun pl fuel => by
    have hp : ∃ rest, parseSource
        "let x = 42\nsay \"a\x7blet y = 1\x7db\x7b\x7dc\x7bx\x7d\"\nsay y\n".toList
      = .ok
        [.LetStmt "x".toList (.NumberLit 42),
          .SayStmt (.StringLit "a\x7blet y = 1\x7db\x7b\x7dc\x7bx\x7d".toList),
          .SayStmt (.VarExpr "y".toList)] rest := ⟨_, rfl⟩
    obtain ⟨rest, hp⟩ := hp
    have f1 : fragmentOf "let y = 1".toList = .other := rfl
    have f2 : fragmentOf "".toList = .other := rfl
    have f3 : fragmentOf "x".toList = .expr (.VarExpr "x".toList) := rfl
    simp only [String.toList] at f1 f2 f3
    unfold main
    rw [hp]
    simp only [↓reduceIte, lbrace, rbrace, Nat.reduceLeDiff, Nat.reduceLT, Nat.reduceEqDiff, Nat.reduceSub, Int.reduceLT,
        Int.reduceLE, Int.reduceToNat, Nat.cast_ofNat, List.length_set, Nat.cast_add, Nat.cast_one, run,
        execBlock, execStmt, evalExpr, evalList, evalPairs, initFields, keepLoop,
        mapLoop, callValue, callMethod, assignLvalue, Res.bind, State.register, classFields,
        classMethods, objSet_nil, registerGlobals, mathObject, State.define, State.get, State.assign,
        envGet, envOwner, interpolate, bindParams, State.alloc, State.newEnv, State.read, State.write, envReach, Res.release, State.release, List.contains_cons,
        List.contains_nil, List.erase_cons_head, beq_self_eq_true, Nat.reduceBEq, Bool.true_or,
        Bool.or_true, Bool.false_or, Bool.or_false, Bool.and_true, Bool.true_and, Bool.and_self,
        Bool.or_self, storeMember,
        storeIndex, State.store, memberOfObject, machineBinOp, liftOutcome, binOp, builtinCall,
        render, reify, mapOpt, Val.ofScalar, Val.isTruthy, objFind_objSet, objFind, Host.std,
        classKey, ne_eq, not_false_eq_true, not_true_eq_false, List.cons_append, List.nil_append,
        Nat.reduceAdd, zero_add, List.set_cons_zero, String.toList, List.cons.injEq, Char.reduceEq,
        and_false, and_true, and_self, if_true, if_false, reduceCtorEq, List.length_cons,
        List.length_nil, List.getElem?_cons_zero, List.length_append, List.getElem?_cons_succ,
        List.set_cons_succ, Option.map_some', IronValue.toString, braceSplit, f1, f2, f3]
    rfl

   ⟩

end Ironwood

namespace Ironwood

/-! ## Lifetime of environments -/

end Ironwood

namespace Ironwood

/-! ## Construction of instances -/

end Ironwood

namespace Ironwood

/-! ## The precedence ladder -/

theorem binLevel_le (t : TT) (m : Nat) (h : binLevel t = some m) : m ≤ 5 := by
  cases t <;> simp [binLevel] at h <;> omega

theorem Link.level_le (l : Link) : l.level ≤ 5 := by
  unfold Link.level
  cases h : binLevel l.tok.type with
  | none => simp
  | some m => simpa using binLevel_le _ _ h

theorem closesChain_binLevel (t : TT) (h : closesChain t = true) : binLevel t = none := by
  revert h
  cases t <;> decide

theorem takeWhile_split {α : Type} (p q : α → Bool) (hpq : ∀ x, q x = true → p x = true)
    (xs : List α) :
    xs.takeWhile p = xs.takeWhile q ++ (xs.dropWhile q).takeWhile p
      ∧ xs.dropWhile p = (xs.dropWhile q).dropWhile p := by
  induction xs with
  | nil => simp
  | cons x r ih =>
    by_cases hq : q x = true
    · have hp := hpq x hq
      simp [List.takeWhile, List.dropWhile, hq, hp, ih.1, ih.2]
    · simp [List.takeWhile, List.dropWhile, hq]

theorem head_dropWhile {α : Type} (p : α → Bool) (xs : List α) (x : α)
    (h : (xs.dropWhile p).head? = some x) : p x = false := by
  induction xs with
  | nil => simp at h
  | cons y r ih =>
    by_cases hy : p y = true
    · simp [List.dropWhile, hy] at h
      exact ih h
    · simp [List.dropWhile, hy] at h
      subst h
      simpa using hy

theorem mem_dropWhile {α : Type} (p : α → Bool) (xs : List α) (x : α)
    (h : x ∈ xs.dropWhile p) : x ∈ xs :=
  (List.dropWhile_sublist p).subset h

theorem length_dropWhile {α : Type} (p : α → Bool) (xs : List α) :
    (xs.dropWhile p).length ≤ xs.length :=
  (List.dropWhile_sublist p).length_le


theorem linkToks_cons_append (l : Link) (r : List Link) (rest : List Token) :
    linkToks (l :: r) ++ rest = l.tok :: (l.seg ++ (linkToks r ++ rest)) := by
  simp [linkToks, List.append_assoc]

/-- What follows an operand inside a chain, or at its end, is an operator or
a token that ends the chain. -/
theorem after_operand (links : List Link) (rest : List Token)
    (hl : ∀ l ∈ links, (binLevel l.tok.type).isSome = true)
    (hrest : closesChain (peekTok rest 0).type = true) :
    ((binLevel (peekTok (linkToks links ++ rest) 0).type).isSome
      || closesChain (peekTok (linkToks links ++ rest) 0).type) = true := by
  cases links with
  | nil => simp [linkToks, hrest]
  | cons l r =>
    rw [linkToks_cons_append]
    have h1 : peekTok (l.tok :: (l.seg ++ (linkToks r ++ rest))) 0 = l.tok := rfl
    rw [h1, hl l (List.mem_cons_self _ _)]
    rfl

/-- The loop of a level: with the left operand read, it takes the links of
its own level one after the other, each time with all that the next level
reads after the operator as the right operand. -/
theorem level_loop (k : Nat) (B : Nat → Nat) (S : Nat → List Token → PRes Expr)
    (L : Nat → Expr → List Token → PRes Expr)
    (hmono : ∀ m n, m ≤ n → B m ≤ B n)
    (hS : ParsesFrom (k + 1) B S)
    (hL : ∀ f l ts, L (f + 1) l ts
      = if binLevel (peekTok ts 0).type = some k then
          (S f (ts.drop 1)).bind (fun r ts1 => L f (.BinExpr (opText (peekTok ts 0)) l r) ts1)
        else .ok l ts)
    (b : Nat) (rest : List Token) (hrest : closesChain (peekTok rest 0).type = true) :
    ∀ (n : Nat) (links : List Link) (tl : ChainTree) (fuel : Nat),
      links.length ≤ n →
      (∀ l ∈ links, Operand b l.seg l.e ∧ (binLevel l.tok.type).isSome = true) →
      (∀ l, links.head? = some l → l.level ≤ k) →
      tl.ladder = true →
      (∀ m ∈ tl.levels, k ≤ m) →
      b + B links.length + links.length + 1 ≤ fuel →
      ∃ t : ChainTree,
        L fuel tl.toExpr (linkToks links ++ rest)
          = .ok t.toExpr (linkToks (links.dropWhile (fun l => decide (k ≤ l.level))) ++ rest)
        ∧ t.first = tl.first
        ∧ t.links = tl.links ++ (links.takeWhile (fun l => decide (k ≤ l.level))).map
            (fun l => (l.level, opText l.tok, l.e))
        ∧ t.ladder = true
        ∧ ∀ m ∈ t.levels, k ≤ m := by
  intro n
  induction n with
  | zero =>
    intro links tl fuel hn _ _ hlad hlev hfuel
    have hnil : links = [] := List.length_eq_zero.mp (Nat.le_zero.mp hn)
    subst hnil
    obtain ⟨f, rfl⟩ : ∃ f, fuel = f + 1 := ⟨fuel - 1, by omega⟩
    refine ⟨tl, ?_, rfl, by simp, hlad, hlev⟩
    rw [hL]
    simp [linkToks, closesChain_binLevel _ hrest]
  | succ n ih =>
    intro links tl fuel hn hops hhead hlad hlev hfuel
    obtain ⟨f, rfl⟩ : ∃ f, fuel = f + 1 := ⟨fuel - 1, by omega⟩
    cases links with
    | nil =>
      refine ⟨tl, ?_, rfl, by simp, hlad, hlev⟩
      rw [hL]
      simp [linkToks, closesChain_binLevel _ hrest]
    | cons l r =>
      have hpk : peekTok (linkToks (l :: r) ++ rest) 0 = l.tok := by
        rw [linkToks_cons_append]; rfl
      have hdr : (linkToks (l :: r) ++ rest).drop 1 = l.seg ++ (linkToks r ++ rest) := by
        rw [linkToks_cons_append]; rfl
      have hlk : l.level ≤ k := hhead l rfl
      obtain ⟨hopl, hsome⟩ := hops l (List.mem_cons_self _ _)
      rw [hL, hpk, hdr]
      by_cases hk : binLevel l.tok.type = some k
      · have hlevel : l.level = k := by simp [Link.level, hk]
        rw [if_pos hk]
        have hr : ∀ x ∈ r, Operand b x.seg x.e ∧ (binLevel x.tok.type).isSome = true :=
          fun x hx => hops x (List.mem_cons_of_mem _ hx)
        have hm1 := hmono r.length (r.length + 1) (by omega)
        simp only [List.length_cons] at hfuel hn
        obtain ⟨t1, h1, hfirst1, hlinks1, hlad1, hlev1⟩ :=
          hS b l.seg l.e r rest f hopl hr hrest (by omega)
        rw [h1, PRes.bind]
        have hlen := length_dropWhile (fun x : Link => decide (k + 1 ≤ x.level)) r
        have hm2 := hmono _ _ hlen
        obtain ⟨t, h2, hfirst2, hlinks2, hlad2, hlev2⟩ :=
          ih (r.dropWhile (fun x => decide (k + 1 ≤ x.level)))
            (.node k (opText l.tok) tl t1) f (by omega)
            (fun x hx => hr x (mem_dropWhile _ _ _ hx))
            (fun x hx => by
              have := head_dropWhile _ _ _ hx
              simp at this
              omega)
            (by
              simp only [ChainTree.ladder, hlad, hlad1, Bool.and_self, Bool.true_and,
                Bool.and_eq_true, List.all_eq_true, decide_eq_true_eq]
              exact ⟨hlev, fun m hm => hlev1 m hm⟩)
            (by
              intro m hm
              simp only [ChainTree.levels, List.mem_append, List.mem_cons] at hm
              rcases hm with hm | hm | hm
              · exact hlev m hm
              · omega
              · have := hlev1 m hm
                omega)
            (by omega)
        have hsplit := takeWhile_split (fun x : Link => decide (k ≤ x.level))
          (fun x : Link => decide (k + 1 ≤ x.level))
          (fun x hx => by simp at hx ⊢; omega) r
        refine ⟨t, ?_, ?_, ?_, hlad2, hlev2⟩
        · simp only [ChainTree.toExpr] at h2
          rw [h2]
          simp only [List.dropWhile, hlevel, le_refl, decide_True]
          rw [hsplit.2]
        · rw [hfirst2]; rfl
        · rw [hlinks2]
          simp only [ChainTree.links, List.takeWhile, hlevel, le_refl, decide_True, List.map_cons,
            List.append_assoc, List.cons_append, hlinks1, hfirst1]
          rw [hsplit.1, List.map_append]
      · rw [if_neg hk]
        have hlt : ¬ k ≤ l.level := by
          intro hge
          have heq : l.level = k := by omega
          apply hk
          cases hb : binLevel l.tok.type with
          | none => rw [hb] at hsome; simp at hsome
          | some m =>
            simp [Link.level, hb] at heq
            rw [heq]
        refine ⟨tl, ?_, rfl, ?_, hlad, hlev⟩
        · simp [List.dropWhile, hlt]
        · simp [List.takeWhile, hlt]

/-- A step of the ladder: a parser function made of the next level and of
the loop of its own level reads chains from its own level on. -/
theorem level_step (k : Nat) (B : Nat → Nat) (S P : Nat → List Token → PRes Expr)
    (L : Nat → Expr → List Token → PRes Expr)
    (hmono : ∀ m n, m ≤ n → B m ≤ B n)
    (hS : ParsesFrom (k + 1) B S)
    (hP : ∀ f ts, P (f + 1) ts = (S f ts).bind (fun l ts1 => L f l ts1))
    (hL : ∀ f l ts, L (f + 1) l ts
      = if binLevel (peekTok ts 0).type = some k then
          (S f (ts.drop 1)).bind (fun r ts1 => L f (.BinExpr (opText (peekTok ts 0)) l r) ts1)
        else .ok l ts) :
    ParsesFrom k (fun n => B n + n + 2) P := by
  intro b seg e links rest fuel hop hops hrest hfuel
  have hfuel : b + (B links.length + links.length + 2) ≤ fuel := hfuel
  obtain ⟨f, rfl⟩ : ∃ f, fuel = f + 1 := ⟨fuel - 1, by omega⟩
  obtain ⟨t0, h0, hfirst0, hlinks0, hlad0, hlev0⟩ :=
    hS b seg e links rest f hop hops hrest (by omega)
  have hlen := length_dropWhile (fun x : Link => decide (k + 1 ≤ x.level)) links
  have hm := hmono _ _ hlen
  obtain ⟨t, h1, hfirst1, hlinks1, hlad1, hlev1⟩ :=
    level_loop k B S L hmono hS hL b rest hrest _
      (links.dropWhile (fun x => decide (k + 1 ≤ x.level))) t0 f (le_refl _)
      (fun x hx => hops x (mem_dropWhile _ _ _ hx))
      (fun x hx => by
        have := head_dropWhile _ _ _ hx
        simp at this
        omega)
      hlad0 (fun m hm => by have := hlev0 m hm; omega) (by omega)
  have hsplit := takeWhile_split (fun x : Link => decide (k ≤ x.level))
    (fun x : Link => decide (k + 1 ≤ x.level))
    (fun x hx => by simp at hx ⊢; omega) links
  refine ⟨t, ?_, by rw [hfirst1, hfirst0], ?_, hlad1, hlev1⟩
  · rw [hP, h0, PRes.bind, h1, hsplit.2]
  · rw [hlinks1, hlinks0, hsplit.1, List.map_append]

/-- The foot of the ladder: `parseUnary` reads the first operand of a chain
and no link. -/
theorem parseUnary_level : ParsesFrom 6 (fun _ => 0) parseUnary := by
  intro b seg e links rest fuel hop hops hrest hfuel
  have hfuel : b + 0 ≤ fuel := hfuel
  have hnone : ∀ xs : List Link, xs.dropWhile (fun l => decide (6 ≤ l.level)) = xs
      ∧ xs.takeWhile (fun l => decide (6 ≤ l.level)) = [] := by
    intro xs
    cases xs with
    | nil => simp
    | cons x r =>
      have := x.level_le
      have hx : ¬ 6 ≤ x.level := by omega
      simp [List.dropWhile, List.takeWhile, hx]
  refine ⟨.leaf e, ?_, rfl, ?_, rfl, by simp [ChainTree.levels]⟩
  · rw [(hnone links).1]
    exact hop fuel _ (by omega) (after_operand links rest (fun l hl => (hops l hl).2) hrest)
  · rw [(hnone links).2]
    rfl

theorem parseMulDivLoop_level (f : Nat) (l : Expr) (ts : List Token) :
    parseMulDivLoop (f + 1) l ts
      = if binLevel (peekTok ts 0).type = some 5 then
          (parseUnary f (ts.drop 1)).bind (fun r ts1 =>
            parseMulDivLoop f (.BinExpr (opText (peekTok ts 0)) l r) ts1)
        else .ok l ts := by
  rw [parseMulDivLoop]
  cases h : (peekTok ts 0).type <;> simp [check, h, binLevel, opText]

theorem parseAddSubLoop_level (f : Nat) (l : Expr) (ts : List Token) :
    parseAddSubLoop (f + 1) l ts
      = if binLevel (peekTok ts 0).type = some 4 then
          (parseMulDiv f (ts.drop 1)).bind (fun r ts1 =>
            parseAddSubLoop f (.BinExpr (opText (peekTok ts 0)) l r) ts1)
        else .ok l ts := by
  rw [parseAddSubLoop]
  cases h : (peekTok ts 0).type <;> simp [check, h, binLevel, opText]

theorem parseComparisonLoop_level (f : Nat) (l : Expr) (ts : List Token) :
    parseComparisonLoop (f + 1) l ts
      = if binLevel (peekTok ts 0).type = some 3 then
          (parseAddSub f (ts.drop 1)).bind (fun r ts1 =>
            parseComparisonLoop f (.BinExpr (opText (peekTok ts 0)) l r) ts1)
        else .ok l ts := by
  rw [parseComparisonLoop]
  cases h : (peekTok ts 0).type <;> simp [check, h, binLevel, opText]

theorem parseEqualityLoop_level (f : Nat) (l : Expr) (ts : List Token) :
    parseEqualityLoop (f + 1) l ts
      = if binLevel (peekTok ts 0).type = some 2 then
          (parseComparison f (ts.drop 1)).bind (fun r ts1 =>
            parseEqualityLoop f (.BinExpr (opText (peekTok ts 0)) l r) ts1)
        else .ok l ts := by
  rw [parseEqualityLoop]
  cases h : (peekTok ts 0).type <;> simp [check, h, binLevel, opText]

theorem parseAndLoop_level (f : Nat) (l : Expr) (ts : List Token) :
    parseAndLoop (f + 1) l ts
      = if binLevel (peekTok ts 0).type = some 1 then
          (parseEquality f (ts.drop 1)).bind (fun r ts1 =>
            parseAndLoop f (.BinExpr (opText (peekTok ts 0)) l r) ts1)
        else .ok l ts := by
  rw [parseAndLoop]
  cases h : (peekTok ts 0).type <;> simp [check, h, binLevel, opText]

theorem parseOrLoop_level (f : Nat) (l : Expr) (ts : List Token) :
    parseOrLoop (f + 1) l ts
      = if binLevel (peekTok ts 0).type = some 0 then
          (parseAnd f (ts.drop 1)).bind (fun r ts1 =>
            parseOrLoop f (.BinExpr (opText (peekTok ts 0)) l r) ts1)
        else .ok l ts := by
  rw [parseOrLoop]
  cases h : (peekTok ts 0).type <;> simp [check, h, binLevel, opText]

theorem parseMulDiv_level : ParsesFrom 5 (fun n => n + 2) parseMulDiv := by
  have h := level_step 5 (fun _ => 0) parseUnary parseMulDiv parseMulDivLoop
    (fun _ _ _ => le_refl _) parseUnary_level (fun f ts => by rw [parseMulDiv])
    parseMulDivLoop_level
  simpa using h

theorem parseAddSub_level : ParsesFrom 4 (fun n => 2 * n + 4) parseAddSub := by
  have h := level_step 4 (fun n => n + 2) parseMulDiv parseAddSub parseAddSubLoop
    (fun _ _ _ => by dsimp only; omega) parseMulDiv_level (fun f ts => by rw [parseAddSub])
    parseAddSubLoop_level
  have e : (fun n => n + 2 + n + 2) = (fun n => 2 * n + 4) := by funext n; omega
  rwa [e] at h

theorem parseComparison_level : ParsesFrom 3 (fun n => 3 * n + 6) parseComparison := by
  have h := level_step 3 (fun n => 2 * n + 4) parseAddSub parseComparison parseComparisonLoop
    (fun _ _ _ => by dsimp only; omega) parseAddSub_level (fun f ts => by rw [parseComparison])
    parseComparisonLoop_level
  have e : (fun n => 2 * n + 4 + n + 2) = (fun n => 3 * n + 6) := by funext n; omega
  rwa [e] at h

theorem parseEquality_level : ParsesFrom 2 (fun n => 4 * n + 8) parseEquality := by
  have h := level_step 2 (fun n => 3 * n + 6) parseComparison parseEquality parseEqualityLoop
    (fun _ _ _ => by dsimp only; omega) parseComparison_level (fun f ts => by rw [parseEquality])
    parseEqualityLoop_level
  have e : (fun n => 3 * n + 6 + n + 2) = (fun n => 4 * n + 8) := by funext n; omega
  rwa [e] at h

theorem parseAnd_level : ParsesFrom 1 (fun n => 5 * n + 10) parseAnd := by
  have h := level_step 1 (fun n => 4 * n + 8) parseEquality parseAnd parseAndLoop
    (fun _ _ _ => by dsimp only; omega) parseEquality_level (fun f ts => by rw [parseAnd])
    parseAndLoop_level
  have e : (fun n => 4 * n + 8 + n + 2) = (fun n => 5 * n + 10) := by funext n; omega
  rwa [e] at h

theorem parseOr_level : ParsesFrom 0 (fun n => 6 * n + 12) parseOr := by
  have h := level_step 0 (fun n => 5 * n + 10) parseAnd parseOr parseOrLoop
    (fun _ _ _ => by dsimp only; omega) parseAnd_level (fun f ts => by rw [parseOr])
    parseOrLoop_level
  have e : (fun n => 5 * n + 10 + n + 2) = (fun n => 6 * n + 12) := by funext n; omega
  rwa [e] at h

/-- What follows an operand is none of the tokens that would make the
operand longer. -/
theorem after_operand_not (t : TT) (h : ((binLevel t).isSome || closesChain t) = true) :
    t ≠ .OF ∧ t ≠ .DOT ∧ t ≠ .LBRACKET ∧ t ≠ .LPAREN := by
  revert h
  cases t <;> decide

/-- The token after the first of a list that goes on with an operator or
with the end of a chain is not `of`. -/
theorem second_not_of (t : Token) (rest : List Token) (ht : t.type ≠ .OF)
    (h : ((binLevel (peekTok rest 0).type).isSome || closesChain (peekTok rest 0).type) = true) :
    (peekTok (t :: rest) 1).type ≠ .OF := by
  cases rest with
  | nil => exact ht
  | cons r rs => exact (after_operand_not _ h).1

/-- The loop of `parsePostfix` ends before an operator and before the end of
a chain. -/
theorem parsePostfixLoop_stops (f : Nat) (e : Expr) (rest : List Token)
    (h : ((binLevel (peekTok rest 0).type).isSome || closesChain (peekTok rest 0).type) = true) :
    parsePostfixLoop (f + 1) e rest = .ok e rest := by
  obtain ⟨_, h1, h2, h3⟩ := after_operand_not _ h
  rw [parsePostfixLoop]
  simp [check, h1, h2, h3]

/-- A name is an operand. -/
theorem operand_ident (t : Token) (ht : t.type = .IDENT) : Operand 3 [t] (.VarExpr t.val) := by
  intro fuel rest hf h
  obtain ⟨f, rfl⟩ : ∃ f, fuel = f + 3 := ⟨fuel - 3, by omega⟩
  have h0 : peekTok (t :: rest) 0 = t := rfl
  have h1 : (peekTok (t :: rest) 1).type ≠ .OF := second_not_of t rest (by rw [ht]; decide) h
  have hd : (t :: rest).drop 1 = rest := rfl
  rw [List.singleton_append, parseUnary]
  simp only [check, h0, ht]
  rw [if_neg (by decide), if_neg (by decide), parsePostfix, parsePrimary]
  simp [check, h0, ht, h1, hd, PRes.bind, parsePostfixLoop_stops f _ rest h]

/-- A number is an operand. -/
theorem operand_number (t : Token) (q : ℚ) (ht : t.type = .NUMBER) (hq : stod t.val = some q) :
    Operand 3 [t] (.NumberLit q) := by
  intro fuel rest hf h
  obtain ⟨f, rfl⟩ : ∃ f, fuel = f + 3 := ⟨fuel - 3, by omega⟩
  have h0 : peekTok (t :: rest) 0 = t := rfl
  have hd : (t :: rest).drop 1 = rest := rfl
  rw [List.singleton_append, parseUnary]
  simp only [check, h0, ht]
  rw [if_neg (by decide), if_neg (by decide), parsePostfix, parsePrimary]
  simp [check, h0, ht, hq, hd, PRes.bind, parsePostfixLoop_stops f _ rest h]

/-- A name after `-` is an operand. -/
theorem operand_neg_ident (m t : Token) (hm : m.type = .MINUS) (ht : t.type = .IDENT) :
    Operand 3 [m, t] (.UnaryExpr "-".toList (.VarExpr t.val)) := by
  intro fuel rest hf h
  obtain ⟨f, rfl⟩ : ∃ f, fuel = f + 3 := ⟨fuel - 3, by omega⟩
  have hm0 : peekTok (m :: t :: rest) 0 = m := rfl
  have hmd : (m :: t :: rest).drop 1 = t :: rest := rfl
  have h0 : peekTok (t :: rest) 0 = t := rfl
  have h1 : (peekTok (t :: rest) 1).type ≠ .OF := second_not_of t rest (by rw [ht]; decide) h
  have hd : (t :: rest).drop 1 = rest := rfl
  rw [List.cons_append, List.singleton_append, parseUnary]
  simp only [check, hm0, hm, hmd]
  rw [if_pos (by decide), parsePostfix, parsePrimary]
  simp [check, h0, ht, h1, hd, PRes.bind, parsePostfixLoop_stops f _ rest h]

/-- The levels of a tree are those of its links. -/
theorem ChainTree.levels_links (t : ChainTree) : t.levels = t.links.map Prod.fst := by
  induction t with
  | leaf e => rfl
  | node lv op l r ihl ihr => simp [ChainTree.levels, ChainTree.links, ihl, ihr]

theorem ChainTree.ladder_node (lv : Nat) (op : Str) (l r : ChainTree) :
    (ChainTree.node lv op l r).ladder = true
      ↔ l.ladder = true ∧ r.ladder = true ∧ (∀ m ∈ l.levels, lv ≤ m) ∧ ∀ m ∈ r.levels, lv < m := by
  simp [ChainTree.ladder, and_assoc]

/-- A chain has one grouping by the ladder at most: the ladder, the first
operand and the links determine the tree. -/
theorem ladder_unique (t1 : ChainTree) :
    ∀ t2 : ChainTree, t1.ladder = true → t2.ladder = true → t1.first = t2.first →
      t1.links = t2.links → t1 = t2 := by
  induction t1 with
  | leaf e =>
    intro t2 _ _ hf hl
    cases t2 with
    | leaf e2 => simp only [ChainTree.first] at hf; rw [hf]
    | node lv2 op2 l2 r2 => simp [ChainTree.links] at hl
  | node lv op l r ihl ihr =>
    intro t2 h1 h2 hf hl
    cases t2 with
    | leaf e2 => simp [ChainTree.links] at hl
    | node lv2 op2 l2 r2 =>
      rw [ChainTree.ladder_node] at h1 h2
      obtain ⟨hl1, hr1, hle1, hlt1⟩ := h1
      obtain ⟨hl2, hr2, hle2, hlt2⟩ := h2
      rw [ChainTree.levels_links] at hle1 hlt1 hle2 hlt2
      simp only [ChainTree.links] at hl
      simp only [ChainTree.first] at hf
      have key : l.links = l2.links ∧ (lv, op, r.first) :: r.links = (lv2, op2, r2.first) :: r2.links := by
        rcases List.append_eq_append_iff.mp hl with ⟨a, ha, hb⟩ | ⟨c, hc, hd⟩
        · cases a with
          | nil =>
            simp only [List.append_nil, List.nil_append] at ha hb
            exact ⟨ha.symm, hb⟩
          | cons y a =>
            simp only [List.cons_append, List.cons.injEq] at hb
            obtain ⟨hy, hb⟩ := hb
            have m1 : lv2 ≤ lv := hle2 lv (by
              rw [ha, ← hy]
              exact List.mem_map.mpr ⟨_, List.mem_append_right _ (List.mem_cons_self _ _), rfl⟩)
            have m2 : lv < lv2 := hlt1 lv2 (by
              rw [hb]
              exact List.mem_map.mpr ⟨_, List.mem_append_right _ (List.mem_cons_self _ _), rfl⟩)
            omega
        · cases c with
          | nil =>
            simp only [List.append_nil, List.nil_append] at hc hd
            exact ⟨hc, hd.symm⟩
          | cons y c =>
            simp only [List.cons_append, List.cons.injEq] at hd
            obtain ⟨hy, hd⟩ := hd
            have m1 : lv ≤ lv2 := hle1 lv2 (by
              rw [hc, ← hy]
              exact List.mem_map.mpr ⟨_, List.mem_append_right _ (List.mem_cons_self _ _), rfl⟩)
            have m2 : lv2 < lv := hlt2 lv (by
              rw [hd]
              exact List.mem_map.mpr ⟨_, List.mem_append_right _ (List.mem_cons_self _ _), rfl⟩)
            omega
      obtain ⟨k1, k2⟩ := key
      simp only [List.cons.injEq, Prod.mk.injEq] at k2
      obtain ⟨⟨e1, e2, e3⟩, e4⟩ := k2
      rw [ihl l2 hl1 hl2 hf k1, ihr r2 hr1 hr2 e3 e4, e1, e2]

/-- A chain is read as its grouping by the ladder: `parseExpr` reads the
whole chain, as the expression of a tree that has the operands and the
operators of the chain in their order and that keeps the ladder. -/
theorem chain_by_ladder (b : Nat) (seg : List Token) (e : Expr) (links : List Link)
    (rest : List Token) (fuel : Nat)
    (hop : Operand b seg e)
    (hops : ∀ l ∈ links, Operand b l.seg l.e ∧ (binLevel l.tok.type).isSome = true)
    (hrest : closesChain (peekTok rest 0).type = true)
    (hfuel : b + 6 * links.length + 13 ≤ fuel) :
    ∃ t : ChainTree,
      parseExpr fuel (seg ++ (linkToks links ++ rest)) = .ok t.toExpr rest
      ∧ t.first = e
      ∧ t.links = links.map (fun l => (l.level, opText l.tok, l.e))
      ∧ t.ladder = true := by
  obtain ⟨f, rfl⟩ : ∃ f, fuel = f + 1 := ⟨fuel - 1, by omega⟩
  obtain ⟨t, h1, h2, h3, h4, _⟩ :=
    parseOr_level b seg e links rest f hop hops hrest (by dsimp only; omega)
  have hall : ∀ xs : List Link, xs.dropWhile (fun l => decide (0 ≤ l.level)) = []
      ∧ xs.takeWhile (fun l => decide (0 ≤ l.level)) = xs := by
    intro xs
    induction xs with
    | nil => simp
    | cons x r ih => simp [List.dropWhile, List.takeWhile, ih.1, ih.2]
  rw [(hall links).1] at h1
  rw [(hall links).2] at h3
  exact ⟨t, by rw [parseExpr, h1]; rfl, h2, h3, h4⟩


/-- A string literal is an operand. -/
theorem operand_string (t : Token) (ht : t.type = .STRING) : Operand 3 [t] (.StringLit t.val) := by
  intro fuel rest hf h
  obtain ⟨f, rfl⟩ : ∃ f, fuel = f + 3 := ⟨fuel - 3, by omega⟩
  have h0 : peekTok (t :: rest) 0 = t := rfl
  have hd : (t :: rest).drop 1 = rest := rfl
  rw [List.singleton_append, parseUnary]
  simp only [check, h0, ht]
  rw [if_neg (by decide), if_neg (by decide), parsePostfix, parsePrimary]
  simp [check, h0, ht, hd, PRes.bind, parsePostfixLoop_stops f _ rest h]

/-- A chain in parentheses is an operand again, and it stands for the
grouping of the chain by the ladder. -/
theorem operand_paren (b : Nat) (lp rp : Token) (seg : List Token) (e : Expr)
    (links : List Link) (t : ChainTree)
    (hlp : lp.type = .LPAREN) (hrp : rp.type = .RPAREN)
    (hop : Operand b seg e)
    (hops : ∀ l ∈ links, Operand b l.seg l.e ∧ (binLevel l.tok.type).isSome = true)
    (h2 : t.first = e)
    (h3 : t.links = links.map (fun l => (l.level, opText l.tok, l.e)))
    (h4 : t.ladder = true) :
    Operand (b + 6 * links.length + 16) (lp :: (seg ++ (linkToks links ++ [rp]))) t.toExpr := by
  intro fuel rest hf h
  obtain ⟨f, rfl⟩ : ∃ f, fuel = f + 3 := ⟨fuel - 3, by omega⟩
  have hshape : (lp :: (seg ++ (linkToks links ++ [rp]))) ++ rest
      = lp :: (seg ++ (linkToks links ++ (rp :: rest))) := by
    simp [List.append_assoc]
  have h0 : peekTok (lp :: (seg ++ (linkToks links ++ (rp :: rest)))) 0 = lp := rfl
  have hd : (lp :: (seg ++ (linkToks links ++ (rp :: rest)))).drop 1
      = seg ++ (linkToks links ++ (rp :: rest)) := rfl
  have hrest : closesChain (peekTok (rp :: rest) 0).type = true := by
    have : peekTok (rp :: rest) 0 = rp := rfl
    rw [this, hrp]
    rfl
  obtain ⟨t1, g1, g2, g3, g4⟩ :=
    chain_by_ladder b seg e links (rp :: rest) f hop hops hrest (by omega)
  have ht : t1 = t := ladder_unique t1 t g4 h4 (g2.trans h2.symm) (g3.trans h3.symm)
  rw [ht] at g1
  have hexp : expect (rp :: rest) .RPAREN "Expected ')'".toList = .ok rp rest := by
    have : peekTok (rp :: rest) 0 = rp := rfl
    simp [expect, check, this, hrp]
  simp only [String.toList] at hexp
  rw [hshape, parseUnary]
  simp only [check, h0, hlp]
  rw [if_neg (by decide), if_neg (by decide), parsePostfix, parsePrimary]
  simp [check, h0, hlp, hd, g1, PRes.bind, hexp, parsePostfixLoop_stops f _ rest h]

end Ironwood

namespace Ironwood

/-! ## The precedence ladder: the claim -/

set_option maxRecDepth 1000000 in
set_option maxHeartbeats 4000000 in
/-- C28, against the claim as it stands: a keyword form whose last argument
is parsed at the level of `or` or at the additive level takes the operators
that follow it into that argument, so an operator of a lower level comes to
stand inside an operand of an operator of a higher level, without a
parenthesis.  `say 2 * if true then 1 else 2 + 3` is parsed as the product of
2 and of the conditional whose last branch is `2 + 3`, and prints 2, for every
placement and fuel, where the grouping `(2 * if true then 1 else 2) + 3` prints
5; `10 * index of "b" in "a" + "b"` is parsed as the product of 10 and of
`index of "b" in ("a" + "b")`. -/
theorem keyword_operand_takes_lower_operators :
    (∃ rest, parseSource "say 2 * if true then 1 else 2 + 3\n".toList
      = .ok
        [.SayStmt (.BinExpr "*".toList (.NumberLit 2) (.TernaryExpr (.BoolLit true) (.NumberLit 1)
          (.BinExpr "+".toList (.NumberLit 2) (.NumberLit 3))))] rest)
    ∧ (∀ (pl : Placement) (fuel : Nat),
        main pl (fuel + 20) "say 2 * if true then 1 else 2 + 3\n".toList [] = .code 0 ["2".toList] [])
    ∧ (∀ (pl : Placement) (fuel : Nat),
        main pl (fuel + 20) "say (2 * if true then 1 else 2) + 3\n".toList [] = .code 0 ["5".toList] [])
    ∧ (∃ rest, parseSource "say 10 * index of \"b\" in \"a\" + \"b\"\n".toList
      = .ok
        [.SayStmt (.BinExpr "*".toList (.NumberLit 10)
          (.IndexOfExpr (.StringLit "b".toList)
            (.BinExpr "+".toList (.StringLit "a".toList) (.StringLit "b".toList))))] rest) := by
  refine ⟨⟨_, rfl⟩, fun pl fuel => ?_, fun pl fuel => ?_, ⟨_, rfl⟩⟩
  · have hp : ∃ rest, parseSource
        "say 2 * if true then 1 else 2 + 3\n".toList
      = .ok
        [.SayStmt (.BinExpr "*".toList (.NumberLit 2) (.TernaryExpr (.BoolLit true) (.NumberLit 1)
              (.BinExpr "+".toList (.NumberLit 2) (.NumberLit 3))))] rest := ⟨_, rfl⟩
    obtain ⟨rest, hp⟩ := hp
    have hm : (2 : ℚ) * 1 = 2 := by norm_num
    unfold main
    rw [hp]
    simp only [↓reduceIte, lbrace, rbrace, Nat.reduceLeDiff, Nat.reduceLT, Nat.reduceEqDiff, Nat.reduceSub, Int.reduceLT,
        Int.reduceLE, Int.reduceToNat, Nat.cast_ofNat, List.length_set, Nat.cast_add, Nat.cast_one, run,
        execBlock, execStmt, evalExpr, evalList, evalPairs, initFields, keepLoop,
        mapLoop, callValue, callMethod, assignLvalue, Res.bind, State.register, classFields,
        classMethods, objSet_nil, registerGlobals, mathObject, State.define, State.get, State.assign,
        envGet, envOwner, interpolate, bindParams, State.alloc, State.newEnv, State.read, State.write, envReach, Res.release, State.release, List.contains_cons,
        List.contains_nil, List.erase_cons_head, beq_self_eq_true, Nat.reduceBEq, Bool.true_or,
        Bool.or_true, Bool.false_or, Bool.or_false, Bool.and_true, Bool.true_and, Bool.and_self,
        Bool.or_self, storeMember,
        storeIndex, State.store, memberOfObject, machineBinOp, liftOutcome, binOp, builtinCall,
        render, reify, mapOpt, Val.ofScalar, Val.isTruthy, objFind_objSet, objFind, Host.std,
        classKey, ne_eq, not_false_eq_true, not_true_eq_false, List.cons_append, List.nil_append,
        Nat.reduceAdd, zero_add, List.set_cons_zero, String.toList, List.cons.injEq, Char.reduceEq,
        and_false, and_true, and_self, if_true, if_false, reduceCtorEq, List.length_cons,
        List.length_nil, List.getElem?_cons_zero, List.length_append, List.getElem?_cons_succ,
        List.set_cons_succ, Option.map_some', IronValue.toString, hm]
    rfl
  · have hp : ∃ rest, parseSource
        "say (2 * if true then 1 else 2) + 3\n".toList
      = .ok
        [.SayStmt (.BinExpr "+".toList (.BinExpr "*".toList (.NumberLit 2) (.TernaryExpr (.BoolLit true) (.NumberLit 1) (.NumberLit 2))) (.NumberLit 3))] rest := ⟨_, rfl⟩
    obtain ⟨rest, hp⟩ := hp
    have hm : (2 : ℚ) * 1 = 2 := by norm_num
    have ha : (2 : ℚ) + 3 = 5 := by norm_num
    unfold main
    rw [hp]
    simp only [↓reduceIte, lbrace, rbrace, Nat.reduceLeDiff, Nat.reduceLT, Nat.reduceEqDiff, Nat.reduceSub, Int.reduceLT,
        Int.reduceLE, Int.reduceToNat, Nat.cast_ofNat, List.length_set, Nat.cast_add, Nat.cast_one, run,
        execBlock, execStmt, evalExpr, evalList, evalPairs, initFields, keepLoop,
        mapLoop, callValue, callMethod, assignLvalue, Res.bind, State.register, classFields,
        classMethods, objSet_nil, registerGlobals, mathObject, State.define, State.get, State.assign,
        envGet, envOwner, interpolate, bindParams, State.alloc, State.newEnv, State.read, State.write, envReach, Res.release, State.release, List.contains_cons,
        List.contains_nil, List.erase_cons_head, beq_self_eq_true, Nat.reduceBEq, Bool.true_or,
        Bool.or_true, Bool.false_or, Bool.or_false, Bool.and_true, Bool.true_and, Bool.and_self,
        Bool.or_self, storeMember,
        storeIndex, State.store, memberOfObject, machineBinOp, liftOutcome, binOp, builtinCall,
        render, reify, mapOpt, Val.ofScalar, Val.isTruthy, objFind_objSet, objFind, Host.std,
        classKey, ne_eq, not_false_eq_true, not_true_eq_false, List.cons_append, List.nil_append,
        Nat.reduceAdd, zero_add, List.set_cons_zero, String.toList, List.cons.injEq, Char.reduceEq,
        and_false, and_true, and_self, if_true, if_false, reduceCtorEq, List.length_cons,
        List.length_nil, List.getElem?_cons_zero, List.length_append, List.getElem?_cons_succ,
        List.set_cons_succ, Option.map_some', IronValue.toString, hm, ha]
    rfl

set_option maxRecDepth 1000000 in
set_option maxHeartbeats 4000000 in
/-- C28, as amended: take a chain of binary operators whose operands are
operands in the sense of `Operand` (`parseUnary` reads each of them whole,
whatever operator follows: so are names, numbers and string literals, a name
after `-`, and a chain in parentheses), followed by a token that ends the
chain.  With enough fuel `parseExpr` reads the whole
chain and returns the expression of a tree that has the operands and the
operators of the chain in their order and keeps the ladder (`or` below `and`
below `== !=` below `< > <= >=` below `+ -` below `* / %`): inside the left
operand of an operator no operator has a lower level, inside its right operand
every operator has a higher level, so operators of one level group to the
left; and that tree is the only one.  `parseUnary` applies `-` and `not` to
what `parsePostfix` reads after them, and is `parsePostfix` on every other
token; so `not a == b` is `(not a) == b`, `-a.b * 2` is `(-(a.b)) * 2`, and
`- - a` is rejected.  `a or b and c == d < e + f * g` and `a - b - c` are
parsed as the claim has them. -/
theorem chain_groups_by_ladder (b : Nat) (seg : List Token) (e : Expr) (links : List Link)
    (rest : List Token) (fuel : Nat)
    (hop : Operand b seg e)
    (hops : ∀ l ∈ links, Operand b l.seg l.e ∧ (binLevel l.tok.type).isSome = true)
    (hrest : closesChain (peekTok rest 0).type = true)
    (hfuel : b + 6 * links.length + 13 ≤ fuel) :
    (∃ t : ChainTree,
        parseExpr fuel (seg ++ (linkToks links ++ rest)) = .ok t.toExpr rest
        ∧ t.first = e
        ∧ t.links = links.map (fun l => (l.level, opText l.tok, l.e))
        ∧ t.ladder = true
        ∧ ∀ t2 : ChainTree, t2.first = e → t2.links = links.map (fun l => (l.level, opText l.tok, l.e)) →
            t2.ladder = true → t2 = t)
    ∧ (∀ (t : Token), t.type = .IDENT → Operand 3 [t] (.VarExpr t.val))
    ∧ (∀ (t : Token) (q : ℚ), t.type = .NUMBER → stod t.val = some q →
        Operand 3 [t] (.NumberLit q))
    ∧ (∀ (m t : Token), m.type = .MINUS → t.type = .IDENT →
        Operand 3 [m, t] (.UnaryExpr "-".toList (.VarExpr t.val)))
    ∧ (∀ (t : Token), t.type = .STRING → Operand 3 [t] (.StringLit t.val))
    ∧ (∀ (b2 : Nat) (lp rp : Token) (seg2 : List Token) (e2 : Expr) (links2 : List Link)
        (t : ChainTree), lp.type = .LPAREN → rp.type = .RPAREN → Operand b2 seg2 e2 →
        (∀ l ∈ links2, Operand b2 l.seg l.e ∧ (binLevel l.tok.type).isSome = true) →
        t.first = e2 → t.links = links2.map (fun l => (l.level, opText l.tok, l.e)) →
        t.ladder = true →
        Operand (b2 + 6 * links2.length + 16) (lp :: (seg2 ++ (linkToks links2 ++ [rp])))
          t.toExpr)
    ∧ (∀ (f : Nat) (ts : List Token), (peekTok ts 0).type = .MINUS →
        parseUnary (f + 1) ts
          = (parsePostfix f (ts.drop 1)).bind (fun x ts1 => .ok (.UnaryExpr "-".toList x) ts1))
    ∧ (∀ (f : Nat) (ts : List Token), (peekTok ts 0).type = .NOT →
        parseUnary (f + 1) ts
          = (parsePostfix f (ts.drop 1)).bind (fun x ts1 => .ok (.UnaryExpr "not".toList x) ts1))
    ∧ (∀ (f : Nat) (ts : List Token), (peekTok ts 0).type ≠ .MINUS →
        (peekTok ts 0).type ≠ .NOT → parseUnary (f + 1) ts = parsePostfix f ts)
    ∧ (∃ r, parseSource "a or b and c == d < e + f * g\n".toList
      = .ok
        [.ExprStmt (.BinExpr "or".toList (.VarExpr "a".toList) 
          (.BinExpr "and".toList (.VarExpr "b".toList) 
            (.BinExpr "==".toList (.VarExpr "c".toList) 
              (.BinExpr "<".toList (.VarExpr "d".toList) (.BinExpr "+".toList (.VarExpr "e".toList) (.BinExpr "*".toList (.VarExpr "f".toList) (.VarExpr "g".toList)))))))] r)
    ∧ (∃ r, parseSource "a - b - c\n".toList
      = .ok
        [.ExprStmt (.BinExpr "-".toList (.BinExpr "-".toList (.VarExpr "a".toList) (.VarExpr "b".toList)) (.VarExpr "c".toList))] r)
    ∧ (∃ r, parseSource "say not a == b\n".toList
      = .ok
        [.SayStmt (.BinExpr "==".toList (.UnaryExpr "not".toList (.VarExpr "a".toList))
          (.VarExpr "b".toList))] r)
    ∧ (∃ r, parseSource "say -a.b * 2\n".toList
      = .ok
        [.SayStmt (.BinExpr "*".toList
          (.UnaryExpr "-".toList (.MemberExpr (.VarExpr "a".toList) "b".toList)) (.NumberLit 2))] r)
    ∧ parseSource "say - - a\n".toList = .err "Line 1: Unexpected token '-'".toList := by
  obtain ⟨t, h1, h2, h3, h4⟩ := chain_by_ladder b seg e links rest fuel hop hops hrest hfuel
  refine ⟨⟨t, h1, h2, h3, h4, fun t2 g2 g3 g4 => ?_⟩, operand_ident, operand_number,
    operand_neg_ident, operand_string, operand_paren, fun f ts h => ?_, fun f ts h => ?_, fun f ts hm hn => ?_,
    ⟨_, rfl⟩, ⟨_, rfl⟩, ⟨_, rfl⟩, ⟨_, rfl⟩, rfl⟩
  · exact ladder_unique t2 t g4 h4 (g2.trans h2.symm) (g3.trans h3.symm)
  · rw [parseUnary]
    simp [check, h]
  · rw [parseUnary]
    simp [check, h]
  · rw [parseUnary]
    simp [check, hm, hn]

/-- The theorem of C28 at the tokens of `a - b * c` before the end of the
line, with fuel 28: the names are operands, the chain is read as
`a - (b * c)`; the tokens are those that the lexer makes of the text, and
the chain is read so in a program. -/
theorem chain_groups_by_ladder_witness :
    Operand 3 [⟨.IDENT, "a".toList, 1⟩] (.VarExpr "a".toList)
    ∧ closesChain (peekTok [⟨.NEWLINE, "\n".toList, 2⟩, ⟨.EOF_T, [], 2⟩] 0).type = true
    ∧ parseExpr 28
        [⟨.IDENT, "a".toList, 1⟩, ⟨.MINUS, "-".toList, 1⟩, ⟨.IDENT, "b".toList, 1⟩,
          ⟨.STAR, "*".toList, 1⟩, ⟨.IDENT, "c".toList, 1⟩, ⟨.NEWLINE, "\n".toList, 2⟩, ⟨.EOF_T, [], 2⟩]
      = .ok (.BinExpr "-".toList (.VarExpr "a".toList) (.BinExpr "*".toList (.VarExpr "b".toList) (.VarExpr "c".toList)))
          [⟨.NEWLINE, "\n".toList, 2⟩, ⟨.EOF_T, [], 2⟩]
    ∧ tokenize "a - b * c\n".toList
      = some [⟨.IDENT, "a".toList, 1⟩, ⟨.MINUS, "-".toList, 1⟩, ⟨.IDENT, "b".toList, 1⟩,
          ⟨.STAR, "*".toList, 1⟩, ⟨.IDENT, "c".toList, 1⟩, ⟨.NEWLINE, "\n".toList, 2⟩, ⟨.EOF_T, [], 2⟩]
    ∧ ∃ r, parseSource "say a - b * c\n".toList = .ok [.SayStmt (.BinExpr "-".toList (.VarExpr "a".toList) (.BinExpr "*".toList (.VarExpr "b".toList) (.VarExpr "c".toList)))] r := by
  obtain ⟨t, hp, _, _, _, huniq⟩ :=
    (chain_groups_by_ladder 3 [⟨.IDENT, "a".toList, 1⟩] (.VarExpr "a".toList)
      [⟨⟨.MINUS, "-".toList, 1⟩, [⟨.IDENT, "b".toList, 1⟩], (.VarExpr "b".toList)⟩,
        ⟨⟨.STAR, "*".toList, 1⟩, [⟨.IDENT, "c".toList, 1⟩], (.VarExpr "c".toList)⟩]
      [⟨.NEWLINE, "\n".toList, 2⟩, ⟨.EOF_T, [], 2⟩] 28 (operand_ident _ rfl)
      (by
        intro l hl
        simp only [List.mem_cons, List.mem_singleton, List.not_mem_nil, or_false] at hl
        rcases hl with rfl | rfl
        · exact ⟨operand_ident _ rfl, rfl⟩
        · exact ⟨operand_ident _ rfl, rfl⟩)
      rfl (by decide)).1
  have ht := huniq
    (.node 4 "-".toList (.leaf (.VarExpr "a".toList))
      (.node 5 "*".toList (.leaf (.VarExpr "b".toList)) (.leaf (.VarExpr "c".toList)))) rfl rfl rfl
  rw [← ht] at hp
  exact ⟨operand_ident _ rfl, rfl, hp, rfl, ⟨_, rfl⟩⟩

end Ironwood

namespace Ironwood

/-! ## The lexer on every text -/

theorem length_skipComment (r : Str) : (skipComment r).length ≤ r.length :=
  (List.dropWhile_sublist _).length_le

theorem length_makeStr : ∀ (n : Nat) (r : Str), r.length ≤ n → (makeStr r).2.length ≤ r.length := by
  intro n
  induction n with
  | zero =>
    intro r h
    have : r = [] := List.length_eq_zero.mp (Nat.le_zero.mp h)
    subst this
    simp [makeStr]
  | succ n ih =>
    intro r h
    cases r with
    | nil => simp [makeStr]
    | cons c r =>
      unfold makeStr
      split
      · simp
      · split
        · cases r with
          | nil => simp
          | cons d r2 =>
            have := ih r2 (by simp at h; omega)
            simp only [List.length_cons]
            omega
        · have := ih r (by simp at h; omega)
          simp only [List.length_cons]
          omega

/-- The type of the token of a word is that of a keyword or IDENT. -/
theorem wordToken_type (s : Str) (line : Nat) :
    (wordToken s line).type ≠ .EOF_T ∧ (wordToken s line).type ≠ .NEWLINE
      ∧ (wordToken s line).type ≠ .NUMBER ∧ (wordToken s line).type ≠ .MINUS := by
  have hkw : ∀ (l : List (Str × TT)), (∀ p ∈ l, p.2 ≠ .EOF_T ∧ p.2 ≠ .NEWLINE ∧ p.2 ≠ .NUMBER
      ∧ p.2 ≠ .MINUS) →
      ∀ t, objFind l s = some t → t ≠ .EOF_T ∧ t ≠ .NEWLINE ∧ t ≠ .NUMBER ∧ t ≠ .MINUS := by
    intro l
    induction l with
    | nil => intro _ t h; simp [objFind] at h
    | cons p l ih =>
      intro hp t h
      obtain ⟨k, v⟩ := p
      simp only [objFind] at h
      split at h
      · cases h
        exact hp _ (List.mem_cons_self _ _)
      · exact ih (fun q hq => hp q (List.mem_cons_of_mem _ hq)) t h
  unfold wordToken
  cases h : objFind kw s with
  | none => simp
  | some t => exact hkw kw (by decide) t h

theorem punct_type (c : Char) (t : TT) (h : punct c = some t) :
    t ≠ .EOF_T ∧ t ≠ .NEWLINE ∧ t ≠ .NUMBER ∧ (t = .MINUS → c = '-') := by
  unfold punct at h
  by_cases h0 : c = '+'
  · rw [if_pos h0] at h
    injection h with h
    subst h
    exact ⟨by decide, by decide, by decide, fun hm => by cases hm⟩
  rw [if_neg h0] at h
  by_cases h1 : c = '-'
  · rw [if_pos h1] at h
    injection h with h
    subst h
    exact ⟨by decide, by decide, by decide, fun _ => h1⟩
  rw [if_neg h1] at h
  by_cases h2 : c = '*'
  · rw [if_pos h2] at h
    injection h with h
    subst h
    exact ⟨by decide, by decide, by decide, fun hm => by cases hm⟩
  rw [if_neg h2] at h
  by_cases h3 : c = '/'
  · rw [if_pos h3] at h
    injection h with h
    subst h
    exact ⟨by decide, by decide, by decide, fun hm => by cases hm⟩
  rw [if_neg h3] at h
  by_cases h4 : c = '%'
  · rw [if_pos h4] at h
    injection h with h
    subst h
    exact ⟨by decide, by decide, by decide, fun hm => by cases hm⟩
  rw [if_neg h4] at h
  by_cases h5 : c = '('
  · rw [if_pos h5] at h
    injection h with h
    subst h
    exact ⟨by decide, by decide, by decide, fun hm => by cases hm⟩
  rw [if_neg h5] at h
  by_cases h6 : c = ')'
  · rw [if_pos h6] at h
    injection h with h
    subst h
    exact ⟨by decide, by decide, by decide, fun hm => by cases hm⟩
  rw [if_neg h6] at h
  by_cases h7 : c = '['
  · rw [if_pos h7] at h
    injection h with h
    subst h
    exact ⟨by decide, by decide, by decide, fun hm => by cases hm⟩
  rw [if_neg h7] at h
  by_cases h8 : c = ']'
  · rw [if_pos h8] at h
    injection h with h
    subst h
    exact ⟨by decide, by decide, by decide, fun hm => by cases hm⟩
  rw [if_neg h8] at h
  by_cases h9 : c = lbrace
  · rw [if_pos h9] at h
    injection h with h
    subst h
    exact ⟨by decide, by decide, by decide, fun hm => by cases hm⟩
  rw [if_neg h9] at h
  by_cases h10 : c = rbrace
  · rw [if_pos h10] at h
    injection h with h
    subst h
    exact ⟨by decide, by decide, by decide, fun hm => by cases hm⟩
  rw [if_neg h10] at h
  by_cases h11 : c = ','
  · rw [if_pos h11] at h
    injection h with h
    subst h
    exact ⟨by decide, by decide, by decide, fun hm => by cases hm⟩
  rw [if_neg h11] at h
  by_cases h12 : c = '.'
  · rw [if_pos h12] at h
    injection h with h
    subst h
    exact ⟨by decide, by decide, by decide, fun hm => by cases hm⟩
  rw [if_neg h12] at h
  by_cases h13 : c = ':'
  · rw [if_pos h13] at h
    injection h with h
    subst h
    exact ⟨by decide, by decide, by decide, fun hm => by cases hm⟩
  rw [if_neg h13] at h
  cases h

/-- Induction over the rounds of the lexer: a property of the token list,
relative to the flag `lastNL` at the start, that holds at the end of the text
and that every kind of round keeps, holds of the tokens of every text; and
the fuel of `tokenize` is enough. -/
theorem lexLoop_property (Q : Bool → List Token → Prop)
    (hend : ∀ (lastNL : Bool) (line : Nat), Q lastNL (emitNL lastNL line ++ [⟨.EOF_T, [], line⟩]))
    (hdrop : ∀ (lastNL : Bool) (ts : List Token), Q false ts → Q lastNL ts)
    (hnl : ∀ (lastNL : Bool) (line : Nat) (ts : List Token),
      Q true ts → Q lastNL (emitNL lastNL line ++ ts))
    (htok : ∀ (lastNL : Bool) (t : Token) (ts : List Token), t.type ≠ .EOF_T →
      t.type ≠ .NEWLINE → (t.type = .NUMBER → numberLexeme t.val = true) →
      Q false ts → Q lastNL (t :: ts)) :
    ∀ (fuel : Nat) (s : Str) (lastNL : Bool) (line : Nat), s.length ≤ fuel →
      ∃ ts, lexLoop fuel s lastNL line = some ts ∧ Q lastNL ts := by
  intro fuel
  induction fuel with
  | zero =>
    intro s lastNL line h
    have : s = [] := List.length_eq_zero.mp (Nat.le_zero.mp h)
    subst this
    exact ⟨_, rfl, hend lastNL line⟩
  | succ fuel ih =>
    intro s lastNL line h
    cases s with
    | nil => exact ⟨_, by rfl, hend lastNL line⟩
    | cons c r =>
      simp only [List.length_cons] at h
      have hr : r.length ≤ fuel := by omega
      have hdw : ∀ p : Char → Bool, (r.dropWhile p).length ≤ fuel :=
        fun p => le_trans (List.dropWhile_sublist p).length_le hr
      have hd1 : (r.drop 1).length ≤ fuel := by
        rw [List.length_drop]
        omega
      have tok : ∀ (t : Token) (s2 : Str), s2.length ≤ fuel → t.type ≠ .EOF_T →
          t.type ≠ .NEWLINE → (t.type = .NUMBER → numberLexeme t.val = true) →
          ∃ ts, (lexLoop fuel s2 false line).map (fun ts => t :: ts) = some ts ∧ Q lastNL ts := by
        intro t s2 h2 e1 e2 e3
        obtain ⟨ts, h1, hq⟩ := ih s2 false line h2
        exact ⟨t :: ts, by rw [h1]; rfl, htok lastNL t ts e1 e2 e3 hq⟩
      have drop : ∀ (s2 : Str), s2.length ≤ fuel →
          ∃ ts, lexLoop fuel s2 false line = some ts ∧ Q lastNL ts := by
        intro s2 h2
        obtain ⟨ts, h1, hq⟩ := ih s2 false line h2
        exact ⟨ts, h1, hdrop lastNL ts hq⟩
      rw [lexLoop_cons]
      by_cases h1 : c = ';'
      · rw [if_pos h1]
        exact ih _ lastNL line (le_trans (length_skipComment r) hr)
      rw [if_neg h1]
      by_cases h2 : c = newline
      · rw [if_pos h2]
        obtain ⟨ts, e1, hq⟩ := ih r true (line + 1) hr
        exact ⟨_, by rw [e1]; rfl, hnl lastNL (line + 1) ts hq⟩
      rw [if_neg h2]
      by_cases h3 : isspace c = true
      · rw [if_pos h3]
        exact ih r lastNL line hr
      rw [if_neg h3]
      by_cases h4 : c = dquote
      · rw [if_pos h4]
        exact tok _ _ (le_trans (length_makeStr _ r (le_refl _)) hr) (by simp) (by simp) (by simp)
      rw [if_neg h4]
      by_cases h5 : (isdigit c || (c == '-' && isdigit (r.headD (Char.ofNat 0)))) = true
      · rw [if_pos h5]
        refine tok _ _ (hdw _) (by simp) (by simp) ?_
        intro _
        simp only [Bool.or_eq_true, Bool.and_eq_true, beq_iff_eq] at h5
        rcases h5 with h5 | ⟨h5, h6⟩
        · have hall : (r.takeWhile isNumberChar).all isNumberChar = true := by
            rw [List.all_eq_true]
            intro x hx
            exact List.mem_takeWhile_imp hx
          have hne : c ≠ '-' := by
            intro hc
            rw [hc] at h5
            revert h5
            decide
          show numberLexeme (c :: r.takeWhile isNumberChar) = true
          unfold numberLexeme
          split
          · rename_i heq
            simp only [List.cons.injEq] at heq
            exact absurd heq.1 hne
          · rename_i heq
            simp only [List.cons.injEq] at heq
            obtain ⟨rfl, rfl⟩ := heq
            simp [h5, hall]
          · rename_i heq
            simp at heq
        · subst h5
          cases r with
          | nil => simp [isdigit] at h6
          | cons d r2 =>
            simp only [List.headD_cons] at h6
            have hnd : isNumberChar d = true := by simp [isNumberChar, h6]
            have hall : (r2.takeWhile isNumberChar).all isNumberChar = true := by
              rw [List.all_eq_true]
              intro x hx
              exact List.mem_takeWhile_imp hx
            show numberLexeme ('-' :: (d :: r2).takeWhile isNumberChar) = true
            simp [List.takeWhile, hnd, numberLexeme, h6, hall]
      rw [if_neg h5]
      by_cases h6 : (isalpha c || c == '_') = true
      · rw [if_pos h6]
        have hw := wordToken_type (c :: r.takeWhile isIdentChar) line
        exact tok _ _ (hdw _) hw.1 hw.2.1 (fun h => absurd h hw.2.2.1)
      rw [if_neg h6]
      cases hp : punct c with
      | some t =>
        have ht := punct_type c t hp
        exact tok _ _ hr ht.1 ht.2.1 (fun h => absurd h ht.2.2.1)
      | none =>
        simp only []
        by_cases h7 : c = '='
        · rw [if_pos h7]
          split
          · exact tok _ _ hd1 (by simp) (by simp) (by simp)
          · exact tok _ _ hr (by simp) (by simp) (by simp)
        rw [if_neg h7]
        by_cases h8 : c = '!'
        · rw [if_pos h8]
          split
          · exact tok _ _ hd1 (by simp) (by simp) (by simp)
          · exact drop _ hr
        rw [if_neg h8]
        by_cases h9 : c = '<'
        · rw [if_pos h9]
          split
          · exact tok _ _ hd1 (by simp) (by simp) (by simp)
          · exact tok _ _ hr (by simp) (by simp) (by simp)
        rw [if_neg h9]
        by_cases h10 : c = '>'
        · rw [if_pos h10]
          split
          · exact tok _ _ hd1 (by simp) (by simp) (by simp)
          · exact tok _ _ hr (by simp) (by simp) (by simp)
        rw [if_neg h10]
        exact drop _ hr

/-- Every text has its token list, of the shape of `LexerShape`; when the
flag `lastNL` is not set at the start, there is a token before the EOF
token. -/
theorem lexLoop_shape (fuel : Nat) (s : Str) (lastNL : Bool) (line : Nat) (h : s.length ≤ fuel) :
    ∃ ts, lexLoop fuel s lastNL line = some ts ∧ LexerShape ts := by
  obtain ⟨ts, h1, body, l, h2, h3, h4, _⟩ := lexLoop_property
    (fun lastNL ts => ∃ (body : List Token) (line : Nat),
      ts = body ++ [⟨.EOF_T, [], line⟩]
      ∧ (∀ t ∈ body, t.type ≠ .EOF_T)
      ∧ (body = [] ∨ ∃ (b : List Token) (l : Nat), body = b ++ [⟨.NEWLINE, [newline], l⟩])
      ∧ (lastNL = false → body ≠ []))
    (by
      intro lastNL line
      cases lastNL
      · exact ⟨[⟨.NEWLINE, [newline], line⟩], line, rfl, by simp, Or.inr ⟨[], line, rfl⟩, by simp⟩
      · exact ⟨[], line, rfl, by simp, Or.inl rfl, by simp⟩)
    (by
      rintro lastNL ts ⟨body, l, h2, h3, h4, h5⟩
      exact ⟨body, l, h2, h3, h4, fun _ => h5 rfl⟩)
    (by
      rintro lastNL line ts ⟨body, l, h2, h3, h4, _⟩
      cases lastNL
      · refine ⟨⟨.NEWLINE, [newline], line⟩ :: body, l, by rw [h2]; rfl, ?_, ?_, by simp⟩
        · intro t ht
          rcases List.mem_cons.1 ht with rfl | ht
          · simp
          · exact h3 t ht
        · rcases h4 with rfl | ⟨b, l2, rfl⟩
          · exact Or.inr ⟨[], line, rfl⟩
          · exact Or.inr ⟨⟨.NEWLINE, [newline], line⟩ :: b, l2, rfl⟩
      · exact ⟨body, l, by rw [h2]; rfl, h3, h4, by simp⟩)
    (by
      rintro lastNL t ts e1 _ _ ⟨body, l, h2, h3, h4, h5⟩
      refine ⟨t :: body, l, by rw [h2]; rfl, ?_, ?_, by simp⟩
      · intro x hx
        rcases List.mem_cons.1 hx with rfl | hx
        · exact e1
        · exact h3 x hx
      · rcases h4 with rfl | ⟨b, l2, rfl⟩
        · exact absurd rfl (h5 rfl)
        · exact Or.inr ⟨t :: b, l2, rfl⟩)
    fuel s lastNL line h
  exact ⟨ts, h1, body, l, h2, h3, h4⟩

/-- A text of blanks and line ends has the EOF token alone. -/
theorem lexLoop_blank (fuel : Nat) :
    ∀ (s : Str) (line : Nat), s.length ≤ fuel → (∀ c ∈ s, isspace c = true) →
      ∃ l, lexLoop fuel s true line = some [⟨.EOF_T, [], l⟩] := by
  induction fuel with
  | zero =>
    intro s line h _
    have : s = [] := List.length_eq_zero.mp (Nat.le_zero.mp h)
    subst this
    exact ⟨line, rfl⟩
  | succ fuel ih =>
    intro s line h hs
    cases s with
    | nil => exact ⟨line, by rfl⟩
    | cons c r =>
      have hc := hs c (List.mem_cons_self _ _)
      have hr : ∀ x ∈ r, isspace x = true := fun x hx => hs x (List.mem_cons_of_mem _ hx)
      have hlen : r.length ≤ fuel := by simp only [List.length_cons] at h; omega
      have h1 : c ≠ ';' := by
        intro e
        rw [e] at hc
        revert hc
        decide
      rw [lexLoop_cons, if_neg h1]
      by_cases h2 : c = newline
      · rw [if_pos h2]
        obtain ⟨l, e⟩ := ih r (line + 1) hlen hr
        exact ⟨l, by rw [e]; rfl⟩
      · rw [if_neg h2, if_pos hc]
        exact ih r line hlen hr

/-- A text that is one comment has the EOF token alone. -/
theorem lexLoop_comment (fuel : Nat) (r : Str) (line : Nat) (h : newline ∉ r) :
    lexLoop (fuel + 1) (';' :: r) true line = some [⟨.EOF_T, [], line⟩] := by
  have hs : skipComment r = [] := by
    unfold skipComment
    rw [List.dropWhile_eq_nil_iff]
    intro x hx
    have : x ≠ newline := fun e => h (e ▸ hx)
    simpa using this
  rw [lexLoop_cons, if_pos rfl, hs]
  cases fuel <;> rfl

/-- C31, against the claim as it stands: the token list of the empty text,
of a text that is one comment, and of a text of line ends is the EOF token
alone; no NEWLINE token stands before it. -/
theorem empty_text_has_no_newline_token :
    tokenize [] = some [⟨.EOF_T, [], 1⟩]
    ∧ tokenize "; only a comment".toList = some [⟨.EOF_T, [], 1⟩]
    ∧ tokenize "\n\n".toList = some [⟨.EOF_T, [], 3⟩]
    ∧ tokenize "  ; a comment\n\n; and another\n".toList = some [⟨.EOF_T, [], 4⟩] :=
  ⟨rfl, rfl, rfl, rfl⟩

/-- C31, amended: the lexer returns a token list for every text, and the
list is of the shape of `LexerShape`: it ends with the EOF token, which is
its only one, and the EOF token is either the whole list or immediately
preceded by a NEWLINE token.  It is the whole list for every text of blanks
and line ends (so for the empty text) and for every text that is one comment.
A text that already ends with a line end gets no second NEWLINE token. -/
theorem token_list_ends_with_eof :
    (∀ src : Str, ∃ ts, tokenize src = some ts ∧ LexerShape ts)
    ∧ (∀ src : Str, (∀ c ∈ src, isspace c = true) →
        ∃ l, tokenize src = some [⟨.EOF_T, [], l⟩])
    ∧ (∀ r : Str, newline ∉ r → tokenize (';' :: r) = some [⟨.EOF_T, [], 1⟩])
    ∧ tokenize "a".toList
        = some [⟨.IDENT, "a".toList, 1⟩, ⟨.NEWLINE, [newline], 1⟩, ⟨.EOF_T, [], 1⟩]
    ∧ tokenize "a\n".toList
        = some [⟨.IDENT, "a".toList, 1⟩, ⟨.NEWLINE, [newline], 2⟩, ⟨.EOF_T, [], 2⟩]
    ∧ tokenize "a ; note".toList
        = some [⟨.IDENT, "a".toList, 1⟩, ⟨.NEWLINE, [newline], 1⟩, ⟨.EOF_T, [], 1⟩] := by
  refine ⟨fun src => lexLoop_shape _ src true 1 (le_refl _),
    fun src h => lexLoop_blank _ src 1 (le_refl _) h, fun r h => ?_, rfl, rfl, rfl⟩
  exact lexLoop_comment r.length r 1 h

set_option maxRecDepth 1000000 in
set_option maxHeartbeats 4000000 in
/-- C32, against the claim as it stands: `makeNum` takes digits and points in
any number, so `1.2.3` and `7.` are each one NUMBER token, and neither lexeme
is a decimal numeral with an optional fractional part.  `std::stod` reads the
longest numeral at the start of the lexeme: `say 1.2.3` prints 1.2 and
`say 7.` prints 7, for every placement and fuel. -/
theorem number_token_with_two_points :
    tokenize "1.2.3".toList
        = some [⟨.NUMBER, "1.2.3".toList, 1⟩, ⟨.NEWLINE, [newline], 1⟩, ⟨.EOF_T, [], 1⟩]
    ∧ decimalNumeral "1.2.3".toList = false
    ∧ tokenize "7.".toList
        = some [⟨.NUMBER, "7.".toList, 1⟩, ⟨.NEWLINE, [newline], 1⟩, ⟨.EOF_T, [], 1⟩]
    ∧ decimalNumeral "7.".toList = false
    ∧ tokenize "-1..".toList
        = some [⟨.NUMBER, "-1..".toList, 1⟩, ⟨.NEWLINE, [newline], 1⟩, ⟨.EOF_T, [], 1⟩]
    ∧ decimalNumeral "-1..".toList = false
    ∧ (∃ rest, parseSource "say 1.2.3\n".toList = .ok [.SayStmt (.NumberLit (mkRat 6 5))] rest)
    ∧ (∃ rest, parseSource "say 7.\n".toList = .ok [.SayStmt (.NumberLit 7)] rest)
    ∧ (∀ (pl : Placement) (fuel : Nat),
        main pl (fuel + 20) "say 1.2.3\n".toList [] = .code 0 ["1.2".toList] [])
    ∧ (∀ (pl : Placement) (fuel : Nat),
        main pl (fuel + 20) "say 7.\n".toList [] = .code 0 ["7".toList] []) := by
  have p1 : ∃ rest, parseSource "say 1.2.3\n".toList
      = .ok [.SayStmt (.NumberLit (mkRat 6 5))] rest := ⟨_, rfl⟩
  have p2 : ∃ rest, parseSource "say 7.\n".toList = .ok [.SayStmt (.NumberLit 7)] rest := ⟨_, rfl⟩
  refine ⟨rfl, by decide, rfl, by decide, rfl, by decide, p1, p2, fun pl fuel => ?_, fun pl fuel => ?_⟩
  · have hp : ∃ rest, parseSource
        "say 1.2.3\n".toList
      = .ok
        [.SayStmt (.NumberLit (mkRat 6 5))] rest := ⟨_, rfl⟩
    obtain ⟨rest, hp⟩ := hp
    unfold main
    rw [hp]
    simp only [↓reduceIte, lbrace, rbrace, Nat.reduceLeDiff, Nat.reduceLT, Nat.reduceEqDiff, Nat.reduceSub, Int.reduceLT,
        Int.reduceLE, Int.reduceToNat, Nat.cast_ofNat, List.length_set, Nat.cast_add, Nat.cast_one, run,
        execBlock, execStmt, evalExpr, evalList, evalPairs, initFields, keepLoop,
        mapLoop, callValue, callMethod, assignLvalue, Res.bind, State.register, classFields,
        classMethods, objSet_nil, registerGlobals, mathObject, State.define, State.get, State.assign,
        envGet, envOwner, interpolate, bindParams, State.alloc, State.newEnv, State.read, State.write, envReach, Res.release, State.release, List.contains_cons,
        List.contains_nil, List.erase_cons_head, beq_self_eq_true, Nat.reduceBEq, Bool.true_or,
        Bool.or_true, Bool.false_or, Bool.or_false, Bool.and_true, Bool.true_and, Bool.and_self,
        Bool.or_self, storeMember,
        storeIndex, State.store, memberOfObject, machineBinOp, liftOutcome, binOp, builtinCall,
        render, reify, mapOpt, Val.ofScalar, Val.isTruthy, objFind_objSet, objFind, Host.std,
        classKey, ne_eq, not_false_eq_true, not_true_eq_false, List.cons_append, List.nil_append,
        Nat.reduceAdd, zero_add, List.set_cons_zero, String.toList, List.cons.injEq, Char.reduceEq,
        and_false, and_true, and_self, if_true, if_false, reduceCtorEq, List.length_cons,
        List.length_nil, List.getElem?_cons_zero, List.length_append, List.getElem?_cons_succ,
        List.set_cons_succ, Option.map_some', IronValue.toString]
    rfl
  · have hp : ∃ rest, parseSource
        "say 7.\n".toList
      = .ok
        [.SayStmt (.NumberLit 7)] rest := ⟨_, rfl⟩
    obtain ⟨rest, hp⟩ := hp
    unfold main
    rw [hp]
    simp only [↓reduceIte, lbrace, rbrace, Nat.reduceLeDiff, Nat.reduceLT, Nat.reduceEqDiff, Nat.reduceSub, Int.reduceLT,
        Int.reduceLE, Int.reduceToNat, Nat.cast_ofNat, List.length_set, Nat.cast_add, Nat.cast_one, run,
        execBlock, execStmt, evalExpr, evalList, evalPairs, initFields, keepLoop,
        mapLoop, callValue, callMethod, assignLvalue, Res.bind, State.register, classFields,
        classMethods, objSet_nil, registerGlobals, mathObject, State.define, State.get, State.assign,
        envGet, envOwner, interpolate, bindParams, State.alloc, State.newEnv, State.read, State.write, envReach, Res.release, State.release, List.contains_cons,
        List.contains_nil, List.erase_cons_head, beq_self_eq_true, Nat.reduceBEq, Bool.true_or,
        Bool.or_true, Bool.false_or, Bool.or_false, Bool.and_true, Bool.true_and, Bool.and_self,
        Bool.or_self, storeMember,
        storeIndex, State.store, memberOfObject, machineBinOp, liftOutcome, binOp, builtinCall,
        render, reify, mapOpt, Val.ofScalar, Val.isTruthy, objFind_objSet, objFind, Host.std,
        classKey, ne_eq, not_false_eq_true, not_true_eq_false, List.cons_append, List.nil_append,
        Nat.reduceAdd, zero_add, List.set_cons_zero, String.toList, List.cons.injEq, Char.reduceEq,
        and_false, and_true, and_self, if_true, if_false, reduceCtorEq, List.length_cons,
        List.length_nil, List.getElem?_cons_zero, List.length_append, List.getElem?_cons_succ,
        List.set_cons_succ, Option.map_some', IronValue.toString]
    rfl

/-- A decimal numeral with an optional fractional part is a lexeme of
`makeNum`. -/
theorem decimalNumeral_numberLexeme (s : Str) (h : decimalNumeral s = true) :
    numberLexeme s = true := by
  have key : ∀ u : Str, unsignedNumeral u = true →
      ∃ d t, u = d :: t ∧ isdigit d = true ∧ t.all isNumberChar = true := by
    intro u hu
    unfold unsignedNumeral at hu
    cases u with
    | nil => simp at hu
    | cons d t =>
      by_cases hd : isdigit d = true
      · refine ⟨d, t, rfl, hd, ?_⟩
        simp only [List.takeWhile_cons, hd, if_true, List.isEmpty_cons, Bool.not_false,
          List.dropWhile_cons, Bool.true_and] at hu
        rw [List.all_eq_true]
        intro x hx
        rw [← List.takeWhile_append_dropWhile isdigit t] at hx
        rcases List.mem_append.1 hx with hx | hx
        · have := List.mem_takeWhile_imp hx
          simp [isNumberChar, this]
        · revert hu hx
          cases t.dropWhile isdigit with
          | nil => intro _ hx; cases hx
          | cons c f =>
            intro hu hx
            simp only [Bool.and_eq_true, beq_iff_eq, List.all_eq_true] at hu
            rcases List.mem_cons.1 hx with rfl | hx
            · simp [isNumberChar, hu.1.1]
            · simp [isNumberChar, hu.2 x hx]
      · simp [List.takeWhile_cons, hd] at hu
  unfold decimalNumeral at h
  split at h
  · obtain ⟨d, t, e, hd, ht⟩ := key _ h
    subst e
    simp [numberLexeme, hd, ht]
  · rename_i hne
    obtain ⟨d, t, e, hd, ht⟩ := key s h
    subst e
    have hc : d ≠ '-' := fun e => hne t (by rw [e])
    unfold numberLexeme
    split
    · rename_i heq
      simp only [List.cons.injEq] at heq
      exact absurd heq.1 hc
    · rename_i heq
      simp only [List.cons.injEq] at heq
      obtain ⟨rfl, rfl⟩ := heq
      simp [hd, ht]
    · rename_i heq
      simp at heq

/-- C32, amended: for every text, the lexeme of every NUMBER token is a
lexeme of `makeNum`: a digit, or `-` and a digit, followed by digits and
points in any number and order.  Every decimal numeral with an optional
fractional part is such a lexeme, and `12`, `-3.5` are NUMBER tokens of their
own lexeme. -/
theorem number_token_lexeme :
    (∀ src : Str, ∃ ts, tokenize src = some ts
        ∧ ∀ t ∈ ts, t.type = .NUMBER → numberLexeme t.val = true)
    ∧ (∀ s : Str, decimalNumeral s = true → numberLexeme s = true)
    ∧ tokenize "12 -3.5".toList
        = some [⟨.NUMBER, "12".toList, 1⟩, ⟨.NUMBER, "-3.5".toList, 1⟩,
            ⟨.NEWLINE, [newline], 1⟩, ⟨.EOF_T, [], 1⟩]
    ∧ decimalNumeral "12".toList = true ∧ decimalNumeral "-3.5".toList = true := by
  refine ⟨fun src => ?_, decimalNumeral_numberLexeme, rfl, by decide, by decide⟩
  exact lexLoop_property (fun _ ts => ∀ t ∈ ts, t.type = .NUMBER → numberLexeme t.val = true)
    (by
      intro lastNL line t ht hn
      cases lastNL <;> simp [emitNL] at ht <;> rcases ht with rfl | rfl <;> simp at hn)
    (fun _ _ h => h)
    (by
      intro lastNL line ts h t ht hn
      rcases List.mem_append.1 ht with ht | ht
      · cases lastNL <;> simp [emitNL] at ht
        subst ht
        simp at hn
      · exact h t ht hn)
    (by
      intro lastNL t ts _ _ e3 h x hx hn
      rcases List.mem_cons.1 hx with rfl | hx
      · exact e3 hn
      · exact h x hx hn)
    _ src true 1 (le_refl _)

end Ironwood

namespace Ironwood

/-! ## The minus sign in the lexer -/

set_option maxRecDepth 1000000 in
set_option maxHeartbeats 4000000 in
/-- C40: in every state of the loop of the lexer (the flag `lastNL` and the
line are all that it keeps of what came before), a `-` that the loop reads
immediately before a digit starts a NUMBER token whose lexeme begins with
`-`, and the next token is made of the text after that lexeme, so no MINUS
token is made of it; a `-` before anything else is a MINUS token.  So `n-1`
is IDENT(n), NUMBER(-1) and `n - 1` is IDENT(n), MINUS, NUMBER(1); the same
holds after a closing parenthesis, a number, `=` and a string.  After
`let n = 5` the statement `say n-1` prints 5 and `say n - 1` prints 4, for
every placement and fuel. -/
theorem minus_before_digit_starts_number :
    (∀ (fuel : Nat) (d : Char) (r : Str) (lastNL : Bool) (line : Nat), isdigit d = true →
        lexLoop (fuel + 1) ('-' :: d :: r) lastNL line
          = (lexLoop fuel (r.dropWhile isNumberChar) false line).map
              (fun ts => ⟨.NUMBER, '-' :: d :: r.takeWhile isNumberChar, line⟩ :: ts))
    ∧ (∀ (fuel : Nat) (r : Str) (lastNL : Bool) (line : Nat),
        isdigit (r.headD (Char.ofNat 0)) = false →
        lexLoop (fuel + 1) ('-' :: r) lastNL line
          = (lexLoop fuel r false line).map (fun ts => ⟨.MINUS, "-".toList, line⟩ :: ts))
    ∧ tokenize "n-1".toList
        = some [⟨.IDENT, "n".toList, 1⟩, ⟨.NUMBER, "-1".toList, 1⟩, ⟨.NEWLINE, [newline], 1⟩, ⟨.EOF_T, [], 1⟩]
    ∧ tokenize "n - 1".toList
        = some [⟨.IDENT, "n".toList, 1⟩, ⟨.MINUS, "-".toList, 1⟩, ⟨.NUMBER, "1".toList, 1⟩, ⟨.NEWLINE, [newline], 1⟩, ⟨.EOF_T, [], 1⟩]
    ∧ tokenize "(2)-1 1-2 x=-3 \"a\"-4".toList
        = some [⟨.LPAREN, "(".toList, 1⟩, ⟨.NUMBER, "2".toList, 1⟩, ⟨.RPAREN, ")".toList, 1⟩,
            ⟨.NUMBER, "-1".toList, 1⟩, ⟨.NUMBER, "1".toList, 1⟩, ⟨.NUMBER, "-2".toList, 1⟩,
            ⟨.IDENT, "x".toList, 1⟩, ⟨.ASSIGN, "=".toList, 1⟩, ⟨.NUMBER, "-3".toList, 1⟩,
            ⟨.STRING, "a".toList, 1⟩, ⟨.NUMBER, "-4".toList, 1⟩, ⟨.NEWLINE, [newline], 1⟩, ⟨.EOF_T, [], 1⟩]
    ∧ (∃ rest, parseSource "let n = 5\nsay n-1\nsay n - 1\n".toList
      = .ok
        [.LetStmt "n".toList (.NumberLit 5), .SayStmt (.VarExpr "n".toList),
      .ExprStmt (.NumberLit (-1)),
      .SayStmt (.BinExpr "-".toList (.VarExpr "n".toList) (.NumberLit 1))] rest)
    ∧ (∀ (pl : Placement) (fuel : Nat),
        main pl (fuel + 20) "let n = 5\nsay n-1\nsay n - 1\n".toList [] = .code 0 ["5".toList, "4".toList] []) := by
  refine ⟨fun fuel d r lastNL line hd => ?_, fun fuel r lastNL line hd => ?_, rfl, rfl, rfl,
    ⟨_, rfl⟩, fun pl fuel => ?_⟩
  · have hn : isNumberChar d = true := by simp [isNumberChar, hd]
    rw [lexLoop_cons, if_neg (by decide), if_neg (by decide), if_neg (by decide),
      if_neg (by decide)]
    simp only [List.headD_cons, hd, beq_self_eq_true, Bool.and_self, Bool.or_true, if_true,
      List.dropWhile_cons, List.takeWhile_cons, hn]
  · rw [lexLoop_cons, if_neg (by decide), if_neg (by decide), if_neg (by decide),
      if_neg (by decide)]
    have h1 : isdigit '-' = false := by decide
    have h2 : isalpha '-' = false := by decide
    have h3 : ('-' == '_') = false := by decide
    have h4 : punct '-' = some .MINUS := by decide
    simp only [hd, h1, h2, h3, h4, Bool.and_false, Bool.or_self, Bool.false_eq_true, if_false]
    rfl
  · have hp : ∃ rest, parseSource
        "let n = 5\nsay n-1\nsay n - 1\n".toList
      = .ok
        [.LetStmt "n".toList (.NumberLit 5), .SayStmt (.VarExpr "n".toList),
          .ExprStmt (.NumberLit (-1)),
          .SayStmt (.BinExpr "-".toList (.VarExpr "n".toList) (.NumberLit 1))] rest := ⟨_, rfl⟩
    obtain ⟨rest, hp⟩ := hp
    have hm : (5 : ℚ) - 1 = 4 := by norm_num
    unfold main
    rw [hp]
    simp only [↓reduceIte, lbrace, rbrace, Nat.reduceLeDiff, Nat.reduceLT, Nat.reduceEqDiff, Nat.reduceSub, Int.reduceLT,
        Int.reduceLE, Int.reduceToNat, Nat.cast_ofNat, List.length_set, Nat.cast_add, Nat.cast_one, run,
        execBlock, execStmt, evalExpr, evalList, evalPairs, initFields, keepLoop,
        mapLoop, callValue, callMethod, assignLvalue, Res.bind, State.register, classFields,
        classMethods, objSet_nil, registerGlobals, mathObject, State.define, State.get, State.assign,
        envGet, envOwner, interpolate, bindParams, State.alloc, State.newEnv, State.read, State.write, envReach, Res.release, State.release, List.contains_cons,
        List.contains_nil, List.erase_cons_head, beq_self_eq_true, Nat.reduceBEq, Bool.true_or,
        Bool.or_true, Bool.false_or, Bool.or_false, Bool.and_true, Bool.true_and, Bool.and_self,
        Bool.or_self, storeMember,
        storeIndex, State.store, memberOfObject, machineBinOp, liftOutcome, binOp, builtinCall,
        render, reify, mapOpt, Val.ofScalar, Val.isTruthy, objFind_objSet, objFind, Host.std,
        classKey, ne_eq, not_false_eq_true, not_true_eq_false, List.cons_append, List.nil_append,
        Nat.reduceAdd, zero_add, List.set_cons_zero, String.toList, List.cons.injEq, Char.reduceEq,
        and_false, and_true, and_self, if_true, if_false, reduceCtorEq, List.length_cons,
        List.length_nil, List.getElem?_cons_zero, List.length_append, List.getElem?_cons_succ,
        List.set_cons_succ, Option.map_some', IronValue.toString, hm]
    rfl

end Ironwood

namespace Ironwood

/-! ## JSON: strings, integral numbers, malformed text -/

/-- C33: for every string `s`, `json of s` is the text of `s` between double
quotes with `"`, `\`, line feed and tab escaped, and `parse json` reads that
text back as exactly `s`, up to and including the closing quote: nothing of
the text remains, and a text that follows the encoding is left as it is.  It
holds for every placement and with fuel 1.  In the evaluator, `json of` on an
expression whose value is the string `s` is that text. -/
theorem json_string_round_trip (pl : Placement) (s : Str) (fuel : Nat) :
    ironToJson (.str s) = dquote :: (jsonEscape s ++ [dquote])
    ∧ jsonToIron pl (fuel + 1) (ironToJson (.str s)) = some (.str s, [])
    ∧ (∀ rest : Str, jsonToIron pl (fuel + 1) (ironToJson (.str s) ++ rest) = some (.str s, rest))
    ∧ parseJson pl (fuel + 1) (ironToJson (.str s)) = some (.str s)
    ∧ (∀ (h : Host) (e : Expr) (env : Nat) (σ σ1 : State),
        evalExpr h (fuel + 1) e env σ = .ok (.str s) σ1 →
        evalExpr h (fuel + 2) (.JsonOfExpr e) env σ = .ok (.str (ironToJson (.str s))) σ1)
    ∧ ironToJson (.str [ 'a', dquote, 'b', backslash, 'c', newline, 'd', tab, 'e'])
        = [dquote, 'a', backslash, dquote, 'b', backslash, backslash, 'c', backslash, 'n', 'd',
            backslash, 't', 'e', dquote]
    ∧ parseJson pl (fuel + 1)
          [dquote, 'a', backslash, dquote, 'b', backslash, backslash, 'c', backslash, 'n', 'd',
            backslash, 't', 'e', dquote]
        = some (.str [ 'a', dquote, 'b', backslash, 'c', newline, 'd', tab, 'e']) := by
  have hrest : ∀ rest : Str,
      jsonToIron pl (fuel + 1) (ironToJson (.str s) ++ rest) = some (.str s, rest) := by
    intro rest
    have e : ironToJson (.str s) ++ rest = dquote :: (jsonEscape s ++ dquote :: rest) := by
      simp [ironToJson]
    rw [e]
    exact jsonToIron_string pl fuel _ rest s (jsonString_escape s rest)
  have h0 := hrest []
  rw [List.append_nil] at h0
  refine ⟨rfl, h0, hrest, by simp [parseJson, h0], ?_, by decide, by rfl⟩
  intro h e env σ σ1 he
  rw [evalExpr, he, Res.bind]
  simp [reify]

theorem intCast_rendering (k : Int) (hk : k.natAbs < 10 ^ 15) :
    numToString (k : ℚ) = intToString k := by
  unfold numToString
  rw [if_pos ⟨Rat.intCast_den k, by rw [Rat.intCast_num]; exact hk⟩, Rat.intCast_num]

/-- C34: for every integer `k` with `|k| < 10^15`, `toString` and `json of`
render the number `k` as the same text, the decimal numeral of `k`: `-` when
`k` is negative, and then the digits of `|k|` (at least one, digits only, of
value `|k|`), so there is no decimal point and no exponent; and `parse json`
of that text is the number `k`, for every placement and with fuel 1. -/
theorem integral_number_rendering (k : Int) (hk : k.natAbs < 10 ^ 15) :
    IronValue.toString (.num (k : ℚ)) = intToString k
    ∧ ironToJson (.num (k : ℚ)) = intToString k
    ∧ intToString k = (if k < 0 then [ '-'] else []) ++ natToString k.natAbs
    ∧ natToString k.natAbs ≠ []
    ∧ (∀ c ∈ natToString k.natAbs, c.isDigit = true)
    ∧ digitsVal (natToString k.natAbs) = k.natAbs
    ∧ (∀ (pl : Placement) (fuel : Nat),
        parseJson pl (fuel + 1) (ironToJson (.num (k : ℚ))) = some (.num (k : ℚ))) := by
  have hr := intCast_rendering k hk
  refine ⟨by rw [IronValue.toString, hr], by rw [ironToJson, hr], ?_, natToString_ne_nil _,
    natToString_digits _, digitsVal_natToString _, fun pl fuel => ?_⟩
  · unfold intToString
    split <;> rfl
  · have hq := numReadsBack_integral (k : ℚ) (Rat.intCast_den k)
      (by rw [Rat.intCast_num]; exact hk)
    have h := jsonToIron_number pl (k : ℚ) hq [] (fun c r hc => by cases hc) fuel
    rw [List.append_nil] at h
    simp [parseJson, ironToJson, h]

/-- C34 at -42, at 0 and at the largest number of the range: the renderings
are `-42`, `0` and `999999999999999`, and `parse json` reads the first back. -/
theorem integral_number_rendering_witness :
    IronValue.toString (.num ((-42 : Int) : ℚ)) = "-42".toList
    ∧ ironToJson (.num ((-42 : Int) : ℚ)) = "-42".toList
    ∧ parseJson (fun _ _ => 0) 1 "-42".toList = some (.num ((-42 : Int) : ℚ))
    ∧ IronValue.toString (.num ((0 : Int) : ℚ)) = "0".toList
    ∧ ironToJson (.num ((999999999999999 : Int) : ℚ)) = "999999999999999".toList :=
  ⟨(integral_number_rendering (-42) (by decide)).1.trans (by decide),
   (integral_number_rendering (-42) (by decide)).2.1.trans (by decide),
   (by
     have h := (integral_number_rendering (-42) (by decide)).2.2.2.2.2.2 (fun _ _ => 0) 0
     rw [(integral_number_rendering (-42) (by decide)).2.1] at h
     exact h),
   (integral_number_rendering 0 (by decide)).1.trans (by decide),
   (integral_number_rendering 999999999999999 (by decide)).2.1.trans (by decide)⟩

/-- At a character that starts no value, `jsonToIron` returns null and
leaves the position where it is. -/
theorem jsonToIron_no_value (pl : Placement) (c : Char) (r : Str)
    (h1 : isJsonSpace c = false) (h2 : c ≠ dquote) (h3 : c ≠ '[') (h4 : c ≠ lbrace)
    (h7 : isNumChar c = false) (h8 : c ≠ 'n') (h9 : c ≠ 't') (h10 : c ≠ 'f') (fuel : Nat) :
    jsonToIron pl (fuel + 1) (c :: r) = some (.null, c :: r) := by
  have hws : skipJsonWs (c :: r) = c :: r := by simp [skipJsonWs, h1]
  have hnum : jsonNumber (c :: r) = (.null, c :: r) := by
    have e : numberToken (c :: r) = ([], c :: r) := by
      rw [numberToken_eq]
      simp [List.takeWhile, List.dropWhile, h7]
    unfold jsonNumber
    rw [e]
    rfl
  have p1 : "null".toList.isPrefixOf (c :: r) = false := by
    simp [String.toList, List.isPrefixOf, Ne.symm h8]
  have p2 : "true".toList.isPrefixOf (c :: r) = false := by
    simp [String.toList, List.isPrefixOf, Ne.symm h9]
  have p3 : "false".toList.isPrefixOf (c :: r) = false := by
    simp [String.toList, List.isPrefixOf, Ne.symm h10]
  rw [jsonToIron, hws]
  simp only [if_neg h2, if_neg h3, if_neg h4, p1, p2, p3, Bool.false_eq_true, if_false, hnum]

/-- The array loop of `jsonToIron` makes no progress on a character that
starts no value and is not a comma or the closing bracket: it returns with
no fuel. -/
theorem jsonArrayLoop_stuck (pl : Placement) (c : Char) (r : Str)
    (h1 : isJsonSpace c = false) (h2 : c ≠ dquote) (h3 : c ≠ '[') (h4 : c ≠ lbrace)
    (h5 : c ≠ ']') (h6 : c ≠ ',') (h7 : isNumChar c = false)
    (h8 : c ≠ 'n') (h9 : c ≠ 't') (h10 : c ≠ 'f') :
    ∀ (fuel : Nat) (acc : List IronValue), jsonArrayLoop pl fuel (c :: r) acc = none := by
  have hws : skipJsonWs (c :: r) = c :: r := by simp [skipJsonWs, h1]
  intro fuel
  induction fuel with
  | zero => intro acc; rfl
  | succ fuel ih =>
    intro acc
    rw [jsonArrayLoop]
    simp only [if_neg h5]
    cases fuel with
    | zero => rfl
    | succ f =>
      rw [jsonToIron_no_value pl c r h1 h2 h3 h4 h7 h8 h9 h10 f]
      simp only [hws, skipChar, if_neg h6]
      exact ih _

/-- The object loop of `jsonToIron` makes no progress on such a character
either, when it is not a colon or the closing brace. -/
theorem jsonObjectLoop_stuck (pl : Placement) (c : Char) (r : Str)
    (h1 : isJsonSpace c = false) (h2 : c ≠ dquote) (h3 : c ≠ '[') (h4 : c ≠ lbrace)
    (h5 : c ≠ rbrace) (h6 : c ≠ ',') (h7 : isNumChar c = false)
    (h8 : c ≠ 'n') (h9 : c ≠ 't') (h10 : c ≠ 'f') (h11 : c ≠ ':') :
    ∀ (fuel : Nat) (acc : List (Str × IronValue)),
      jsonObjectLoop pl fuel (c :: r) acc = none := by
  have hws : skipJsonWs (c :: r) = c :: r := by simp [skipJsonWs, h1]
  intro fuel
  induction fuel with
  | zero => intro acc; rfl
  | succ fuel ih =>
    intro acc
    rw [jsonObjectLoop]
    simp only [if_neg h5]
    cases fuel with
    | zero => rfl
    | succ f =>
      rw [jsonToIron_no_value pl c r h1 h2 h3 h4 h7 h8 h9 h10 f]
      simp only [hws, skipChar, if_neg h6, if_neg h11]
      rw [jsonToIron_no_value pl c r h1 h2 h3 h4 h7 h8 h9 h10 f]
      simp only [hws, skipChar, if_neg h6]
      exact ih _

/-- C36, on the code: on the text `[x` the array loop of `jsonToIron` reads
the value null at `x` without moving the position, and `x` is neither a comma
nor the closing bracket, so the loop does not end: `parse json` returns no
value with any fuel, for every placement.  The same holds of every array
whose next element starts with a character that starts no value, and of the
object `\x7bx`.  At the top level such a text is null. -/
theorem parse_json_loops_on_malformed_array :
    (∀ (pl : Placement) (fuel : Nat), parseJson pl fuel "[x".toList = none)
    ∧ (∀ (pl : Placement) (fuel : Nat), parseJson pl fuel "[1, 2 x]".toList = none)
    ∧ (∀ (pl : Placement) (fuel : Nat), parseJson pl fuel "\x7bx".toList = none)
    ∧ (∀ (pl : Placement) (fuel : Nat) (c : Char) (r : Str) (acc : List IronValue),
        isJsonSpace c = false → c ≠ dquote → c ≠ '[' → c ≠ lbrace → c ≠ ']' → c ≠ ',' →
        isNumChar c = false → c ≠ 'n' → c ≠ 't' → c ≠ 'f' →
        jsonArrayLoop pl fuel (c :: r) acc = none)
    ∧ (∀ (pl : Placement) (fuel : Nat), parseJson pl (fuel + 1) "x".toList = some .null)
    ∧ (∀ (pl : Placement) (fuel : Nat), parseJson pl (fuel + 4) "[1, 2]".toList
        = some (.arr [.num 1, .num 2])) := by
  have hx := fun pl => jsonArrayLoop_stuck pl 'x' [] (by decide) (by decide) (by decide)
    (by decide) (by decide) (by decide) (by decide) (by decide) (by decide) (by decide)
  have hx2 := fun pl => jsonArrayLoop_stuck pl 'x' [ ']'] (by decide) (by decide) (by decide)
    (by decide) (by decide) (by decide) (by decide) (by decide) (by decide) (by decide)
  have hx3 := fun pl => jsonObjectLoop_stuck pl 'x' [] (by decide) (by decide) (by decide)
    (by decide) (by decide) (by decide) (by decide) (by decide) (by decide) (by decide)
    (by decide)
  refine ⟨fun pl fuel => ?_, fun pl fuel => ?_, fun pl fuel => ?_,
    fun pl fuel c r acc h1 h2 h3 h4 h5 h6 h7 h8 h9 h10 =>
      jsonArrayLoop_stuck pl c r h1 h2 h3 h4 h5 h6 h7 h8 h9 h10 fuel acc,
    fun pl fuel => by rfl, fun pl fuel => ?_⟩
  · cases fuel with
    | zero => rfl
    | succ f =>
      have e : parseJson pl (f + 1) "[x".toList
          = (jsonArrayLoop pl f [ 'x'] []).map Prod.fst := by rfl
      rw [e, hx pl f []]
      rfl
  · rcases fuel with _ | _ | _ | _ | f
    · rfl
    · rfl
    · rfl
    · rfl
    · have e : parseJson pl (f + 4) "[1, 2 x]".toList
          = (jsonArrayLoop pl (f + 1) [ 'x', ']'] [.num 1, .num 2]).map Prod.fst := by rfl
      rw [e, hx2 pl (f + 1) _]
      rfl
  · cases fuel with
    | zero => rfl
    | succ f =>
      have e : parseJson pl (f + 1) "\x7bx".toList
          = (jsonObjectLoop pl f [ 'x'] []).map Prod.fst := by rfl
      rw [e, hx3 pl f []]
      rfl
  · rfl

end Ironwood

namespace Ironwood

/-! ## The order of a dictionary -/

theorem insertAt_end {α : Type} (x : α) (l : List α) : insertAt l.length x l = l ++ [x] := by
  simp [insertAt]

theorem insertAt_zero {α : Type} (x : α) (l : List α) : insertAt 0 x l = x :: l := by
  simp [insertAt]

theorem insertAt_perm {α : Type} (i : Nat) (x : α) (l : List α) :
    (insertAt i x l).Perm (l ++ [x]) := by
  unfold insertAt
  have h1 : (l.take i ++ x :: l.drop i).Perm (x :: (l.take i ++ l.drop i)) :=
    List.perm_middle
  rw [List.take_append_drop] at h1
  exact h1.trans (List.perm_append_singleton x l).symm

/-- The stores of pairs with distinct keys that the table does not hold yet:
with a table that puts a new key last the pairs follow the entries in their
order, with one that puts it first they precede them in the reverse order,
and with any table the result has the entries and the pairs, each once. -/
theorem foldl_objSet {β : Type} (pl : Placement) (pairs : List (Str × β)) :
    ∀ acc : List (Str × β), (pairs.map Prod.fst).Nodup →
      (∀ k ∈ pairs.map Prod.fst, k ∉ acc.map Prod.fst) →
      (pairs.foldl (fun a kv => objSet pl a kv.1 kv.2) acc).Perm (acc ++ pairs)
      ∧ ((∀ ks k, pl ks k = ks.length) →
          pairs.foldl (fun a kv => objSet pl a kv.1 kv.2) acc = acc ++ pairs)
      ∧ ((∀ ks k, pl ks k = 0) →
          pairs.foldl (fun a kv => objSet pl a kv.1 kv.2) acc = pairs.reverse ++ acc) := by
  induction pairs with
  | nil => intro acc _ _; simp
  | cons kv r ih =>
    intro acc hnd hdis
    obtain ⟨k, v⟩ := kv
    simp only [List.map_cons, List.nodup_cons] at hnd
    have hk : objFind acc k = none :=
      (objFind_eq_none acc k).2 (hdis k (List.mem_cons_self _ _))
    have hset : objSet pl acc k v = insertAt (pl (acc.map Prod.fst) k) (k, v) acc :=
      objSet_fresh pl acc k v hk
    have hperm : (objSet pl acc k v).Perm (acc ++ [(k, v)]) := by
      rw [hset]
      exact insertAt_perm _ _ _
    have hdis2 : ∀ k2 ∈ r.map Prod.fst, k2 ∉ (objSet pl acc k v).map Prod.fst := by
      intro k2 hk2 hmem
      have := (hperm.map Prod.fst).subset hmem
      simp only [List.map_append, List.map_cons, List.map_nil, List.mem_append,
        List.mem_singleton] at this
      rcases this with h | h
      · exact hdis k2 (List.mem_cons_of_mem _ hk2) h
      · exact hnd.1 (h ▸ hk2)
    obtain ⟨i1, i2, i3⟩ := ih (objSet pl acc k v) hnd.2 hdis2
    simp only [List.foldl_cons]
    refine ⟨?_, fun hl => ?_, fun hf => ?_⟩
    · refine i1.trans ?_
      have := hperm.append_right r
      simpa using this
    · rw [i2 hl, hset, hl, List.length_map, insertAt_end]
      simp
    · rw [i3 hf, hset, hf, insertAt_zero]
      simp

set_option maxRecDepth 1000000 in
set_option maxHeartbeats 4000000 in
/-- C35, against the claim as it stands: the dictionary is an
`std::unordered_map`, whose order of iteration is that of the hash table and
not that of insertion.  With a table that puts a new key before the others,
`keys of`, `values of`, `toString` and `json of` of the dictionary with `a`
inserted before `b` all enumerate `b` before `a`, for all fuel from 40 on.
With a table that puts the key `ages` first and every other new key last,
`json of parse json (json of v)` of the value of the claim begins with
`ages`. -/
theorem dict_order_is_table_order :
    (∀ (fuel : Nat), main (fun _ _ => 0) (fuel + 40)
        "let d = \x7ba: 1, b: 2\x7d\nsay keys of d\nsay values of d\nsay d\nsay json of d\n".toList []
      = .code 0 ["[b,a]".toList, "[2,1]".toList, "\x7bb:2,a:1\x7d".toList,
          "\x7b\"b\":2,\"a\":1\x7d".toList] [])
    ∧ (parseJson (fun ks k => if k = "ages".toList then 0 else ks.length) 20
          (ironToJson (.obj (insertAll (fun ks k => if k = "ages".toList then 0 else ks.length)
            [("name".toList, IronValue.str "ada".toList), ("ages".toList, .arr [.num 1, .num 2, .num 3]),
          ("ok".toList, .bool true)])))).map ironToJson
        = some "\x7b\"ages\":[1,2,3],\"name\":\"ada\",\"ok\":true\x7d".toList := by
  refine ⟨fun fuel => ?_, by rfl⟩
  · have hp : ∃ rest, parseSource
        "let d = \x7ba: 1, b: 2\x7d\nsay keys of d\nsay values of d\nsay d\nsay json of d\n".toList
      = .ok
        [.LetStmt "d".toList (.ObjectLit [("a".toList, .NumberLit 1), ("b".toList, .NumberLit 2)]),
          .SayStmt (.KeysOfExpr (.VarExpr "d".toList)), .SayStmt (.ValuesOfExpr (.VarExpr "d".toList)),
          .SayStmt (.VarExpr "d".toList), .SayStmt (.JsonOfExpr (.VarExpr "d".toList))] rest := ⟨_, rfl⟩
    obtain ⟨rest, hp⟩ := hp
    unfold main
    rw [hp]
    simp only [↓reduceIte, lbrace, rbrace, Nat.reduceLeDiff, Nat.reduceLT, Nat.reduceEqDiff, Nat.reduceSub, Int.reduceLT,
        Int.reduceLE, Int.reduceToNat, Nat.cast_ofNat, List.length_set, Nat.cast_add, Nat.cast_one, run,
        execBlock, execStmt, evalExpr, evalList, evalPairs, initFields, keepLoop,
        mapLoop, callValue, callMethod, assignLvalue, Res.bind, State.register, classFields,
        classMethods, objSet_nil, registerGlobals, mathObject, State.define, State.get, State.assign,
        envGet, envOwner, interpolate, bindParams, State.alloc, State.newEnv, State.read, State.write, envReach, Res.release, State.release, List.contains_cons,
        List.contains_nil, List.erase_cons_head, beq_self_eq_true, Nat.reduceBEq, Bool.true_or,
        Bool.or_true, Bool.false_or, Bool.or_false, Bool.and_true, Bool.true_and, Bool.and_self,
        Bool.or_self, storeMember,
        storeIndex, State.store, memberOfObject, machineBinOp, liftOutcome, binOp, builtinCall,
        render, reify, mapOpt, Val.ofScalar, Val.isTruthy, objFind_objSet, objFind, Host.std,
        classKey, ne_eq, not_false_eq_true, not_true_eq_false, List.cons_append, List.nil_append,
        Nat.reduceAdd, zero_add, List.set_cons_zero, String.toList, List.cons.injEq, Char.reduceEq,
        and_false, and_true, and_self, if_true, if_false, reduceCtorEq, List.length_cons,
        List.length_nil, List.getElem?_cons_zero, List.length_append, List.getElem?_cons_succ,
        List.set_cons_succ, Option.map_some', IronValue.toString, objSet, insertAt, keysOf, valuesOf, ironToJson, jsonFields, jsonElems, toStringPlain, toStringClass, toStringElems, classKey, List.map, List.take, List.drop, Option.isSome, Bool.false_eq_true, List.getElem?_eq_getElem, List.getElem_cons_succ, List.getElem_cons_zero, Option.map_some']
    rfl

set_option maxRecDepth 1000000 in
set_option maxHeartbeats 4000000 in
/-- C35, amended: `keys of`, `values of`, `toString` and `json of`
enumerate the entries of a dictionary in one and the same order, the order of
iteration of its table (stated for a dictionary that is no class instance).
After the insertion of pairs with distinct keys into an empty table, the
table holds exactly these pairs, each once, in an order that the table
decides: it is the order of insertion when the table puts every new key last,
and the reverse when it puts every new key first.  For the value `v` of the
claim, `json of parse json (json of v)` is the text of the claim with both of
these tables: the two reversals cancel. -/
theorem dict_enumeration_order (pl : Placement) :
    (∀ kvs : List (Str × IronValue), classKey ∉ kvs.map Prod.fst →
        keysOf kvs = kvs.map Prod.fst
        ∧ valuesOf kvs = kvs.map Prod.snd
        ∧ IronValue.toString (.obj kvs)
          = lbrace :: (joinSep ",".toList
              (kvs.map (fun kv => kv.1 ++ ":".toList ++ kv.2.toString)) ++ [rbrace])
        ∧ ironToJson (.obj kvs)
          = lbrace :: (joinSep ",".toList
              (kvs.map (fun kv => dquote :: (kv.1 ++ dquote :: ':' :: ironToJson kv.2)))
              ++ [rbrace]))
    ∧ (∀ pairs : List (Str × IronValue), (pairs.map Prod.fst).Nodup →
        (insertAll pl pairs).Perm pairs
        ∧ ((∀ ks k, pl ks k = ks.length) → insertAll pl pairs = pairs)
        ∧ ((∀ ks k, pl ks k = 0) → insertAll pl pairs = pairs.reverse))
    ∧ (parseJson (fun ks _ => ks.length) 20
          (ironToJson (.obj (insertAll (fun ks _ => ks.length)
            [("name".toList, IronValue.str "ada".toList), ("ages".toList, .arr [.num 1, .num 2, .num 3]),
          ("ok".toList, .bool true)])))).map ironToJson
        = some "\x7b\"name\":\"ada\",\"ages\":[1,2,3],\"ok\":true\x7d".toList
    ∧ (parseJson (fun _ _ => 0) 20
          (ironToJson (.obj (insertAll (fun _ _ => 0)
            [("name".toList, IronValue.str "ada".toList), ("ages".toList, .arr [.num 1, .num 2, .num 3]),
          ("ok".toList, .bool true)])))).map ironToJson
        = some "\x7b\"name\":\"ada\",\"ages\":[1,2,3],\"ok\":true\x7d".toList
    ∧ (∀ (fuel : Nat), main (fun ks _ => ks.length) (fuel + 40)
        "let d = \x7ba: 1, b: 2\x7d\nsay keys of d\nsay values of d\nsay d\nsay json of d\n".toList []
      = .code 0 ["[a,b]".toList, "[1,2]".toList, "\x7ba:1,b:2\x7d".toList,
          "\x7b\"a\":1,\"b\":2\x7d".toList] []) := by
  refine ⟨fun kvs hc => ?_, fun pairs hnd => ?_, by rfl, by rfl, fun fuel => ?_⟩
  · have hall : kvs.filter (fun kv => decide (kv.1 ≠ classKey)) = kvs := by
      rw [List.filter_eq_self]
      intro kv hkv
      have : kv.1 ≠ classKey := fun e => hc (e ▸ List.mem_map_of_mem Prod.fst hkv)
      simpa using this
    have hallk : (kvs.map Prod.fst).filter (fun k => decide (k ≠ classKey)) = kvs.map Prod.fst := by
      rw [List.filter_eq_self]
      intro k hk
      have : k ≠ classKey := fun e => hc (e ▸ hk)
      simpa using this
    have hcl : toStringClass kvs = none := by
      rw [toStringClass_eq, (objFind_eq_none kvs classKey).2 hc]
      rfl
    refine ⟨by rw [keysOf_eq, hallk], by rw [valuesOf_eq, hall], ?_, ?_⟩
    · rw [IronValue.toString, hcl]
      simp only []
      rw [toStringPlain_eq]
    · rw [ironToJson, jsonFields_eq, hall]
  · have h := foldl_objSet pl pairs [] hnd (by simp)
    simp only [List.nil_append, List.append_nil] at h
    exact h
  · have hp : ∃ rest, parseSource
        "let d = \x7ba: 1, b: 2\x7d\nsay keys of d\nsay values of d\nsay d\nsay json of d\n".toList
      = .ok
        [.LetStmt "d".toList (.ObjectLit [("a".toList, .NumberLit 1), ("b".toList, .NumberLit 2)]),
          .SayStmt (.KeysOfExpr (.VarExpr "d".toList)), .SayStmt (.ValuesOfExpr (.VarExpr "d".toList)),
          .SayStmt (.VarExpr "d".toList), .SayStmt (.JsonOfExpr (.VarExpr "d".toList))] rest := ⟨_, rfl⟩
    obtain ⟨rest, hp⟩ := hp
    unfold main
    rw [hp]
    simp only [↓reduceIte, lbrace, rbrace, Nat.reduceLeDiff, Nat.reduceLT, Nat.reduceEqDiff, Nat.reduceSub, Int.reduceLT,
        Int.reduceLE, Int.reduceToNat, Nat.cast_ofNat, List.length_set, Nat.cast_add, Nat.cast_one, run,
        execBlock, execStmt, evalExpr, evalList, evalPairs, initFields, keepLoop,
        mapLoop, callValue, callMethod, assignLvalue, Res.bind, State.register, classFields,
        classMethods, objSet_nil, registerGlobals, mathObject, State.define, State.get, State.assign,
        envGet, envOwner, interpolate, bindParams, State.alloc, State.newEnv, State.read, State.write, envReach, Res.release, State.release, List.contains_cons,
        List.contains_nil, List.erase_cons_head, beq_self_eq_true, Nat.reduceBEq, Bool.true_or,
        Bool.or_true, Bool.false_or, Bool.or_false, Bool.and_true, Bool.true_and, Bool.and_self,
        Bool.or_self, storeMember,
        storeIndex, State.store, memberOfObject, machineBinOp, liftOutcome, binOp, builtinCall,
        render, reify, mapOpt, Val.ofScalar, Val.isTruthy, objFind_objSet, objFind, Host.std,
        classKey, ne_eq, not_false_eq_true, not_true_eq_false, List.cons_append, List.nil_append,
        Nat.reduceAdd, zero_add, List.set_cons_zero, String.toList, List.cons.injEq, Char.reduceEq,
        and_false, and_true, and_self, if_true, if_false, reduceCtorEq, List.length_cons,
        List.length_nil, List.getElem?_cons_zero, List.length_append, List.getElem?_cons_succ,
        List.set_cons_succ, Option.map_some', IronValue.toString, objSet, insertAt, keysOf, valuesOf, ironToJson, jsonFields, jsonElems, toStringPlain, toStringClass, toStringElems, classKey, List.map, List.take, List.drop, Option.isSome, Bool.false_eq_true, List.getElem?_eq_getElem, List.getElem_cons_succ, List.getElem_cons_zero, Option.map_some']
    rfl

end Ironwood

namespace Ironwood

/-! ## Break and continue through a call -/

set_option maxRecDepth 1000000 in
set_option maxHeartbeats 4000000 in
/-- C37: `callValue` and `callMethod` catch the return signal only.  When
the body of a user function or of a method ends with the break or the
continue signal, the call ends with that signal, in the state in which the
body ended, with the environment of the call destroyed; so does the call
expression, the statement that holds it and the block that holds the
statement.  A loop whose body ends with the break signal ends normally in the
state in which the body ended, with the environment of the round destroyed; a
loop whose body ends with the continue signal goes on from there with the
next round (`while`: with the condition, `for`: with the next element).  In the programs, for every placement and fuel: a function that
only breaks, called in a `while` loop, ends the loop before the next
statement; a function that only continues skips the rest of the round; a
method does the same in a `for` loop; and a break in a function called in an
inner loop ends the inner loop only. -/
theorem call_passes_break_and_continue (h : Host) (fuel : Nat) :
    (∀ (s : Signal) (f : IronFunc) (args : List Val) (σ σ1 : State),
        s = .BreakSignal ∨ s = .ContinueSignal →
        execBlock h fuel f.body (σ.newEnv (bindParams h.place f.params args []) f.closure).1
            (σ.newEnv (bindParams h.place f.params args []) f.closure).2 = .exc s σ1 →
        callValue h (fuel + 1) (.func f) args σ = .exc s (σ1.release σ.envs.length))
    ∧ (∀ (s : Signal) (self : Nat) (m : IronFunc) (args : List Val) (σ σ1 : State),
        s = .BreakSignal ∨ s = .ContinueSignal →
        execBlock h fuel m.body
            (σ.newEnv (bindParams h.place m.params args
              (objSet h.place [] "self".toList (.obj self))) m.closure).1
            (σ.newEnv (bindParams h.place m.params args
              (objSet h.place [] "self".toList (.obj self))) m.closure).2 = .exc s σ1 →
        callMethod h (fuel + 1) self m args σ = .exc s (σ1.release σ.envs.length)
        ∧ callValue h (fuel + 2) (.native (.boundMethod self m)) args σ
            = .exc s (σ1.release σ.envs.length))
    ∧ (∀ (s : Signal) (callee : Expr) (args : List Expr) (env : Nat) (σ σ1 σ2 σ3 : State)
        (fv : Val) (vs : List Val),
        evalExpr h fuel callee env σ = .ok fv σ1 → evalList h fuel args env σ1 = .ok vs σ2 →
        callValue h fuel fv vs σ2 = .exc s σ3 →
        evalExpr h (fuel + 1) (.CallExpr callee args) env σ = .exc s σ3
        ∧ execStmt h (fuel + 2) (.ExprStmt (.CallExpr callee args)) env σ = .exc s σ3
        ∧ execStmt h (fuel + 2) (.CallStmt (.CallExpr callee args)) env σ = .exc s σ3)
    ∧ (∀ (s : Signal) (st : Stmt) (rest : List Stmt) (env : Nat) (σ σ1 : State),
        execStmt h fuel st env σ = .exc s σ1 →
        execBlock h (fuel + 1) (st :: rest) env σ = .exc s σ1)
    ∧ (∀ (cond : Expr) (body : List Stmt) (env : Nat) (σ σ1 σ2 : State) (c : Val),
        evalExpr h fuel cond env σ = .ok c σ1 → c.isTruthy = true →
        (execBlock h fuel body (σ1.newEnv [] env).1 (σ1.newEnv [] env).2 = .exc .BreakSignal σ2 →
          whileLoop h (fuel + 1) cond body env σ = .ok () (σ2.release σ1.envs.length))
        ∧ (execBlock h fuel body (σ1.newEnv [] env).1 (σ1.newEnv [] env).2
              = .exc .ContinueSignal σ2 →
          whileLoop h (fuel + 1) cond body env σ
            = whileLoop h fuel cond body env (σ2.release σ1.envs.length)))
    ∧ (∀ (var : Str) (item : Val) (rest : List Val) (body : List Stmt) (env : Nat)
        (σ σ1 : State),
        (execBlock h fuel body (σ.newEnv (objSet h.place [] var item) env).1
            (σ.newEnv (objSet h.place [] var item) env).2 = .exc .BreakSignal σ1 →
          forLoop h (fuel + 1) var (item :: rest) body env σ
            = .ok () (σ1.release σ.envs.length))
        ∧ (execBlock h fuel body (σ.newEnv (objSet h.place [] var item) env).1
            (σ.newEnv (objSet h.place [] var item) env).2 = .exc .ContinueSignal σ1 →
          forLoop h (fuel + 1) var (item :: rest) body env σ
            = forLoop h fuel var rest body env (σ1.release σ.envs.length)))
    ∧ (∀ (pl : Placement) (n : Nat),
        main pl (n + 40)
          ("function stop() break end\nlet go = true\nwhile go\n  stop()\n  say \"never\"\nend\n"
          ++ "say \"done\"\n").toList []
          = .code 0 ["done".toList] [])
    ∧ (∀ (pl : Placement) (n : Nat),
        main pl (n + 40)
          ("function next() continue end\nlet go = true\nwhile go\n  set go = false\n  next()\n"
          ++ "  say \"skipped\"\nend\nsay \"done\"\n").toList []
          = .code 0 ["done".toList] [])
    ∧ (∀ (pl : Placement) (n : Nat),
        main pl (n + 40)
          ("class K\n  function skip() continue end\nend\nlet k = new K()\n"
          ++ "for each x in [1, 2, 3]\n  if x == 2\n    k.skip()\n  end\n  say x\nend\n").toList []
          = .code 0 ["1".toList, "3".toList] [])
    ∧ (∀ (pl : Placement) (n : Nat),
        main pl (n + 40)
          ("function stop() break end\nfor each a in [1, 2]\n  for each b in [10, 20]\n    stop()\n"
          ++ "    say b\n  end\n  say a\nend\n").toList []
          = .code 0 ["1".toList, "2".toList] []) := by
  refine ⟨?_, ?_, ?_, ?_, ?_, ?_, fun pl fuel => ?_, fun pl fuel => ?_, fun pl fuel => ?_,
    fun pl fuel => ?_⟩
  · intro s f args σ σ1 hs hb
    rw [callValue, hb]
    rcases hs with rfl | rfl <;> rfl
  · intro s self m args σ σ1 hs hb
    have h1 : callMethod h (fuel + 1) self m args σ = .exc s (σ1.release σ.envs.length) := by
      rw [callMethod, hb]
      rcases hs with rfl | rfl <;> rfl
    refine ⟨h1, ?_⟩
    rw [callValue]
    exact h1
  · intro s callee args env σ σ1 σ2 σ3 fv vs hc ha hv
    have h1 : evalExpr h (fuel + 1) (.CallExpr callee args) env σ = .exc s σ3 := by
      rw [evalExpr, hc, Res.bind, ha, Res.bind, hv]
    refine ⟨h1, ?_, ?_⟩
    · rw [execStmt, h1]
      rfl
    · rw [execStmt, h1]
      rfl
  · intro s st rest env σ σ1 hst
    rw [execBlock, hst]
    rfl
  · intro cond body env σ σ1 σ2 c hc ht
    refine ⟨fun hb => ?_, fun hb => ?_⟩
    · rw [whileLoop, hc, Res.bind, if_pos ht, hb]
      rfl
    · rw [whileLoop, hc, Res.bind, if_pos ht, hb]
      rfl
  · intro var item rest body env σ σ1
    refine ⟨fun hb => ?_, fun hb => ?_⟩
    · rw [forLoop, hb]
      rfl
    · rw [forLoop, hb]
      rfl
  · have hp : ∃ rest, parseSource
        ("function stop() break end\nlet go = true\nwhile go\n  stop()\n  say \"never\"\nend\n"
              ++ "say \"done\"\n").toList
      = .ok
        [.FuncStmt "stop".toList [] [.BreakStmt], .LetStmt "go".toList (.BoolLit true),
          .WhileStmt (.VarExpr "go".toList)
            [.ExprStmt (.CallExpr (.VarExpr "stop".toList) []), .SayStmt (.StringLit "never".toList)],
          .SayStmt (.StringLit "done".toList)] rest := ⟨_, rfl⟩
    obtain ⟨rest, hp⟩ := hp
    unfold main
    rw [hp]
    simp only [↓reduceIte, lbrace, rbrace, Nat.reduceLeDiff, Nat.reduceLT, Nat.reduceEqDiff, Nat.reduceSub, Int.reduceLT,
        Int.reduceLE, Int.reduceToNat, Nat.cast_ofNat, List.length_set, Nat.cast_add, Nat.cast_one, run,
        execBlock, execStmt, evalExpr, evalList, evalPairs, initFields, keepLoop,
        mapLoop, callValue, callMethod, assignLvalue, Res.bind, State.register, classFields,
        classMethods, objSet_nil, registerGlobals, mathObject, State.define, State.get, State.assign,
        envGet, envOwner, interpolate, bindParams, State.alloc, State.newEnv, State.read, State.write, envReach, Res.release, State.release, List.contains_cons,
        List.contains_nil, List.erase_cons_head, beq_self_eq_true, Nat.reduceBEq, Bool.true_or,
        Bool.or_true, Bool.false_or, Bool.or_false, Bool.and_true, Bool.true_and, Bool.and_self,
        Bool.or_self, storeMember,
        storeIndex, State.store, memberOfObject, machineBinOp, liftOutcome, binOp, builtinCall,
        render, reify, mapOpt, Val.ofScalar, Val.isTruthy, objFind_objSet, objFind, Host.std,
        classKey, ne_eq, not_false_eq_true, not_true_eq_false, List.cons_append, List.nil_append,
        Nat.reduceAdd, zero_add, List.set_cons_zero, String.toList, List.cons.injEq, Char.reduceEq,
        and_false, and_true, and_self, if_true, if_false, reduceCtorEq, List.length_cons,
        List.length_nil, List.getElem?_cons_zero, List.length_append, List.getElem?_cons_succ,
        List.set_cons_succ, Option.map_some', IronValue.toString, whileLoop, forLoop, forItems]

  · have hp : ∃ rest, parseSource
        ("function next() continue end\nlet go = true\nwhile go\n  set go = false\n  next()\n"
              ++ "  say \"skipped\"\nend\nsay \"done\"\n").toList
      = .ok
        [.FuncStmt "next".toList [] [.ContinueStmt], .LetStmt "go".toList (.BoolLit true),
          .WhileStmt (.VarExpr "go".toList)
            [.SetStmt (.VarExpr "go".toList) (.BoolLit false),
             .ExprStmt (.CallExpr (.VarExpr "next".toList) []),
             .SayStmt (.StringLit "skipped".toList)],
          .SayStmt (.StringLit "done".toList)] rest := ⟨_, rfl⟩
    obtain ⟨rest, hp⟩ := hp
    unfold main
    rw [hp]
    simp only [↓reduceIte, lbrace, rbrace, Nat.reduceLeDiff, Nat.reduceLT, Nat.reduceEqDiff, Nat.reduceSub, Int.reduceLT,
        Int.reduceLE, Int.reduceToNat, Nat.cast_ofNat, List.length_set, Nat.cast_add, Nat.cast_one, run,
        execBlock, execStmt, evalExpr, evalList, evalPairs, initFields, keepLoop,
        mapLoop, callValue, callMethod, assignLvalue, Res.bind, State.register, classFields,
        classMethods, objSet_nil, registerGlobals, mathObject, State.define, State.get, State.assign,
        envGet, envOwner, interpolate, bindParams, State.alloc, State.newEnv, State.read, State.write, envReach, Res.release, State.release, List.contains_cons,
        List.contains_nil, List.erase_cons_head, beq_self_eq_true, Nat.reduceBEq, Bool.true_or,
        Bool.or_true, Bool.false_or, Bool.or_false, Bool.and_true, Bool.true_and, Bool.and_self,
        Bool.or_self, storeMember,
        storeIndex, State.store, memberOfObject, machineBinOp, liftOutcome, binOp, builtinCall,
        render, reify, mapOpt, Val.ofScalar, Val.isTruthy, objFind_objSet, objFind, Host.std,
        classKey, ne_eq, not_false_eq_true, not_true_eq_false, List.cons_append, List.nil_append,
        Nat.reduceAdd, zero_add, List.set_cons_zero, String.toList, List.cons.injEq, Char.reduceEq,
        and_false, and_true, and_self, if_true, if_false, reduceCtorEq, List.length_cons,
        List.length_nil, List.getElem?_cons_zero, List.length_append, List.getElem?_cons_succ,
        List.set_cons_succ, Option.map_some', IronValue.toString, whileLoop, forLoop, forItems]

  · have hp : ∃ rest, parseSource
        ("class K\n  function skip() continue end\nend\nlet k = new K()\n"
              ++ "for each x in [1, 2, 3]\n  if x == 2\n    k.skip()\n  end\n  say x\nend\n").toList
      = .ok
        [.ClassStmt "K".toList [.FuncStmt "skip".toList [] [.ContinueStmt]],
          .LetStmt "k".toList (.ClassNewExpr "K".toList []),
          .ForStmt "x".toList (.ArrayLit [.NumberLit 1, .NumberLit 2, .NumberLit 3])
            [.IfStmt (.BinExpr "==".toList (.VarExpr "x".toList) (.NumberLit 2))
               [.ExprStmt (.CallExpr (.MemberExpr (.VarExpr "k".toList) "skip".toList) [])] [],
             .SayStmt (.VarExpr "x".toList)]] rest := ⟨_, rfl⟩
    obtain ⟨rest, hp⟩ := hp
    have e1 : decide (numToString 1 = numToString 2) = false := by decide
    have e3 : decide (numToString 3 = numToString 2) = false := by decide
    unfold main
    rw [hp]
    simp only [↓reduceIte, lbrace, rbrace, Nat.reduceLeDiff, Nat.reduceLT, Nat.reduceEqDiff, Nat.reduceSub, Int.reduceLT,
        Int.reduceLE, Int.reduceToNat, Nat.cast_ofNat, List.length_set, Nat.cast_add, Nat.cast_one, run,
        execBlock, execStmt, evalExpr, evalList, evalPairs, initFields, keepLoop,
        mapLoop, callValue, callMethod, assignLvalue, Res.bind, State.register, classFields,
        classMethods, objSet_nil, registerGlobals, mathObject, State.define, State.get, State.assign,
        envGet, envOwner, interpolate, bindParams, State.alloc, State.newEnv, State.read, State.write, envReach, Res.release, State.release, List.contains_cons,
        List.contains_nil, List.erase_cons_head, beq_self_eq_true, Nat.reduceBEq, Bool.true_or,
        Bool.or_true, Bool.false_or, Bool.or_false, Bool.and_true, Bool.true_and, Bool.and_self,
        Bool.or_self, storeMember,
        storeIndex, State.store, memberOfObject, machineBinOp, liftOutcome, binOp, builtinCall,
        render, reify, mapOpt, Val.ofScalar, Val.isTruthy, objFind_objSet, objFind, Host.std,
        classKey, ne_eq, not_false_eq_true, not_true_eq_false, List.cons_append, List.nil_append,
        Nat.reduceAdd, zero_add, List.set_cons_zero, String.toList, List.cons.injEq, Char.reduceEq,
        and_false, and_true, and_self, if_true, if_false, reduceCtorEq, List.length_cons,
        List.length_nil, List.getElem?_cons_zero, List.length_append, List.getElem?_cons_succ,
        List.set_cons_succ, Option.map_some', IronValue.toString, whileLoop, forLoop, forItems, e1, e3, decide_True, Bool.false_eq_true]
    rfl
  · have hp : ∃ rest, parseSource
        ("function stop() break end\nfor each a in [1, 2]\n  for each b in [10, 20]\n    stop()\n"
              ++ "    say b\n  end\n  say a\nend\n").toList
      = .ok
        [.FuncStmt "stop".toList [] [.BreakStmt],
          .ForStmt "a".toList (.ArrayLit [.NumberLit 1, .NumberLit 2])
            [.ForStmt "b".toList (.ArrayLit [.NumberLit 10, .NumberLit 20])
               [.ExprStmt (.CallExpr (.VarExpr "stop".toList) []), .SayStmt (.VarExpr "b".toList)],
             .SayStmt (.VarExpr "a".toList)]] rest := ⟨_, rfl⟩
    obtain ⟨rest, hp⟩ := hp
    unfold main
    rw [hp]
    simp only [↓reduceIte, lbrace, rbrace, Nat.reduceLeDiff, Nat.reduceLT, Nat.reduceEqDiff, Nat.reduceSub, Int.reduceLT,
        Int.reduceLE, Int.reduceToNat, Nat.cast_ofNat, List.length_set, Nat.cast_add, Nat.cast_one, run,
        execBlock, execStmt, evalExpr, evalList, evalPairs, initFields, keepLoop,
        mapLoop, callValue, callMethod, assignLvalue, Res.bind, State.register, classFields,
        classMethods, objSet_nil, registerGlobals, mathObject, State.define, State.get, State.assign,
        envGet, envOwner, interpolate, bindParams, State.alloc, State.newEnv, State.read, State.write, envReach, Res.release, State.release, List.contains_cons,
        List.contains_nil, List.erase_cons_head, beq_self_eq_true, Nat.reduceBEq, Bool.true_or,
        Bool.or_true, Bool.false_or, Bool.or_false, Bool.and_true, Bool.true_and, Bool.and_self,
        Bool.or_self, storeMember,
        storeIndex, State.store, memberOfObject, machineBinOp, liftOutcome, binOp, builtinCall,
        render, reify, mapOpt, Val.ofScalar, Val.isTruthy, objFind_objSet, objFind, Host.std,
        classKey, ne_eq, not_false_eq_true, not_true_eq_false, List.cons_append, List.nil_append,
        Nat.reduceAdd, zero_add, List.set_cons_zero, String.toList, List.cons.injEq, Char.reduceEq,
        and_false, and_true, and_self, if_true, if_false, reduceCtorEq, List.length_cons,
        List.length_nil, List.getElem?_cons_zero, List.length_append, List.getElem?_cons_succ,
        List.set_cons_succ, Option.map_some', IronValue.toString, whileLoop, forLoop, forItems]
    rfl

end Ironwood

namespace Ironwood

/-! ## Split and join -/

theorem findSub_some (sep : Str) (hsep : sep ≠ []) :
    ∀ (s : Str) (f : Nat), findSub sep s = some f →
      s = s.take f ++ sep ++ s.drop (f + sep.length)
      ∧ f + sep.length ≤ s.length
      ∧ countOcc sep 0 s = 1 + countOcc sep (f + sep.length) s := by
  intro s
  induction s with
  | nil =>
    intro f h
    have : sep.isEmpty = false := by cases sep <;> simp at hsep ⊢
    simp [findSub, this] at h
  | cons c r ih =>
    intro f h
    unfold findSub at h
    by_cases hp : sep.isPrefixOf (c :: r) = true
    · rw [if_pos hp] at h
      injection h with h
      subst h
      obtain ⟨t, ht⟩ := List.isPrefixOf_iff_prefix.1 hp
      have hlen : sep.length ≤ (c :: r).length := by
        rw [← ht, List.length_append]
        omega
      refine ⟨?_, by omega, ?_⟩
      · simp only [List.take_zero, List.nil_append, zero_add]
        rw [← ht, List.drop_left]
      · cases hs : sep with
        | nil => exact absurd hs hsep
        | cons a u =>
          rw [← hs, countOcc, if_pos hp, hs]
          simp [countOcc]
    · rw [if_neg hp] at h
      cases hf : findSub sep r with
      | none => rw [hf] at h; cases h
      | some f' =>
        rw [hf] at h
        injection h with h
        subst h
        obtain ⟨i1, i2, i3⟩ := ih f' hf
        refine ⟨?_, by simp only [List.length_cons]; omega, ?_⟩
        · have e : f' + 1 + sep.length = (f' + sep.length) + 1 := by omega
          rw [e, List.take_succ_cons, List.drop_succ_cons, List.cons_append, List.cons_append,
            ← i1]
        · have e : f' + 1 + sep.length = (f' + sep.length) + 1 := by omega
          rw [countOcc, if_neg hp, i3, e, countOcc]

theorem findSub_none (sep : Str) :
    ∀ (s : Str), findSub sep s = none → countOcc sep 0 s = 0 := by
  intro s
  induction s with
  | nil => intro _; rfl
  | cons c r ih =>
    intro h
    unfold findSub at h
    by_cases hp : sep.isPrefixOf (c :: r) = true
    · rw [if_pos hp] at h
      cases h
    · rw [if_neg hp] at h
      cases hf : findSub sep r with
      | none => rw [countOcc, if_neg hp, ih hf]
      | some f' => rw [hf] at h; cases h

theorem countOcc_skip (sep : Str) :
    ∀ (s : Str) (k : Nat), countOcc sep k s = countOcc sep 0 (s.drop k) := by
  intro s
  induction s with
  | nil => intro k; simp [countOcc]
  | cons c r ih =>
    intro k
    cases k with
    | zero => rfl
    | succ k => rw [countOcc, ih k, List.drop_succ_cons]

/-- The loop of `split`, for a separator that is not empty: with fuel beyond
the length of the text it returns pieces, at least one, that joined with the
separator give the text back, one more than there are occurrences. -/
theorem splitLoop_spec (sep : Str) (hsep : sep ≠ []) :
    ∀ (fuel : Nat) (s : Str), s.length < fuel →
      ∃ ps, splitLoop sep fuel s = some ps ∧ ps ≠ [] ∧ joinSep sep ps = s
        ∧ ps.length = countOcc sep 0 s + 1 := by
  have hpos : 0 < sep.length := List.length_pos.2 hsep
  intro fuel
  induction fuel with
  | zero => intro s h; omega
  | succ fuel ih =>
    intro s h
    rw [splitLoop]
    cases hf : findSub sep s with
    | none =>
      exact ⟨[s], rfl, by simp, rfl, by rw [findSub_none sep s hf]; rfl⟩
    | some f =>
      obtain ⟨h1, h2, h3⟩ := findSub_some sep hsep s f hf
      have hlen : (s.drop (f + sep.length)).length < fuel := by
        rw [List.length_drop]
        omega
      obtain ⟨ps, e1, e2, e3, e4⟩ := ih _ hlen
      refine ⟨s.take f :: ps, by simp only [e1]; rfl, by simp, ?_, ?_⟩
      · rw [joinSep_cons]
        have : ps.isEmpty = false := by cases ps <;> simp at e2 ⊢
        rw [this]
        simp only [Bool.false_eq_true, if_false]
        rw [e3]
        conv_rhs => rw [h1]
        simp
      · rw [List.length_cons, e4, h3, countOcc_skip sep s (f + sep.length)]
        omega

theorem joinSep_chars (s : Str) : joinSep [] (s.map (fun c => [c])) = s := by
  induction s with
  | nil => rfl
  | cons c r ih =>
    rw [List.map_cons, joinSep_cons, ih]
    cases r <;> simp

set_option maxRecDepth 1000000 in
/-- C39: `split s by sep` returns a list for all strings `s` and `sep` (the
fuel of the model is enough), and `join` of that list with `sep` is `s`.
For a separator that is not empty the list has one piece more than there
are occurrences of `sep` in `s`, counted from the left without overlap; for
the empty separator its pieces are the single characters of `s`.  On values:
`split` of the strings is the list of the pieces as strings, and `join` of
that list with the separator is the string `s`; the text
`join (split s by sep) with sep` is parsed as that composition. -/
theorem split_join_inverse (s sep : Str) :
    (∃ ps, splitStr s sep = some ps ∧ joinSep sep ps = s
      ∧ (sep ≠ [] → ps.length = countOcc sep 0 s + 1)
      ∧ (sep = [] → ps = s.map (fun c => [c]))
      ∧ evalSplit (.str s) (.str sep) = some (.arr (ps.map IronValue.str))
      ∧ evalJoin (.arr (ps.map IronValue.str)) (.str sep) = .str s)
    ∧ splitStr "a,b,,c".toList ",".toList
        = some ["a".toList, "b".toList, [], "c".toList]
    ∧ countOcc ",".toList 0 "a,b,,c".toList = 3
    ∧ splitStr "aaaa".toList "aa".toList = some [[], [], []]
    ∧ countOcc "aa".toList 0 "aaaa".toList = 2
    ∧ splitStr "abc".toList [] = some ["a".toList, "b".toList, "c".toList]
    ∧ splitStr [] ",".toList = some [[]]
    ∧ splitStr [] [] = some []
    ∧ evalJoin (.arr [.str "a".toList, .str "b".toList, .str [], .str "c".toList])
        (.str ",".toList) = .str "a,b,,c".toList
    ∧ (∃ rest, parseSource "say join (split s by sep) with sep\n".toList
        = .ok [.SayStmt (.JoinExpr (.SplitExpr (.VarExpr "s".toList) (.VarExpr "sep".toList))
            (.VarExpr "sep".toList))] rest) := by
  refine ⟨?_, by decide, by decide, by decide, by decide, by decide, by decide, by decide,
    by rfl, ⟨_, rfl⟩⟩
  have hj : ∀ ps : List Str, (ps.map IronValue.str).map IronValue.toString = ps := by
    intro ps
    induction ps with
    | nil => rfl
    | cons p r ih => simp only [List.map_cons, ih, IronValue.toString]
  by_cases hsep : sep = []
  · subst hsep
    refine ⟨s.map (fun c => [c]), rfl, joinSep_chars s, fun h => absurd rfl h, fun _ => rfl,
      rfl, ?_⟩
    simp only [evalJoin, hj, IronValue.toString]
    rw [joinSep_chars]
  · have he : sep.isEmpty = false := by cases sep <;> simp at hsep ⊢
    obtain ⟨ps, e1, _, e3, e4⟩ := splitLoop_spec sep hsep (s.length + 1) s (by omega)
    have hs : splitStr s sep = some ps := by
      unfold splitStr
      rw [he]
      exact e1
    refine ⟨ps, hs, e3, fun _ => e4, fun h => absurd h hsep, ?_, ?_⟩
    · simp only [evalSplit, IronValue.toString, hs, Option.map_some']
    · simp only [evalJoin, hj, IronValue.toString]
      rw [e3]

end Ironwood

namespace Ironwood

/-! ## The parser ends, and its cursor stays in the token list -/

theorem wellEnded_cons (t : Token) (r : List Token) :
    wellEnded (t :: r)
      = if r.isEmpty then decide (t.type = .EOF_T) && t.val.isEmpty
        else decide (t.type ≠ .EOF_T) && wellEnded r := rfl

theorem wellEnded_pos (ts : List Token) (h : wellEnded ts = true) : 1 ≤ ts.length := by
  cases ts with
  | nil => cases h
  | cons t r => simp

/-- A consumed token that is not the EOF token leaves the cursor in the
list. -/
theorem wellEnded_drop (ts : List Token) (h : wellEnded ts = true)
    (hp : (peekTok ts 0).type ≠ .EOF_T ∨ (peekTok ts 0).val ≠ []) :
    wellEnded (ts.drop 1) = true ∧ (ts.drop 1).length + 1 = ts.length := by
  cases ts with
  | nil => cases h
  | cons t r =>
    have hpk : peekTok (t :: r) 0 = t := rfl
    rw [hpk] at hp
    rw [wellEnded_cons] at h
    cases r with
    | nil =>
      simp only [List.isEmpty_nil, if_true, Bool.and_eq_true, decide_eq_true_eq,
        List.isEmpty_iff] at h
      rcases hp with hp | hp
      · exact absurd h.1 hp
      · exact absurd h.2 hp
    | cons u r2 =>
      simp only [List.isEmpty_cons, Bool.false_eq_true, if_false, Bool.and_eq_true] at h
      exact ⟨h.2, by simp⟩

theorem peekTok_succ (ts : List Token) (k : Nat) (h : wellEnded (ts.drop 1) = true) :
    peekTok ts (k + 1) = peekTok (ts.drop 1) k := by
  cases ts with
  | nil => cases h
  | cons t r =>
    cases r with
    | nil => cases h
    | cons u r2 =>
      unfold peekTok
      simp only [List.drop_succ_cons, List.drop_zero]
      cases hd : (u :: r2).drop k with
      | nil =>
        simp only []
        rfl
      | cons a b => rfl

theorem check_ne_eof (ts : List Token) (t : TT) (k : Nat) (h : check ts t k = true)
    (ht : t ≠ .EOF_T) : (peekTok ts k).type ≠ .EOF_T := by
  simp only [check, decide_eq_true_eq] at h
  rw [h]
  exact ht

/-- One token read after a check of its type. -/
theorem drop_one (ts : List Token) (t : TT) (hv : wellEnded ts = true)
    (h : check ts t 0 = true) (ht : t ≠ .EOF_T) :
    wellEnded (ts.drop 1) = true ∧ (ts.drop 1).length + 1 = ts.length :=
  wellEnded_drop ts hv (Or.inl (check_ne_eof ts t 0 h ht))

/-- Two tokens read after a check of their types. -/
theorem drop_two (ts : List Token) (a b : TT) (hv : wellEnded ts = true)
    (h1 : check ts a 0 = true) (ha : a ≠ .EOF_T) (h2 : check ts b 1 = true) (hb : b ≠ .EOF_T) :
    wellEnded (ts.drop 2) = true ∧ (ts.drop 2).length + 2 = ts.length := by
  obtain ⟨w1, l1⟩ := drop_one ts a hv h1 ha
  have h2' : check (ts.drop 1) b 0 = true := by
    unfold check at h2 ⊢
    rw [peekTok_succ ts 0 w1] at h2
    exact h2
  obtain ⟨w2, l2⟩ := drop_one (ts.drop 1) b w1 h2' hb
  rw [List.drop_drop] at w2 l2
  have e : 1 + 1 = 2 := rfl
  rw [e] at w2 l2
  exact ⟨w2, by omega⟩

theorem wellEnded_skipNL (ts : List Token) (h : wellEnded ts = true) :
    wellEnded (skipNL ts) = true ∧ (skipNL ts).length ≤ ts.length := by
  induction ts with
  | nil => cases h
  | cons t r ih =>
    unfold skipNL
    by_cases ht : t.type = .NEWLINE
    · have hp : (peekTok (t :: r) 0).type ≠ .EOF_T ∨ (peekTok (t :: r) 0).val ≠ [] := by
        left
        show t.type ≠ .EOF_T
        rw [ht]
        decide
      obtain ⟨w, l⟩ := wellEnded_drop (t :: r) h hp
      simp only [List.drop_succ_cons, List.drop_zero] at w l
      have := ih w
      unfold skipNL at this
      simp only [List.dropWhile_cons, ht, decide_True, if_true, List.length_cons]
      exact ⟨this.1, by omega⟩
    · simp only [List.dropWhile_cons, ht, decide_False, Bool.false_eq_true, if_false]
      exact ⟨h, le_refl _⟩

theorem wellEnded_expectNL (ts : List Token) (h : wellEnded ts = true) :
    wellEnded (expectNL ts) = true ∧ (expectNL ts).length ≤ ts.length := by
  unfold expectNL
  split
  · rename_i hc
    obtain ⟨w, l⟩ := drop_one ts .NEWLINE h hc (by decide)
    exact ⟨w, by omega⟩
  · exact ⟨h, le_refl _⟩

theorem PRes.fine_ok {α : Type} (a : α) (rest : List Token) (n : Nat)
    (h1 : wellEnded rest = true) (h2 : rest.length ≤ n) : (PRes.ok a rest).Fine n := ⟨h1, h2⟩

theorem PRes.fine_err {α : Type} (w : Str) (n : Nat) : (PRes.err w : PRes α).Fine n := trivial

theorem PRes.fine_mono {α : Type} (r : PRes α) (m n : Nat) (h : r.Fine m) (hmn : m ≤ n) :
    r.Fine n := by
  cases r with
  | ok a rest => exact ⟨h.1, le_trans h.2 hmn⟩
  | err w => trivial
  | timeout => exact h

/-- Sequencing keeps the results in order; what follows a value starts at a
cursor that is in the list, also after the newline tokens that it may skip. -/
theorem PRes.fine_bind {α β : Type} (r : PRes α) (k : α → List Token → PRes β) (m n : Nat)
    (hr : r.Fine m)
    (hk : ∀ (a : α) (rest : List Token), wellEnded rest = true → rest.length ≤ m →
      wellEnded (expectNL rest) = true → (expectNL rest).length ≤ rest.length →
      wellEnded (skipNL rest) = true → (skipNL rest).length ≤ rest.length →
      (k a rest).Fine n) :
    (r.bind k).Fine n := by
  cases r with
  | ok a rest =>
    exact hk a rest hr.1 hr.2 (wellEnded_expectNL rest hr.1).1 (wellEnded_expectNL rest hr.1).2
      (wellEnded_skipNL rest hr.1).1 (wellEnded_skipNL rest hr.1).2
  | err w => trivial
  | timeout => exact hr

theorem fine_expect (ts : List Token) (t : TT) (msg : Str) (hv : wellEnded ts = true)
    (ht : t ≠ .EOF_T) : (expect ts t msg).Fine (ts.length - 1) := by
  unfold expect
  split
  · rename_i hc
    obtain ⟨w, l⟩ := drop_one ts t hv hc ht
    exact ⟨w, by omega⟩
  · trivial

theorem isName_ne_eof (ts : List Token) (h : isName ts = true) :
    (peekTok ts 0).type ≠ .EOF_T := by
  intro e
  unfold isName at h
  rw [e] at h
  revert h
  decide

theorem fine_expectName (ts : List Token) (msg : Str) (hv : wellEnded ts = true) :
    (expectName ts msg).Fine (ts.length - 1) := by
  unfold expectName
  split
  · rename_i hc
    obtain ⟨w, l⟩ := wellEnded_drop ts hv (Or.inl (isName_ne_eof ts hc))
    exact ⟨w, by omega⟩
  · trivial

theorem fine_paramsLoop (fuel : Nat) :
    ∀ ts : List Token, wellEnded ts = true → ts.length < fuel →
      (paramsLoop fuel ts).Fine ts.length := by
  induction fuel with
  | zero => intro ts _ h; omega
  | succ fuel ih =>
    intro ts hv hl
    rw [paramsLoop]
    split
    · rename_i hc
      obtain ⟨w, l⟩ := drop_one ts .COMMA hv hc (by decide)
      refine PRes.fine_bind _ _ _ _ (fine_expectName _ _ w) ?_
      intro n ts1 hv1 hl1 _ _ _ _
      refine PRes.fine_bind _ _ _ _ (ih ts1 hv1 (by omega)) ?_
      intro ns ts2 hv2 hl2 _ _ _ _
      exact ⟨hv2, by omega⟩
    · exact ⟨hv, le_refl _⟩

theorem fine_parseParams (ts : List Token) (hv : wellEnded ts = true) :
    (parseParams ts).Fine ts.length := by
  unfold parseParams
  split
  · exact ⟨hv, le_refl _⟩
  · refine PRes.fine_bind _ _ _ _ (fine_expectName _ _ hv) ?_
    intro n ts1 hv1 hl1 _ _ _ _
    refine PRes.fine_bind _ _ _ _ (fine_paramsLoop _ ts1 hv1 (by omega)) ?_
    intro ns ts2 hv2 hl2 _ _ _ _
    exact ⟨hv2, by omega⟩

theorem binLevel_ne_eof (t : TT) (k : Nat) (h : binLevel t = some k) : t ≠ .EOF_T := by
  intro e
  rw [e] at h
  cases h

/-- The loop of a level of the ladder ends in order. -/
theorem proceeds_loop (k dS : Nat) (hd : dS ≤ 15) (S : Nat → List Token → PRes Expr)
    (L : Nat → Expr → List Token → PRes Expr) (f : Nat)
    (hL : ∀ f l ts, L (f + 1) l ts
      = if binLevel (peekTok ts 0).type = some k then
          (S f (ts.drop 1)).bind (fun r ts1 => L f (.BinExpr (opText (peekTok ts 0)) l r) ts1)
        else .ok l ts)
    (ihS : Advances dS S f) (ihL : ∀ l, Proceeds 0 (fun fuel ts => L fuel l ts) f) :
    ∀ l, Proceeds 0 (fun fuel ts => L fuel l ts) (f + 1) := by
  intro l ts hv hf
  show (L (f + 1) l ts).Fine ts.length
  rw [hL]
  split
  · rename_i hc
    obtain ⟨w, hl⟩ := wellEnded_drop ts hv (Or.inl (binLevel_ne_eof _ _ hc))
    refine PRes.fine_bind _ _ _ _ (ihS _ w (by omega)) ?_
    intro r ts1 hv1 hl1 _ _ _ _
    exact PRes.fine_mono _ _ _ (ihL _ ts1 hv1 (by omega)) (by omega)
  · exact ⟨hv, le_refl _⟩

/-- A level of the ladder ends in order and reads a token. -/
theorem advances_level (dS dP : Nat) (hd : dS + 1 ≤ dP) (S P : Nat → List Token → PRes Expr)
    (L : Nat → Expr → List Token → PRes Expr) (f : Nat)
    (hP : ∀ f ts, P (f + 1) ts = (S f ts).bind (fun l ts1 => L f l ts1))
    (ihS : Advances dS S f) (ihL : ∀ l, Proceeds 0 (fun fuel ts => L fuel l ts) f) :
    Advances dP P (f + 1) := by
  intro ts hv hf
  rw [hP]
  refine PRes.fine_bind _ _ _ _ (ihS ts hv (by omega)) ?_
  intro l ts1 hv1 hl1 _ _ _ _
  exact PRes.fine_mono _ _ _ (ihL _ ts1 hv1 (by omega)) (by omega)

/-- A token read after a check of the type of the token before it, when its
text is not empty. -/
theorem drop_two_val (ts : List Token) (a : TT) (hv : wellEnded ts = true)
    (h1 : check ts a 0 = true) (ha : a ≠ .EOF_T) (h2 : (peekTok ts 1).val ≠ []) :
    wellEnded (ts.drop 2) = true ∧ (ts.drop 2).length + 2 = ts.length := by
  obtain ⟨w1, l1⟩ := drop_one ts a hv h1 ha
  rw [peekTok_succ ts 0 w1] at h2
  obtain ⟨w2, l2⟩ := wellEnded_drop (ts.drop 1) w1 (Or.inr h2)
  rw [List.drop_drop] at w2 l2
  have e : 1 + 1 = 2 := rfl
  rw [e] at w2 l2
  exact ⟨w2, by omega⟩

/-- Three tokens read after a check of their types. -/
theorem drop_three (ts : List Token) (a b c : TT) (hv : wellEnded ts = true)
    (h1 : check ts a 0 = true) (ha : a ≠ .EOF_T) (h2 : check ts b 1 = true) (hb : b ≠ .EOF_T)
    (h3 : check ts c 2 = true) (hc : c ≠ .EOF_T) :
    wellEnded (ts.drop 3) = true ∧ (ts.drop 3).length + 3 = ts.length := by
  obtain ⟨w1, l1⟩ := drop_one ts a hv h1 ha
  have h2' : check (ts.drop 1) b 0 = true := by
    unfold check at h2 ⊢
    rw [peekTok_succ ts 0 w1] at h2
    exact h2
  have h3' : check (ts.drop 1) c 1 = true := by
    unfold check at h3 ⊢
    rw [peekTok_succ ts 1 w1] at h3
    exact h3
  obtain ⟨w2, l2⟩ := drop_two (ts.drop 1) b c w1 h2' hb h3' hc
  rw [List.drop_drop] at w2 l2
  have e : 2 + 1 = 3 := rfl
  rw [e] at w2 l2
  exact ⟨w2, by omega⟩

/-- One token read where the check of its type did not fail. -/
theorem drop_one_not (ts : List Token) (t : TT) (hv : wellEnded ts = true)
    (h : ¬ (!check ts t 0) = true) (ht : t ≠ .EOF_T) :
    wellEnded (ts.drop 1) = true ∧ (ts.drop 1).length + 1 = ts.length := by
  refine drop_one ts t hv ?_ ht
  cases hc : check ts t 0
  · rw [hc] at h
    exact absurd rfl h
  · rfl

/-- A second token read after a check of its type. -/
theorem drop_one_more (ts : List Token) (t : TT) (hv : wellEnded (ts.drop 1) = true)
    (h : check (ts.drop 1) t 0 = true) (ht : t ≠ .EOF_T) :
    wellEnded (ts.drop 2) = true ∧ (ts.drop 2).length + 1 = (ts.drop 1).length := by
  obtain ⟨w, l⟩ := drop_one (ts.drop 1) t hv h ht
  rw [List.drop_drop] at w l
  have e : 1 + 1 = 2 := rfl
  rw [e] at w l
  exact ⟨w, l⟩

/-- A second token read as a name. -/
theorem drop_name_more (ts : List Token) (b : Bool) (hv : wellEnded (ts.drop 1) = true)
    (h : (isName (ts.drop 1) && b) = true) :
    wellEnded (ts.drop 2) = true ∧ (ts.drop 2).length + 1 = (ts.drop 1).length := by
  rw [Bool.and_eq_true] at h
  obtain ⟨w, l⟩ := wellEnded_drop (ts.drop 1) hv (Or.inl (isName_ne_eof _ h.1))
  rw [List.drop_drop] at w l
  have e : 1 + 1 = 2 := rfl
  rw [e] at w l
  exact ⟨w, l⟩

end Ironwood

namespace Ironwood

theorem step_expr (f : Nat) (ih : ParserFine f) : Advances 9 parseExpr (f + 1) := by
  intro ts hv hf
  rw [parseExpr]
  exact ih.pOr ts hv (by omega)

set_option linter.unusedTactic false in
set_option linter.unreachableTactic false in
theorem step_unary (f : Nat) (ih : ParserFine f) :
    Advances 2 parseUnary (f + 1) := by
  intro ts hv hf
  rw [parseUnary]
  have hp := wellEnded_pos ts hv
  repeat' first
    | intro _ _ _ _ _ _ _ _
    | exact PRes.fine_err _ _
    | ((with_reducible refine PRes.fine_ok _ _ _ ?_ ?_); assumption; omega)
    | ((with_reducible refine PRes.fine_bind _ _ _ _ (ih.pExpr _ ?_ ?_) ?_); assumption; omega)
    | ((with_reducible refine PRes.fine_bind _ _ _ _ (ih.pOr _ ?_ ?_) ?_); assumption; omega)
    | ((with_reducible refine PRes.fine_bind _ _ _ _ (ih.pAnd _ ?_ ?_) ?_); assumption; omega)
    | ((with_reducible refine PRes.fine_bind _ _ _ _ (ih.pEquality _ ?_ ?_) ?_); assumption; omega)
    | ((with_reducible refine PRes.fine_bind _ _ _ _ (ih.pComparison _ ?_ ?_) ?_); assumption; omega)
    | ((with_reducible refine PRes.fine_bind _ _ _ _ (ih.pAddSub _ ?_ ?_) ?_); assumption; omega)
    | ((with_reducible refine PRes.fine_bind _ _ _ _ (ih.pMulDiv _ ?_ ?_) ?_); assumption; omega)
    | ((with_reducible refine PRes.fine_bind _ _ _ _ (ih.pUnary _ ?_ ?_) ?_); assumption; omega)
    | ((with_reducible refine PRes.fine_bind _ _ _ _ (ih.pPostfix _ ?_ ?_) ?_); assumption; omega)
    | ((with_reducible refine PRes.fine_bind _ _ _ _ (ih.pPrimary _ ?_ ?_) ?_); assumption; omega)
    | ((with_reducible refine PRes.fine_bind _ _ _ _ (ih.pStmt _ ?_ ?_) ?_); assumption; omega)
    | ((with_reducible refine PRes.fine_bind _ _ _ _ (ih.pArgs _ ?_ ?_) ?_); assumption; omega)
    | ((with_reducible refine PRes.fine_bind _ _ _ _ (ih.pPairsLoop _ ?_ ?_) ?_); assumption; omega)
    | ((with_reducible refine PRes.fine_bind _ _ _ _ (ih.pOrLoop _ _ ?_ ?_) ?_); assumption; omega)
    | ((with_reducible refine PRes.fine_bind _ _ _ _ (ih.pAndLoop _ _ ?_ ?_) ?_); assumption; omega)
    | ((with_reducible refine PRes.fine_bind _ _ _ _ (ih.pEqualityLoop _ _ ?_ ?_) ?_); assumption; omega)
    | ((with_reducible refine PRes.fine_bind _ _ _ _ (ih.pComparisonLoop _ _ ?_ ?_) ?_); assumption; omega)
    | ((with_reducible refine PRes.fine_bind _ _ _ _ (ih.pAddSubLoop _ _ ?_ ?_) ?_); assumption; omega)
    | ((with_reducible refine PRes.fine_bind _ _ _ _ (ih.pMulDivLoop _ _ ?_ ?_) ?_); assumption; omega)
    | ((with_reducible refine PRes.fine_bind _ _ _ _ (ih.pPostfixLoop _ _ ?_ ?_) ?_); assumption; omega)
    | ((with_reducible refine PRes.fine_bind _ _ _ _ (ih.pExprsLoop _ _ ?_ ?_) ?_); assumption; omega)
    | ((with_reducible refine PRes.fine_bind _ _ _ _ (ih.pBlock _ _ ?_ ?_) ?_); assumption; omega)
    | ((with_reducible refine PRes.fine_bind _ _ _ _ (ih.pBlockLoop _ _ ?_ ?_) ?_); assumption; omega)
    | ((with_reducible refine PRes.fine_bind _ _ _ _ (fine_expect _ _ _ ?_ ?_) ?_); assumption; decide)
    | ((with_reducible refine PRes.fine_bind _ _ _ _ (fine_expectName _ _ ?_) ?_); assumption)
    | ((with_reducible refine PRes.fine_bind _ _ _ _ (fine_parseParams _ ?_) ?_); assumption)
    | ((with_reducible refine PRes.fine_mono _ _ _ (ih.pExpr _ ?_ ?_) ?_); assumption; omega; omega)
    | ((with_reducible refine PRes.fine_mono _ _ _ (ih.pOr _ ?_ ?_) ?_); assumption; omega; omega)
    | ((with_reducible refine PRes.fine_mono _ _ _ (ih.pAnd _ ?_ ?_) ?_); assumption; omega; omega)
    | ((with_reducible refine PRes.fine_mono _ _ _ (ih.pEquality _ ?_ ?_) ?_); assumption; omega; omega)
    | ((with_reducible refine PRes.fine_mono _ _ _ (ih.pComparison _ ?_ ?_) ?_); assumption; omega; omega)
    | ((with_reducible refine PRes.fine_mono _ _ _ (ih.pAddSub _ ?_ ?_) ?_); assumption; omega; omega)
    | ((with_reducible refine PRes.fine_mono _ _ _ (ih.pMulDiv _ ?_ ?_) ?_); assumption; omega; omega)
    | ((with_reducible refine PRes.fine_mono _ _ _ (ih.pUnary _ ?_ ?_) ?_); assumption; omega; omega)
    | ((with_reducible refine PRes.fine_mono _ _ _ (ih.pPostfix _ ?_ ?_) ?_); assumption; omega; omega)
    | ((with_reducible refine PRes.fine_mono _ _ _ (ih.pPrimary _ ?_ ?_) ?_); assumption; omega; omega)
    | ((with_reducible refine PRes.fine_mono _ _ _ (ih.pStmt _ ?_ ?_) ?_); assumption; omega; omega)
    | ((with_reducible refine PRes.fine_mono _ _ _ (ih.pArgs _ ?_ ?_) ?_); assumption; omega; omega)
    | ((with_reducible refine PRes.fine_mono _ _ _ (ih.pPairsLoop _ ?_ ?_) ?_); assumption; omega; omega)
    | ((with_reducible refine PRes.fine_mono _ _ _ (ih.pOrLoop _ _ ?_ ?_) ?_); assumption; omega; omega)
    | ((with_reducible refine PRes.fine_mono _ _ _ (ih.pAndLoop _ _ ?_ ?_) ?_); assumption; omega; omega)
    | ((with_reducible refine PRes.fine_mono _ _ _ (ih.pEqualityLoop _ _ ?_ ?_) ?_); assumption; omega; omega)
    | ((with_reducible refine PRes.fine_mono _ _ _ (ih.pComparisonLoop _ _ ?_ ?_) ?_); assumption; omega; omega)
    | ((with_reducible refine PRes.fine_mono _ _ _ (ih.pAddSubLoop _ _ ?_ ?_) ?_); assumption; omega; omega)
    | ((with_reducible refine PRes.fine_mono _ _ _ (ih.pMulDivLoop _ _ ?_ ?_) ?_); assumption; omega; omega)
    | ((with_reducible refine PRes.fine_mono _ _ _ (ih.pPostfixLoop _ _ ?_ ?_) ?_); assumption; omega; omega)
    | ((with_reducible refine PRes.fine_mono _ _ _ (ih.pExprsLoop _ _ ?_ ?_) ?_); assumption; omega; omega)
    | ((with_reducible refine PRes.fine_mono _ _ _ (ih.pBlock _ _ ?_ ?_) ?_); assumption; omega; omega)
    | ((with_reducible refine PRes.fine_mono _ _ _ (ih.pBlockLoop _ _ ?_ ?_) ?_); assumption; omega; omega)
    | (split <;> first | (rename_i hc; have hx := drop_one_more _ _ (by assumption) hc (by decide); obtain ⟨hq, _⟩ := hx; obtain ⟨_, _⟩ := wellEnded_expectNL _ hq; obtain ⟨_, _⟩ := wellEnded_skipNL _ hq) | (rename_i hc; have hx := drop_one _ _ (by assumption) hc (by decide); obtain ⟨hq, _⟩ := hx; obtain ⟨_, _⟩ := wellEnded_expectNL _ hq; obtain ⟨_, _⟩ := wellEnded_skipNL _ hq) | (rename_i hc; have hx := drop_one_not _ _ (by assumption) hc (by decide); obtain ⟨hq, _⟩ := hx; obtain ⟨_, _⟩ := wellEnded_expectNL _ hq; obtain ⟨_, _⟩ := wellEnded_skipNL _ hq) | (rename_i hc; have hx := drop_name_more _ _ (by assumption) hc; obtain ⟨hq, _⟩ := hx; obtain ⟨_, _⟩ := wellEnded_expectNL _ hq; obtain ⟨_, _⟩ := wellEnded_skipNL _ hq) | skip)

set_option linter.unusedTactic false in
set_option linter.unreachableTactic false in
theorem step_postfix (f : Nat) (ih : ParserFine f) :
    Advances 1 parsePostfix (f + 1) := by
  intro ts hv hf
  rw [parsePostfix]
  have hp := wellEnded_pos ts hv
  repeat' first
    | intro _ _ _ _ _ _ _ _
    | exact PRes.fine_err _ _
    | ((with_reducible refine PRes.fine_ok _ _ _ ?_ ?_); assumption; omega)
    | ((with_reducible refine PRes.fine_bind _ _ _ _ (ih.pExpr _ ?_ ?_) ?_); assumption; omega)
    | ((with_reducible refine PRes.fine_bind _ _ _ _ (ih.pOr _ ?_ ?_) ?_); assumption; omega)
    | ((with_reducible refine PRes.fine_bind _ _ _ _ (ih.pAnd _ ?_ ?_) ?_); assumption; omega)
    | ((with_reducible refine PRes.fine_bind _ _ _ _ (ih.pEquality _ ?_ ?_) ?_); assumption; omega)
    | ((with_reducible refine PRes.fine_bind _ _ _ _ (ih.pComparison _ ?_ ?_) ?_); assumption; omega)
    | ((with_reducible refine PRes.fine_bind _ _ _ _ (ih.pAddSub _ ?_ ?_) ?_); assumption; omega)
    | ((with_reducible refine PRes.fine_bind _ _ _ _ (ih.pMulDiv _ ?_ ?_) ?_); assumption; omega)
    | ((with_reducible refine PRes.fine_bind _ _ _ _ (ih.pUnary _ ?_ ?_) ?_); assumption; omega)
    | ((with_reducible refine PRes.fine_bind _ _ _ _ (ih.pPostfix _ ?_ ?_) ?_); assumption; omega)
    | ((with_reducible refine PRes.fine_bind _ _ _ _ (ih.pPrimary _ ?_ ?_) ?_); assumption; omega)
    | ((with_reducible refine PRes.fine_bind _ _ _ _ (ih.pStmt _ ?_ ?_) ?_); assumption; omega)
    | ((with_reducible refine PRes.fine_bind _ _ _ _ (ih.pArgs _ ?_ ?_) ?_); assumption; omega)
    | ((with_reducible refine PRes.fine_bind _ _ _ _ (ih.pPairsLoop _ ?_ ?_) ?_); assumption; omega)
    | ((with_reducible refine PRes.fine_bind _ _ _ _ (ih.pOrLoop _ _ ?_ ?_) ?_); assumption; omega)
    | ((with_reducible refine PRes.fine_bind _ _ _ _ (ih.pAndLoop _ _ ?_ ?_) ?_); assumption; omega)
    | ((with_reducible refine PRes.fine_bind _ _ _ _ (ih.pEqualityLoop _ _ ?_ ?_) ?_); assumption; omega)
    | ((with_reducible refine PRes.fine_bind _ _ _ _ (ih.pComparisonLoop _ _ ?_ ?_) ?_); assumption; omega)
    | ((with_reducible refine PRes.fine_bind _ _ _ _ (ih.pAddSubLoop _ _ ?_ ?_) ?_); assumption; omega)
    | ((with_reducible refine PRes.fine_bind _ _ _ _ (ih.pMulDivLoop _ _ ?_ ?_) ?_); assumption; omega)
    | ((with_reducible refine PRes.fine_bind _ _ _ _ (ih.pPostfixLoop _ _ ?_ ?_) ?_); assumption; omega)
    | ((with_reducible refine PRes.fine_bind _ _ _ _ (ih.pExprsLoop _ _ ?_ ?_) ?_); assumption; omega)
    | ((with_reducible refine PRes.fine_bind _ _ _ _ (ih.pBlock _ _ ?_ ?_) ?_); assumption; omega)
    | ((with_reducible refine PRes.fine_bind _ _ _ _ (ih.pBlockLoop _ _ ?_ ?_) ?_); assumption; omega)
    | ((with_reducible refine PRes.fine_bind _ _ _ _ (fine_expect _ _ _ ?_ ?_) ?_); assumption; decide)
    | ((with_reducible refine PRes.fine_bind _ _ _ _ (fine_expectName _ _ ?_) ?_); assumption)
    | ((with_reducible refine PRes.fine_bind _ _ _ _ (fine_parseParams _ ?_) ?_); assumption)
    | ((with_reducible refine PRes.fine_mono _ _ _ (ih.pExpr _ ?_ ?_) ?_); assumption; omega; omega)
    | ((with_reducible refine PRes.fine_mono _ _ _ (ih.pOr _ ?_ ?_) ?_); assumption; omega; omega)
    | ((with_reducible refine PRes.fine_mono _ _ _ (ih.pAnd _ ?_ ?_) ?_); assumption; omega; omega)
    | ((with_reducible refine PRes.fine_mono _ _ _ (ih.pEquality _ ?_ ?_) ?_); assumption; omega; omega)
    | ((with_reducible refine PRes.fine_mono _ _ _ (ih.pComparison _ ?_ ?_) ?_); assumption; omega; omega)
    | ((with_reducible refine PRes.fine_mono _ _ _ (ih.pAddSub _ ?_ ?_) ?_); assumption; omega; omega)
    | ((with_reducible refine PRes.fine_mono _ _ _ (ih.pMulDiv _ ?_ ?_) ?_); assumption; omega; omega)
    | ((with_reducible refine PRes.fine_mono _ _ _ (ih.pUnary _ ?_ ?_) ?_); assumption; omega; omega)
    | ((with_reducible refine PRes.fine_mono _ _ _ (ih.pPostfix _ ?_ ?_) ?_); assumption; omega; omega)
    | ((with_reducible refine PRes.fine_mono _ _ _ (ih.pPrimary _ ?_ ?_) ?_); assumption; omega; omega)
    | ((with_reducible refine PRes.fine_mono _ _ _ (ih.pStmt _ ?_ ?_) ?_); assumption; omega; omega)
    | ((with_reducible refine PRes.fine_mono _ _ _ (ih.pArgs _ ?_ ?_) ?_); assumption; omega; omega)
    | ((with_reducible refine PRes.fine_mono _ _ _ (ih.pPairsLoop _ ?_ ?_) ?_); assumption; omega; omega)
    | ((with_reducible refine PRes.fine_mono _ _ _ (ih.pOrLoop _ _ ?_ ?_) ?_); assumption; omega; omega)
    | ((with_reducible refine PRes.fine_mono _ _ _ (ih.pAndLoop _ _ ?_ ?_) ?_); assumption; omega; omega)
    | ((with_reducible refine PRes.fine_mono _ _ _ (ih.pEqualityLoop _ _ ?_ ?_) ?_); assumption; omega; omega)
    | ((with_reducible refine PRes.fine_mono _ _ _ (ih.pComparisonLoop _ _ ?_ ?_) ?_); assumption; omega; omega)
    | ((with_reducible refine PRes.fine_mono _ _ _ (ih.pAddSubLoop _ _ ?_ ?_) ?_); assumption; omega; omega)
    | ((with_reducible refine PRes.fine_mono _ _ _ (ih.pMulDivLoop _ _ ?_ ?_) ?_); assumption; omega; omega)
    | ((with_reducible refine PRes.fine_mono _ _ _ (ih.pPostfixLoop _ _ ?_ ?_) ?_); assumption; omega; omega)
    | ((with_reducible refine PRes.fine_mono _ _ _ (ih.pExprsLoop _ _ ?_ ?_) ?_); assumption; omega; omega)
    | ((with_reducible refine PRes.fine_mono _ _ _ (ih.pBlock _ _ ?_ ?_) ?_); assumption; omega; omega)
    | ((with_reducible refine PRes.fine_mono _ _ _ (ih.pBlockLoop _ _ ?_ ?_) ?_); assumption; omega; omega)
    | (split <;> first | (rename_i hc; have hx := drop_one_more _ _ (by assumption) hc (by decide); obtain ⟨hq, _⟩ := hx; obtain ⟨_, _⟩ := wellEnded_expectNL _ hq; obtain ⟨_, _⟩ := wellEnded_skipNL _ hq) | (rename_i hc; have hx := drop_one _ _ (by assumption) hc (by decide); obtain ⟨hq, _⟩ := hx; obtain ⟨_, _⟩ := wellEnded_expectNL _ hq; obtain ⟨_, _⟩ := wellEnded_skipNL _ hq) | (rename_i hc; have hx := drop_one_not _ _ (by assumption) hc (by decide); obtain ⟨hq, _⟩ := hx; obtain ⟨_, _⟩ := wellEnded_expectNL _ hq; obtain ⟨_, _⟩ := wellEnded_skipNL _ hq) | (rename_i hc; have hx := drop_name_more _ _ (by assumption) hc; obtain ⟨hq, _⟩ := hx; obtain ⟨_, _⟩ := wellEnded_expectNL _ hq; obtain ⟨_, _⟩ := wellEnded_skipNL _ hq) | skip)

set_option linter.unusedTactic false in
set_option linter.unreachableTactic false in
theorem step_postfixLoop (f : Nat) (ih : ParserFine f) :
    ∀ e, Proceeds 0 (fun fuel ts => parsePostfixLoop fuel e ts) (f + 1) := by
  intro e ts hv hf
  show (parsePostfixLoop (f + 1) e ts).Fine ts.length
  rw [parsePostfixLoop]
  have hp := wellEnded_pos ts hv
  repeat' first
    | intro _ _ _ _ _ _ _ _
    | exact PRes.fine_err _ _
    | ((with_reducible refine PRes.fine_ok _ _ _ ?_ ?_); assumption; omega)
    | ((with_reducible refine PRes.fine_bind _ _ _ _ (ih.pExpr _ ?_ ?_) ?_); assumption; omega)
    | ((with_reducible refine PRes.fine_bind _ _ _ _ (ih.pOr _ ?_ ?_) ?_); assumption; omega)
    | ((with_reducible refine PRes.fine_bind _ _ _ _ (ih.pAnd _ ?_ ?_) ?_); assumption; omega)
    | ((with_reducible refine PRes.fine_bind _ _ _ _ (ih.pEquality _ ?_ ?_) ?_); assumption; omega)
    | ((with_reducible refine PRes.fine_bind _ _ _ _ (ih.pComparison _ ?_ ?_) ?_); assumption; omega)
    | ((with_reducible refine PRes.fine_bind _ _ _ _ (ih.pAddSub _ ?_ ?_) ?_); assumption; omega)
    | ((with_reducible refine PRes.fine_bind _ _ _ _ (ih.pMulDiv _ ?_ ?_) ?_); assumption; omega)
    | ((with_reducible refine PRes.fine_bind _ _ _ _ (ih.pUnary _ ?_ ?_) ?_); assumption; omega)
    | ((with_reducible refine PRes.fine_bind _ _ _ _ (ih.pPostfix _ ?_ ?_) ?_); assumption; omega)
    | ((with_reducible refine PRes.fine_bind _ _ _ _ (ih.pPrimary _ ?_ ?_) ?_); assumption; omega)
    | ((with_reducible refine PRes.fine_bind _ _ _ _ (ih.pStmt _ ?_ ?_) ?_); assumption; omega)
    | ((with_reducible refine PRes.fine_bind _ _ _ _ (ih.pArgs _ ?_ ?_) ?_); assumption; omega)
    | ((with_reducible refine PRes.fine_bind _ _ _ _ (ih.pPairsLoop _ ?_ ?_) ?_); assumption; omega)
    | ((with_reducible refine PRes.fine_bind _ _ _ _ (ih.pOrLoop _ _ ?_ ?_) ?_); assumption; omega)
    | ((with_reducible refine PRes.fine_bind _ _ _ _ (ih.pAndLoop _ _ ?_ ?_) ?_); assumption; omega)
    | ((with_reducible refine PRes.fine_bind _ _ _ _ (ih.pEqualityLoop _ _ ?_ ?_) ?_); assumption; omega)
    | ((with_reducible refine PRes.fine_bind _ _ _ _ (ih.pComparisonLoop _ _ ?_ ?_) ?_); assumption; omega)
    | ((with_reducible refine PRes.fine_bind _ _ _ _ (ih.pAddSubLoop _ _ ?_ ?_) ?_); assumption; omega)
    | ((with_reducible refine PRes.fine_bind _ _ _ _ (ih.pMulDivLoop _ _ ?_ ?_) ?_); assumption; omega)
    | ((with_reducible refine PRes.fine_bind _ _ _ _ (ih.pPostfixLoop _ _ ?_ ?_) ?_); assumption; omega)
    | ((with_reducible refine PRes.fine_bind _ _ _ _ (ih.pExprsLoop _ _ ?_ ?_) ?_); assumption; omega)
    | ((with_reducible refine PRes.fine_bind _ _ _ _ (ih.pBlock _ _ ?_ ?_) ?_); assumption; omega)
    | ((with_reducible refine PRes.fine_bind _ _ _ _ (ih.pBlockLoop _ _ ?_ ?_) ?_); assumption; omega)
    | ((with_reducible refine PRes.fine_bind _ _ _ _ (fine_expect _ _ _ ?_ ?_) ?_); assumption; decide)
    | ((with_reducible refine PRes.fine_bind _ _ _ _ (fine_expectName _ _ ?_) ?_); assumption)
    | ((with_reducible refine PRes.fine_bind _ _ _ _ (fine_parseParams _ ?_) ?_); assumption)
    | ((with_reducible refine PRes.fine_mono _ _ _ (ih.pExpr _ ?_ ?_) ?_); assumption; omega; omega)
    | ((with_reducible refine PRes.fine_mono _ _ _ (ih.pOr _ ?_ ?_) ?_); assumption; omega; omega)
    | ((with_reducible refine PRes.fine_mono _ _ _ (ih.pAnd _ ?_ ?_) ?_); assumption; omega; omega)
    | ((with_reducible refine PRes.fine_mono _ _ _ (ih.pEquality _ ?_ ?_) ?_); assumption; omega; omega)
    | ((with_reducible refine PRes.fine_mono _ _ _ (ih.pComparison _ ?_ ?_) ?_); assumption; omega; omega)
    | ((with_reducible refine PRes.fine_mono _ _ _ (ih.pAddSub _ ?_ ?_) ?_); assumption; omega; omega)
    | ((with_reducible refine PRes.fine_mono _ _ _ (ih.pMulDiv _ ?_ ?_) ?_); assumption; omega; omega)
    | ((with_reducible refine PRes.fine_mono _ _ _ (ih.pUnary _ ?_ ?_) ?_); assumption; omega; omega)
    | ((with_reducible refine PRes.fine_mono _ _ _ (ih.pPostfix _ ?_ ?_) ?_); assumption; omega; omega)
    | ((with_reducible refine PRes.fine_mono _ _ _ (ih.pPrimary _ ?_ ?_) ?_); assumption; omega; omega)
    | ((with_reducible refine PRes.fine_mono _ _ _ (ih.pStmt _ ?_ ?_) ?_); assumption; omega; omega)
    | ((with_reducible refine PRes.fine_mono _ _ _ (ih.pArgs _ ?_ ?_) ?_); assumption; omega; omega)
    | ((with_reducible refine PRes.fine_mono _ _ _ (ih.pPairsLoop _ ?_ ?_) ?_); assumption; omega; omega)
    | ((with_reducible refine PRes.fine_mono _ _ _ (ih.pOrLoop _ _ ?_ ?_) ?_); assumption; omega; omega)
    | ((with_reducible refine PRes.fine_mono _ _ _ (ih.pAndLoop _ _ ?_ ?_) ?_); assumption; omega; omega)
    | ((with_reducible refine PRes.fine_mono _ _ _ (ih.pEqualityLoop _ _ ?_ ?_) ?_); assumption; omega; omega)
    | ((with_reducible refine PRes.fine_mono _ _ _ (ih.pComparisonLoop _ _ ?_ ?_) ?_); assumption; omega; omega)
    | ((with_reducible refine PRes.fine_mono _ _ _ (ih.pAddSubLoop _ _ ?_ ?_) ?_); assumption; omega; omega)
    | ((with_reducible refine PRes.fine_mono _ _ _ (ih.pMulDivLoop _ _ ?_ ?_) ?_); assumption; omega; omega)
    | ((with_reducible refine PRes.fine_mono _ _ _ (ih.pPostfixLoop _ _ ?_ ?_) ?_); assumption; omega; omega)
    | ((with_reducible refine PRes.fine_mono _ _ _ (ih.pExprsLoop _ _ ?_ ?_) ?_); assumption; omega; omega)
    | ((with_reducible refine PRes.fine_mono _ _ _ (ih.pBlock _ _ ?_ ?_) ?_); assumption; omega; omega)
    | ((with_reducible refine PRes.fine_mono _ _ _ (ih.pBlockLoop _ _ ?_ ?_) ?_); assumption; omega; omega)
    | (split <;> first | (rename_i hc; have hx := drop_one_more _ _ (by assumption) hc (by decide); obtain ⟨hq, _⟩ := hx; obtain ⟨_, _⟩ := wellEnded_expectNL _ hq; obtain ⟨_, _⟩ := wellEnded_skipNL _ hq) | (rename_i hc; have hx := drop_one _ _ (by assumption) hc (by decide); obtain ⟨hq, _⟩ := hx; obtain ⟨_, _⟩ := wellEnded_expectNL _ hq; obtain ⟨_, _⟩ := wellEnded_skipNL _ hq) | (rename_i hc; have hx := drop_one_not _ _ (by assumption) hc (by decide); obtain ⟨hq, _⟩ := hx; obtain ⟨_, _⟩ := wellEnded_expectNL _ hq; obtain ⟨_, _⟩ := wellEnded_skipNL _ hq) | (rename_i hc; have hx := drop_name_more _ _ (by assumption) hc; obtain ⟨hq, _⟩ := hx; obtain ⟨_, _⟩ := wellEnded_expectNL _ hq; obtain ⟨_, _⟩ := wellEnded_skipNL _ hq) | skip)

set_option linter.unusedTactic false in
set_option linter.unreachableTactic false in
theorem step_args (f : Nat) (ih : ParserFine f) :
    Proceeds 10 parseArgs (f + 1) := by
  intro ts hv hf
  rw [parseArgs]
  have hp := wellEnded_pos ts hv
  repeat' first
    | intro _ _ _ _ _ _ _ _
    | exact PRes.fine_err _ _
    | ((with_reducible refine PRes.fine_ok _ _ _ ?_ ?_); assumption; omega)
    | ((with_reducible refine PRes.fine_bind _ _ _ _ (ih.pExpr _ ?_ ?_) ?_); assumption; omega)
    | ((with_reducible refine PRes.fine_bind _ _ _ _ (ih.pOr _ ?_ ?_) ?_); assumption; omega)
    | ((with_reducible refine PRes.fine_bind _ _ _ _ (ih.pAnd _ ?_ ?_) ?_); assumption; omega)
    | ((with_reducible refine PRes.fine_bind _ _ _ _ (ih.pEquality _ ?_ ?_) ?_); assumption; omega)
    | ((with_reducible refine PRes.fine_bind _ _ _ _ (ih.pComparison _ ?_ ?_) ?_); assumption; omega)
    | ((with_reducible refine PRes.fine_bind _ _ _ _ (ih.pAddSub _ ?_ ?_) ?_); assumption; omega)
    | ((with_reducible refine PRes.fine_bind _ _ _ _ (ih.pMulDiv _ ?_ ?_) ?_); assumption; omega)
    | ((with_reducible refine PRes.fine_bind _ _ _ _ (ih.pUnary _ ?_ ?_) ?_); assumption; omega)
    | ((with_reducible refine PRes.fine_bind _ _ _ _ (ih.pPostfix _ ?_ ?_) ?_); assumption; omega)
    | ((with_reducible refine PRes.fine_bind _ _ _ _ (ih.pPrimary _ ?_ ?_) ?_); assumption; omega)
    | ((with_reducible refine PRes.fine_bind _ _ _ _ (ih.pStmt _ ?_ ?_) ?_); assumption; omega)
    | ((with_reducible refine PRes.fine_bind _ _ _ _ (ih.pArgs _ ?_ ?_) ?_); assumption; omega)
    | ((with_reducible refine PRes.fine_bind _ _ _ _ (ih.pPairsLoop _ ?_ ?_) ?_); assumption; omega)
    | ((with_reducible refine PRes.fine_bind _ _ _ _ (ih.pOrLoop _ _ ?_ ?_) ?_); assumption; omega)
    | ((with_reducible refine PRes.fine_bind _ _ _ _ (ih.pAndLoop _ _ ?_ ?_) ?_); assumption; omega)
    | ((with_reducible refine PRes.fine_bind _ _ _ _ (ih.pEqualityLoop _ _ ?_ ?_) ?_); assumption; omega)
    | ((with_reducible refine PRes.fine_bind _ _ _ _ (ih.pComparisonLoop _ _ ?_ ?_) ?_); assumption; omega)
    | ((with_reducible refine PRes.fine_bind _ _ _ _ (ih.pAddSubLoop _ _ ?_ ?_) ?_); assumption; omega)
    | ((with_reducible refine PRes.fine_bind _ _ _ _ (ih.pMulDivLoop _ _ ?_ ?_) ?_); assumption; omega)
    | ((with_reducible refine PRes.fine_bind _ _ _ _ (ih.pPostfixLoop _ _ ?_ ?_) ?_); assumption; omega)
    | ((with_reducible refine PRes.fine_bind _ _ _ _ (ih.pExprsLoop _ _ ?_ ?_) ?_); assumption; omega)
    | ((with_reducible refine PRes.fine_bind _ _ _ _ (ih.pBlock _ _ ?_ ?_) ?_); assumption; omega)
    | ((with_reducible refine PRes.fine_bind _ _ _ _ (ih.pBlockLoop _ _ ?_ ?_) ?_); assumption; omega)
    | ((with_reducible refine PRes.fine_bind _ _ _ _ (fine_expect _ _ _ ?_ ?_) ?_); assumption; decide)
    | ((with_reducible refine PRes.fine_bind _ _ _ _ (fine_expectName _ _ ?_) ?_); assumption)
    | ((with_reducible refine PRes.fine_bind _ _ _ _ (fine_parseParams _ ?_) ?_); assumption)
    | ((with_reducible refine PRes.fine_mono _ _ _ (ih.pExpr _ ?_ ?_) ?_); assumption; omega; omega)
    | ((with_reducible refine PRes.fine_mono _ _ _ (ih.pOr _ ?_ ?_) ?_); assumption; omega; omega)
    | ((with_reducible refine PRes.fine_mono _ _ _ (ih.pAnd _ ?_ ?_) ?_); assumption; omega; omega)
    | ((with_reducible refine PRes.fine_mono _ _ _ (ih.pEquality _ ?_ ?_) ?_); assumption; omega; omega)
    | ((with_reducible refine PRes.fine_mono _ _ _ (ih.pComparison _ ?_ ?_) ?_); assumption; omega; omega)
    | ((with_reducible refine PRes.fine_mono _ _ _ (ih.pAddSub _ ?_ ?_) ?_); assumption; omega; omega)
    | ((with_reducible refine PRes.fine_mono _ _ _ (ih.pMulDiv _ ?_ ?_) ?_); assumption; omega; omega)
    | ((with_reducible refine PRes.fine_mono _ _ _ (ih.pUnary _ ?_ ?_) ?_); assumption; omega; omega)
    | ((with_reducible refine PRes.fine_mono _ _ _ (ih.pPostfix _ ?_ ?_) ?_); assumption; omega; omega)
    | ((with_reducible refine PRes.fine_mono _ _ _ (ih.pPrimary _ ?_ ?_) ?_); assumption; omega; omega)
    | ((with_reducible refine PRes.fine_mono _ _ _ (ih.pStmt _ ?_ ?_) ?_); assumption; omega; omega)
    | ((with_reducible refine PRes.fine_mono _ _ _ (ih.pArgs _ ?_ ?_) ?_); assumption; omega; omega)
    | ((with_reducible refine PRes.fine_mono _ _ _ (ih.pPairsLoop _ ?_ ?_) ?_); assumption; omega; omega)
    | ((with_reducible refine PRes.fine_mono _ _ _ (ih.pOrLoop _ _ ?_ ?_) ?_); assumption; omega; omega)
    | ((with_reducible refine PRes.fine_mono _ _ _ (ih.pAndLoop _ _ ?_ ?_) ?_); assumption; omega; omega)
    | ((with_reducible refine PRes.fine_mono _ _ _ (ih.pEqualityLoop _ _ ?_ ?_) ?_); assumption; omega; omega)
    | ((with_reducible refine PRes.fine_mono _ _ _ (ih.pComparisonLoop _ _ ?_ ?_) ?_); assumption; omega; omega)
    | ((with_reducible refine PRes.fine_mono _ _ _ (ih.pAddSubLoop _ _ ?_ ?_) ?_); assumption; omega; omega)
    | ((with_reducible refine PRes.fine_mono _ _ _ (ih.pMulDivLoop _ _ ?_ ?_) ?_); assumption; omega; omega)
    | ((with_reducible refine PRes.fine_mono _ _ _ (ih.pPostfixLoop _ _ ?_ ?_) ?_); assumption; omega; omega)
    | ((with_reducible refine PRes.fine_mono _ _ _ (ih.pExprsLoop _ _ ?_ ?_) ?_); assumption; omega; omega)
    | ((with_reducible refine PRes.fine_mono _ _ _ (ih.pBlock _ _ ?_ ?_) ?_); assumption; omega; omega)
    | ((with_reducible refine PRes.fine_mono _ _ _ (ih.pBlockLoop _ _ ?_ ?_) ?_); assumption; omega; omega)
    | (split <;> first | (rename_i hc; have hx := drop_one_more _ _ (by assumption) hc (by decide); obtain ⟨hq, _⟩ := hx; obtain ⟨_, _⟩ := wellEnded_expectNL _ hq; obtain ⟨_, _⟩ := wellEnded_skipNL _ hq) | (rename_i hc; have hx := drop_one _ _ (by assumption) hc (by decide); obtain ⟨hq, _⟩ := hx; obtain ⟨_, _⟩ := wellEnded_expectNL _ hq; obtain ⟨_, _⟩ := wellEnded_skipNL _ hq) | (rename_i hc; have hx := drop_one_not _ _ (by assumption) hc (by decide); obtain ⟨hq, _⟩ := hx; obtain ⟨_, _⟩ := wellEnded_expectNL _ hq; obtain ⟨_, _⟩ := wellEnded_skipNL _ hq) | (rename_i hc; have hx := drop_name_more _ _ (by assumption) hc; obtain ⟨hq, _⟩ := hx; obtain ⟨_, _⟩ := wellEnded_expectNL _ hq; obtain ⟨_, _⟩ := wellEnded_skipNL _ hq) | skip)

set_option linter.unusedTactic false in
set_option linter.unreachableTactic false in
theorem step_exprsLoop (f : Nat) (ih : ParserFine f) :
    ∀ nl, Proceeds 0 (fun fuel ts => parseExprsLoop fuel nl ts) (f + 1) := by
  intro nl ts hv hf
  show (parseExprsLoop (f + 1) nl ts).Fine ts.length
  rw [parseExprsLoop]
  have hp := wellEnded_pos ts hv
  repeat' first
    | intro _ _ _ _ _ _ _ _
    | exact PRes.fine_err _ _
    | ((with_reducible refine PRes.fine_ok _ _ _ ?_ ?_); assumption; omega)
    | ((with_reducible refine PRes.fine_bind _ _ _ _ (ih.pExpr _ ?_ ?_) ?_); assumption; omega)
    | ((with_reducible refine PRes.fine_bind _ _ _ _ (ih.pOr _ ?_ ?_) ?_); assumption; omega)
    | ((with_reducible refine PRes.fine_bind _ _ _ _ (ih.pAnd _ ?_ ?_) ?_); assumption; omega)
    | ((with_reducible refine PRes.fine_bind _ _ _ _ (ih.pEquality _ ?_ ?_) ?_); assumption; omega)
    | ((with_reducible refine PRes.fine_bind _ _ _ _ (ih.pComparison _ ?_ ?_) ?_); assumption; omega)
    | ((with_reducible refine PRes.fine_bind _ _ _ _ (ih.pAddSub _ ?_ ?_) ?_); assumption; omega)
    | ((with_reducible refine PRes.fine_bind _ _ _ _ (ih.pMulDiv _ ?_ ?_) ?_); assumption; omega)
    | ((with_reducible refine PRes.fine_bind _ _ _ _ (ih.pUnary _ ?_ ?_) ?_); assumption; omega)
    | ((with_reducible refine PRes.fine_bind _ _ _ _ (ih.pPostfix _ ?_ ?_) ?_); assumption; omega)
    | ((with_reducible refine PRes.fine_bind _ _ _ _ (ih.pPrimary _ ?_ ?_) ?_); assumption; omega)
    | ((with_reducible refine PRes.fine_bind _ _ _ _ (ih.pStmt _ ?_ ?_) ?_); assumption; omega)
    | ((with_reducible refine PRes.fine_bind _ _ _ _ (ih.pArgs _ ?_ ?_) ?_); assumption; omega)
    | ((with_reducible refine PRes.fine_bind _ _ _ _ (ih.pPairsLoop _ ?_ ?_) ?_); assumption; omega)
    | ((with_reducible refine PRes.fine_bind _ _ _ _ (ih.pOrLoop _ _ ?_ ?_) ?_); assumption; omega)
    | ((with_reducible refine PRes.fine_bind _ _ _ _ (ih.pAndLoop _ _ ?_ ?_) ?_); assumption; omega)
    | ((with_reducible refine PRes.fine_bind _ _ _ _ (ih.pEqualityLoop _ _ ?_ ?_) ?_); assumption; omega)
    | ((with_reducible refine PRes.fine_bind _ _ _ _ (ih.pComparisonLoop _ _ ?_ ?_) ?_); assumption; omega)
    | ((with_reducible refine PRes.fine_bind _ _ _ _ (ih.pAddSubLoop _ _ ?_ ?_) ?_); assumption; omega)
    | ((with_reducible refine PRes.fine_bind _ _ _ _ (ih.pMulDivLoop _ _ ?_ ?_) ?_); assumption; omega)
    | ((with_reducible refine PRes.fine_bind _ _ _ _ (ih.pPostfixLoop _ _ ?_ ?_) ?_); assumption; omega)
    | ((with_reducible refine PRes.fine_bind _ _ _ _ (ih.pExprsLoop _ _ ?_ ?_) ?_); assumption; omega)
    | ((with_reducible refine PRes.fine_bind _ _ _ _ (ih.pBlock _ _ ?_ ?_) ?_); assumption; omega)
    | ((with_reducible refine PRes.fine_bind _ _ _ _ (ih.pBlockLoop _ _ ?_ ?_) ?_); assumption; omega)
    | ((with_reducible refine PRes.fine_bind _ _ _ _ (fine_expect _ _ _ ?_ ?_) ?_); assumption; decide)
    | ((with_reducible refine PRes.fine_bind _ _ _ _ (fine_expectName _ _ ?_) ?_); assumption)
    | ((with_reducible refine PRes.fine_bind _ _ _ _ (fine_parseParams _ ?_) ?_); assumption)
    | ((with_reducible refine PRes.fine_mono _ _ _ (ih.pExpr _ ?_ ?_) ?_); assumption; omega; omega)
    | ((with_reducible refine PRes.fine_mono _ _ _ (ih.pOr _ ?_ ?_) ?_); assumption; omega; omega)
    | ((with_reducible refine PRes.fine_mono _ _ _ (ih.pAnd _ ?_ ?_) ?_); assumption; omega; omega)
    | ((with_reducible refine PRes.fine_mono _ _ _ (ih.pEquality _ ?_ ?_) ?_); assumption; omega; omega)
    | ((with_reducible refine PRes.fine_mono _ _ _ (ih.pComparison _ ?_ ?_) ?_); assumption; omega; omega)
    | ((with_reducible refine PRes.fine_mono _ _ _ (ih.pAddSub _ ?_ ?_) ?_); assumption; omega; omega)
    | ((with_reducible refine PRes.fine_mono _ _ _ (ih.pMulDiv _ ?_ ?_) ?_); assumption; omega; omega)
    | ((with_reducible refine PRes.fine_mono _ _ _ (ih.pUnary _ ?_ ?_) ?_); assumption; omega; omega)
    | ((with_reducible refine PRes.fine_mono _ _ _ (ih.pPostfix _ ?_ ?_) ?_); assumption; omega; omega)
    | ((with_reducible refine PRes.fine_mono _ _ _ (ih.pPrimary _ ?_ ?_) ?_); assumption; omega; omega)
    | ((with_reducible refine PRes.fine_mono _ _ _ (ih.pStmt _ ?_ ?_) ?_); assumption; omega; omega)
    | ((with_reducible refine PRes.fine_mono _ _ _ (ih.pArgs _ ?_ ?_) ?_); assumption; omega; omega)
    | ((with_reducible refine PRes.fine_mono _ _ _ (ih.pPairsLoop _ ?_ ?_) ?_); assumption; omega; omega)
    | ((with_reducible refine PRes.fine_mono _ _ _ (ih.pOrLoop _ _ ?_ ?_) ?_); assumption; omega; omega)
    | ((with_reducible refine PRes.fine_mono _ _ _ (ih.pAndLoop _ _ ?_ ?_) ?_); assumption; omega; omega)
    | ((with_reducible refine PRes.fine_mono _ _ _ (ih.pEqualityLoop _ _ ?_ ?_) ?_); assumption; omega; omega)
    | ((with_reducible refine PRes.fine_mono _ _ _ (ih.pComparisonLoop _ _ ?_ ?_) ?_); assumption; omega; omega)
    | ((with_reducible refine PRes.fine_mono _ _ _ (ih.pAddSubLoop _ _ ?_ ?_) ?_); assumption; omega; omega)
    | ((with_reducible refine PRes.fine_mono _ _ _ (ih.pMulDivLoop _ _ ?_ ?_) ?_); assumption; omega; omega)
    | ((with_reducible refine PRes.fine_mono _ _ _ (ih.pPostfixLoop _ _ ?_ ?_) ?_); assumption; omega; omega)
    | ((with_reducible refine PRes.fine_mono _ _ _ (ih.pExprsLoop _ _ ?_ ?_) ?_); assumption; omega; omega)
    | ((with_reducible refine PRes.fine_mono _ _ _ (ih.pBlock _ _ ?_ ?_) ?_); assumption; omega; omega)
    | ((with_reducible refine PRes.fine_mono _ _ _ (ih.pBlockLoop _ _ ?_ ?_) ?_); assumption; omega; omega)
    | (split <;> first | (rename_i hc; have hx := drop_one_more _ _ (by assumption) hc (by decide); obtain ⟨hq, _⟩ := hx; obtain ⟨_, _⟩ := wellEnded_expectNL _ hq; obtain ⟨_, _⟩ := wellEnded_skipNL _ hq) | (rename_i hc; have hx := drop_one _ _ (by assumption) hc (by decide); obtain ⟨hq, _⟩ := hx; obtain ⟨_, _⟩ := wellEnded_expectNL _ hq; obtain ⟨_, _⟩ := wellEnded_skipNL _ hq) | (rename_i hc; have hx := drop_one_not _ _ (by assumption) hc (by decide); obtain ⟨hq, _⟩ := hx; obtain ⟨_, _⟩ := wellEnded_expectNL _ hq; obtain ⟨_, _⟩ := wellEnded_skipNL _ hq) | (rename_i hc; have hx := drop_name_more _ _ (by assumption) hc; obtain ⟨hq, _⟩ := hx; obtain ⟨_, _⟩ := wellEnded_expectNL _ hq; obtain ⟨_, _⟩ := wellEnded_skipNL _ hq) | skip)

set_option linter.unusedTactic false in
set_option linter.unreachableTactic false in
theorem step_pairsLoop (f : Nat) (ih : ParserFine f) :
    Proceeds 0 parsePairsLoop (f + 1) := by
  intro ts hv hf
  rw [parsePairsLoop]
  have hp := wellEnded_pos ts hv
  repeat' first
    | intro _ _ _ _ _ _ _ _
    | exact PRes.fine_err _ _
    | ((with_reducible refine PRes.fine_ok _ _ _ ?_ ?_); assumption; omega)
    | ((with_reducible refine PRes.fine_bind _ _ _ _ (ih.pExpr _ ?_ ?_) ?_); assumption; omega)
    | ((with_reducible refine PRes.fine_bind _ _ _ _ (ih.pOr _ ?_ ?_) ?_); assumption; omega)
    | ((with_reducible refine PRes.fine_bind _ _ _ _ (ih.pAnd _ ?_ ?_) ?_); assumption; omega)
    | ((with_reducible refine PRes.fine_bind _ _ _ _ (ih.pEquality _ ?_ ?_) ?_); assumption; omega)
    | ((with_reducible refine PRes.fine_bind _ _ _ _ (ih.pComparison _ ?_ ?_) ?_); assumption; omega)
    | ((with_reducible refine PRes.fine_bind _ _ _ _ (ih.pAddSub _ ?_ ?_) ?_); assumption; omega)
    | ((with_reducible refine PRes.fine_bind _ _ _ _ (ih.pMulDiv _ ?_ ?_) ?_); assumption; omega)
    | ((with_reducible refine PRes.fine_bind _ _ _ _ (ih.pUnary _ ?_ ?_) ?_); assumption; omega)
    | ((with_reducible refine PRes.fine_bind _ _ _ _ (ih.pPostfix _ ?_ ?_) ?_); assumption; omega)
    | ((with_reducible refine PRes.fine_bind _ _ _ _ (ih.pPrimary _ ?_ ?_) ?_); assumption; omega)
    | ((with_reducible refine PRes.fine_bind _ _ _ _ (ih.pStmt _ ?_ ?_) ?_); assumption; omega)
    | ((with_reducible refine PRes.fine_bind _ _ _ _ (ih.pArgs _ ?_ ?_) ?_); assumption; omega)
    | ((with_reducible refine PRes.fine_bind _ _ _ _ (ih.pPairsLoop _ ?_ ?_) ?_); assumption; omega)
    | ((with_reducible refine PRes.fine_bind _ _ _ _ (ih.pOrLoop _ _ ?_ ?_) ?_); assumption; omega)
    | ((with_reducible refine PRes.fine_bind _ _ _ _ (ih.pAndLoop _ _ ?_ ?_) ?_); assumption; omega)
    | ((with_reducible refine PRes.fine_bind _ _ _ _ (ih.pEqualityLoop _ _ ?_ ?_) ?_); assumption; omega)
    | ((with_reducible refine PRes.fine_bind _ _ _ _ (ih.pComparisonLoop _ _ ?_ ?_) ?_); assumption; omega)
    | ((with_reducible refine PRes.fine_bind _ _ _ _ (ih.pAddSubLoop _ _ ?_ ?_) ?_); assumption; omega)
    | ((with_reducible refine PRes.fine_bind _ _ _ _ (ih.pMulDivLoop _ _ ?_ ?_) ?_); assumption; omega)
    | ((with_reducible refine PRes.fine_bind _ _ _ _ (ih.pPostfixLoop _ _ ?_ ?_) ?_); assumption; omega)
    | ((with_reducible refine PRes.fine_bind _ _ _ _ (ih.pExprsLoop _ _ ?_ ?_) ?_); assumption; omega)
    | ((with_reducible refine PRes.fine_bind _ _ _ _ (ih.pBlock _ _ ?_ ?_) ?_); assumption; omega)
    | ((with_reducible refine PRes.fine_bind _ _ _ _ (ih.pBlockLoop _ _ ?_ ?_) ?_); assumption; omega)
    | ((with_reducible refine PRes.fine_bind _ _ _ _ (fine_expect _ _ _ ?_ ?_) ?_); assumption; decide)
    | ((with_reducible refine PRes.fine_bind _ _ _ _ (fine_expectName _ _ ?_) ?_); assumption)
    | ((with_reducible refine PRes.fine_bind _ _ _ _ (fine_parseParams _ ?_) ?_); assumption)
    | ((with_reducible refine PRes.fine_mono _ _ _ (ih.pExpr _ ?_ ?_) ?_); assumption; omega; omega)
    | ((with_reducible refine PRes.fine_mono _ _ _ (ih.pOr _ ?_ ?_) ?_); assumption; omega; omega)
    | ((with_reducible refine PRes.fine_mono _ _ _ (ih.pAnd _ ?_ ?_) ?_); assumption; omega; omega)
    | ((with_reducible refine PRes.fine_mono _ _ _ (ih.pEquality _ ?_ ?_) ?_); assumption; omega; omega)
    | ((with_reducible refine PRes.fine_mono _ _ _ (ih.pComparison _ ?_ ?_) ?_); assumption; omega; omega)
    | ((with_reducible refine PRes.fine_mono _ _ _ (ih.pAddSub _ ?_ ?_) ?_); assumption; omega; omega)
    | ((with_reducible refine PRes.fine_mono _ _ _ (ih.pMulDiv _ ?_ ?_) ?_); assumption; omega; omega)
    | ((with_reducible refine PRes.fine_mono _ _ _ (ih.pUnary _ ?_ ?_) ?_); assumption; omega; omega)
    | ((with_reducible refine PRes.fine_mono _ _ _ (ih.pPostfix _ ?_ ?_) ?_); assumption; omega; omega)
    | ((with_reducible refine PRes.fine_mono _ _ _ (ih.pPrimary _ ?_ ?_) ?_); assumption; omega; omega)
    | ((with_reducible refine PRes.fine_mono _ _ _ (ih.pStmt _ ?_ ?_) ?_); assumption; omega; omega)
    | ((with_reducible refine PRes.fine_mono _ _ _ (ih.pArgs _ ?_ ?_) ?_); assumption; omega; omega)
    | ((with_reducible refine PRes.fine_mono _ _ _ (ih.pPairsLoop _ ?_ ?_) ?_); assumption; omega; omega)
    | ((with_reducible refine PRes.fine_mono _ _ _ (ih.pOrLoop _ _ ?_ ?_) ?_); assumption; omega; omega)
    | ((with_reducible refine PRes.fine_mono _ _ _ (ih.pAndLoop _ _ ?_ ?_) ?_); assumption; omega; omega)
    | ((with_reducible refine PRes.fine_mono _ _ _ (ih.pEqualityLoop _ _ ?_ ?_) ?_); assumption; omega; omega)
    | ((with_reducible refine PRes.fine_mono _ _ _ (ih.pComparisonLoop _ _ ?_ ?_) ?_); assumption; omega; omega)
    | ((with_reducible refine PRes.fine_mono _ _ _ (ih.pAddSubLoop _ _ ?_ ?_) ?_); assumption; omega; omega)
    | ((with_reducible refine PRes.fine_mono _ _ _ (ih.pMulDivLoop _ _ ?_ ?_) ?_); assumption; omega; omega)
    | ((with_reducible refine PRes.fine_mono _ _ _ (ih.pPostfixLoop _ _ ?_ ?_) ?_); assumption; omega; omega)
    | ((with_reducible refine PRes.fine_mono _ _ _ (ih.pExprsLoop _ _ ?_ ?_) ?_); assumption; omega; omega)
    | ((with_reducible refine PRes.fine_mono _ _ _ (ih.pBlock _ _ ?_ ?_) ?_); assumption; omega; omega)
    | ((with_reducible refine PRes.fine_mono _ _ _ (ih.pBlockLoop _ _ ?_ ?_) ?_); assumption; omega; omega)
    | (split <;> first | (rename_i hc; have hx := drop_one_more _ _ (by assumption) hc (by decide); obtain ⟨hq, _⟩ := hx; obtain ⟨_, _⟩ := wellEnded_expectNL _ hq; obtain ⟨_, _⟩ := wellEnded_skipNL _ hq) | (rename_i hc; have hx := drop_one _ _ (by assumption) hc (by decide); obtain ⟨hq, _⟩ := hx; obtain ⟨_, _⟩ := wellEnded_expectNL _ hq; obtain ⟨_, _⟩ := wellEnded_skipNL _ hq) | (rename_i hc; have hx := drop_one_not _ _ (by assumption) hc (by decide); obtain ⟨hq, _⟩ := hx; obtain ⟨_, _⟩ := wellEnded_expectNL _ hq; obtain ⟨_, _⟩ := wellEnded_skipNL _ hq) | (rename_i hc; have hx := drop_name_more _ _ (by assumption) hc; obtain ⟨hq, _⟩ := hx; obtain ⟨_, _⟩ := wellEnded_expectNL _ hq; obtain ⟨_, _⟩ := wellEnded_skipNL _ hq) | skip)

theorem step_block (f : Nat) (ih : ParserFine f) :
    ∀ ends, Proceeds 12 (fun fuel ts => parseBlock fuel ends ts) (f + 1) := by
  intro ends ts hv hf
  show (parseBlock (f + 1) ends ts).Fine ts.length
  rw [parseBlock]
  obtain ⟨hw, hl⟩ := wellEnded_skipNL _ hv
  exact PRes.fine_mono _ _ _ (ih.pBlockLoop ends _ hw (by omega)) (by omega)

set_option linter.unusedTactic false in
set_option linter.unreachableTactic false in
theorem step_blockLoop (f : Nat) (ih : ParserFine f) :
    ∀ ends, Proceeds 11 (fun fuel ts => parseBlockLoop fuel ends ts) (f + 1) := by
  intro ends ts hv hf
  show (parseBlockLoop (f + 1) ends ts).Fine ts.length
  rw [parseBlockLoop]
  have hp := wellEnded_pos ts hv
  repeat' first
    | intro _ _ _ _ _ _ _ _
    | exact PRes.fine_err _ _
    | ((with_reducible refine PRes.fine_ok _ _ _ ?_ ?_); assumption; omega)
    | ((with_reducible refine PRes.fine_bind _ _ _ _ (ih.pExpr _ ?_ ?_) ?_); assumption; omega)
    | ((with_reducible refine PRes.fine_bind _ _ _ _ (ih.pOr _ ?_ ?_) ?_); assumption; omega)
    | ((with_reducible refine PRes.fine_bind _ _ _ _ (ih.pAnd _ ?_ ?_) ?_); assumption; omega)
    | ((with_reducible refine PRes.fine_bind _ _ _ _ (ih.pEquality _ ?_ ?_) ?_); assumption; omega)
    | ((with_reducible refine PRes.fine_bind _ _ _ _ (ih.pComparison _ ?_ ?_) ?_); assumption; omega)
    | ((with_reducible refine PRes.fine_bind _ _ _ _ (ih.pAddSub _ ?_ ?_) ?_); assumption; omega)
    | ((with_reducible refine PRes.fine_bind _ _ _ _ (ih.pMulDiv _ ?_ ?_) ?_); assumption; omega)
    | ((with_reducible refine PRes.fine_bind _ _ _ _ (ih.pUnary _ ?_ ?_) ?_); assumption; omega)
    | ((with_reducible refine PRes.fine_bind _ _ _ _ (ih.pPostfix _ ?_ ?_) ?_); assumption; omega)
    | ((with_reducible refine PRes.fine_bind _ _ _ _ (ih.pPrimary _ ?_ ?_) ?_); assumption; omega)
    | ((with_reducible refine PRes.fine_bind _ _ _ _ (ih.pStmt _ ?_ ?_) ?_); assumption; omega)
    | ((with_reducible refine PRes.fine_bind _ _ _ _ (ih.pArgs _ ?_ ?_) ?_); assumption; omega)
    | ((with_reducible refine PRes.fine_bind _ _ _ _ (ih.pPairsLoop _ ?_ ?_) ?_); assumption; omega)
    | ((with_reducible refine PRes.fine_bind _ _ _ _ (ih.pOrLoop _ _ ?_ ?_) ?_); assumption; omega)
    | ((with_reducible refine PRes.fine_bind _ _ _ _ (ih.pAndLoop _ _ ?_ ?_) ?_); assumption; omega)
    | ((with_reducible refine PRes.fine_bind _ _ _ _ (ih.pEqualityLoop _ _ ?_ ?_) ?_); assumption; omega)
    | ((with_reducible refine PRes.fine_bind _ _ _ _ (ih.pComparisonLoop _ _ ?_ ?_) ?_); assumption; omega)
    | ((with_reducible refine PRes.fine_bind _ _ _ _ (ih.pAddSubLoop _ _ ?_ ?_) ?_); assumption; omega)
    | ((with_reducible refine PRes.fine_bind _ _ _ _ (ih.pMulDivLoop _ _ ?_ ?_) ?_); assumption; omega)
    | ((with_reducible refine PRes.fine_bind _ _ _ _ (ih.pPostfixLoop _ _ ?_ ?_) ?_); assumption; omega)
    | ((with_reducible refine PRes.fine_bind _ _ _ _ (ih.pExprsLoop _ _ ?_ ?_) ?_); assumption; omega)
    | ((with_reducible refine PRes.fine_bind _ _ _ _ (ih.pBlock _ _ ?_ ?_) ?_); assumption; omega)
    | ((with_reducible refine PRes.fine_bind _ _ _ _ (ih.pBlockLoop _ _ ?_ ?_) ?_); assumption; omega)
    | ((with_reducible refine PRes.fine_bind _ _ _ _ (fine_expect _ _ _ ?_ ?_) ?_); assumption; decide)
    | ((with_reducible refine PRes.fine_bind _ _ _ _ (fine_expectName _ _ ?_) ?_); assumption)
    | ((with_reducible refine PRes.fine_bind _ _ _ _ (fine_parseParams _ ?_) ?_); assumption)
    | ((with_reducible refine PRes.fine_mono _ _ _ (ih.pExpr _ ?_ ?_) ?_); assumption; omega; omega)
    | ((with_reducible refine PRes.fine_mono _ _ _ (ih.pOr _ ?_ ?_) ?_); assumption; omega; omega)
    | ((with_reducible refine PRes.fine_mono _ _ _ (ih.pAnd _ ?_ ?_) ?_); assumption; omega; omega)
    | ((with_reducible refine PRes.fine_mono _ _ _ (ih.pEquality _ ?_ ?_) ?_); assumption; omega; omega)
    | ((with_reducible refine PRes.fine_mono _ _ _ (ih.pComparison _ ?_ ?_) ?_); assumption; omega; omega)
    | ((with_reducible refine PRes.fine_mono _ _ _ (ih.pAddSub _ ?_ ?_) ?_); assumption; omega; omega)
    | ((with_reducible refine PRes.fine_mono _ _ _ (ih.pMulDiv _ ?_ ?_) ?_); assumption; omega; omega)
    | ((with_reducible refine PRes.fine_mono _ _ _ (ih.pUnary _ ?_ ?_) ?_); assumption; omega; omega)
    | ((with_reducible refine PRes.fine_mono _ _ _ (ih.pPostfix _ ?_ ?_) ?_); assumption; omega; omega)
    | ((with_reducible refine PRes.fine_mono _ _ _ (ih.pPrimary _ ?_ ?_) ?_); assumption; omega; omega)
    | ((with_reducible refine PRes.fine_mono _ _ _ (ih.pStmt _ ?_ ?_) ?_); assumption; omega; omega)
    | ((with_reducible refine PRes.fine_mono _ _ _ (ih.pArgs _ ?_ ?_) ?_); assumption; omega; omega)
    | ((with_reducible refine PRes.fine_mono _ _ _ (ih.pPairsLoop _ ?_ ?_) ?_); assumption; omega; omega)
    | ((with_reducible refine PRes.fine_mono _ _ _ (ih.pOrLoop _ _ ?_ ?_) ?_); assumption; omega; omega)
    | ((with_reducible refine PRes.fine_mono _ _ _ (ih.pAndLoop _ _ ?_ ?_) ?_); assumption; omega; omega)
    | ((with_reducible refine PRes.fine_mono _ _ _ (ih.pEqualityLoop _ _ ?_ ?_) ?_); assumption; omega; omega)
    | ((with_reducible refine PRes.fine_mono _ _ _ (ih.pComparisonLoop _ _ ?_ ?_) ?_); assumption; omega; omega)
    | ((with_reducible refine PRes.fine_mono _ _ _ (ih.pAddSubLoop _ _ ?_ ?_) ?_); assumption; omega; omega)
    | ((with_reducible refine PRes.fine_mono _ _ _ (ih.pMulDivLoop _ _ ?_ ?_) ?_); assumption; omega; omega)
    | ((with_reducible refine PRes.fine_mono _ _ _ (ih.pPostfixLoop _ _ ?_ ?_) ?_); assumption; omega; omega)
    | ((with_reducible refine PRes.fine_mono _ _ _ (ih.pExprsLoop _ _ ?_ ?_) ?_); assumption; omega; omega)
    | ((with_reducible refine PRes.fine_mono _ _ _ (ih.pBlock _ _ ?_ ?_) ?_); assumption; omega; omega)
    | ((with_reducible refine PRes.fine_mono _ _ _ (ih.pBlockLoop _ _ ?_ ?_) ?_); assumption; omega; omega)
    | (split <;> first | (rename_i hc; have hx := drop_one_more _ _ (by assumption) hc (by decide); obtain ⟨hq, _⟩ := hx; obtain ⟨_, _⟩ := wellEnded_expectNL _ hq; obtain ⟨_, _⟩ := wellEnded_skipNL _ hq) | (rename_i hc; have hx := drop_one _ _ (by assumption) hc (by decide); obtain ⟨hq, _⟩ := hx; obtain ⟨_, _⟩ := wellEnded_expectNL _ hq; obtain ⟨_, _⟩ := wellEnded_skipNL _ hq) | (rename_i hc; have hx := drop_one_not _ _ (by assumption) hc (by decide); obtain ⟨hq, _⟩ := hx; obtain ⟨_, _⟩ := wellEnded_expectNL _ hq; obtain ⟨_, _⟩ := wellEnded_skipNL _ hq) | (rename_i hc; have hx := drop_name_more _ _ (by assumption) hc; obtain ⟨hq, _⟩ := hx; obtain ⟨_, _⟩ := wellEnded_expectNL _ hq; obtain ⟨_, _⟩ := wellEnded_skipNL _ hq) | skip)

end Ironwood

namespace Ironwood

set_option linter.unusedTactic false in
set_option linter.unreachableTactic false in
set_option maxHeartbeats 4000000 in
theorem step_primary (f : Nat) (ih : ParserFine f) : Advances 0 parsePrimary (f + 1) := by
  intro ts hv hf
  rw [parsePrimary]
  on_goal 1 => by_cases hc : (check ts .LENGTH 0 && check ts .OF 1) = true
  on_goal 1 => rw [if_pos hc]; simp only [Bool.and_eq_true] at hc; obtain ⟨hw, hl⟩ := drop_two ts _ _ hv hc.1 (by decide) hc.2 (by decide)
  on_goal 2 => rw [if_neg hc]; clear hc
  on_goal 2 => by_cases hc : check ts .ITEM 0 = true
  on_goal 2 => rw [if_pos hc]; obtain ⟨hw, hl⟩ := drop_one ts _ hv hc (by decide)
  on_goal 3 => rw [if_neg hc]; clear hc
  on_goal 3 => by_cases hc : check ts .KEEP 0 = true
  on_goal 3 => rw [if_pos hc]; obtain ⟨hw, hl⟩ := drop_one ts _ hv hc (by decide)
  on_goal 4 => rw [if_neg hc]; clear hc
  on_goal 4 => by_cases hc : check ts .KEYS 0 = true
  on_goal 4 => rw [if_pos hc]; obtain ⟨hw, hl⟩ := drop_one ts _ hv hc (by decide)
  on_goal 5 => rw [if_neg hc]; clear hc
  on_goal 5 => by_cases hc : check ts .VALUES 0 = true
  on_goal 5 => rw [if_pos hc]; obtain ⟨hw, hl⟩ := drop_one ts _ hv hc (by decide)
  on_goal 6 => rw [if_neg hc]; clear hc
  on_goal 6 => by_cases hc : check ts .HAS 0 = true
  on_goal 6 => rw [if_pos hc]; obtain ⟨hw, hl⟩ := drop_one ts _ hv hc (by decide)
  on_goal 7 => rw [if_neg hc]; clear hc
  on_goal 7 => by_cases hc : (check ts .READ_KW 0 && check ts .FILE_KW 1) = true
  on_goal 7 => rw [if_pos hc]; simp only [Bool.and_eq_true] at hc; obtain ⟨hw, hl⟩ := drop_two ts _ _ hv hc.1 (by decide) hc.2 (by decide)
  on_goal 8 => rw [if_neg hc]; clear hc
  on_goal 8 => by_cases hc : (check ts .FILE_KW 0 && decide ((peekTok ts 1).val = "exists".toList)) = true
  on_goal 8 => rw [if_pos hc]; simp only [Bool.and_eq_true, decide_eq_true_eq] at hc; obtain ⟨hw, hl⟩ := drop_two_val ts _ hv hc.1 (by decide) (by rw [hc.2]; decide)
  on_goal 9 => rw [if_neg hc]; clear hc
  on_goal 9 => by_cases hc : (check ts .IDENT 0 && decide ((peekTok ts 0).val = "lines".toList) && check ts .OF 1 && check ts .FILE_KW 2) = true
  on_goal 9 => rw [if_pos hc]; simp only [Bool.and_eq_true, decide_eq_true_eq] at hc; obtain ⟨hw, hl⟩ := drop_three ts _ _ _ hv hc.1.1.1 (by decide) hc.1.2 (by decide) hc.2 (by decide)
  on_goal 10 => rw [if_neg hc]; clear hc
  on_goal 10 => by_cases hc : (check ts .FUNCTION 0 && check ts .LPAREN 1) = true
  on_goal 10 => rw [if_pos hc]; simp only [Bool.and_eq_true] at hc; obtain ⟨hw, hl⟩ := drop_one ts _ hv hc.1 (by decide)
  on_goal 11 => rw [if_neg hc]; clear hc
  on_goal 11 => by_cases hc : check ts .IF 0 = true
  on_goal 11 => rw [if_pos hc]; obtain ⟨hw, hl⟩ := drop_one ts _ hv hc (by decide)
  on_goal 12 => rw [if_neg hc]; clear hc
  on_goal 12 => by_cases hc : check ts .SPLIT_KW 0 = true
  on_goal 12 => rw [if_pos hc]; obtain ⟨hw, hl⟩ := drop_one ts _ hv hc (by decide)
  on_goal 13 => rw [if_neg hc]; clear hc
  on_goal 13 => by_cases hc : check ts .JOIN_KW 0 = true
  on_goal 13 => rw [if_pos hc]; obtain ⟨hw, hl⟩ := drop_one ts _ hv hc (by decide)
  on_goal 14 => rw [if_neg hc]; clear hc
  on_goal 14 => by_cases hc : check ts .TRIM_KW 0 = true
  on_goal 14 => rw [if_pos hc]; obtain ⟨hw, hl⟩ := drop_one ts _ hv hc (by decide)
  on_goal 15 => rw [if_neg hc]; clear hc
  on_goal 15 => by_cases hc : check ts .REPLACE_KW 0 = true
  on_goal 15 => rw [if_pos hc]; obtain ⟨hw, hl⟩ := drop_one ts _ hv hc (by decide)
  on_goal 16 => rw [if_neg hc]; clear hc
  on_goal 16 => by_cases hc : (check ts .INDEX_KW 0 && check ts .OF 1) = true
  on_goal 16 => rw [if_pos hc]; simp only [Bool.and_eq_true] at hc; obtain ⟨hw, hl⟩ := drop_two ts _ _ hv hc.1 (by decide) hc.2 (by decide)
  on_goal 17 => rw [if_neg hc]; clear hc
  on_goal 17 => by_cases hc : check ts .UPPER_KW 0 = true
  on_goal 17 => rw [if_pos hc]; obtain ⟨hw, hl⟩ := drop_one ts _ hv hc (by decide)
  on_goal 18 => rw [if_neg hc]; clear hc
  on_goal 18 => by_cases hc : check ts .LOWER_KW 0 = true
  on_goal 18 => rw [if_pos hc]; obtain ⟨hw, hl⟩ := drop_one ts _ hv hc (by decide)
  on_goal 19 => rw [if_neg hc]; clear hc
  on_goal 19 => by_cases hc : check ts .CHARS_KW 0 = true
  on_goal 19 => rw [if_pos hc]; obtain ⟨hw, hl⟩ := drop_one ts _ hv hc (by decide)
  on_goal 20 => rw [if_neg hc]; clear hc
  on_goal 20 => by_cases hc : (check ts .TYPE_KW 0 && check ts .OF 1) = true
  on_goal 20 => rw [if_pos hc]; simp only [Bool.and_eq_true] at hc; obtain ⟨hw, hl⟩ := drop_two ts _ _ hv hc.1 (by decide) hc.2 (by decide)
  on_goal 21 => rw [if_neg hc]; clear hc
  on_goal 21 => by_cases hc : check ts .SORT_KW 0 = true
  on_goal 21 => rw [if_pos hc]; obtain ⟨hw, hl⟩ := drop_one ts _ hv hc (by decide)
  on_goal 22 => rw [if_neg hc]; clear hc
  on_goal 22 => by_cases hc : (check ts .PARSE_KW 0 && check ts .JSON_KW 1) = true
  on_goal 22 => rw [if_pos hc]; simp only [Bool.and_eq_true] at hc; obtain ⟨hw, hl⟩ := drop_two ts _ _ hv hc.1 (by decide) hc.2 (by decide)
  on_goal 23 => rw [if_neg hc]; clear hc
  on_goal 23 => by_cases hc : (check ts .JSON_KW 0 && check ts .OF 1) = true
  on_goal 23 => rw [if_pos hc]; simp only [Bool.and_eq_true] at hc; obtain ⟨hw, hl⟩ := drop_two ts _ _ hv hc.1 (by decide) hc.2 (by decide)
  on_goal 24 => rw [if_neg hc]; clear hc
  on_goal 24 => by_cases hc : check ts .FETCH_KW 0 = true
  on_goal 24 => rw [if_pos hc]; obtain ⟨hw, hl⟩ := drop_one ts _ hv hc (by decide)
  on_goal 25 => rw [if_neg hc]; clear hc
  on_goal 25 => by_cases hc : check ts .RUN_KW 0 = true
  on_goal 25 => rw [if_pos hc]; obtain ⟨hw, hl⟩ := drop_one ts _ hv hc (by decide)
  on_goal 26 => rw [if_neg hc]; clear hc
  on_goal 26 => by_cases hc : check ts .NEW_KW 0 = true
  on_goal 26 => rw [if_pos hc]; obtain ⟨hw, hl⟩ := drop_one ts _ hv hc (by decide)
  on_goal 27 => rw [if_neg hc]; clear hc
  on_goal 27 => by_cases hc : check ts .SELF_KW 0 = true
  on_goal 27 => rw [if_pos hc]; obtain ⟨hw, hl⟩ := drop_one ts _ hv hc (by decide)
  on_goal 28 => rw [if_neg hc]; clear hc
  on_goal 28 => by_cases hc : check ts .ASK 0 = true
  on_goal 28 => rw [if_pos hc]; obtain ⟨hw, hl⟩ := drop_one ts _ hv hc (by decide)
  on_goal 29 => rw [if_neg hc]; clear hc
  on_goal 29 => by_cases hc : check ts .NUMBER 0 = true
  on_goal 29 => rw [if_pos hc]; obtain ⟨hw, hl⟩ := drop_one ts _ hv hc (by decide)
  on_goal 30 => rw [if_neg hc]; clear hc
  on_goal 30 => by_cases hc : check ts .STRING 0 = true
  on_goal 30 => rw [if_pos hc]; obtain ⟨hw, hl⟩ := drop_one ts _ hv hc (by decide)
  on_goal 31 => rw [if_neg hc]; clear hc
  on_goal 31 => by_cases hc : check ts .TRUE_KW 0 = true
  on_goal 31 => rw [if_pos hc]; obtain ⟨hw, hl⟩ := drop_one ts _ hv hc (by decide)
  on_goal 32 => rw [if_neg hc]; clear hc
  on_goal 32 => by_cases hc : check ts .FALSE_KW 0 = true
  on_goal 32 => rw [if_pos hc]; obtain ⟨hw, hl⟩ := drop_one ts _ hv hc (by decide)
  on_goal 33 => rw [if_neg hc]; clear hc
  on_goal 33 => by_cases hc : check ts .NULL_KW 0 = true
  on_goal 33 => rw [if_pos hc]; obtain ⟨hw, hl⟩ := drop_one ts _ hv hc (by decide)
  on_goal 34 => rw [if_neg hc]; clear hc
  on_goal 34 => by_cases hc : check ts .IDENT 0 = true
  on_goal 34 => rw [if_pos hc]; obtain ⟨hw, hl⟩ := drop_one ts _ hv hc (by decide)
  on_goal 35 => rw [if_neg hc]; clear hc
  on_goal 35 => by_cases hc : check ts .LPAREN 0 = true
  on_goal 35 => rw [if_pos hc]; obtain ⟨hw, hl⟩ := drop_one ts _ hv hc (by decide)
  on_goal 36 => rw [if_neg hc]; clear hc
  on_goal 36 => by_cases hc : check ts .LBRACKET 0 = true
  on_goal 36 => rw [if_pos hc]; obtain ⟨hw, hl⟩ := drop_one ts _ hv hc (by decide); obtain ⟨hw2, hl2⟩ := wellEnded_skipNL _ hw; obtain ⟨hw3, hl3⟩ := wellEnded_skipNL _ hw2
  on_goal 37 => rw [if_neg hc]; clear hc
  on_goal 37 => by_cases hc : check ts .LBRACE 0 = true
  on_goal 37 => rw [if_pos hc]; obtain ⟨hw, hl⟩ := drop_one ts _ hv hc (by decide); obtain ⟨hw2, hl2⟩ := wellEnded_skipNL _ hw; obtain ⟨hw3, hl3⟩ := wellEnded_skipNL _ hw2
  on_goal 38 => rw [if_neg hc]; clear hc
  all_goals
    repeat' first
      | intro _ _ _ _ _ _ _ _
      | exact PRes.fine_err _ _
      | ((with_reducible refine PRes.fine_ok _ _ _ ?_ ?_); assumption; omega)
      | ((with_reducible refine PRes.fine_bind _ _ _ _ (ih.pExpr _ ?_ ?_) ?_); assumption; omega)
      | ((with_reducible refine PRes.fine_bind _ _ _ _ (ih.pOr _ ?_ ?_) ?_); assumption; omega)
      | ((with_reducible refine PRes.fine_bind _ _ _ _ (ih.pAnd _ ?_ ?_) ?_); assumption; omega)
      | ((with_reducible refine PRes.fine_bind _ _ _ _ (ih.pEquality _ ?_ ?_) ?_); assumption; omega)
      | ((with_reducible refine PRes.fine_bind _ _ _ _ (ih.pComparison _ ?_ ?_) ?_); assumption; omega)
      | ((with_reducible refine PRes.fine_bind _ _ _ _ (ih.pAddSub _ ?_ ?_) ?_); assumption; omega)
      | ((with_reducible refine PRes.fine_bind _ _ _ _ (ih.pMulDiv _ ?_ ?_) ?_); assumption; omega)
      | ((with_reducible refine PRes.fine_bind _ _ _ _ (ih.pUnary _ ?_ ?_) ?_); assumption; omega)
      | ((with_reducible refine PRes.fine_bind _ _ _ _ (ih.pPostfix _ ?_ ?_) ?_); assumption; omega)
      | ((with_reducible refine PRes.fine_bind _ _ _ _ (ih.pPrimary _ ?_ ?_) ?_); assumption; omega)
      | ((with_reducible refine PRes.fine_bind _ _ _ _ (ih.pStmt _ ?_ ?_) ?_); assumption; omega)
      | ((with_reducible refine PRes.fine_bind _ _ _ _ (ih.pArgs _ ?_ ?_) ?_); assumption; omega)
      | ((with_reducible refine PRes.fine_bind _ _ _ _ (ih.pPairsLoop _ ?_ ?_) ?_); assumption; omega)
      | ((with_reducible refine PRes.fine_bind _ _ _ _ (ih.pOrLoop _ _ ?_ ?_) ?_); assumption; omega)
      | ((with_reducible refine PRes.fine_bind _ _ _ _ (ih.pAndLoop _ _ ?_ ?_) ?_); assumption; omega)
      | ((with_reducible refine PRes.fine_bind _ _ _ _ (ih.pEqualityLoop _ _ ?_ ?_) ?_); assumption; omega)
      | ((with_reducible refine PRes.fine_bind _ _ _ _ (ih.pComparisonLoop _ _ ?_ ?_) ?_); assumption; omega)
      | ((with_reducible refine PRes.fine_bind _ _ _ _ (ih.pAddSubLoop _ _ ?_ ?_) ?_); assumption; omega)
      | ((with_reducible refine PRes.fine_bind _ _ _ _ (ih.pMulDivLoop _ _ ?_ ?_) ?_); assumption; omega)
      | ((with_reducible refine PRes.fine_bind _ _ _ _ (ih.pPostfixLoop _ _ ?_ ?_) ?_); assumption; omega)
      | ((with_reducible refine PRes.fine_bind _ _ _ _ (ih.pExprsLoop _ _ ?_ ?_) ?_); assumption; omega)
      | ((with_reducible refine PRes.fine_bind _ _ _ _ (ih.pBlock _ _ ?_ ?_) ?_); assumption; omega)
      | ((with_reducible refine PRes.fine_bind _ _ _ _ (ih.pBlockLoop _ _ ?_ ?_) ?_); assumption; omega)
      | ((with_reducible refine PRes.fine_bind _ _ _ _ (fine_expect _ _ _ ?_ ?_) ?_); assumption; decide)
      | ((with_reducible refine PRes.fine_bind _ _ _ _ (fine_expectName _ _ ?_) ?_); assumption)
      | ((with_reducible refine PRes.fine_bind _ _ _ _ (fine_parseParams _ ?_) ?_); assumption)
      | ((with_reducible refine PRes.fine_mono _ _ _ (ih.pExpr _ ?_ ?_) ?_); assumption; omega; omega)
      | ((with_reducible refine PRes.fine_mono _ _ _ (ih.pOr _ ?_ ?_) ?_); assumption; omega; omega)
      | ((with_reducible refine PRes.fine_mono _ _ _ (ih.pAnd _ ?_ ?_) ?_); assumption; omega; omega)
      | ((with_reducible refine PRes.fine_mono _ _ _ (ih.pEquality _ ?_ ?_) ?_); assumption; omega; omega)
      | ((with_reducible refine PRes.fine_mono _ _ _ (ih.pComparison _ ?_ ?_) ?_); assumption; omega; omega)
      | ((with_reducible refine PRes.fine_mono _ _ _ (ih.pAddSub _ ?_ ?_) ?_); assumption; omega; omega)
      | ((with_reducible refine PRes.fine_mono _ _ _ (ih.pMulDiv _ ?_ ?_) ?_); assumption; omega; omega)
      | ((with_reducible refine PRes.fine_mono _ _ _ (ih.pUnary _ ?_ ?_) ?_); assumption; omega; omega)
      | ((with_reducible refine PRes.fine_mono _ _ _ (ih.pPostfix _ ?_ ?_) ?_); assumption; omega; omega)
      | ((with_reducible refine PRes.fine_mono _ _ _ (ih.pPrimary _ ?_ ?_) ?_); assumption; omega; omega)
      | ((with_reducible refine PRes.fine_mono _ _ _ (ih.pStmt _ ?_ ?_) ?_); assumption; omega; omega)
      | ((with_reducible refine PRes.fine_mono _ _ _ (ih.pArgs _ ?_ ?_) ?_); assumption; omega; omega)
      | ((with_reducible refine PRes.fine_mono _ _ _ (ih.pPairsLoop _ ?_ ?_) ?_); assumption; omega; omega)
      | ((with_reducible refine PRes.fine_mono _ _ _ (ih.pOrLoop _ _ ?_ ?_) ?_); assumption; omega; omega)
      | ((with_reducible refine PRes.fine_mono _ _ _ (ih.pAndLoop _ _ ?_ ?_) ?_); assumption; omega; omega)
      | ((with_reducible refine PRes.fine_mono _ _ _ (ih.pEqualityLoop _ _ ?_ ?_) ?_); assumption; omega; omega)
      | ((with_reducible refine PRes.fine_mono _ _ _ (ih.pComparisonLoop _ _ ?_ ?_) ?_); assumption; omega; omega)
      | ((with_reducible refine PRes.fine_mono _ _ _ (ih.pAddSubLoop _ _ ?_ ?_) ?_); assumption; omega; omega)
      | ((with_reducible refine PRes.fine_mono _ _ _ (ih.pMulDivLoop _ _ ?_ ?_) ?_); assumption; omega; omega)
      | ((with_reducible refine PRes.fine_mono _ _ _ (ih.pPostfixLoop _ _ ?_ ?_) ?_); assumption; omega; omega)
      | ((with_reducible refine PRes.fine_mono _ _ _ (ih.pExprsLoop _ _ ?_ ?_) ?_); assumption; omega; omega)
      | ((with_reducible refine PRes.fine_mono _ _ _ (ih.pBlock _ _ ?_ ?_) ?_); assumption; omega; omega)
      | ((with_reducible refine PRes.fine_mono _ _ _ (ih.pBlockLoop _ _ ?_ ?_) ?_); assumption; omega; omega)
      | (split <;> first | (rename_i hc; have hx := drop_one_more _ _ (by assumption) hc (by decide); obtain ⟨hq, _⟩ := hx; obtain ⟨_, _⟩ := wellEnded_expectNL _ hq; obtain ⟨_, _⟩ := wellEnded_skipNL _ hq) | (rename_i hc; have hx := drop_one _ _ (by assumption) hc (by decide); obtain ⟨hq, _⟩ := hx; obtain ⟨_, _⟩ := wellEnded_expectNL _ hq; obtain ⟨_, _⟩ := wellEnded_skipNL _ hq) | (rename_i hc; have hx := drop_one_not _ _ (by assumption) hc (by decide); obtain ⟨hq, _⟩ := hx; obtain ⟨_, _⟩ := wellEnded_expectNL _ hq; obtain ⟨_, _⟩ := wellEnded_skipNL _ hq) | (rename_i hc; have hx := drop_name_more _ _ (by assumption) hc; obtain ⟨hq, _⟩ := hx; obtain ⟨_, _⟩ := wellEnded_expectNL _ hq; obtain ⟨_, _⟩ := wellEnded_skipNL _ hq) | skip)

end Ironwood

namespace Ironwood

set_option linter.unusedTactic false in
set_option linter.unreachableTactic false in
set_option maxHeartbeats 4000000 in
theorem step_stmt (f : Nat) (ih : ParserFine f) : Advances 10 parseStmt (f + 1) := by
  intro ts0 hv0 hf
  rw [parseStmt]
  obtain ⟨hv, hl0⟩ := wellEnded_skipNL ts0 hv0
  generalize skipNL ts0 = ts at hv hl0 ⊢
  split
  all_goals try (
    rename_i heq
    have hx := wellEnded_drop ts hv (Or.inl (by rw [heq]; decide))
    obtain ⟨hw, hl⟩ := hx
    obtain ⟨hwe, hle⟩ := wellEnded_expectNL _ hw)
  all_goals
    repeat' first
      | intro _ _ _ _ _ _ _ _
      | exact PRes.fine_err _ _
      | ((with_reducible refine PRes.fine_ok _ _ _ ?_ ?_); assumption; omega)
      | ((with_reducible refine PRes.fine_bind _ _ _ _ (ih.pExpr _ ?_ ?_) ?_); assumption; omega)
      | ((with_reducible refine PRes.fine_bind _ _ _ _ (ih.pOr _ ?_ ?_) ?_); assumption; omega)
      | ((with_reducible refine PRes.fine_bind _ _ _ _ (ih.pAnd _ ?_ ?_) ?_); assumption; omega)
      | ((with_reducible refine PRes.fine_bind _ _ _ _ (ih.pEquality _ ?_ ?_) ?_); assumption; omega)
      | ((with_reducible refine PRes.fine_bind _ _ _ _ (ih.pComparison _ ?_ ?_) ?_); assumption; omega)
      | ((with_reducible refine PRes.fine_bind _ _ _ _ (ih.pAddSub _ ?_ ?_) ?_); assumption; omega)
      | ((with_reducible refine PRes.fine_bind _ _ _ _ (ih.pMulDiv _ ?_ ?_) ?_); assumption; omega)
      | ((with_reducible refine PRes.fine_bind _ _ _ _ (ih.pUnary _ ?_ ?_) ?_); assumption; omega)
      | ((with_reducible refine PRes.fine_bind _ _ _ _ (ih.pPostfix _ ?_ ?_) ?_); assumption; omega)
      | ((with_reducible refine PRes.fine_bind _ _ _ _ (ih.pPrimary _ ?_ ?_) ?_); assumption; omega)
      | ((with_reducible refine PRes.fine_bind _ _ _ _ (ih.pStmt _ ?_ ?_) ?_); assumption; omega)
      | ((with_reducible refine PRes.fine_bind _ _ _ _ (ih.pArgs _ ?_ ?_) ?_); assumption; omega)
      | ((with_reducible refine PRes.fine_bind _ _ _ _ (ih.pPairsLoop _ ?_ ?_) ?_); assumption; omega)
      | ((with_reducible refine PRes.fine_bind _ _ _ _ (ih.pOrLoop _ _ ?_ ?_) ?_); assumption; omega)
      | ((with_reducible refine PRes.fine_bind _ _ _ _ (ih.pAndLoop _ _ ?_ ?_) ?_); assumption; omega)
      | ((with_reducible refine PRes.fine_bind _ _ _ _ (ih.pEqualityLoop _ _ ?_ ?_) ?_); assumption; omega)
      | ((with_reducible refine PRes.fine_bind _ _ _ _ (ih.pComparisonLoop _ _ ?_ ?_) ?_); assumption; omega)
      | ((with_reducible refine PRes.fine_bind _ _ _ _ (ih.pAddSubLoop _ _ ?_ ?_) ?_); assumption; omega)
      | ((with_reducible refine PRes.fine_bind _ _ _ _ (ih.pMulDivLoop _ _ ?_ ?_) ?_); assumption; omega)
      | ((with_reducible refine PRes.fine_bind _ _ _ _ (ih.pPostfixLoop _ _ ?_ ?_) ?_); assumption; omega)
      | ((with_reducible refine PRes.fine_bind _ _ _ _ (ih.pExprsLoop _ _ ?_ ?_) ?_); assumption; omega)
      | ((with_reducible refine PRes.fine_bind _ _ _ _ (ih.pBlock _ _ ?_ ?_) ?_); assumption; omega)
      | ((with_reducible refine PRes.fine_bind _ _ _ _ (ih.pBlockLoop _ _ ?_ ?_) ?_); assumption; omega)
      | ((with_reducible refine PRes.fine_bind _ _ _ _ (fine_expect _ _ _ ?_ ?_) ?_); assumption; decide)
      | ((with_reducible refine PRes.fine_bind _ _ _ _ (fine_expectName _ _ ?_) ?_); assumption)
      | ((with_reducible refine PRes.fine_bind _ _ _ _ (fine_parseParams _ ?_) ?_); assumption)
      | ((with_reducible refine PRes.fine_mono _ _ _ (ih.pExpr _ ?_ ?_) ?_); assumption; omega; omega)
      | ((with_reducible refine PRes.fine_mono _ _ _ (ih.pOr _ ?_ ?_) ?_); assumption; omega; omega)
      | ((with_reducible refine PRes.fine_mono _ _ _ (ih.pAnd _ ?_ ?_) ?_); assumption; omega; omega)
      | ((with_reducible refine PRes.fine_mono _ _ _ (ih.pEquality _ ?_ ?_) ?_); assumption; omega; omega)
      | ((with_reducible refine PRes.fine_mono _ _ _ (ih.pComparison _ ?_ ?_) ?_); assumption; omega; omega)
      | ((with_reducible refine PRes.fine_mono _ _ _ (ih.pAddSub _ ?_ ?_) ?_); assumption; omega; omega)
      | ((with_reducible refine PRes.fine_mono _ _ _ (ih.pMulDiv _ ?_ ?_) ?_); assumption; omega; omega)
      | ((with_reducible refine PRes.fine_mono _ _ _ (ih.pUnary _ ?_ ?_) ?_); assumption; omega; omega)
      | ((with_reducible refine PRes.fine_mono _ _ _ (ih.pPostfix _ ?_ ?_) ?_); assumption; omega; omega)
      | ((with_reducible refine PRes.fine_mono _ _ _ (ih.pPrimary _ ?_ ?_) ?_); assumption; omega; omega)
      | ((with_reducible refine PRes.fine_mono _ _ _ (ih.pStmt _ ?_ ?_) ?_); assumption; omega; omega)
      | ((with_reducible refine PRes.fine_mono _ _ _ (ih.pArgs _ ?_ ?_) ?_); assumption; omega; omega)
      | ((with_reducible refine PRes.fine_mono _ _ _ (ih.pPairsLoop _ ?_ ?_) ?_); assumption; omega; omega)
      | ((with_reducible refine PRes.fine_mono _ _ _ (ih.pOrLoop _ _ ?_ ?_) ?_); assumption; omega; omega)
      | ((with_reducible refine PRes.fine_mono _ _ _ (ih.pAndLoop _ _ ?_ ?_) ?_); assumption; omega; omega)
      | ((with_reducible refine PRes.fine_mono _ _ _ (ih.pEqualityLoop _ _ ?_ ?_) ?_); assumption; omega; omega)
      | ((with_reducible refine PRes.fine_mono _ _ _ (ih.pComparisonLoop _ _ ?_ ?_) ?_); assumption; omega; omega)
      | ((with_reducible refine PRes.fine_mono _ _ _ (ih.pAddSubLoop _ _ ?_ ?_) ?_); assumption; omega; omega)
      | ((with_reducible refine PRes.fine_mono _ _ _ (ih.pMulDivLoop _ _ ?_ ?_) ?_); assumption; omega; omega)
      | ((with_reducible refine PRes.fine_mono _ _ _ (ih.pPostfixLoop _ _ ?_ ?_) ?_); assumption; omega; omega)
      | ((with_reducible refine PRes.fine_mono _ _ _ (ih.pExprsLoop _ _ ?_ ?_) ?_); assumption; omega; omega)
      | ((with_reducible refine PRes.fine_mono _ _ _ (ih.pBlock _ _ ?_ ?_) ?_); assumption; omega; omega)
      | ((with_reducible refine PRes.fine_mono _ _ _ (ih.pBlockLoop _ _ ?_ ?_) ?_); assumption; omega; omega)
      | (split <;> first | (rename_i hc; have hx := drop_one_more _ _ (by assumption) hc (by decide); obtain ⟨hq, _⟩ := hx; obtain ⟨_, _⟩ := wellEnded_expectNL _ hq; obtain ⟨_, _⟩ := wellEnded_skipNL _ hq) | (rename_i hc; have hx := drop_one _ _ (by assumption) hc (by decide); obtain ⟨hq, _⟩ := hx; obtain ⟨_, _⟩ := wellEnded_expectNL _ hq; obtain ⟨_, _⟩ := wellEnded_skipNL _ hq) | (rename_i hc; have hx := drop_one_not _ _ (by assumption) hc (by decide); obtain ⟨hq, _⟩ := hx; obtain ⟨_, _⟩ := wellEnded_expectNL _ hq; obtain ⟨_, _⟩ := wellEnded_skipNL _ hq) | (rename_i hc; have hx := drop_name_more _ _ (by assumption) hc; obtain ⟨hq, _⟩ := hx; obtain ⟨_, _⟩ := wellEnded_expectNL _ hq; obtain ⟨_, _⟩ := wellEnded_skipNL _ hq) | skip)

end Ironwood

namespace Ironwood

/-- With any fuel, every function of the parser ends in order. -/
theorem parser_fine : ∀ f : Nat, ParserFine f := by
  intro f
  induction f with
  | zero =>
    have hz : ∀ (ts : List Token) (d : Nat), wellEnded ts = true → ¬ 16 * ts.length + d ≤ 0 := by
      intro ts d hv h
      have := wellEnded_pos ts hv
      omega
    constructor
    all_goals first
      | (intro ts hv hf; exact absurd hf (hz ts _ hv))
      | (intro x ts hv hf; exact absurd hf (hz ts _ hv))
  | succ f ih =>
    exact
      { pExpr := step_expr f ih
        pOr := advances_level 7 8 (by omega) parseAnd parseOr parseOrLoop f
          (fun f ts => by rw [parseOr]) ih.pAnd ih.pOrLoop
        pOrLoop := proceeds_loop 0 7 (by omega) parseAnd parseOrLoop f parseOrLoop_level
          ih.pAnd ih.pOrLoop
        pAnd := advances_level 6 7 (by omega) parseEquality parseAnd parseAndLoop f
          (fun f ts => by rw [parseAnd]) ih.pEquality ih.pAndLoop
        pAndLoop := proceeds_loop 1 6 (by omega) parseEquality parseAndLoop f parseAndLoop_level
          ih.pEquality ih.pAndLoop
        pEquality := advances_level 5 6 (by omega) parseComparison parseEquality
          parseEqualityLoop f (fun f ts => by rw [parseEquality]) ih.pComparison ih.pEqualityLoop
        pEqualityLoop := proceeds_loop 2 5 (by omega) parseComparison parseEqualityLoop f
          parseEqualityLoop_level ih.pComparison ih.pEqualityLoop
        pComparison := advances_level 4 5 (by omega) parseAddSub parseComparison
          parseComparisonLoop f (fun f ts => by rw [parseComparison]) ih.pAddSub
          ih.pComparisonLoop
        pComparisonLoop := proceeds_loop 3 4 (by omega) parseAddSub parseComparisonLoop f
          parseComparisonLoop_level ih.pAddSub ih.pComparisonLoop
        pAddSub := advances_level 3 4 (by omega) parseMulDiv parseAddSub parseAddSubLoop f
          (fun f ts => by rw [parseAddSub]) ih.pMulDiv ih.pAddSubLoop
        pAddSubLoop := proceeds_loop 4 3 (by omega) parseMulDiv parseAddSubLoop f
          parseAddSubLoop_level ih.pMulDiv ih.pAddSubLoop
        pMulDiv := advances_level 2 3 (by omega) parseUnary parseMulDiv parseMulDivLoop f
          (fun f ts => by rw [parseMulDiv]) ih.pUnary ih.pMulDivLoop
        pMulDivLoop := proceeds_loop 5 2 (by omega) parseUnary parseMulDivLoop f
          parseMulDivLoop_level ih.pUnary ih.pMulDivLoop
        pUnary := step_unary f ih
        pPostfix := step_postfix f ih
        pPostfixLoop := step_postfixLoop f ih
        pArgs := step_args f ih
        pExprsLoop := step_exprsLoop f ih
        pPairsLoop := step_pairsLoop f ih
        pPrimary := step_primary f ih
        pBlock := step_block f ih
        pBlockLoop := step_blockLoop f ih
        pStmt := step_stmt f ih }

/-- A token list as the lexer makes it ends with its only EOF token. -/
theorem wellEnded_of_shape (ts : List Token) (h : LexerShape ts) : wellEnded ts = true := by
  obtain ⟨body, line, h1, h2, h3⟩ := h
  subst h1
  clear h3
  induction body with
  | nil => rfl
  | cons t r ih =>
    have hr := ih (fun u hu => h2 u (List.mem_cons_of_mem _ hu))
    have ht := h2 t (List.mem_cons_self _ _)
    rw [List.cons_append, wellEnded_cons, hr]
    cases hq : r ++ [(⟨.EOF_T, [], line⟩ : Token)] with
    | nil => exact absurd hq (by simp)
    | cons a b => simp [ht]

/-- A cursor in the list that stands at the EOF token stands at the last
token. -/
theorem wellEnded_at_eof (ts : List Token) (h : wellEnded ts = true)
    (he : check ts .EOF_T 0 = true) : ∃ e : Token, ts = [e] ∧ e.type = .EOF_T ∧ e.val = [] := by
  cases ts with
  | nil => cases h
  | cons t r =>
    have hpk : peekTok (t :: r) 0 = t := rfl
    simp only [check, hpk, decide_eq_true_eq] at he
    rw [wellEnded_cons] at h
    cases r with
    | nil =>
      simp only [List.isEmpty_nil, if_true, Bool.and_eq_true, decide_eq_true_eq,
        List.isEmpty_iff] at h
      exact ⟨t, rfl, he, h.2⟩
    | cons u r2 =>
      simp only [List.isEmpty_cons, Bool.false_eq_true, if_false, Bool.and_eq_true,
        decide_eq_true_eq] at h
      exact absurd he h.1

/-- The loop of a block returns at a token that closes the block, or at the
EOF token. -/
theorem parseBlockLoop_stops : ∀ (f : Nat) (ends : List TT) (ts : List Token)
    (prog : List Stmt) (rest : List Token), parseBlockLoop f ends ts = .ok prog rest →
    (ends.contains (peekTok rest 0).type || check rest .EOF_T 0) = true := by
  intro f
  induction f with
  | zero =>
    intro ends ts prog rest h
    rw [parseBlockLoop] at h
    cases h
  | succ f ih =>
    intro ends ts prog rest h
    rw [parseBlockLoop] at h
    split at h
    · rename_i hc
      injection h with h1 h2
      subst h2
      exact hc
    · cases hs : parseStmt f ts with
      | ok s ts1 =>
        rw [hs] at h
        simp only [PRes.bind] at h
        cases hb : parseBlockLoop f ends (skipNL ts1) with
        | ok ss ts2 =>
          rw [hb] at h
          simp only [PRes.bind] at h
          injection h with h1 h2
          subst h2
          exact ih ends _ ss ts2 hb
        | err w => rw [hb] at h; cases h
        | timeout => rw [hb] at h; cases h
      | err w => rw [hs] at h; cases h
      | timeout => rw [hs] at h; cases h

/-- The outcome of `Parser::parse` with fuel enough for the token list: the
statements, with the cursor on the EOF token, or a syntax error. -/
theorem parseProgram_outcome (ts : List Token) (hv : wellEnded ts = true) (fuel : Nat)
    (hf : 16 * ts.length + 11 ≤ fuel) :
    (∃ (prog : List Stmt) (e : Token),
        parseProgram fuel ts = .ok prog [e] ∧ e.type = .EOF_T ∧ e.val = [])
      ∨ (∃ w, parseProgram fuel ts = .err w) := by
  obtain ⟨hw, hl⟩ := wellEnded_skipNL ts hv
  have hfine : (parseBlockLoop fuel [] (skipNL ts)).Fine (skipNL ts).length :=
    (parser_fine fuel).pBlockLoop [] (skipNL ts) hw (by omega)
  have hstop := parseBlockLoop_stops fuel [] (skipNL ts)
  unfold parseProgram
  cases hr : parseBlockLoop fuel [] (skipNL ts) with
  | ok prog rest =>
    rw [hr] at hfine
    have hc := hstop prog rest hr
    simp only [List.contains_nil, Bool.false_or] at hc
    obtain ⟨e, he, h1, h2⟩ := wellEnded_at_eof rest hfine.1 hc
    subst he
    exact Or.inl ⟨prog, e, rfl, h1, h2⟩
  | err w => exact Or.inr ⟨w, rfl⟩
  | timeout =>
    rw [hr] at hfine
    exact absurd hfine (fun h => h)

/-- The outcome of the lexer and parser on a source text. -/
theorem parseSource_outcome (src : Str) :
    ∃ ts : List Token, tokenize src = some ts ∧ wellEnded ts = true
      ∧ parseSource src = parseProgram (16 * ts.length + 16) ts
      ∧ ((∃ (prog : List Stmt) (e : Token),
            parseSource src = .ok prog [e] ∧ e.type = .EOF_T ∧ e.val = [])
          ∨ (∃ w, parseSource src = .err w)) := by
  obtain ⟨ts, h1, h2⟩ := lexLoop_shape src.length src true 1 (le_refl _)
  have ht : tokenize src = some ts := h1
  have hv := wellEnded_of_shape ts h2
  have hs : parseSource src = parseProgram (16 * ts.length + 16) ts := by
    unfold parseSource
    rw [ht]
  refine ⟨ts, ht, hv, hs, ?_⟩
  rw [hs]
  exact parseProgram_outcome ts hv _ (by omega)

end Ironwood

namespace Ironwood

/-- The token that `peek` reads is a token of the list, whatever the offset. -/
theorem peekTok_mem (ts : List Token) (k : Nat) (h : wellEnded ts = true) : peekTok ts k ∈ ts := by
  unfold peekTok
  cases hd : ts.drop k with
  | cons t r =>
    simp only []
    exact List.mem_of_mem_drop (hd ▸ List.mem_cons_self t r)
  | nil =>
    simp only []
    cases ts with
    | nil => cases h
    | cons a b =>
      rw [List.getLast?_eq_getLast _ (List.cons_ne_nil a b)]
      exact List.getLast_mem _

/-- C38: the parser ends and stays in its token list.  The cursor is the list
of the tokens that remain; `wellEnded` says that the list is not empty and
ends with its only EOF token, whose text is empty, as the lexer makes it.
From such a list and with fuel enough for its length, `parse` returns the
statements with the cursor on the EOF token, or a syntax error, and does
not run out of fuel; the same holds of every function of the parser from
every cursor in the list (`ParserFine`: a value comes with a cursor that is
still in the list), `peek` reads a token of the list at every offset, and
`expect`, `expectName`, `skipNL` and `expectNL` leave the cursor in the list.
Every source text gives such a token list, so `parseSource` ends the same
way. -/
theorem parser_total_and_in_bounds (ts : List Token) (hv : wellEnded ts = true) :
    (∀ fuel, 16 * ts.length + 11 ≤ fuel →
        (∃ (prog : List Stmt) (e : Token),
            parseProgram fuel ts = .ok prog [e] ∧ e.type = .EOF_T ∧ e.val = [])
          ∨ (∃ w, parseProgram fuel ts = .err w))
    ∧ (∀ f : Nat, ParserFine f)
    ∧ (∀ k : Nat, peekTok ts k ∈ ts)
    ∧ (∀ (t : TT) (msg : Str), t ≠ .EOF_T → (expect ts t msg).Fine (ts.length - 1))
    ∧ (∀ msg : Str, (expectName ts msg).Fine (ts.length - 1))
    ∧ (wellEnded (skipNL ts) = true ∧ (skipNL ts).length ≤ ts.length)
    ∧ (wellEnded (expectNL ts) = true ∧ (expectNL ts).length ≤ ts.length)
    ∧ (∀ src : Str, ∃ toks : List Token, tokenize src = some toks ∧ wellEnded toks = true
        ∧ parseSource src = parseProgram (16 * toks.length + 16) toks
        ∧ ((∃ (prog : List Stmt) (e : Token),
              parseSource src = .ok prog [e] ∧ e.type = .EOF_T ∧ e.val = [])
            ∨ (∃ w, parseSource src = .err w))) :=
  ⟨fun fuel hf => parseProgram_outcome ts hv fuel hf, parser_fine,
    fun k => peekTok_mem ts k hv, fun t msg ht => fine_expect ts t msg hv ht,
    fun msg => fine_expectName ts msg hv, wellEnded_skipNL ts hv, wellEnded_expectNL ts hv,
    parseSource_outcome⟩

set_option maxRecDepth 1000000 in
theorem parser_total_and_in_bounds_witness :
    wellEnded [⟨.SAY, "say".toList, 1⟩, ⟨.LPAREN, "(".toList, 1⟩, ⟨.NUMBER, "1".toList, 1⟩,
        ⟨.NEWLINE, [newline], 2⟩, ⟨.EOF_T, [], 2⟩] = true
    ∧ tokenize "say (1\n".toList
        = some [⟨.SAY, "say".toList, 1⟩, ⟨.LPAREN, "(".toList, 1⟩, ⟨.NUMBER, "1".toList, 1⟩,
            ⟨.NEWLINE, [newline], 2⟩, ⟨.EOF_T, [], 2⟩]
    ∧ parseProgram 96 [⟨.SAY, "say".toList, 1⟩, ⟨.LPAREN, "(".toList, 1⟩,
        ⟨.NUMBER, "1".toList, 1⟩, ⟨.NEWLINE, [newline], 2⟩, ⟨.EOF_T, [], 2⟩]
        = .err "Line 2: Expected ')' (got '\n')".toList
    ∧ ((∃ (prog : List Stmt) (e : Token),
          parseProgram 96 [⟨.SAY, "say".toList, 1⟩, ⟨.LPAREN, "(".toList, 1⟩,
            ⟨.NUMBER, "1".toList, 1⟩, ⟨.NEWLINE, [newline], 2⟩, ⟨.EOF_T, [], 2⟩]
            = .ok prog [e] ∧ e.type = .EOF_T ∧ e.val = [])
        ∨ (∃ w, parseProgram 96 [⟨.SAY, "say".toList, 1⟩, ⟨.LPAREN, "(".toList, 1⟩,
            ⟨.NUMBER, "1".toList, 1⟩, ⟨.NEWLINE, [newline], 2⟩, ⟨.EOF_T, [], 2⟩] = .err w)) :=
  ⟨by decide, by rfl, by rfl,
    (parser_total_and_in_bounds _ (by decide)).1 96 (by decide)⟩

end Ironwood

namespace Ironwood

/-! ## Equality on the values of the evaluator -/

theorem mapOpt_none_of_mem {α β : Type} (f : α → Option β) (x : α) (hx : f x = none) :
    ∀ xs : List α, x ∈ xs → mapOpt f xs = none := by
  intro xs
  induction xs with
  | nil => intro hm; cases hm
  | cons y r ih =>
    intro hm
    rw [mapOpt]
    cases hy : f y with
    | none => rfl
    | some b =>
      have hne : x ≠ y := fun e => by rw [e, hy] at hx; cases hx
      rcases List.mem_cons.mp hm with e | hr
      · exact absurd e hne
      · simp only [ih hr]

/-- The rendering of a list that holds itself does not end: with no amount of
fuel does the list unfold to a tree. -/
theorem reify_holds_itself (heap : List Cell) (r : Nat) (xs : List Val)
    (hr : heap[r]? = some (.arr xs)) (hm : Val.arr r ∈ xs) :
    ∀ fuel : Nat, reify fuel heap (.arr r) = none := by
  intro fuel
  induction fuel with
  | zero => rfl
  | succ n ih =>
    rw [reify]
    simp only [hr]
    rw [mapOpt_none_of_mem (fun x => reify n heap x) (.arr r) ih xs hm]
    rfl

/-- `==` on two values whose renderings end compares the renderings. -/
theorem machineBinOp_eq (fuel : Nat) (v w : Val) (σ : State) (tv tw : IronValue)
    (hv : reify fuel σ.heap v = some tv) (hw : reify fuel σ.heap w = some tw) :
    machineBinOp fuel "==".toList v w σ
      = .ok (.bool (decide (tv.toString = tw.toString))) σ := by
  unfold machineBinOp
  split
  · rename_i a b
    rw [reify] at hv hw
    cases hv
    cases hw
    rw [binOp_eq]
    rfl
  · rw [if_pos (Or.inr (Or.inl rfl))]
    simp only [hv, hw]
    rw [binOp_eq]
    rfl

/-- `!=` on two values whose renderings end compares the renderings. -/
theorem machineBinOp_ne (fuel : Nat) (v w : Val) (σ : State) (tv tw : IronValue)
    (hv : reify fuel σ.heap v = some tv) (hw : reify fuel σ.heap w = some tw) :
    machineBinOp fuel "!=".toList v w σ
      = .ok (.bool (decide (tv.toString ≠ tw.toString))) σ := by
  unfold machineBinOp
  split
  · rename_i a b
    rw [reify] at hv hw
    cases hv
    cases hw
    rw [binOp_ne]
    rfl
  · rw [if_pos (Or.inr (Or.inr rfl))]
    simp only [hv, hw]
    rw [binOp_ne]
    rfl

/-- `==` and `!=` on a list that holds itself: the rendering of the operand
does not end. -/
theorem machineBinOp_holds_itself (fuel : Nat) (op : Str) (σ : State) (r : Nat)
    (xs : List Val) (hop : op = "==".toList ∨ op = "!=".toList)
    (hr : σ.heap[r]? = some (.arr xs)) (hm : Val.arr r ∈ xs) :
    machineBinOp fuel op (.arr r) (.arr r) σ = .timeout := by
  unfold machineBinOp
  rw [if_pos (Or.inr hop)]
  simp only [reify_holds_itself σ.heap r xs hr hm fuel]

/-- The comparison of a variable with itself, when the variable holds a list
that holds itself: no amount of fuel gives a value. -/
theorem evalExpr_holds_itself (h : Host) (fuel : Nat) (op : Str) (x : Str) (env : Nat)
    (σ : State) (r : Nat) (xs : List Val) (hop : op = "==".toList ∨ op = "!=".toList)
    (hx : σ.read env x = .ok (.arr r) σ) (hr : σ.heap[r]? = some (.arr xs))
    (hm : Val.arr r ∈ xs) :
    evalExpr h fuel (.BinExpr op (.VarExpr x) (.VarExpr x)) env σ = .timeout := by
  have hand : op ≠ "and".toList := by rcases hop with e | e <;> subst e <;> decide
  have hor : op ≠ "or".toList := by rcases hop with e | e <;> subst e <;> decide
  cases fuel with
  | zero => rw [evalExpr]
  | succ f =>
    rw [evalExpr_bin h f op _ _ env σ hand hor]
    cases f with
    | zero => rw [evalExpr]; rfl
    | succ g =>
      simp only [evalExpr, hx, Res.bind]
      exact machineBinOp_holds_itself _ op σ r xs hop hr hm

set_option maxRecDepth 1000000 in
set_option maxHeartbeats 4000000 in
theorem self_list_program_large (pl : Placement) (n : Nat) :
    main pl (n + 8) "let a = [1]\nadd a to a\nsay a == a\n".toList [] = .timeout := by
  have hp : ∃ rest, parseSource "let a = [1]\nadd a to a\nsay a == a\n".toList
      = .ok
        [.LetStmt "a".toList (.ArrayLit [.NumberLit 1]),
          .AddToStmt (.VarExpr "a".toList) (.VarExpr "a".toList),
          .SayStmt (.BinExpr "==".toList (.VarExpr "a".toList) (.VarExpr "a".toList))] rest :=
    ⟨_, rfl⟩
  obtain ⟨rest, hp⟩ := hp
  unfold main
  rw [hp]
  simp only [↓reduceIte, lbrace, rbrace, Nat.reduceLeDiff, Nat.reduceLT, Nat.reduceEqDiff,
        Nat.reduceSub, Int.reduceLT,
        Int.reduceLE, Int.reduceToNat, Nat.cast_ofNat, List.length_set, Nat.cast_add, Nat.cast_one, run,
        execBlock, execStmt, evalExpr, evalList, evalPairs, initFields, keepLoop,
        mapLoop, callValue, callMethod, assignLvalue, Res.bind, State.register, classFields,
        classMethods, objSet_nil, registerGlobals, mathObject, State.define, State.get, State.assign,
        envGet, envOwner, interpolate, bindParams, State.alloc, State.newEnv, State.read,
        State.write, envReach, Res.release, State.release, List.contains_cons,
        List.contains_nil, List.erase_cons_head, beq_self_eq_true, Nat.reduceBEq, Bool.true_or,
        Bool.or_true, Bool.false_or, Bool.or_false, Bool.and_true, Bool.true_and, Bool.and_self,
        Bool.or_self, storeMember,
        storeIndex, State.store, memberOfObject, machineBinOp, liftOutcome, binOp, builtinCall,
        Val.ofScalar, Val.isTruthy, objFind_objSet, objFind, Host.std,
        classKey, ne_eq, not_false_eq_true, not_true_eq_false, List.cons_append, List.nil_append,
        Nat.reduceAdd, zero_add, List.set_cons_zero, String.toList, List.cons.injEq, Char.reduceEq,
        and_false, and_true, and_self, if_true, if_false, reduceCtorEq, List.length_cons,
        List.length_nil, List.getElem?_cons_zero, List.length_append, List.getElem?_cons_succ,
        List.set_cons_succ, Option.map_some', IronValue.toString, false_or, true_or, or_true,
        or_false, Option.map_none']
  have key : ∀ (k : Nat) (heap : List Cell), heap[2]? = some (.arr [.num 1, .arr 2]) →
      reify k heap (.arr 2) = none :=
    fun k heap hh => reify_holds_itself heap 2 _ hh (by simp) k
  rw [key]
  rfl

set_option maxRecDepth 1000000 in
set_option maxHeartbeats 4000000 in
theorem self_list_program_small (pl : Placement) (fuel : Nat) (hf : fuel < 8) :
    main pl fuel "let a = [1]\nadd a to a\nsay a == a\n".toList [] = .timeout := by
  have hp : ∃ rest, parseSource "let a = [1]\nadd a to a\nsay a == a\n".toList
      = .ok
        [.LetStmt "a".toList (.ArrayLit [.NumberLit 1]),
          .AddToStmt (.VarExpr "a".toList) (.VarExpr "a".toList),
          .SayStmt (.BinExpr "==".toList (.VarExpr "a".toList) (.VarExpr "a".toList))] rest :=
    ⟨_, rfl⟩
  obtain ⟨rest, hp⟩ := hp
  unfold main
  rw [hp]
  interval_cases fuel <;>
  simp only [↓reduceIte, lbrace, rbrace, Nat.reduceLeDiff, Nat.reduceLT, Nat.reduceEqDiff,
        Nat.reduceSub, Int.reduceLT,
        Int.reduceLE, Int.reduceToNat, Nat.cast_ofNat, List.length_set, Nat.cast_add, Nat.cast_one, run,
        execBlock, execStmt, evalExpr, evalList, evalPairs, initFields, keepLoop,
        mapLoop, callValue, callMethod, assignLvalue, Res.bind, State.register, classFields,
        classMethods, objSet_nil, registerGlobals, mathObject, State.define, State.get, State.assign,
        envGet, envOwner, interpolate, bindParams, State.alloc, State.newEnv, State.read,
        State.write, envReach, Res.release, State.release, List.contains_cons,
        List.contains_nil, List.erase_cons_head, beq_self_eq_true, Nat.reduceBEq, Bool.true_or,
        Bool.or_true, Bool.false_or, Bool.or_false, Bool.and_true, Bool.true_and, Bool.and_self,
        Bool.or_self, storeMember,
        storeIndex, State.store, memberOfObject, machineBinOp, liftOutcome, binOp, builtinCall,
        render, reify, mapOpt,Val.ofScalar, Val.isTruthy, objFind_objSet, objFind, Host.std,
        classKey, ne_eq, not_false_eq_true, not_true_eq_false, List.cons_append, List.nil_append,
        Nat.reduceAdd, zero_add, List.set_cons_zero, String.toList, List.cons.injEq, Char.reduceEq,
        and_false, and_true, and_self, if_true, if_false, reduceCtorEq, List.length_cons,
        List.length_nil, List.getElem?_cons_zero, List.length_append, List.getElem?_cons_succ,
        List.set_cons_succ, Option.map_some', IronValue.toString, false_or, true_or, or_true,
        or_false, Option.map_none']

/-- C5, as stated, fails: a list can hold itself (`add a to a`), and on such a
list `a == a` does not evaluate to true.  `==` renders both operands, and the
rendering of a list that holds itself does not end: with no amount of fuel
does the list unfold to a tree, does the comparison of the variable with
itself (by `==` or by `!=`) yield a value, or does the program
`let a = [1]`, `add a to a`, `say a == a` print anything, for every
placement. -/
theorem equality_on_list_that_holds_itself :
    (∀ (fuel : Nat) (heap : List Cell) (r : Nat) (xs : List Val),
        heap[r]? = some (.arr xs) → Val.arr r ∈ xs → reify fuel heap (.arr r) = none)
    ∧ (∀ (h : Host) (fuel : Nat) (x : Str) (env : Nat) (σ : State) (r : Nat) (xs : List Val),
        σ.read env x = .ok (.arr r) σ → σ.heap[r]? = some (.arr xs) → Val.arr r ∈ xs →
        evalExpr h fuel (.BinExpr "==".toList (.VarExpr x) (.VarExpr x)) env σ = .timeout
        ∧ evalExpr h fuel (.BinExpr "!=".toList (.VarExpr x) (.VarExpr x)) env σ = .timeout)
    ∧ (∀ (pl : Placement) (fuel : Nat),
        main pl fuel "let a = [1]\nadd a to a\nsay a == a\n".toList [] = .timeout) := by
  refine ⟨fun fuel heap r xs hr hm => reify_holds_itself heap r xs hr hm fuel, ?_, ?_⟩
  · intro h fuel x env σ r xs hx hr hm
    exact ⟨evalExpr_holds_itself h fuel _ x env σ r xs (Or.inl rfl) hx hr hm,
      evalExpr_holds_itself h fuel _ x env σ r xs (Or.inr rfl) hx hr hm⟩
  · intro pl fuel
    rcases Nat.lt_or_ge fuel 8 with hf | hf
    · exact self_list_program_small pl fuel hf
    · obtain ⟨n, rfl⟩ : ∃ n, fuel = n + 8 := ⟨fuel - 8, by omega⟩
      exact self_list_program_large pl n

/-- C5, amended: equality is reflexive and symmetric over the values whose
rendering ends, that is over every value but a list or dict that holds
itself.  When `v` and `w` unfold to the trees `tv` and `tw` with the fuel at
hand: `v == v` is true and `v != v` is false; `v == w` and `w == v` are the
same boolean, true exactly when the renderings of `tv` and `tw` are the same
text, and `v != w` and `w != v` are its negation; so it is on the evaluator
for two variables that hold `v` and `w`, in both orders, and for any two
operand expressions that evaluate to `v` and `w`; and on the trees themselves
`==` and `!=` are reflexive and symmetric without any condition.  A value
that is no list and no dict unfolds with any fuel. -/
theorem equality_reflexive_symmetric (h : Host) (fuel : Nat) (σ : State) (v w : Val)
    (tv tw : IronValue)
    (hv : reify (fuel + 1) σ.heap v = some tv) (hw : reify (fuel + 1) σ.heap w = some tw) :
    machineBinOp (fuel + 1) "==".toList v v σ = .ok (.bool true) σ
    ∧ machineBinOp (fuel + 1) "!=".toList v v σ = .ok (.bool false) σ
    ∧ (∃ b : Bool, (b = true ↔ tv.toString = tw.toString)
        ∧ machineBinOp (fuel + 1) "==".toList v w σ = .ok (.bool b) σ
        ∧ machineBinOp (fuel + 1) "==".toList w v σ = .ok (.bool b) σ
        ∧ machineBinOp (fuel + 1) "!=".toList v w σ = .ok (.bool (!b)) σ
        ∧ machineBinOp (fuel + 1) "!=".toList w v σ = .ok (.bool (!b)) σ)
    ∧ (∀ (x y : Str) (env : Nat), σ.read env x = .ok v σ → σ.read env y = .ok w σ →
        evalExpr h (fuel + 2) (.BinExpr "==".toList (.VarExpr x) (.VarExpr x)) env σ
          = .ok (.bool true) σ
        ∧ evalExpr h (fuel + 2) (.BinExpr "!=".toList (.VarExpr x) (.VarExpr x)) env σ
          = .ok (.bool false) σ
        ∧ evalExpr h (fuel + 2) (.BinExpr "==".toList (.VarExpr x) (.VarExpr y)) env σ
          = .ok (.bool (decide (tv.toString = tw.toString))) σ
        ∧ evalExpr h (fuel + 2) (.BinExpr "==".toList (.VarExpr y) (.VarExpr x)) env σ
          = .ok (.bool (decide (tv.toString = tw.toString))) σ
        ∧ evalExpr h (fuel + 2) (.BinExpr "!=".toList (.VarExpr x) (.VarExpr y)) env σ
          = .ok (.bool (decide (tv.toString ≠ tw.toString))) σ
        ∧ evalExpr h (fuel + 2) (.BinExpr "!=".toList (.VarExpr y) (.VarExpr x)) env σ
          = .ok (.bool (decide (tv.toString ≠ tw.toString))) σ)
    ∧ (∀ (l r : Expr) (env : Nat) (σ0 σ1 : State),
        evalExpr h (fuel + 1) l env σ0 = .ok v σ1 → evalExpr h (fuel + 1) r env σ1 = .ok w σ →
        evalExpr h (fuel + 2) (.BinExpr "==".toList l r) env σ0
          = .ok (.bool (decide (tv.toString = tw.toString))) σ
        ∧ evalExpr h (fuel + 2) (.BinExpr "!=".toList l r) env σ0
          = .ok (.bool (decide (tv.toString ≠ tw.toString))) σ)
    ∧ (∀ a b : IronValue,
        binOp "==".toList a a = .val (.bool true)
        ∧ binOp "==".toList a b = binOp "==".toList b a
        ∧ binOp "!=".toList a a = .val (.bool false)
        ∧ binOp "!=".toList a b = binOp "!=".toList b a)
    ∧ (∀ (k : Nat) (heap : List Cell) (u : Val), (∀ r, u ≠ .arr r) → (∀ r, u ≠ .obj r) →
        ∃ t, reify k heap u = some t) := by
  have evv := machineBinOp_eq (fuel + 1) v v σ tv tv hv hv
  have evw := machineBinOp_eq (fuel + 1) v w σ tv tw hv hw
  have ewv := machineBinOp_eq (fuel + 1) w v σ tw tv hw hv
  have nvv := machineBinOp_ne (fuel + 1) v v σ tv tv hv hv
  have nvw := machineBinOp_ne (fuel + 1) v w σ tv tw hv hw
  have nwv := machineBinOp_ne (fuel + 1) w v σ tw tv hw hv
  have hsym : decide (tw.toString = tv.toString) = decide (tv.toString = tw.toString) := by
    simp only [eq_comm]
  have hsymn : decide (tw.toString ≠ tv.toString) = decide (tv.toString ≠ tw.toString) := by
    simp only [ne_eq, eq_comm]
  rw [hsym] at ewv
  rw [hsymn] at nwv
  have htrue : decide (tv.toString = tv.toString) = true := by simp
  have hfalse : decide (tv.toString ≠ tv.toString) = false := by simp
  rw [htrue] at evv
  rw [hfalse] at nvv
  have hneg : decide (tv.toString ≠ tw.toString) = !decide (tv.toString = tw.toString) := by
    simp
  have hb : ∀ op : Str, op = "==".toList ∨ op = "!=".toList →
      op ≠ "and".toList ∧ op ≠ "or".toList := by
    intro op hop
    rcases hop with e | e <;> subst e <;> exact ⟨by decide, by decide⟩
  refine ⟨evv, nvv, ⟨decide (tv.toString = tw.toString), by simp, evw, ewv, ?_, ?_⟩, ?_, ?_,
    ?_, ?_⟩
  · rw [nvw, hneg]
  · rw [nwv, hneg]
  · intro x y env hx hy
    have hE : ∀ (op : Str) (p q : Str) (a b : Val), op ≠ "and".toList → op ≠ "or".toList →
        σ.read env p = .ok a σ → σ.read env q = .ok b σ →
        evalExpr h (fuel + 2) (.BinExpr op (.VarExpr p) (.VarExpr q)) env σ
          = machineBinOp (fuel + 1) op a b σ := by
      intro op p q a b h1 h2 hp hq
      rw [evalExpr_bin h (fuel + 1) op _ _ env σ h1 h2]
      simp only [evalExpr, hp, hq, Res.bind]
    refine ⟨?_, ?_, ?_, ?_, ?_, ?_⟩
    · rw [hE _ x x v v (by decide) (by decide) hx hx, evv]
    · rw [hE _ x x v v (by decide) (by decide) hx hx, nvv]
    · rw [hE _ x y v w (by decide) (by decide) hx hy, evw]
    · rw [hE _ y x w v (by decide) (by decide) hy hx, ewv]
    · rw [hE _ x y v w (by decide) (by decide) hx hy, nvw]
    · rw [hE _ y x w v (by decide) (by decide) hy hx, nwv]
  · intro l r env σ0 σ1 hl hr
    refine ⟨?_, ?_⟩
    · rw [evalExpr_bin h (fuel + 1) _ l r env σ0 (by decide) (by decide), hl, Res.bind, hr,
        Res.bind, evw]
    · rw [evalExpr_bin h (fuel + 1) _ l r env σ0 (by decide) (by decide), hl, Res.bind, hr,
        Res.bind, nvw]
  · intro a b
    refine ⟨?_, ?_, ?_, ?_⟩
    · rw [binOp_eq]; simp
    · rw [binOp_eq, binOp_eq]; simp [eq_comm]
    · rw [binOp_ne]; simp
    · rw [binOp_ne, binOp_ne]; simp [eq_comm]
  · intro k heap u ha ho
    cases u with
    | arr r => exact absurd rfl (ha r)
    | obj r => exact absurd rfl (ho r)
    | null => exact ⟨_, by rw [reify]⟩
    | bool b => exact ⟨_, by rw [reify]⟩
    | num n => exact ⟨_, by rw [reify]⟩
    | str s => exact ⟨_, by rw [reify]⟩
    | func f => exact ⟨_, by rw [reify]⟩
    | native f => exact ⟨_, by rw [reify]⟩

/-- C5, amended, at the list `[a]` stored in `x` and the string `[a]` stored
in `y`: both render as `[a]`, so `x == x`, `x == y` and `y == x` are true and
`x != y` is false. -/
theorem equality_reflexive_symmetric_witness :
    reify 1 [.arr [.str "a".toList]] (.arr 0) = some (.arr [.str "a".toList])
    ∧ reify 1 [.arr [.str "a".toList]] (.str "[a]".toList) = some (.str "[a]".toList)
    ∧ evalExpr Host.plain 2 (.BinExpr "==".toList (.VarExpr "x".toList) (.VarExpr "x".toList)) 0
        ⟨[.arr [.str "a".toList]],
          [⟨[("x".toList, .arr 0), ("y".toList, .str "[a]".toList)], none⟩], [], [], [0]⟩
      = .ok (.bool true)
        ⟨[.arr [.str "a".toList]],
          [⟨[("x".toList, .arr 0), ("y".toList, .str "[a]".toList)], none⟩], [], [], [0]⟩
    ∧ evalExpr Host.plain 2 (.BinExpr "==".toList (.VarExpr "x".toList) (.VarExpr "y".toList)) 0
        ⟨[.arr [.str "a".toList]],
          [⟨[("x".toList, .arr 0), ("y".toList, .str "[a]".toList)], none⟩], [], [], [0]⟩
      = .ok (.bool true)
        ⟨[.arr [.str "a".toList]],
          [⟨[("x".toList, .arr 0), ("y".toList, .str "[a]".toList)], none⟩], [], [], [0]⟩
    ∧ evalExpr Host.plain 2 (.BinExpr "==".toList (.VarExpr "y".toList) (.VarExpr "x".toList)) 0
        ⟨[.arr [.str "a".toList]],
          [⟨[("x".toList, .arr 0), ("y".toList, .str "[a]".toList)], none⟩], [], [], [0]⟩
      = .ok (.bool true)
        ⟨[.arr [.str "a".toList]],
          [⟨[("x".toList, .arr 0), ("y".toList, .str "[a]".toList)], none⟩], [], [], [0]⟩
    ∧ evalExpr Host.plain 2 (.BinExpr "!=".toList (.VarExpr "x".toList) (.VarExpr "y".toList)) 0
        ⟨[.arr [.str "a".toList]],
          [⟨[("x".toList, .arr 0), ("y".toList, .str "[a]".toList)], none⟩], [], [], [0]⟩
      = .ok (.bool false)
        ⟨[.arr [.str "a".toList]],
          [⟨[("x".toList, .arr 0), ("y".toList, .str "[a]".toList)], none⟩], [], [], [0]⟩ := by
  have hw := (equality_reflexive_symmetric Host.plain 0
    ⟨[.arr [.str "a".toList]],
      [⟨[("x".toList, .arr 0), ("y".toList, .str "[a]".toList)], none⟩], [], [], [0]⟩
    (.arr 0) (.str "[a]".toList) (.arr [.str "a".toList]) (.str "[a]".toList)
    (by rfl) (by rfl)).2.2.2.1 "x".toList "y".toList 0 (by rfl) (by rfl)
  refine ⟨by rfl, by rfl, hw.1, ?_, ?_, ?_⟩
  · exact hw.2.2.1.trans (by rfl)
  · exact hw.2.2.2.1.trans (by rfl)
  · exact hw.2.2.2.2.1.trans (by rfl)

end Ironwood

